import Mathlib

/-!
# glTFRuntime parser: buffers, buffer views, accessors and the node table

A shallow embedding of `FglTFRuntimeParser` (glTFRuntimeParser.cpp) and theorems about it.

* The JSON document is the record of the fields the parser asks for: a field that is absent or
  has the wrong JSON type is `none`, an array entry that is not an object is `none`.
* `int64` values are `Int`. Sums and products that the source computes on `int64` operands are
  wrapped with `toInt64`, conversions to `uint64` with `toUInt64`, and values passed for an
  `int32` parameter with `toInt32`.
* Byte arrays (`TArray<uint8>`) are `List Nat`; the engine's array and string operations are
  modelled next to the functions that use them.
* A call ends in an `Outcome`: it returned true (`ok`), returned false (`fail`), referenced an
  array outside its bounds (`fault`), or used up the recursion budget of the model (`nofuel`).
* Floating-point matrices are matrices of rationals.
* The mutable members of the parser are a `ParserState` that every function takes and returns.
-/

namespace glTFRuntime

/-! ## Machine integers -/

/-- Value of an integer converted to `int64` (two's complement). -/
def toInt64 (x : Int) : Int :=
  (x + 9223372036854775808) % 18446744073709551616 - 9223372036854775808

/-- Value of an integer converted to `int32` (two's complement). -/
def toInt32 (x : Int) : Int :=
  (x + 2147483648) % 4294967296 - 2147483648

/-- Value of an integer converted to `uint64`. -/
def toUInt64 (x : Int) : Int :=
  x % 18446744073709551616

/-- The engine constant `INDEX_NONE`. -/
def INDEX_NONE : Int := -1

/-! ## Outcomes -/

/-- How a call of a parser function ends. -/
inductive Outcome (α : Type) where
  /-- The function returned true (or returned normally), with its outputs. -/
  | ok (a : α) : Outcome α
  /-- The function returned false. -/
  | fail : Outcome α
  /-- The function referenced an array element or read bytes outside the array. -/
  | fault : Outcome α
  /-- The recursion budget of the model ran out. -/
  | nofuel : Outcome α
deriving DecidableEq, Repr

/-! ## Engine containers and strings -/

/-- The bytes that `Dest.Append(&A[Offset], Count)` reads from `A`: `operator[]` range-checks
`Offset` (`0 <= Offset < A.Num()`), and the `Count` bytes from there must lie inside `A`.
`none` when the element reference or the window is outside the array. -/
def readWindow (A : List Nat) (Offset Count : Int) : Option (List Nat) :=
  if 0 ≤ Offset ∧ Offset < A.length ∧ 0 ≤ Count ∧ Offset + Count ≤ A.length then
    some ((A.drop Offset.toNat).take Count.toNat)
  else
    none

/-- The array after `A.AddZeroed(Count)`; `none` for a negative count. -/
def AddZeroed (A : List Nat) (Count : Int) : Option (List Nat) :=
  if 0 ≤ Count then some (A ++ List.replicate Count.toNat 0) else none

/-- Case folding used by the engine's case-insensitive comparisons (ASCII letters). -/
def foldCase (s : List Char) : List Char :=
  s.map Char.toLower

/-- Comparison `A == B` of two `FString`s: the engine compares with `Stricmp`, which ignores
the case of ASCII letters. -/
def FStringEq (A B : String) : Bool :=
  foldCase A.data == foldCase B.data

/-- Whether `Sub` occurs in `Str` at the very start, ignoring case (`Strnicmp`). -/
def matchesAt (Str Sub : List Char) : Bool :=
  foldCase (Str.take Sub.length) == foldCase Sub

/-- Call `Str.StartsWith(Prefix)` with the default `ESearchCase::IgnoreCase`. -/
def StartsWith (Str Pre : String) : Bool :=
  decide (0 < Pre.data.length) && matchesAt Str.data Pre.data

/-- Position of the first case-insensitive occurrence of `Sub` in `Str` (`Stristr`), where the
head of `Str` has position `Pos`. -/
def Stristr : List Char → List Char → Nat → Option Nat
  | [], _, _ => none
  | c :: cs, Sub, Pos =>
    if matchesAt (c :: cs) Sub then some Pos else Stristr cs Sub (Pos + 1)

/-- Call `Str.Find(Sub, ESearchCase::IgnoreCase, ESearchDir::FromStart, StartPosition)`: the search
starts at `StartPosition` clamped to `[0, Len - 1]`; the result is `INDEX_NONE` when there is
no occurrence. -/
def Find (Str Sub : String) (StartPosition : Nat) : Int :=
  let Start := min StartPosition (Str.data.length - 1)
  match Stristr (Str.data.drop Start) Sub.data Start with
  | some i => (i : Int)
  | none => INDEX_NONE

/-- Call `Str.Mid(Start)`: the characters from `Start` to the end. -/
def Mid (Str : String) (Start : Int) : String :=
  String.mk (Str.data.drop Start.toNat)

/-! ## The JSON document -/

/-- An entry of the `buffers` array. -/
structure JsonBuffer where
  byteLength : Option Int
  uri : Option String
deriving DecidableEq, Repr

/-- An entry of the `bufferViews` array. -/
structure JsonBufferView where
  buffer : Option Int
  byteLength : Option Int
  byteOffset : Option Int
  byteStride : Option Int
deriving DecidableEq, Repr

/-- An entry of the `accessors` array. -/
structure JsonAccessor where
  bufferView : Option Int
  byteOffset : Option Int
  componentType : Option Int
  count : Option Int
  type : Option String
deriving DecidableEq, Repr

/-- An entry of the `nodes` array; an array element that is not a number is `none`. -/
structure JsonNode where
  name : Option String
  mesh : Option Int
  skin : Option Int
  matrix : Option (List (Option ℚ))
  scale : Option (List (Option ℚ))
  rotation : Option (List (Option ℚ))
  translation : Option (List (Option ℚ))
  children : Option (List (Option Int))

/-- The object `pbrMetallicRoughness` of a material; an element of `baseColorFactor` that is not
a number is `none`. -/
structure JsonPBR where
  baseColorFactor : Option (List (Option ℚ))
  metallicFactor : Option ℚ
  roughnessFactor : Option ℚ

/-- An entry of the `materials` array. -/
structure JsonMaterial where
  pbrMetallicRoughness : Option JsonPBR

/-- An entry of the `scenes` array; an element of `nodes` that is not a number is `none`. -/
structure JsonScene where
  name : Option String
  nodes : Option (List (Option Int))

/-- The object `attributes` of a primitive: for each name that `LoadPrimitive` looks at, `none`
when the object has no such field, else the accessor index when the field is a number. -/
structure JsonAttributes where
  POSITION : Option (Option Int)
  NORMAL : Option (Option Int)
  TEXCOORD_0 : Option (Option Int)
  TEXCOORD_1 : Option (Option Int)
  JOINTS_0 : Option (Option Int)
  WEIGHTS_0 : Option (Option Int)

/-- An entry of the `primitives` array of a mesh; `attributes` is `none` when there is no such
object. -/
structure JsonPrimitive where
  attributes : Option JsonAttributes
  indices : Option Int
  material : Option Int

/-- An entry of the `skins` array. -/
structure JsonSkin where
  joints : Option (List (Option Int))
  inverseBindMatrices : Option Int

/-- An entry of the `meshes` array; `primitives` is `none` when there is no such array, and an
entry of it that is not an object is `none`. -/
structure JsonMesh where
  primitives : Option (List (Option JsonPrimitive))

/-- The root object of the document; an entry of `materials`, `scenes`, `meshes` or `skins` that
is not an object is `none`. -/
structure Document where
  nodes : Option (List (Option JsonNode))
  buffers : Option (List (Option JsonBuffer))
  bufferViews : Option (List (Option JsonBufferView))
  accessors : Option (List (Option JsonAccessor))
  materials : Option (List (Option JsonMaterial)) := none
  scenes : Option (List (Option JsonScene)) := none
  meshes : Option (List (Option JsonMesh)) := none
  skins : Option (List (Option JsonSkin)) := none

/-! ## Matrices -/

/-- A 4x4 matrix `FMatrix`, row-major (`M[i][j]`). -/
abbrev FMatrix := Fin 4 → Fin 4 → ℚ

/-- The matrix `FMatrix::Identity`. -/
def FMatrix.Identity : FMatrix :=
  fun i j => if i = j then 1 else 0

/-- The matrix product `A * B`. -/
def FMatrix.mul (A B : FMatrix) : FMatrix :=
  fun i j => A i 0 * B 0 j + A i 1 * B 1 j + A i 2 * B 2 j + A i 3 * B 3 j

/-- The matrix `FScaleMatrix(X, Y, Z)`. -/
def FScaleMatrix (X Y Z : ℚ) : FMatrix :=
  fun i j =>
    if i = j then (if i = 0 then X else if i = 1 then Y else if i = 2 then Z else 1) else 0

/-- The matrix `FTranslationMatrix(X, Y, Z)`: the translation is row 3. -/
def FTranslationMatrix (X Y Z : ℚ) : FMatrix :=
  fun i j =>
    if i = 3 then (if j = 0 then X else if j = 1 then Y else if j = 2 then Z else 1)
    else if i = j then 1 else 0

/-- The matrix `FQuatRotationMatrix(FQuat(X, Y, Z, W))`. -/
def FQuatRotationMatrix (X Y Z W : ℚ) : FMatrix :=
  let x2 := X + X; let y2 := Y + Y; let z2 := Z + Z
  let xx := X * x2; let xy := X * y2; let xz := X * z2
  let yy := Y * y2; let yz := Y * z2; let zz := Z * z2
  let wx := W * x2; let wy := W * y2; let wz := W * z2
  fun i j =>
    match i.val, j.val with
    | 0, 0 => 1 - (yy + zz) | 0, 1 => xy + wz | 0, 2 => xz - wy
    | 1, 0 => xy - wz | 1, 1 => 1 - (xx + zz) | 1, 2 => yz + wx
    | 2, 0 => xz + wy | 2, 1 => yz - wx | 2, 2 => 1 - (xx + yy)
    | 3, 3 => 1
    | _, _ => 0

/-- The matrix after `M.ScaleTranslation(FVector(X, Y, Z))`: row 3 is scaled per component. -/
def FMatrix.ScaleTranslation (M : FMatrix) (X Y Z : ℚ) : FMatrix :=
  fun i j =>
    if i = 3 then (if j = 0 then M i j * X else if j = 1 then M i j * Y
      else if j = 2 then M i j * Z else M i j)
    else M i j

/-! ## Parser state -/

/-- A loaded node, `FglTFRuntimeNode`. `Transform` is the matrix handed to `FTransform`. -/
structure FglTFRuntimeNode where
  Index : Int
  Name : String
  Transform : FMatrix
  MeshIndex : Int
  SkinIndex : Int
  ParentIndex : Int
  ChildrenIndices : List Int

/-- Modelled from the spec: the default-constructed `FglTFRuntimeNode` (the header that declares
it is not part of the sources): no mesh, no skin, no parent, no children. -/
def defaultNode : FglTFRuntimeNode :=
  { Index := INDEX_NONE, Name := "", Transform := FMatrix.Identity, MeshIndex := INDEX_NONE,
    SkinIndex := INDEX_NONE, ParentIndex := INDEX_NONE, ChildrenIndices := [] }

/-- Configuration of a parser instance: the basis matrix, its inverse and the uniform scale. -/
structure ParserConfig where
  Basis : FMatrix
  BasisInverse : FMatrix
  Scale : ℚ

/-- A material object: the engine's default surface material, or a dynamic instance of the base
material with the parameters that have been set on it. -/
inductive UMaterialInterface where
  | Default
  | Instance (baseColorFactor : Option (ℚ × ℚ × ℚ × ℚ)) (metallicFactor : Option ℚ)
      (roughnessFactor : Option ℚ)
deriving DecidableEq

/-- The mutable members of a parser instance. -/
structure ParserState where
  AllNodesCache : List FglTFRuntimeNode
  bAllNodesCached : Bool
  BuffersCache : List (Int × List Nat)
  MaterialsCache : List (Int × UMaterialInterface) := []

/-- The state the constructor leaves: nothing cached. -/
def ParserState.initial : ParserState :=
  { AllNodesCache := [], bAllNodesCached := false, BuffersCache := [] }

/-! ## Buffers, buffer views, accessors -/

/-- Function `FglTFRuntimeParser::GetComponentTypeSize`. -/
def GetComponentTypeSize (ComponentType : Int) : Int :=
  if ComponentType = 5120 then 1
  else if ComponentType = 5121 then 1
  else if ComponentType = 5122 then 2
  else if ComponentType = 5123 then 2
  else if ComponentType = 5125 then 4
  else if ComponentType = 5126 then 4
  else 0

/-- Function `FglTFRuntimeParser::GetTypeSize`. -/
def GetTypeSize (TypeStr : String) : Int :=
  if FStringEq TypeStr "SCALAR" then 1
  else if FStringEq TypeStr "VEC2" then 2
  else if FStringEq TypeStr "VEC3" then 3
  else if FStringEq TypeStr "VEC4" then 4
  else if FStringEq TypeStr "MAT2" then 4
  else if FStringEq TypeStr "MAT3" then 9
  else if FStringEq TypeStr "MAT4" then 16
  else 0

/-- Function `FglTFRuntimeParser::GetBuffer`. `Decode` is `FBase64::Decode` (`none` when it
returns false). The result carries the output `Bytes`. `BuffersCache.Add` is only reached for
an index without entry, so the new entry is put in front. -/
def GetBuffer (Decode : String → Option (List Nat)) (Root : Document) (S : ParserState)
    (Index : Int) : Outcome (List Nat) × ParserState :=
  if Index < 0 then (.fail, S)
  else
    match S.BuffersCache.lookup Index with
    | some Cached => (.ok Cached, S)
    | none =>
      match Root.buffers with
      | none => (.fail, S)
      | some JsonBuffers =>
        if Index ≥ JsonBuffers.length then (.fail, S)
        else
          match JsonBuffers[Index.toNat]? with
          | some (some JsonBufferObject) =>
            match JsonBufferObject.byteLength with
            | none => (.fail, S)
            | some _ =>
              match JsonBufferObject.uri with
              | none => (.fail, S)
              | some Uri =>
                if !StartsWith Uri "data:" then (.fail, S)
                else
                  let Base64Signature := ";base64,"
                  let StringIndex := Find Uri Base64Signature 5
                  if StringIndex < 5 then (.fail, S)
                  else
                    let StringIndex := StringIndex + Base64Signature.data.length
                    match Decode (Mid Uri StringIndex) with
                    | some Bytes =>
                      (.ok Bytes, { S with BuffersCache := (Index, Bytes) :: S.BuffersCache })
                    | none => (.fail, S)
          | _ => (.fail, S)

/-- Function `FglTFRuntimeParser::GetBufferView`. `Bytes` is the array passed in; the result
carries the output `Bytes` and `Stride`. -/
def GetBufferView (Decode : String → Option (List Nat)) (Root : Document) (S : ParserState)
    (Index : Int) (Bytes : List Nat) : Outcome (List Nat × Int) × ParserState :=
  if Index < 0 then (.fail, S)
  else
    match Root.bufferViews with
    | none => (.fail, S)
    | some JsonBufferViews =>
      if Index ≥ JsonBufferViews.length then (.fail, S)
      else
        match JsonBufferViews[Index.toNat]? with
        | some (some JsonBufferObject) =>
          match JsonBufferObject.buffer with
          | none => (.fail, S)
          | some BufferIndex =>
            match GetBuffer Decode Root S (toInt32 BufferIndex) with
            | (.ok WholeData, S1) =>
              match JsonBufferObject.byteLength with
              | none => (.fail, S1)
              | some ByteLength =>
                let ByteOffset := JsonBufferObject.byteOffset.getD 0
                let Stride := JsonBufferObject.byteStride.getD 0
                if toInt64 (ByteOffset + ByteLength) > WholeData.length then (.fail, S1)
                else
                  match readWindow WholeData (toInt32 ByteOffset) (toInt32 ByteLength) with
                  | some Window => (.ok (Bytes ++ Window, Stride), S1)
                  | none => (.fault, S1)
            | (_, S1) => (.fail, S1)
        | _ => (.fail, S)

/-- The outputs of `GetAccessor`. -/
structure AccessorData where
  ComponentType : Int
  Stride : Int
  Elements : Int
  ElementSize : Int
  Count : Int
  Bytes : List Nat
deriving DecidableEq, Repr

/-- Function `FglTFRuntimeParser::GetAccessor`. `Stride` and `Bytes` are the values the caller's
variables hold on entry (`Stride` is not written when the accessor has no buffer view). -/
def GetAccessor (Decode : String → Option (List Nat)) (Root : Document) (S : ParserState)
    (Index : Int) (Stride : Int) (Bytes : List Nat) : Outcome AccessorData × ParserState :=
  if Index < 0 then (.fail, S)
  else
    match Root.accessors with
    | none => (.fail, S)
    | some JsonAccessors =>
      if Index ≥ JsonAccessors.length then (.fail, S)
      else
        match JsonAccessors[Index.toNat]? with
        | some (some JsonAccessorObject) =>
          let bInitWithZeros := JsonAccessorObject.bufferView.isNone
          let BufferViewIndex := JsonAccessorObject.bufferView.getD 0
          let ByteOffset := JsonAccessorObject.byteOffset.getD 0
          match JsonAccessorObject.componentType with
          | none => (.fail, S)
          | some ComponentType =>
            match JsonAccessorObject.count with
            | none => (.fail, S)
            | some Count =>
              match JsonAccessorObject.type with
              | none => (.fail, S)
              | some TypeStr =>
                let ElementSize := GetComponentTypeSize ComponentType
                if ElementSize = 0 then (.fail, S)
                else
                  let Elements := GetTypeSize TypeStr
                  if Elements = 0 then (.fail, S)
                  else
                    let FinalSize := toUInt64 (toInt64 (toInt64 (ElementSize * Elements) * Count))
                    if bInitWithZeros then
                      match AddZeroed Bytes (toInt32 FinalSize) with
                      | some Zeroed =>
                        (.ok ⟨ComponentType, Stride, Elements, ElementSize, Count, Zeroed⟩, S)
                      | none => (.fault, S)
                    else
                      match GetBufferView Decode Root S (toInt32 BufferViewIndex) Bytes with
                      | (.ok (Bytes, Stride), S1) =>
                        let Stride := if Stride = 0 then toInt64 (ElementSize * Elements) else Stride
                        let FinalSize := toUInt64 (toInt64 (Stride * Count))
                        if ByteOffset > 0 then
                          match readWindow Bytes (toInt32 ByteOffset) (toInt32 FinalSize) with
                          | some OffsetBytes =>
                            if FinalSize ≤ OffsetBytes.length then
                              (.ok ⟨ComponentType, Stride, Elements, ElementSize, Count,
                                OffsetBytes⟩, S1)
                            else (.fail, S1)
                          | none => (.fault, S1)
                        else if FinalSize ≤ Bytes.length then
                          (.ok ⟨ComponentType, Stride, Elements, ElementSize, Count, Bytes⟩, S1)
                        else (.fail, S1)
                      | (.fault, S1) => (.fault, S1)
                      | (_, S1) => (.fail, S1)
        | _ => (.fail, S)

/-! ## Nodes -/

/-- The numbers of a JSON array whose entries are all numbers (`TryGetNumber` on each). -/
def allNumbers {α : Type} : List (Option α) → Option (List α)
  | [] => some []
  | none :: _ => none
  | some v :: rest =>
    match allNumbers rest with
    | some vs => some (v :: vs)
    | none => none

/-- The numbers of a JSON array that must have exactly `n` entries, all numbers. -/
def numbersOfLength (Values : List (Option ℚ)) (n : Nat) : Option (List ℚ) :=
  if Values.length ≠ n then none else allNumbers Values

/-- The children loop of `LoadNode_Internal`: every entry must be a number below `NodesCount`;
the entries are added to `ChildrenIndices` in order. The test is on the `int64` number read
from the document; `ChildrenIndices` holds `int32` values (the loop of `FixNodeParent` reads them
as such), so `Add` stores the number narrowed to 32 bits. -/
def loadChildren (NodesCount : Int) : List (Option Int) → List Int → Option (List Int)
  | [], ChildrenIndices => some ChildrenIndices
  | none :: _, _ => none
  | some ChildIndex :: rest, ChildrenIndices =>
    if ChildIndex ≥ NodesCount then none
    else loadChildren NodesCount rest (ChildrenIndices ++ [toInt32 ChildIndex])

/-- The matrix part of `LoadNode_Internal`: the explicit `matrix` if present (else the identity),
multiplied in turn by the scale, rotation and translation matrices of the fields that are
present; `none` when a present field has the wrong length or a non-number entry (the function
returns false). -/
def nodeMatrix (JsonNodeObject : JsonNode) : Option FMatrix :=
  let Matrix : Option FMatrix := match JsonNodeObject.matrix with
    | some JsonMatrixValues =>
      match numbersOfLength JsonMatrixValues 16 with
      | some Values => some (fun i j => Values.getD (4 * i.val + j.val) 0)
      | none => none
    | none => some FMatrix.Identity
  let Matrix : Option FMatrix := match Matrix, JsonNodeObject.scale with
    | none, _ => none
    | some Matrix, some JsonScaleValues =>
      match numbersOfLength JsonScaleValues 3 with
      | some Values =>
        some (Matrix.mul (FScaleMatrix (Values.getD 0 0) (Values.getD 1 0) (Values.getD 2 0)))
      | none => none
    | some Matrix, none => some Matrix
  let Matrix : Option FMatrix := match Matrix, JsonNodeObject.rotation with
    | none, _ => none
    | some Matrix, some JsonRotationValues =>
      match numbersOfLength JsonRotationValues 4 with
      | some Values =>
        some (Matrix.mul (FQuatRotationMatrix (Values.getD 0 0) (Values.getD 1 0)
          (Values.getD 2 0) (Values.getD 3 0)))
      | none => none
    | some Matrix, none => some Matrix
  match Matrix, JsonNodeObject.translation with
  | none, _ => none
  | some Matrix, some JsonTranslationValues =>
    match numbersOfLength JsonTranslationValues 3 with
    | some Values =>
      some (Matrix.mul (FTranslationMatrix (Values.getD 0 0) (Values.getD 1 0)
        (Values.getD 2 0)))
    | none => none
  | some Matrix, none => some Matrix

/-- Function `FglTFRuntimeParser::LoadNode_Internal`; `none` when it returns false. `Node` is the
node passed in by reference: its index is set, its name is the `name` field or else the decimal
index, its mesh and skin indices are overwritten by the `mesh` and `skin` fields when present,
its transform is set from the matrix, and the declared children are added to its children,
narrowed to `int32`. The other integer members of the node hold the values assigned to them
(their declared width is in the header, which is not among the sources). -/
def LoadNode_Internal (Config : ParserConfig) (Index : Int) (JsonNodeObject : JsonNode)
    (NodesCount : Int) (Node : FglTFRuntimeNode) : Option FglTFRuntimeNode :=
  match nodeMatrix JsonNodeObject with
  | none => none
  | some Matrix =>
    let Matrix := Matrix.ScaleTranslation Config.Scale Config.Scale Config.Scale
    let ChildrenIndices := match JsonNodeObject.children with
      | some JsonChildren => loadChildren NodesCount JsonChildren Node.ChildrenIndices
      | none => some Node.ChildrenIndices
    match ChildrenIndices with
    | none => none
    | some ChildrenIndices =>
      some
        { Index := Index,
          Name := JsonNodeObject.name.getD (toString Index),
          Transform := (Config.BasisInverse.mul Matrix).mul Config.Basis,
          MeshIndex := JsonNodeObject.mesh.getD Node.MeshIndex,
          SkinIndex := JsonNodeObject.skin.getD Node.SkinIndex,
          ParentIndex := Node.ParentIndex,
          ChildrenIndices := ChildrenIndices }

/-- The table after `AllNodesCache[Pos].ParentIndex = Parent` (`Pos` in range). -/
def setParent : List FglTFRuntimeNode → Nat → Int → List FglTFRuntimeNode
  | [], _, _ => []
  | Node :: rest, 0, Parent => { Node with ParentIndex := Parent } :: rest
  | Node :: rest, Pos + 1, Parent => Node :: setParent rest Pos Parent

/-- The loop of `FixNodeParent` over the children of the node with index `NodeIndex`
(`for (int32 Index : Node.ChildrenIndices)`: each element is read as an `int32`); `recurse` is
the recursive call on a table position. `AllNodesCache[Index]` outside the table is a fault. -/
def fixChildren (recurse : List FglTFRuntimeNode → Nat → Outcome (List FglTFRuntimeNode))
    (NodeIndex : Int) : List Int → List FglTFRuntimeNode → Outcome (List FglTFRuntimeNode)
  | [], AllNodesCache => .ok AllNodesCache
  | Element :: rest, AllNodesCache =>
    let Index := toInt32 Element
    if 0 ≤ Index ∧ Index < AllNodesCache.length then
      match recurse (setParent AllNodesCache Index.toNat NodeIndex) Index.toNat with
      | .ok AllNodesCache => fixChildren recurse NodeIndex rest AllNodesCache
      | other => other
    else .fault

/-- Function `FglTFRuntimeParser::FixNodeParent` on the node at position `Pos` of the table, with
a budget on the recursion depth. -/
def FixNodeParent : Nat → List FglTFRuntimeNode → Nat → Outcome (List FglTFRuntimeNode)
  | 0, _, _ => .nofuel
  | fuel + 1, AllNodesCache, Pos =>
    match AllNodesCache[Pos]? with
    | none => .fault
    | some Node => fixChildren (FixNodeParent fuel) Node.Index Node.ChildrenIndices AllNodesCache

/-- First loop of `LoadNodes`: load every entry of `nodes` and add it to the table. The flag is
false when the loop returned false; the table then keeps the nodes added so far. -/
def loadAllNodes (Config : ParserConfig) (NodesCount : Int) :
    List (Option JsonNode) → Int → List FglTFRuntimeNode → Bool × List FglTFRuntimeNode
  | [], _, AllNodesCache => (true, AllNodesCache)
  | none :: _, _, AllNodesCache => (false, AllNodesCache)
  | some JsonNodeObject :: rest, Index, AllNodesCache =>
    match LoadNode_Internal Config Index JsonNodeObject NodesCount defaultNode with
    | none => (false, AllNodesCache)
    | some Node => loadAllNodes Config NodesCount rest (Index + 1) (AllNodesCache ++ [Node])

/-- Second loop of `LoadNodes`: `FixNodeParent` on the table positions in `Positions`, in order. -/
def fixAllParents (fuel : Nat) :
    List Nat → List FglTFRuntimeNode → Outcome (List FglTFRuntimeNode)
  | [], AllNodesCache => .ok AllNodesCache
  | Pos :: rest, AllNodesCache =>
    match FixNodeParent fuel AllNodesCache Pos with
    | .ok AllNodesCache => fixAllParents fuel rest AllNodesCache
    | other => other

/-- Function `FglTFRuntimeParser::LoadNodes`, with a budget `fuel` on the recursion depth of each
`FixNodeParent` call. The node count passed to `LoadNode_Internal` is `JsonNodes->Num()`, an
`int32`. After `fault` or `nofuel` the state component has no meaning. -/
def LoadNodes (fuel : Nat) (Config : ParserConfig) (Root : Document) (S : ParserState) :
    Outcome Unit × ParserState :=
  if S.bAllNodesCached then (.ok (), S)
  else
    match Root.nodes with
    | none => (.fail, S)
    | some JsonNodes =>
      match loadAllNodes Config (toInt32 JsonNodes.length) JsonNodes 0 S.AllNodesCache with
      | (false, AllNodesCache) => (.fail, { S with AllNodesCache := AllNodesCache })
      | (true, AllNodesCache) =>
        match fixAllParents fuel (List.range AllNodesCache.length) AllNodesCache with
        | .ok Fixed => (.ok (), { S with AllNodesCache := Fixed, bAllNodesCached := true })
        | .fail => (.fail, { S with AllNodesCache := AllNodesCache })
        | .fault => (.fault, { S with AllNodesCache := AllNodesCache })
        | .nofuel => (.nofuel, { S with AllNodesCache := AllNodesCache })

/-! ## Concrete inputs -/

/-- Value of a Base64 digit. -/
def base64Value (c : Char) : Option Nat :=
  let n := c.toNat
  if 65 ≤ n ∧ n ≤ 90 then some (n - 65)
  else if 97 ≤ n ∧ n ≤ 122 then some (n - 71)
  else if 48 ≤ n ∧ n ≤ 57 then some (n + 4)
  else if n = 43 then some 62
  else if n = 47 then some 63
  else none

/-- A standard Base64 decoder on characters, four digits at a time. -/
def sampleDecodeChars : List Char → Option (List Nat)
  | [] => some []
  | a :: b :: c :: d :: rest =>
    match base64Value a, base64Value b with
    | some x, some y =>
      if c = '=' ∧ d = '=' ∧ rest = [] then some [(x * 4 + y / 16) % 256]
      else
        match base64Value c with
        | none => none
        | some z =>
          if d = '=' ∧ rest = [] then some [(x * 4 + y / 16) % 256, (y * 16 + z / 4) % 256]
          else
            match base64Value d, sampleDecodeChars rest with
            | some w, some tail =>
              some ((x * 4 + y / 16) % 256 :: (y * 16 + z / 4) % 256 :: (z * 64 + w) % 256 :: tail)
            | _, _ => none
    | _, _ => none
  | _ => none

/-- A standard Base64 decoder, the `Decode` argument of the concrete examples. -/
def sampleDecode (Source : String) : Option (List Nat) :=
  sampleDecodeChars Source.data

/-- A document with one 8-byte buffer (the bytes 0 to 7), three buffer views and a list of
accessors over them. -/
def sampleDocument : Document :=
  { nodes := none,
    buffers := some
      [some { byteLength := some 8,
              uri := some "data:application/octet-stream;base64,AAECAwQFBgc=" },
       some { byteLength := some 3, uri := some "data:application/octet-stream;BASE64,AAEC" },
       some { byteLength := some 3, uri := some "file.bin" }],
    bufferViews := some
      [some { buffer := some 0, byteLength := some 8, byteOffset := none, byteStride := none },
       some { buffer := some 0, byteLength := some 1, byteOffset := some (-1),
              byteStride := none },
       some { buffer := some 0, byteLength := some 8, byteOffset := some 0,
              byteStride := some 4 },
       some { buffer := some 0, byteLength := some 4, byteOffset := some 2,
              byteStride := none }],
    accessors := some
      [some { bufferView := some 0, byteOffset := some 4, componentType := some 5121,
              count := some 8, type := some "SCALAR" },
       some { bufferView := some 0, byteOffset := none, componentType := some 5121,
              count := some 4, type := some "SCALAR" },
       some { bufferView := none, byteOffset := none, componentType := some 5126,
              count := some 4611686018427387904, type := some "MAT4" },
       some { bufferView := none, byteOffset := none, componentType := some 5123,
              count := some 2, type := some "VEC3" },
       some { bufferView := some 0, byteOffset := some 2, componentType := some 5121,
              count := some 4, type := some "SCALAR" },
       some { bufferView := some 0, byteOffset := none, componentType := some 5124,
              count := some 1, type := some "SCALAR" },
       some { bufferView := some 0, byteOffset := none, componentType := some 5121,
              count := some 2, type := some "vec3" },
       some { bufferView := some 0, byteOffset := none, componentType := some 5121,
              count := some 2, type := some "VEC5" },
       some { bufferView := some 2, byteOffset := none, componentType := some 5123,
              count := some 2, type := some "SCALAR" }] }

/-! ## Notions used in the statements about the node table -/

/-- A node with its parent link erased: what `FixNodeParent` never changes. -/
def forgetParent (Node : FglTFRuntimeNode) : FglTFRuntimeNode :=
  { Node with ParentIndex := INDEX_NONE }

/-- A series of calls of `LoadNodes`, one per budget of the list, each of which returns (true or
false); the state after the last one. `none` when a call does not return. -/
def LoadNodesCalls (Config : ParserConfig) (Root : Document) :
    List Nat → ParserState → Option ParserState
  | [], S => some S
  | fuel :: rest, S =>
    match LoadNodes fuel Config Root S with
    | (.ok _, S1) => LoadNodesCalls Config Root rest S1
    | (.fail, S1) => LoadNodesCalls Config Root rest S1
    | _ => none

/-- A JSON node that has only a `children` field. -/
def sampleNode (Children : Option (List (Option Int))) : JsonNode :=
  { name := none, mesh := none, skin := none, matrix := none, scale := none, rotation := none,
    translation := none, children := Children }

/-- A document of three nodes: node 0 with the children 1 and 2. -/
def sampleTree : Document :=
  { nodes := some [some (sampleNode (some [some 1, some 2])), some (sampleNode none),
      some (sampleNode (some []))],
    buffers := none, bufferViews := none, accessors := none }

/-- A parser configuration with the identity basis and scale 1. -/
def sampleConfig : ParserConfig :=
  { Basis := FMatrix.Identity, BasisInverse := FMatrix.Identity, Scale := 1 }

/-! ## Notions used in the statements about parent links -/

/-- The children of the node at a position of the table; none outside the table. -/
def childrenAt (Table : List FglTFRuntimeNode) (i : Nat) : List Int :=
  match Table[i]? with
  | some Node => Node.ChildrenIndices
  | none => []

/-- Every child index in the table is an `int32` value. -/
def ChildrenInt32 (Table : List FglTFRuntimeNode) : Prop :=
  ∀ (i : Nat) (c : Int), c ∈ childrenAt Table i → toInt32 c = c

/-- The parent link of the node at a position of the table; `INDEX_NONE` outside the table. -/
def parentAt (Table : List FglTFRuntimeNode) (i : Nat) : Int :=
  match Table[i]? with
  | some Node => Node.ParentIndex
  | none => INDEX_NONE

/-- The children list that entry `i` of `nodes` declares; empty when there is none. -/
def declaredChildren (JsonNodes : List (Option JsonNode)) (i : Nat) : List (Option Int) :=
  match JsonNodes[i]? with
  | some (some JsonNodeObject) => JsonNodeObject.children.getD []
  | _ => []

/-- The declared children lists form a forest: every declared child is a node index, no node
index is declared by two nodes, and there is no cycle: `height` decreases from a node to each
of its declared children. -/
def IsForest (height : Nat → Nat) (JsonNodes : List (Option JsonNode)) : Prop :=
  (∀ (i : Nat) (c : Int), some c ∈ declaredChildren JsonNodes i →
    0 ≤ c ∧ c < (JsonNodes.length : Int)) ∧
  (∀ (i j : Nat) (c : Int), some c ∈ declaredChildren JsonNodes i →
    some c ∈ declaredChildren JsonNodes j → i = j) ∧
  (∀ (i : Nat) (c : Int), some c ∈ declaredChildren JsonNodes i → height c.toNat < height i)

/-- The children lists of a table form a forest, and every node has its position as index. -/
def TableForest (height : Nat → Nat) (Table : List FglTFRuntimeNode) : Prop :=
  (∀ (i : Nat) (Node : FglTFRuntimeNode), Table[i]? = some Node → Node.Index = (i : Int)) ∧
  (∀ (i : Nat) (c : Int), c ∈ childrenAt Table i → 0 ≤ c ∧ c < (Table.length : Int)) ∧
  (∀ (i j : Nat) (c : Int), c ∈ childrenAt Table i → c ∈ childrenAt Table j → i = j) ∧
  (∀ (i : Nat) (c : Int), c ∈ childrenAt Table i → height c.toNat < height i)

/-- Every parent link that is set names a node that has the linked node among its children. -/
def ParentsSound (Table : List FglTFRuntimeNode) : Prop :=
  ∀ c : Nat, c < Table.length → parentAt Table c = INDEX_NONE ∨
    ∃ p : Nat, (c : Int) ∈ childrenAt Table p ∧ parentAt Table c = (p : Int)

/-- The second table has the nodes of the first up to parent links, its parent links are sound,
and it keeps every parent link that is set in the first. -/
def ExtendsParents (Table Table2 : List FglTFRuntimeNode) : Prop :=
  Table2.map forgetParent = Table.map forgetParent ∧ ParentsSound Table2 ∧
  ∀ c : Nat, parentAt Table c ≠ INDEX_NONE → parentAt Table2 c = parentAt Table c

/-- Parent links round-trip against the children lists: the parent link of a node is the index
of another exactly when that one has the node among its children, and a node that is in no
children list has parent link `INDEX_NONE`. -/
def ParentsAsDeclared (Table : List FglTFRuntimeNode) : Prop :=
  (∀ (i j : Nat) (n p : FglTFRuntimeNode), Table[i]? = some n → Table[j]? = some p →
    (n.ParentIndex = p.Index ↔ n.Index ∈ p.ChildrenIndices)) ∧
  (∀ (i : Nat) (n : FglTFRuntimeNode), Table[i]? = some n →
    (∀ (j : Nat) (p : FglTFRuntimeNode), Table[j]? = some p → n.Index ∉ p.ChildrenIndices) →
    n.ParentIndex = INDEX_NONE)

/-- The table is what the two loops of `LoadNodes` leave when they start from an empty table and
both succeed. -/
def TableLoaded (Config : ParserConfig) (Root : Document) (Table : List FglTFRuntimeNode) :
    Prop :=
  ∃ (fuel : Nat) (JsonNodes : List (Option JsonNode)) (C : List FglTFRuntimeNode),
    Root.nodes = some JsonNodes ∧
    loadAllNodes Config (toInt32 JsonNodes.length) JsonNodes 0 [] = (true, C) ∧
    fixAllParents fuel (List.range C.length) C = .ok Table

/-- What holds of the node fields in every state that calls of `LoadNodes` reach from a state
without nodes: either the nodes are cached and the table is loaded, or nothing is cached and
the table is empty, or nothing is cached and the first loop of `LoadNodes` returns false on this
document. -/
def LoadedInvariant (Config : ParserConfig) (Root : Document) (S : ParserState) : Prop :=
  (S.bAllNodesCached = true ∧ TableLoaded Config Root S.AllNodesCache) ∨
  (S.bAllNodesCached = false ∧ S.AllNodesCache = []) ∨
  (S.bAllNodesCached = false ∧ ∀ JsonNodes, Root.nodes = some JsonNodes →
    ∀ C, (loadAllNodes Config (toInt32 JsonNodes.length) JsonNodes 0 C).1 = false)

/-! ## Loading single nodes, ancestors, common root -/

/-- Function `FglTFRuntimeParser::LoadNode`: `AllNodesCache[Index]` is only guarded from above, so
a negative index references an element outside the table. -/
def LoadNode (fuel : Nat) (Config : ParserConfig) (Root : Document) (S : ParserState)
    (Index : Int) : Outcome FglTFRuntimeNode × ParserState :=
  let Loaded : Outcome Unit × ParserState :=
    if !S.bAllNodesCached then LoadNodes fuel Config Root S else (.ok (), S)
  match Loaded with
  | (.ok _, S1) =>
    if Index ≥ S1.AllNodesCache.length then (.fail, S1)
    else if Index < 0 then (.fault, S1)
    else
      match S1.AllNodesCache[Index.toNat]? with
      | some Node => (.ok Node, S1)
      | none => (.fault, S1)
  | (.fail, S1) => (.fail, S1)
  | (.fault, S1) => (.fault, S1)
  | (.nofuel, S1) => (.nofuel, S1)

/-- The `while` loop of `HasRoot`, with a budget on its iterations. -/
def HasRoot_loop (fuel : Nat) (Config : ParserConfig) (Root : Document) (RootIndex : Int) :
    Nat → ParserState → FglTFRuntimeNode → Outcome Bool × ParserState
  | 0, S, _ => (.nofuel, S)
  | n + 1, S, Node =>
    if Node.ParentIndex ≠ INDEX_NONE then
      match LoadNode fuel Config Root S Node.ParentIndex with
      | (.ok Node, S1) =>
        if Node.Index = RootIndex then (.ok true, S1)
        else HasRoot_loop fuel Config Root RootIndex n S1 Node
      | (.fail, S1) => (.ok false, S1)
      | (.fault, S1) => (.fault, S1)
      | (.nofuel, S1) => (.nofuel, S1)
    else (.ok false, S)

/-- Function `FglTFRuntimeParser::HasRoot`; the budget bounds the iterations of its loop and the
recursion of `LoadNodes`. -/
def HasRoot (fuel : Nat) (Config : ParserConfig) (Root : Document) (S : ParserState)
    (Index RootIndex : Int) : Outcome Bool × ParserState :=
  if Index = RootIndex then (.ok true, S)
  else
    match LoadNode fuel Config Root S Index with
    | (.ok Node, S1) => HasRoot_loop fuel Config Root RootIndex fuel S1 Node
    | (.fail, S1) => (.ok false, S1)
    | (.fault, S1) => (.fault, S1)
    | (.nofuel, S1) => (.nofuel, S1)

/-- The `for` loop of `FindCommonRoot` over the remaining indices: the value of `bTryNextParent`
when the loop ends, true when some index does not have `CurrentRootIndex` as root. -/
def FindCommonRoot_for (fuel : Nat) (Config : ParserConfig) (Root : Document)
    (CurrentRootIndex : Int) : List Int → ParserState → Outcome Bool × ParserState
  | [], S => (.ok false, S)
  | Index :: rest, S =>
    match HasRoot fuel Config Root S Index CurrentRootIndex with
    | (.ok true, S1) => FindCommonRoot_for fuel Config Root CurrentRootIndex rest S1
    | (.ok false, S1) => (.ok true, S1)
    | (.fail, S1) => (.fail, S1)
    | (.fault, S1) => (.fault, S1)
    | (.nofuel, S1) => (.nofuel, S1)

/-- The `while` loop of `FindCommonRoot`, with a budget on its iterations. -/
def FindCommonRoot_while (fuel : Nat) (Config : ParserConfig) (Root : Document)
    (Indices : List Int) : Nat → ParserState → Int → Outcome Int × ParserState
  | 0, S, _ => (.nofuel, S)
  | n + 1, S, CurrentRootIndex =>
    match LoadNode fuel Config Root S CurrentRootIndex with
    | (.ok Node, S1) =>
      match FindCommonRoot_for fuel Config Root CurrentRootIndex Indices S1 with
      | (.ok true, S2) => FindCommonRoot_while fuel Config Root Indices n S2 Node.ParentIndex
      | (.ok false, S2) => (.ok CurrentRootIndex, S2)
      | (.fail, S2) => (.fail, S2)
      | (.fault, S2) => (.fault, S2)
      | (.nofuel, S2) => (.nofuel, S2)
    | (.fail, S1) => (.ok INDEX_NONE, S1)
    | (.fault, S1) => (.fault, S1)
    | (.nofuel, S1) => (.nofuel, S1)

/-- Function `FglTFRuntimeParser::FindCommonRoot`; `Indices[0]` of an empty list is outside the
array. -/
def FindCommonRoot (fuel : Nat) (Config : ParserConfig) (Root : Document) (S : ParserState)
    (Indices : List Int) : Outcome Int × ParserState :=
  match Indices with
  | [] => (.fault, S)
  | First :: _ => FindCommonRoot_while fuel Config Root Indices fuel S First

/-! ## Notions used in the statements about ancestors -/

/-- The parent link of the node with index `j`; `INDEX_NONE` when `j` is no index of the table. -/
def parentOf (Table : List FglTFRuntimeNode) (j : Int) : Int :=
  if 0 ≤ j then parentAt Table j.toNat else INDEX_NONE

/-- The index reached from `j` by following `k` parent links. -/
def climb (Table : List FglTFRuntimeNode) : Nat → Int → Int
  | 0, j => j
  | k + 1, j => climb Table k (parentOf Table j)

/-- Node `a` is node `j` or an ancestor of it: following parent links from `j` reaches `a`. -/
def IsAncestorOrSelf (Table : List FglTFRuntimeNode) (a j : Int) : Prop :=
  ∃ k, climb Table k j = a

/-- The integer is an index of the table. -/
def ValidIndex (Table : List FglTFRuntimeNode) (j : Int) : Prop :=
  0 ≤ j ∧ j < (Table.length : Int)

/-- The parent links of the table form a forest: every node has its position as index, and a
parent link is `INDEX_NONE` or the index of a node of smaller `depth` (so there is no cycle). -/
def ParentForest (depth : Nat → Nat) (Table : List FglTFRuntimeNode) : Prop :=
  (∀ (i : Nat) (Node : FglTFRuntimeNode), Table[i]? = some Node → Node.Index = (i : Int)) ∧
  (∀ i : Nat, i < Table.length → parentAt Table i = INDEX_NONE ∨
    (0 ≤ parentAt Table i ∧ parentAt Table i < (Table.length : Int) ∧
      depth (parentAt Table i).toNat < depth i))

/-- Node `a` is a node of the table that is equal to or an ancestor of every joint. -/
def IsCommonRoot (Table : List FglTFRuntimeNode) (Joints : List Int) (a : Int) : Prop :=
  ValidIndex Table a ∧ ∀ j ∈ Joints, IsAncestorOrSelf Table a j

/-- A document of two nodes without children: two trees of one node each. -/
def sampleTwoRoots : Document :=
  { nodes := some [some (sampleNode none), some (sampleNode none)],
    buffers := none, bufferViews := none, accessors := none }

/-! ## Skeleton -/

/-- An `FName`: the engine compares names ignoring case, so a name is kept as its characters with
ASCII letters folded to lower case. -/
abbrev FName := List Char

/-- The name `FName(*Str)` of a string. -/
def FName.ofString (Str : String) : FName :=
  foldCase Str.data

/-- The name `FName(Name.ToString() + "_")`. -/
def FName.appendUnderscore (Name : FName) : FName :=
  Name ++ ['_']

/-- Whether a name is `NAME_None`: the name of the empty string and of "None". -/
def FName.isNone (Name : FName) : Bool :=
  Name == [] || Name == "none".data

/-- A bone of a reference skeleton: `FMeshBoneInfo(Name, ExportName, ParentIndex)` with its
pose. -/
structure FMeshBone where
  Name : FName
  ExportName : String
  ParentIndex : Int
  Transform : FMatrix

/-- The position of the first bone with the given name, counted from `Pos`; `INDEX_NONE` when
there is none. -/
def findBoneFrom : List FMeshBone → FName → Nat → Int
  | [], _, _ => INDEX_NONE
  | Bone :: rest, Name, Pos =>
    if Bone.Name = Name then (Pos : Int) else findBoneFrom rest Name (Pos + 1)

/-- Call `Modifier.FindBoneIndex(BoneName)` on a skeleton: the index of the bone with that name,
`INDEX_NONE` when there is none or the name is `NAME_None`. -/
def FindBoneIndex (Skeleton : List FMeshBone) (BoneName : FName) : Int :=
  if BoneName.isNone then INDEX_NONE else findBoneFrom Skeleton BoneName 0

/-- The map after `Map.Add(Key, Value)`: an entry with the same key is replaced. -/
def TMapAdd {α : Type} (Map : List (Int × α)) (Key : Int) (Value : α) : List (Int × α) :=
  (Key, Value) :: Map.filter (fun Entry => decide (Entry.1 ≠ Key))

/-- Call `Array.IndexOfByKey(Key)`: the position of the first occurrence, counted from `Pos`;
`INDEX_NONE` when there is none. -/
def IndexOfByKey : List Int → Int → Nat → Int
  | [], _, _ => INDEX_NONE
  | Item :: rest, Key, Pos => if Item = Key then (Pos : Int) else IndexOfByKey rest Key (Pos + 1)

/-- The collision loop at the head of `TraverseJoints`, with a budget on its iterations: an
underscore is appended to the name as long as the skeleton has a bone of that name. `none` when
the budget runs out. -/
def uniqueBoneName : Nat → List FMeshBone → FName → Option FName
  | 0, _, _ => none
  | n + 1, Skeleton, BoneName =>
    if FindBoneIndex Skeleton BoneName ≠ INDEX_NONE then
      uniqueBoneName n Skeleton (FName.appendUnderscore BoneName)
    else some BoneName

/-- The pose that `TraverseJoints` gives to the bone of a node: the node's own transform when
the node has no inverse bind matrix; else the inverse of that matrix, multiplied by the inverse
bind matrix of the parent when the parent is a joint, scaled and changed of basis. `none` when
`InverseBindMatricesMap[Node.ParentIndex]` has no entry. `Inverse` is `FMatrix::Inverse`. -/
def boneTransform (Inverse : FMatrix → FMatrix) (Config : ParserConfig)
    (Node : FglTFRuntimeNode) (Joints : List Int)
    (InverseBindMatricesMap : List (Int × FMatrix)) : Option FMatrix :=
  match InverseBindMatricesMap.lookup Node.Index with
  | some Own =>
    let M : Option FMatrix :=
      if Node.ParentIndex ≠ INDEX_NONE ∧ Node.ParentIndex ∈ Joints then
        match InverseBindMatricesMap.lookup Node.ParentIndex with
        | some ParentMatrix => some ((Inverse Own).mul ParentMatrix)
        | none => none
      else some (Inverse Own)
    match M with
    | some M =>
      let M := M.ScaleTranslation Config.Scale Config.Scale Config.Scale
      some ((Config.BasisInverse.mul M).mul Config.Basis)
    | none => none
  | none => some Node.Transform

/-- The loop of `TraverseJoints` over the children of a node; `recurse` is the recursive call
with the new parent bone and `load` is `LoadNode`. -/
def traverseChildren
    (recurse : ParserState → List FMeshBone → List (Int × FName) → FglTFRuntimeNode →
      Outcome (List FMeshBone × List (Int × FName)) × ParserState)
    (load : ParserState → Int → Outcome FglTFRuntimeNode × ParserState) :
    List Int → ParserState → List FMeshBone → List (Int × FName) →
      Outcome (List FMeshBone × List (Int × FName)) × ParserState
  | [], S, Skeleton, BoneMap => (.ok (Skeleton, BoneMap), S)
  | ChildIndex :: rest, S, Skeleton, BoneMap =>
    match load S ChildIndex with
    | (.ok ChildNode, S1) =>
      match recurse S1 Skeleton BoneMap ChildNode with
      | (.ok (Skeleton, BoneMap), S2) => traverseChildren recurse load rest S2 Skeleton BoneMap
      | other => other
    | (.fail, S1) => (.fail, S1)
    | (.fault, S1) => (.fault, S1)
    | (.nofuel, S1) => (.nofuel, S1)

/-- Function `FglTFRuntimeParser::TraverseJoints` on the skeleton behind `Modifier`; the budget
bounds the recursion depth, the collision loop and the recursion of `LoadNodes`. The parameters
`RootTransform` and `bHasRoot` are not used by the body and are left out. -/
def TraverseJoints (Inverse : FMatrix → FMatrix) (Config : ParserConfig) (Root : Document)
    (Joints : List Int) (InverseBindMatricesMap : List (Int × FMatrix)) :
    Nat → Int → ParserState → List FMeshBone → List (Int × FName) → FglTFRuntimeNode →
      Outcome (List FMeshBone × List (Int × FName)) × ParserState
  | 0, _, S, _, _, _ => (.nofuel, S)
  | fuel + 1, Parent, S, Skeleton, BoneMap, Node =>
    match uniqueBoneName (fuel + 1) Skeleton (FName.ofString Node.Name) with
    | none => (.nofuel, S)
    | some BoneName =>
      match boneTransform Inverse Config Node Joints InverseBindMatricesMap with
      | none => (.fault, S)
      | some Transform =>
        let Skeleton := Skeleton ++ [⟨BoneName, Node.Name, Parent, Transform⟩]
        let NewParentIndex := FindBoneIndex Skeleton BoneName
        if NewParentIndex = INDEX_NONE then (.fail, S)
        else
          let BoneMap :=
            if Node.Index ∈ Joints then TMapAdd BoneMap (IndexOfByKey Joints Node.Index 0) BoneName
            else BoneMap
          traverseChildren
            (TraverseJoints Inverse Config Root Joints InverseBindMatricesMap fuel NewParentIndex)
            (LoadNode (fuel + 1) Config Root) Node.ChildrenIndices S Skeleton BoneMap

/-- The joints loop of `FillReferenceSkeleton`: every entry must be a number; it is added to the
`TArray<int32>` of joints. -/
def loadJoints : List (Option Int) → List Int → Option (List Int)
  | [], Joints => some Joints
  | none :: _, _ => none
  | some JointIndex :: rest, Joints => loadJoints rest (Joints ++ [toInt32 JointIndex])

/-- The matrix that `FillReferenceSkeleton` reads at `&InverseBindMatricesBytes[MatrixIndex]`:
16 floats, 64 bytes; `none` when they are not inside the array. `DecodeFloat` is the value of a
float from its 4 bytes. -/
def readMatrix (DecodeFloat : List Nat → ℚ) (Bytes : List Nat) (MatrixIndex : Int) :
    Option FMatrix :=
  match readWindow Bytes (toInt32 MatrixIndex) 64 with
  | some Window =>
    some (fun i j => DecodeFloat ((Window.drop (4 * (4 * i.val + j.val))).take 4))
  | none => none

/-- The matrices loop of `FillReferenceSkeleton` from index `i`, `Remaining` iterations to go;
`none` when a matrix is read outside the array. -/
def readMatrices (DecodeFloat : List Nat → ℚ) (Bytes : List Nat) (Stride : Int)
    (Joints : List Int) : Nat → Int → List (Int × FMatrix) → Option (List (Int × FMatrix))
  | 0, _, Map => some Map
  | Remaining + 1, i, Map =>
    match readMatrix DecodeFloat Bytes (toInt64 (i * Stride)) with
    | none => none
    | some Matrix =>
      let Map :=
        if i < Joints.length then
          match Joints[i.toNat]? with
          | some Joint => TMapAdd Map Joint Matrix
          | none => Map
        else Map
      readMatrices DecodeFloat Bytes Stride Joints Remaining (i + 1) Map

/-- Function `FglTFRuntimeParser::FillReferenceSkeleton`; the result carries the skeleton and the
bone map. `BoneMap` is the map passed in, and `Stride0` is the value that the local variable
`Stride` holds before `GetAccessor` is called (it is not initialised). -/
def FillReferenceSkeleton (Decode : String → Option (List Nat)) (DecodeFloat : List Nat → ℚ)
    (Inverse : FMatrix → FMatrix) (fuel : Nat) (Config : ParserConfig) (Root : Document)
    (S : ParserState) (JsonSkinObject : JsonSkin) (BoneMap : List (Int × FName))
    (Stride0 : Int) :
    Outcome (List FMeshBone × List (Int × FName)) × ParserState :=
  match loadJoints (JsonSkinObject.joints.getD []) [] with
  | none => (.fail, S)
  | some Joints =>
    if Joints.length = 0 then (.fail, S)
    else
      match FindCommonRoot fuel Config Root S Joints with
      | (.ok RootBoneIndex, S1) =>
        if RootBoneIndex = INDEX_NONE then (.fail, S1)
        else
          match LoadNode fuel Config Root S1 (toInt32 RootBoneIndex) with
          | (.ok RootNode, S2) =>
            let Matrices : Outcome (List (Int × FMatrix)) × ParserState :=
              match JsonSkinObject.inverseBindMatrices with
              | some inverseBindMatricesIndex =>
                match GetAccessor Decode Root S2 (toInt32 inverseBindMatricesIndex) Stride0 [] with
                | (.ok Accessor, S3) =>
                  if Accessor.Elements ≠ 16 ∧ Accessor.ComponentType ≠ 5126 then (.fail, S3)
                  else
                    match readMatrices DecodeFloat Accessor.Bytes Accessor.Stride Joints
                        Accessor.Count.toNat 0 [] with
                    | some Map => (.ok Map, S3)
                    | none => (.fault, S3)
                | (.fail, S3) => (.fail, S3)
                | (.fault, S3) => (.fault, S3)
                | (.nofuel, S3) => (.nofuel, S3)
              | none => (.ok [], S2)
            match Matrices with
            | (.ok InverseBindMatricesMap, S3) =>
              TraverseJoints Inverse Config Root Joints InverseBindMatricesMap fuel INDEX_NONE S3
                [] BoneMap RootNode
            | (.fail, S3) => (.fail, S3)
            | (.fault, S3) => (.fault, S3)
            | (.nofuel, S3) => (.nofuel, S3)
          | (.fail, S2) => (.fail, S2)
          | (.fault, S2) => (.fault, S2)
          | (.nofuel, S2) => (.nofuel, S2)
      | (.fail, S1) => (.fail, S1)
      | (.fault, S1) => (.fault, S1)
      | (.nofuel, S1) => (.nofuel, S1)

/-! ## Notions used in the statements about the skeleton -/

/-- The node indices in the order in which a depth-first traversal from `Index` visits them: a
node before its children, the children in the order of the children list. The budget bounds the
depth: below it nothing is visited. -/
def visitOrder (Table : List FglTFRuntimeNode) : Nat → Int → List Int
  | 0, _ => []
  | fuel + 1, Index =>
    Index :: (childrenAt Table Index.toNat).flatMap (visitOrder Table fuel)

/-- The name of the node with the given index; empty outside the table. -/
def nameAt (Table : List FglTFRuntimeNode) (Index : Int) : String :=
  match Table[Index.toNat]? with
  | some Node => Node.Name
  | none => ""

/-- The name followed by `k` underscores. -/
def underscored (Name : FName) (k : Nat) : FName :=
  Name ++ List.replicate k '_'

/-- The name without its trailing underscores. -/
def stem (Name : FName) : FName :=
  (Name.reverse.dropWhile (fun c => c == '_')).reverse

/-- The bone is named by the collision rule with respect to the bones before it: its name is
the name of its export name followed by the smallest number of underscores for which no bone
before has the result as name. -/
def NamedByRule (Before : List FMeshBone) (Bone : FMeshBone) : Prop :=
  ∃ k, Bone.Name = underscored (FName.ofString Bone.ExportName) k ∧
    Bone.Name ∉ Before.map (fun b => b.Name) ∧
    ∀ k2, k2 < k →
      underscored (FName.ofString Bone.ExportName) k2 ∈ Before.map (fun b => b.Name)

/-- Every bone of the skeleton is named by the collision rule with respect to the bones before
it. -/
def WellNamed (Skeleton : List FMeshBone) : Prop :=
  ∀ (i : Nat) (Bone : FMeshBone), Skeleton[i]? = some Bone →
    NamedByRule (Skeleton.take i) Bone

/-- The bone map after the visits of the given nodes, each with the name of its bone, have been
recorded: a visited joint maps its position in the joints to the name. -/
def recordJoints (Joints : List Int) :
    List (Int × FName) → List (Int × FName) → List (Int × FName)
  | BoneMap, [] => BoneMap
  | BoneMap, (Index, Name) :: rest =>
    recordJoints Joints
      (if Index ∈ Joints then TMapAdd BoneMap (IndexOfByKey Joints Index 0) Name else BoneMap)
      rest

/-- The names of the bones of a result, as strings; `none` when the call did not return true. -/
def boneNames (Result : Outcome (List FMeshBone × List (Int × FName)) × ParserState) :
    Option (List String) :=
  match Result.1 with
  | .ok (Skeleton, _) => some (Skeleton.map (fun b => String.mk b.Name))
  | _ => none

/-- The entries of the bone map of a result, the names as strings; `none` when the call did not
return true. -/
def boneMapEntries (Result : Outcome (List FMeshBone × List (Int × FName)) × ParserState) :
    Option (List (Int × String)) :=
  match Result.1 with
  | .ok (_, BoneMap) => some (BoneMap.map (fun e => (e.1, String.mk e.2)))
  | _ => none

/-- A JSON node that has only a name and a `children` field. -/
def sampleNamedNode (Name : String) (Children : Option (List (Option Int))) : JsonNode :=
  { name := some Name, mesh := none, skin := none, matrix := none, scale := none,
    rotation := none, translation := none, children := Children }

/-- A document of four nodes: node 0, named "a", with the children 1, 2 and 3, named "a", "a_"
and "a_". -/
def sampleUnderscores : Document :=
  { nodes := some [some (sampleNamedNode "a" (some [some 1, some 2, some 3])),
      some (sampleNamedNode "a" none), some (sampleNamedNode "a_" none),
      some (sampleNamedNode "a_" none)],
    buffers := none, bufferViews := none, accessors := none }

/-- A data URI of 64 bytes, all zero. -/
def sampleZeros : String :=
  "data:application/octet-stream;base64," ++ String.mk (List.replicate 84 'A') ++ "AA=="

/-- A document for skins: node 0, named "b", with the children 1 and 2, named "B" and "c"; one
buffer of 64 zero bytes with a view of all of it; and over that view the accessors 0, one
element of four floats (VEC4), 1, one element of sixteen unsigned shorts (MAT4), 2, one element
of sixteen floats (MAT4), and 3, one element of four unsigned shorts (VEC4). -/
def sampleSkinned : Document :=
  { nodes := some [some (sampleNamedNode "b" (some [some 1, some 2])),
      some (sampleNamedNode "B" none), some (sampleNamedNode "c" none)],
    buffers := some [some { byteLength := some 64, uri := some sampleZeros }],
    bufferViews := some
      [some { buffer := some 0, byteLength := some 64, byteOffset := none, byteStride := none }],
    accessors := some
      [some { bufferView := some 0, byteOffset := none, componentType := some 5126,
              count := some 1, type := some "VEC4" },
       some { bufferView := some 0, byteOffset := none, componentType := some 5123,
              count := some 1, type := some "MAT4" },
       some { bufferView := some 0, byteOffset := none, componentType := some 5126,
              count := some 1, type := some "MAT4" },
       some { bufferView := some 0, byteOffset := none, componentType := some 5123,
              count := some 1, type := some "VEC4" }] }

/-- A skin with the joints 2 and 1 and the given `inverseBindMatrices` field. -/
def sampleSkin (inverseBindMatrices : Option Int) : JsonSkin :=
  { joints := some [some 2, some 1], inverseBindMatrices := inverseBindMatrices }

/-- What a list of visits says of a call that started with skeleton `Skeleton` and bone map
`BoneMap` and returned `R`: the visited nodes are the given ones in order, each is a node of the
table, the bones added are those of the visits in order, each with the name of its node as
export name, and the bone map has recorded the visits. -/
def VisitsOf (Table : List FglTFRuntimeNode) (Joints : List Int) (Order : List Int)
    (Skeleton : List FMeshBone) (BoneMap : List (Int × FName))
    (R : List FMeshBone × List (Int × FName)) (V : List (Int × FMeshBone)) : Prop :=
  V.map Prod.fst = Order ∧ R.1 = Skeleton ++ V.map Prod.snd ∧
  (∀ v ∈ V, ValidIndex Table v.1 ∧ v.2.ExportName = nameAt Table v.1) ∧
  R.2 = recordJoints Joints BoneMap (V.map (fun v => (v.1, v.2.Name)))

/-- The node at a position of the table of a state; the default node outside the table. -/
def nodeOf (S : ParserState) (i : Nat) : FglTFRuntimeNode :=
  S.AllNodesCache.getD i defaultNode

/-! ## Materials -/

/-- Function `FglTFRuntimeParser::LoadMaterial_Internal`; `none` is `nullptr`. `bBaseMaterial`
tells whether `StaticLoadObject` finds the base material; `UMaterialInstanceDynamic::Create` is
taken to return an object. -/
def LoadMaterial_Internal (bBaseMaterial : Bool) (JsonMaterialObject : JsonMaterial) :
    Option UMaterialInterface :=
  if !bBaseMaterial then none
  else
    match JsonMaterialObject.pbrMetallicRoughness with
    | some JsonPBRObject =>
      let Color : Option (Option (ℚ × ℚ × ℚ × ℚ)) :=
        match JsonPBRObject.baseColorFactor with
        | some baseColorFactorValues =>
          match baseColorFactorValues with
          | [some R, some G, some B, some A] => some (some (R, G, B, A))
          | _ => none
        | none => some none
      match Color with
      | some Color =>
        some (.Instance Color JsonPBRObject.metallicFactor JsonPBRObject.roughnessFactor)
      | none => none
    | none => some (.Instance none none none)

/-- Function `FglTFRuntimeParser::LoadMaterial`; `none` is `nullptr`. -/
def LoadMaterial (bBaseMaterial : Bool) (Root : Document) (S : ParserState) (Index : Int) :
    Option UMaterialInterface × ParserState :=
  if Index < 0 then (none, S)
  else
    match S.MaterialsCache.lookup Index with
    | some Cached => (some Cached, S)
    | none =>
      match Root.materials with
      | none => (none, S)
      | some JsonMaterials =>
        if Index ≥ JsonMaterials.length then (none, S)
        else
          match JsonMaterials[Index.toNat]? with
          | some (some JsonMaterialObject) =>
            match LoadMaterial_Internal bBaseMaterial JsonMaterialObject with
            | some Material =>
              (some Material, { S with MaterialsCache := TMapAdd S.MaterialsCache Index Material })
            | none => (none, S)
          | _ => (none, S)

/-! ## Primitives -/

/-- An `FVector`. -/
abbrev FVector := ℚ × ℚ × ℚ

/-- An `FVector2D`. -/
abbrev FVector2D := ℚ × ℚ

/-- An `FVector4`. -/
abbrev FVector4 := ℚ × ℚ × ℚ × ℚ

/-- An `FglTFRuntimeUInt16Vector4`: four joint indices. -/
abbrev FglTFRuntimeUInt16Vector4 := Nat × Nat × Nat × Nat

/-- Call `M.TransformFVector4(V)`: the row vector times the matrix. -/
def FMatrix.TransformFVector4 (M : FMatrix) (V : FVector4) : FVector4 :=
  (V.1 * M 0 0 + V.2.1 * M 1 0 + V.2.2.1 * M 2 0 + V.2.2.2 * M 3 0,
   V.1 * M 0 1 + V.2.1 * M 1 1 + V.2.2.1 * M 2 1 + V.2.2.2 * M 3 1,
   V.1 * M 0 2 + V.2.1 * M 1 2 + V.2.2.1 * M 2 2 + V.2.2.2 * M 3 2,
   V.1 * M 0 3 + V.2.1 * M 1 3 + V.2.2.1 * M 2 3 + V.2.2.2 * M 3 3)

/-- The filter that `LoadPrimitive` passes for positions:
`Basis.TransformPosition(Value) * Scale`, as an `FVector`. -/
def positionFilter (Config : ParserConfig) (Value : FVector) : FVector :=
  let T := Config.Basis.TransformFVector4 (Value.1, Value.2.1, Value.2.2, 1)
  (T.1 * Config.Scale, T.2.1 * Config.Scale, T.2.2.1 * Config.Scale)

/-- The filter that `LoadPrimitive` passes for normals: `Basis.TransformVector(Value)`, as an
`FVector`. -/
def normalFilter (Config : ParserConfig) (Value : FVector) : FVector :=
  let T := Config.Basis.TransformFVector4 (Value.1, Value.2.1, Value.2.2, 0)
  (T.1, T.2.1, T.2.2.1)

/-- The filter that `LoadPrimitive` passes for texture coordinates. -/
def uvFilter (Value : FVector2D) : FVector2D :=
  (Value.1, 1 - Value.2)

/-- An `FglTFRuntimePrimitive`, with the members that `LoadPrimitive` writes; `Material` is `none`
for `nullptr`. -/
structure FglTFRuntimePrimitive where
  Positions : List FVector
  Normals : List FVector
  UVs : List (List FVector2D)
  Joints : List (List FglTFRuntimeUInt16Vector4)
  Weights : List (List FVector4)
  Indices : List Int
  Material : Option UMaterialInterface

/-- The instances of the template `BuildPrimitiveAttribute` that `LoadPrimitive` calls; the
template is declared in the header, which is not part of the sources, so the instances are
parameters. The arguments are the attributes object, the name, the array passed in, the
supported element counts and component types, `bNormalized`, the filter where one is passed, and
the parser state; the result carries the array. -/
structure AttributeBuilders where
  Vector : JsonAttributes → String → List FVector → List Int → List Int → Bool →
    (FVector → FVector) → ParserState → Outcome (List FVector) × ParserState
  Vector2D : JsonAttributes → String → List FVector2D → List Int → List Int → Bool →
    (FVector2D → FVector2D) → ParserState → Outcome (List FVector2D) × ParserState
  UInt16Vector4 : JsonAttributes → String → List FglTFRuntimeUInt16Vector4 → List Int →
    List Int → Bool → ParserState → Outcome (List FglTFRuntimeUInt16Vector4) × ParserState
  Vector4 : JsonAttributes → String → List FVector4 → List Int → List Int → Bool →
    ParserState → Outcome (List FVector4) × ParserState

/-- Sequencing of two steps: the second runs on the result and state of the first when the
first has returned true; else the call returns as the first did. -/
def Outcome.andThen {α β : Type} (R : Outcome α × ParserState)
    (f : α → ParserState → Outcome β × ParserState) : Outcome β × ParserState :=
  match R with
  | (.ok a, S) => f a S
  | (.fail, S) => (.fail, S)
  | (.fault, S) => (.fault, S)
  | (.nofuel, S) => (.nofuel, S)

/-- A step of `LoadPrimitive` of the form `if (HasField(Name)) { if (!BuildPrimitiveAttribute(..))
return false; store the array }`: `Present` is the test, `Call` the call and `Store` the
primitive with the array stored. -/
def optionalAttribute {α : Type} (Present : Bool)
    (Call : ParserState → Outcome (List α) × ParserState)
    (Store : List α → FglTFRuntimePrimitive) (Primitive : FglTFRuntimePrimitive)
    (S : ParserState) : Outcome FglTFRuntimePrimitive × ParserState :=
  if Present then
    match Call S with
    | (.ok Data, S1) => (.ok (Store Data), S1)
    | (.fail, S1) => (.fail, S1)
    | (.fault, S1) => (.fault, S1)
    | (.nofuel, S1) => (.nofuel, S1)
  else (.ok Primitive, S)

/-- The attribute part of `LoadPrimitive`, from the test for `POSITION` to the weights. -/
def loadAttributes (Build : AttributeBuilders) (Config : ParserConfig) (S : ParserState)
    (JsonAttributesObject : JsonAttributes) (Primitive : FglTFRuntimePrimitive) :
    Outcome FglTFRuntimePrimitive × ParserState :=
  if JsonAttributesObject.POSITION.isNone then (.fail, S)
  else
    Outcome.andThen
      (Build.Vector JsonAttributesObject "POSITION" Primitive.Positions [3] [5126] false
        (positionFilter Config) S)
      fun Positions S =>
    Outcome.andThen
      (optionalAttribute JsonAttributesObject.NORMAL.isSome
        (Build.Vector JsonAttributesObject "NORMAL" Primitive.Normals [3] [5126] false
          (normalFilter Config))
        (fun Normals => { Primitive with Positions := Positions, Normals := Normals })
        { Primitive with Positions := Positions } S)
      fun Primitive S =>
    Outcome.andThen
      (optionalAttribute JsonAttributesObject.TEXCOORD_0.isSome
        (Build.Vector2D JsonAttributesObject "TEXCOORD_0" [] [2] [5126, 5121, 5123] true
          uvFilter)
        (fun UV => { Primitive with UVs := Primitive.UVs ++ [UV] }) Primitive S)
      fun Primitive S =>
    Outcome.andThen
      (optionalAttribute JsonAttributesObject.TEXCOORD_1.isSome
        (Build.Vector2D JsonAttributesObject "TEXCOORD_1" [] [2] [5126, 5121, 5123] true
          uvFilter)
        (fun UV => { Primitive with UVs := Primitive.UVs ++ [UV] }) Primitive S)
      fun Primitive S =>
    Outcome.andThen
      (optionalAttribute JsonAttributesObject.JOINTS_0.isSome
        (Build.UInt16Vector4 JsonAttributesObject "JOINTS_0" [] [4] [5121, 5123] false)
        (fun Joints => { Primitive with Joints := Primitive.Joints ++ [Joints] }) Primitive S)
      fun Primitive S =>
    optionalAttribute JsonAttributesObject.WEIGHTS_0.isSome
      (Build.Vector4 JsonAttributesObject "WEIGHTS_0" [] [4] [5126, 5121, 5123] true)
      (fun Weights => { Primitive with Weights := Primitive.Weights ++ [Weights] }) Primitive S

/-- The value that the index loop of `LoadPrimitive` reads at `IndicesBytes[IndexIndex]` for a
component type: one byte, or the `uint16` or `uint32` that starts there, low byte first; `none`
for another component type. `fault` when a byte that is read is not inside the array. -/
def readIndex (ComponentType : Int) (Bytes : List Nat) (IndexIndex : Int) :
    Outcome (Option Int) :=
  if ComponentType = 5121 then
    match readWindow Bytes (toInt32 IndexIndex) 1 with
    | some [b0] => .ok (some (b0 : Int))
    | _ => .fault
  else if ComponentType = 5123 then
    match readWindow Bytes (toInt32 IndexIndex) 2 with
    | some [b0, b1] => .ok (some ((b0 : Int) + 256 * (b1 : Int)))
    | _ => .fault
  else if ComponentType = 5125 then
    match readWindow Bytes (toInt32 IndexIndex) 4 with
    | some [b0, b1, b2, b3] =>
      .ok (some ((b0 : Int) + 256 * (b1 : Int) + 65536 * (b2 : Int) + 16777216 * (b3 : Int)))
    | _ => .fault
  else .ok none

/-- The index loop of `LoadPrimitive` from index `i`, `Remaining` iterations to go. -/
def decodeIndices (ComponentType Stride : Int) (Bytes : List Nat) :
    Nat → Int → List Int → Outcome (List Int)
  | 0, _, Indices => .ok Indices
  | Remaining + 1, i, Indices =>
    match readIndex ComponentType Bytes (toInt64 (i * Stride)) with
    | .ok (some VertexIndex) =>
      decodeIndices ComponentType Stride Bytes Remaining (i + 1) (Indices ++ [VertexIndex])
    | .ok none => .fail
    | .fail => .fail
    | .fault => .fault
    | .nofuel => .nofuel

/-- The loop of `LoadPrimitive` for a primitive without indices, from `VertexIndex`, `Remaining`
iterations to go. -/
def identityIndices : Nat → Int → List Int → List Int
  | 0, _, Indices => Indices
  | Remaining + 1, VertexIndex, Indices =>
    identityIndices Remaining (VertexIndex + 1) (Indices ++ [VertexIndex])

/-- The index part of `LoadPrimitive`; the result carries `Primitive.Indices`. `Stride0` is the
value that the local variable `Stride` holds before `GetAccessor` is called (it is not
initialised). -/
def loadIndices (Decode : String → Option (List Nat)) (Root : Document) (S : ParserState)
    (indices : Option Int) (Positions : List FVector) (Indices : List Int) (Stride0 : Int) :
    Outcome (List Int) × ParserState :=
  match indices with
  | some IndicesAccessorIndex =>
    match GetAccessor Decode Root S (toInt32 IndicesAccessorIndex) Stride0 [] with
    | (.ok Accessor, S1) =>
      if Accessor.Elements ≠ 1 then (.fail, S1)
      else
        (decodeIndices Accessor.ComponentType Accessor.Stride Accessor.Bytes
          Accessor.Count.toNat 0 Indices, S1)
    | (.fail, S1) => (.fail, S1)
    | (.fault, S1) => (.fault, S1)
    | (.nofuel, S1) => (.nofuel, S1)
  | none => (.ok (identityIndices Positions.length 0 Indices), S)

/-- Function `FglTFRuntimeParser::LoadPrimitive`; the result carries `Primitive`. The log line
before `return true` evaluates `Primitive.Joints[0]` and `Primitive.Weights[0]`, which are
outside the arrays when one of them is empty. -/
def LoadPrimitive (Decode : String → Option (List Nat)) (Build : AttributeBuilders)
    (bBaseMaterial : Bool) (Config : ParserConfig) (Root : Document) (S : ParserState)
    (JsonPrimitiveObject : JsonPrimitive) (Primitive : FglTFRuntimePrimitive) (Stride0 : Int) :
    Outcome FglTFRuntimePrimitive × ParserState :=
  match JsonPrimitiveObject.attributes with
  | none => (.fail, S)
  | some JsonAttributesObject =>
    match loadAttributes Build Config S JsonAttributesObject Primitive with
    | (.ok Primitive, S1) =>
      match loadIndices Decode Root S1 JsonPrimitiveObject.indices Primitive.Positions
          Primitive.Indices Stride0 with
      | (.ok Indices, S2) =>
        let Primitive := { Primitive with Indices := Indices }
        let Loaded : Option UMaterialInterface × ParserState :=
          match JsonPrimitiveObject.material with
          | some MaterialIndex => LoadMaterial bBaseMaterial Root S2 (toInt32 MaterialIndex)
          | none => (some .Default, S2)
        match Loaded with
        | (some Material, S3) =>
          let Primitive := { Primitive with Material := some Material }
          if Primitive.Joints = [] ∨ Primitive.Weights = [] then (.fault, S3)
          else (.ok Primitive, S3)
        | (none, S3) => (.fail, S3)
      | (.fail, S2) => (.fail, S2)
      | (.fault, S2) => (.fault, S2)
      | (.nofuel, S2) => (.nofuel, S2)
    | other => other

/-- Attribute builders for the concrete examples: three positions, normals or weights, three
vertices with zero joint indices, and no texture coordinates, whatever the accessors. -/
def sampleBuilders : AttributeBuilders :=
  { Vector := fun _ _ Data _ _ _ Filter S =>
      (.ok (Data ++ [Filter (0, 0, 0), Filter (1, 0, 0), Filter (0, 1, 0)]), S),
    Vector2D := fun _ _ Data _ _ _ _ S => (.ok Data, S),
    UInt16Vector4 := fun _ _ Data _ _ _ S =>
      (.ok (Data ++ [(0, 0, 0, 0), (0, 0, 0, 0), (0, 0, 0, 0)]), S),
    Vector4 := fun _ _ Data _ _ _ S =>
      (.ok (Data ++ [(1, 0, 0, 0), (1, 0, 0, 0), (1, 0, 0, 0)]), S) }

/-- A primitive with empty arrays and no material, as `LoadPrimitives` passes to
`LoadPrimitive`. -/
def emptyPrimitive : FglTFRuntimePrimitive :=
  { Positions := [], Normals := [], UVs := [], Joints := [], Weights := [], Indices := [],
    Material := none }

/-- A primitive object with the attributes `POSITION`, `JOINTS_0` and `WEIGHTS_0`, the given
`indices` field and no material. -/
def sampleSkinnedPrimitive (indices : Option Int) : JsonPrimitive :=
  { attributes := some
      { POSITION := some (some 0), NORMAL := none, TEXCOORD_0 := none, TEXCOORD_1 := none,
        JOINTS_0 := some (some 0), WEIGHTS_0 := some (some 0) },
    indices := indices, material := none }

/-- A document with one 8-byte buffer (the bytes 0 to 7), a view of all of it without stride,
and over it the scalar accessors 0, three unsigned bytes, 1, three unsigned shorts, and 2, two
unsigned ints. -/
def sampleIndexed : Document :=
  { nodes := none,
    buffers := some
      [some { byteLength := some 8,
              uri := some "data:application/octet-stream;base64,AAECAwQFBgc=" }],
    bufferViews := some
      [some { buffer := some 0, byteLength := some 8, byteOffset := none, byteStride := none }],
    accessors := some
      [some { bufferView := some 0, byteOffset := none, componentType := some 5121,
              count := some 3, type := some "SCALAR" },
       some { bufferView := some 0, byteOffset := none, componentType := some 5123,
              count := some 3, type := some "SCALAR" },
       some { bufferView := some 0, byteOffset := none, componentType := some 5125,
              count := some 2, type := some "SCALAR" }] }

/-- The value of element `i` of an index array of unsigned bytes. -/
def indexValue1 (Bytes : List Nat) (i : Nat) : Int :=
  (Bytes.getD i 0 : Int)

/-- The value of element `i` of an index array of unsigned shorts, low byte first. -/
def indexValue2 (Bytes : List Nat) (i : Nat) : Int :=
  (Bytes.getD (2 * i) 0 : Int) + 256 * (Bytes.getD (2 * i + 1) 0 : Int)

/-- The value of element `i` of an index array of unsigned ints, low byte first. -/
def indexValue4 (Bytes : List Nat) (i : Nat) : Int :=
  (Bytes.getD (4 * i) 0 : Int) + 256 * (Bytes.getD (4 * i + 1) 0 : Int) +
    65536 * (Bytes.getD (4 * i + 2) 0 : Int) + 16777216 * (Bytes.getD (4 * i + 3) 0 : Int)

/-! ## Notions used in the statements about node transforms -/

/-- The scale matrix of a `scale` field with three numbers; the identity without such a
field. -/
def scaleFieldMatrix (Field : Option (List (Option ℚ))) : FMatrix :=
  match Field with
  | some [some X, some Y, some Z] => FScaleMatrix X Y Z
  | _ => FMatrix.Identity

/-- The rotation matrix of a `rotation` field with four numbers; the identity without such a
field. -/
def rotationFieldMatrix (Field : Option (List (Option ℚ))) : FMatrix :=
  match Field with
  | some [some X, some Y, some Z, some W] => FQuatRotationMatrix X Y Z W
  | _ => FMatrix.Identity

/-- The translation matrix of a `translation` field with three numbers; the identity without
such a field. -/
def translationFieldMatrix (Field : Option (List (Option ℚ))) : FMatrix :=
  match Field with
  | some [some X, some Y, some Z] => FTranslationMatrix X Y Z
  | _ => FMatrix.Identity

/-- The matrix whose 16 entries are the given numbers, row by row. -/
def matrixOfValues (Values : List ℚ) : FMatrix :=
  fun i j => Values.getD (4 * i.val + j.val) 0

/-- A JSON node with the given `matrix`, `scale`, `rotation` and `translation` fields and nothing
else. -/
def sampleTransformNode (Matrix Scale Rotation Translation : Option (List (Option ℚ))) :
    JsonNode :=
  { name := none, mesh := none, skin := none, matrix := Matrix, scale := Scale,
    rotation := Rotation, translation := Translation, children := none }

/-- The 16 entries of the identity matrix, as a `matrix` field. -/
def sampleIdentityValues : List (Option ℚ) :=
  [some 1, some 0, some 0, some 0, some 0, some 1, some 0, some 0,
   some 0, some 0, some 1, some 0, some 0, some 0, some 0, some 1]

/-- The last row of the matrix is (0, 0, 0, 1): the matrix has no translation. -/
def NoTranslation (M : FMatrix) : Prop :=
  M 3 0 = 0 ∧ M 3 1 = 0 ∧ M 3 2 = 0 ∧ M 3 3 = 1

/-! ## Primitive lists -/

/-- Function `FglTFRuntimeParser::LoadPrimitives` from the remaining entries of the array; an
entry that is not an object is `none`. `Fresh` is the default-constructed primitive that every
call of `LoadPrimitive` is given (its type is declared in the header, which is not among the
sources), and `Primitives` is the array passed in. -/
def LoadPrimitives (Decode : String → Option (List Nat)) (Build : AttributeBuilders)
    (bBaseMaterial : Bool) (Config : ParserConfig) (Root : Document)
    (Fresh : FglTFRuntimePrimitive) (Stride0 : Int) :
    List (Option JsonPrimitive) → ParserState → List FglTFRuntimePrimitive →
      Outcome (List FglTFRuntimePrimitive) × ParserState
  | [], S, Primitives => (.ok Primitives, S)
  | none :: _, S, _ => (.fail, S)
  | some JsonPrimitiveObject :: rest, S, Primitives =>
    match LoadPrimitive Decode Build bBaseMaterial Config Root S JsonPrimitiveObject Fresh
        Stride0 with
    | (.ok Primitive, S1) =>
      LoadPrimitives Decode Build bBaseMaterial Config Root Fresh Stride0 rest S1
        (Primitives ++ [Primitive])
    | (.fail, S1) => (.fail, S1)
    | (.fault, S1) => (.fault, S1)
    | (.nofuel, S1) => (.nofuel, S1)

/-! ## Scenes -/

/-- An `FglTFRuntimeScene`, with the members that `LoadScene` writes. -/
structure FglTFRuntimeScene where
  Index : Int
  Name : String
  RootNodesIndices : List Int
deriving DecidableEq

/-- The loop of `LoadScene` over the entries of `nodes`: every entry must be a number, the node
of that index is loaded with `LoadNode`, whose parameter is an `int32`, and its index is added
to the root nodes. -/
def loadSceneNodes (fuel : Nat) (Config : ParserConfig) (Root : Document) :
    List (Option Int) → ParserState → List Int → Outcome (List Int) × ParserState
  | [], S, RootNodesIndices => (.ok RootNodesIndices, S)
  | none :: _, S, _ => (.fail, S)
  | some NodeIndex :: rest, S, RootNodesIndices =>
    match LoadNode fuel Config Root S (toInt32 NodeIndex) with
    | (.ok SceneNode, S1) =>
      loadSceneNodes fuel Config Root rest S1 (RootNodesIndices ++ [SceneNode.Index])
    | (.fail, S1) => (.fail, S1)
    | (.fault, S1) => (.fault, S1)
    | (.nofuel, S1) => (.nofuel, S1)

/-- Function `FglTFRuntimeParser::LoadScene`; the result carries `Scene`, the scene passed in by
reference. The budget bounds the recursion of `LoadNodes`. -/
def LoadScene (fuel : Nat) (Config : ParserConfig) (Root : Document) (S : ParserState)
    (Index : Int) (Scene : FglTFRuntimeScene) : Outcome FglTFRuntimeScene × ParserState :=
  if Index < 0 then (.fail, S)
  else
    match Root.scenes with
    | none => (.fail, S)
    | some JsonScenes =>
      if Index ≥ JsonScenes.length then (.fail, S)
      else
        match JsonScenes[Index.toNat]? with
        | some (some JsonSceneObject) =>
          let Name := JsonSceneObject.name.getD (toString Index)
          match JsonSceneObject.nodes with
          | some JsonSceneNodes =>
            match loadSceneNodes fuel Config Root JsonSceneNodes S Scene.RootNodesIndices with
            | (.ok RootNodesIndices, S1) =>
              (.ok { Index := Index, Name := Name, RootNodesIndices := RootNodesIndices }, S1)
            | (.fail, S1) => (.fail, S1)
            | (.fault, S1) => (.fault, S1)
            | (.nofuel, S1) => (.nofuel, S1)
          | none =>
            (.ok { Index := Index, Name := Name, RootNodesIndices := Scene.RootNodesIndices }, S)
        | _ => (.fail, S)

/-- The sample tree with three scenes: scene 0 with the root nodes 0 and 2, scene 1, named
"main", with the root node -1, and scene 2 with the root node 2^32. -/
def sampleScenes : Document :=
  { sampleTree with
    scenes := some
      [some { name := none, nodes := some [some 0, some 2] },
       some { name := some "main", nodes := some [some (-1)] },
       some { name := none, nodes := some [some 4294967296] }] }

/-- A scene without root nodes, as `LoadScenes` passes to `LoadScene`. -/
def sampleFreshScene : FglTFRuntimeScene :=
  { Index := 0, Name := "", RootNodesIndices := [] }

/-- A primitive object whose attributes have `NORMAL` but no `POSITION`. -/
def sampleNoPosition : JsonPrimitive :=
  { attributes := some
      { POSITION := none, NORMAL := some (some 0), TEXCOORD_0 := none, TEXCOORD_1 := none,
        JOINTS_0 := some (some 0), WEIGHTS_0 := some (some 0) },
    indices := none, material := none }

/-! ## Notions used in the statements about bone parents -/

/-- What holds of the visits of a children loop whose bones are added from position `Base` of
the skeleton, for the children of node `ParentNode`, whose bone is at index `Parent`: the bone
of every visit has as parent index either `Parent`, and then the visited node is a child of
`ParentNode`, or the index of the bone of an earlier visit of the loop, and then the visited
node is a child of the node of that visit. -/
def LinkedVisits (Table : List FglTFRuntimeNode) (Base : Nat) (Parent ParentNode : Int)
    (V : List (Int × FMeshBone)) : Prop :=
  ∀ (k : Nat) (v : Int × FMeshBone), V[k]? = some v →
    (v.2.ParentIndex = Parent ∧ v.1 ∈ childrenAt Table ParentNode.toNat) ∨
    ∃ (kp : Nat) (vp : Int × FMeshBone), kp < k ∧ V[kp]? = some vp ∧
      v.2.ParentIndex = ((Base + kp : Nat) : Int) ∧ v.1 ∈ childrenAt Table vp.1.toNat

/-- What holds of the visits of a call of `TraverseJoints` with parent index `Parent` for the
node `Index` on a skeleton of `Base` bones: the first visit is that of the node and adds a bone
with parent index `Parent` at index `Base`, and the other visits are those of the children loop
of the node. -/
def RootedVisits (Table : List FglTFRuntimeNode) (Base : Nat) (Parent Index : Int)
    (V : List (Int × FMeshBone)) : Prop :=
  ∃ (v0 : Int × FMeshBone) (Vc : List (Int × FMeshBone)), V = v0 :: Vc ∧ v0.1 = Index ∧
    v0.2.ParentIndex = Parent ∧ LinkedVisits Table (Base + 1) (Base : Int) Index Vc

/-! ## Static meshes -/

/-- The part of a mesh description that `LoadStaticMesh_Internal` writes. The engine hands out
the identifiers of polygon groups, vertices and vertex instances of a new description in
sequence from 0, so each is the position in its list. A polygon group is kept with the material
whose name is its slot name, a vertex instance with its vertex and the normal when one is set, a
triangle with its polygon group and its vertex instances. -/
structure FMeshDescription where
  PolygonGroups : List UMaterialInterface
  VertexPositions : List FVector
  VertexInstances : List (Nat × Option FVector)
  Triangles : List (Nat × List Nat)
deriving DecidableEq

/-- The description that `UStaticMesh::CreateStaticMeshDescription` returns. -/
def FMeshDescription.empty : FMeshDescription :=
  { PolygonGroups := [], VertexPositions := [], VertexInstances := [], Triangles := [] }

/-- Call `MeshDescription->CreateTriangle(PolygonGroupID, VertexInstanceIDs, Edges)`: the engine
returns `FTriangleID::Invalid`, here `none`, unless the polygon group exists, there are three
vertex instances and each exists. -/
def CreateTriangle (D : FMeshDescription) (PolygonGroupID : Nat) (VertexInstanceIDs : List Nat) :
    Option FMeshDescription :=
  if PolygonGroupID < D.PolygonGroups.length ∧ VertexInstanceIDs.length = 3 ∧
      VertexInstanceIDs.all (fun ID => decide (ID < D.VertexInstances.length)) = true then
    some { D with Triangles := D.Triangles ++ [(PolygonGroupID, VertexInstanceIDs)] }
  else none

/-- The loop of `LoadStaticMesh_Internal` over the positions of a primitive: a vertex is created
for each and its identifier added to `VerticesIDs`. -/
def createVertices : List FVector → FMeshDescription → List Nat → FMeshDescription × List Nat
  | [], D, VerticesIDs => (D, VerticesIDs)
  | Position :: rest, D, VerticesIDs =>
    createVertices rest { D with VertexPositions := D.VertexPositions ++ [Position] }
      (VerticesIDs ++ [D.VertexPositions.length])

/-- The normal that the index loop of `LoadStaticMesh_Internal` sets on a new vertex instance:
none when the primitive has no normals, the zero vector when the index is not below their
number, else the normal at the index. -/
def instanceNormal (Normals : List FVector) (VertexIndex : Int) : Option FVector :=
  if Normals.length > 0 then
    if VertexIndex ≥ Normals.length then some (0, 0, 0) else Normals[VertexIndex.toNat]?
  else none

/-- The loop of `LoadStaticMesh_Internal` over the indices of a primitive, which are `uint32`
values. `fail` is the return of a null mesh. -/
def staticIndexLoop (Normals : List FVector) (VerticesIDs : List Nat) (PolygonGroupID : Nat) :
    List Int → FMeshDescription → List Nat → List Nat → Outcome FMeshDescription
  | [], D, _, _ => .ok D
  | Index :: rest, D, VertexInstancesIDs, TriangleVerticesIDs =>
    let VertexIndex := Index % 4294967296
    if VertexIndex ≥ VerticesIDs.length then .fail
    else
      match VerticesIDs[VertexIndex.toNat]? with
      | none => .fault
      | some VertexID =>
        let NewVertexInstanceID := D.VertexInstances.length
        let D :=
          { D with
            VertexInstances :=
              D.VertexInstances ++ [(VertexID, instanceNormal Normals VertexIndex)] }
        let VertexInstancesIDs := VertexInstancesIDs ++ [NewVertexInstanceID]
        let TriangleVerticesIDs := TriangleVerticesIDs ++ [VertexID]
        if VertexInstancesIDs.length = 3 then
          if TriangleVerticesIDs[0]? = TriangleVerticesIDs[1]? ∨
              TriangleVerticesIDs[1]? = TriangleVerticesIDs[2]? ∨
              TriangleVerticesIDs[0]? = TriangleVerticesIDs[2]? then
            staticIndexLoop Normals VerticesIDs PolygonGroupID rest D [] []
          else
            match CreateTriangle D PolygonGroupID VertexInstancesIDs with
            | none => .fail
            | some D => staticIndexLoop Normals VerticesIDs PolygonGroupID rest D [] []
        else
          staticIndexLoop Normals VerticesIDs PolygonGroupID rest D VertexInstancesIDs
            TriangleVerticesIDs

/-- The loop of `LoadStaticMesh_Internal` over the primitives; the result carries the mesh
description and the static materials. `fault` is the call of `GetFName` on a null material. -/
def staticPrimitives :
    List FglTFRuntimePrimitive → FMeshDescription → List UMaterialInterface →
      Outcome (FMeshDescription × List UMaterialInterface)
  | [], D, StaticMaterials => .ok (D, StaticMaterials)
  | Primitive :: rest, D, StaticMaterials =>
    match Primitive.Material with
    | none => .fault
    | some Material =>
      let PolygonGroupID := D.PolygonGroups.length
      let D := { D with PolygonGroups := D.PolygonGroups ++ [Material] }
      let StaticMaterials := StaticMaterials ++ [Material]
      let Created := createVertices Primitive.Positions D []
      match staticIndexLoop Primitive.Normals Created.2 PolygonGroupID Primitive.Indices
          Created.1 [] [] with
      | .ok D => staticPrimitives rest D StaticMaterials
      | .fail => .fail
      | .fault => .fault
      | .nofuel => .nofuel

/-- A `UStaticMesh`, with what `LoadStaticMesh_Internal` gives it: the static materials and the
mesh description from which the engine builds the mesh. -/
structure UStaticMesh where
  StaticMaterials : List UMaterialInterface
  MeshDescription : FMeshDescription
deriving DecidableEq

/-- Function `FglTFRuntimeParser::LoadStaticMesh_Internal`; `fail` is `nullptr`. `Fresh` is the
default-constructed primitive and `Stride0` the uninitialised stride of `LoadPrimitive`. -/
def LoadStaticMesh_Internal (Decode : String → Option (List Nat)) (Build : AttributeBuilders)
    (bBaseMaterial : Bool) (Config : ParserConfig) (Root : Document)
    (Fresh : FglTFRuntimePrimitive) (Stride0 : Int) (S : ParserState)
    (JsonMeshObject : JsonMesh) : Outcome UStaticMesh × ParserState :=
  match JsonMeshObject.primitives with
  | none => (.fail, S)
  | some JsonPrimitives =>
    match LoadPrimitives Decode Build bBaseMaterial Config Root Fresh Stride0 JsonPrimitives S
        [] with
    | (.ok Primitives, S1) =>
      match staticPrimitives Primitives FMeshDescription.empty [] with
      | .ok (D, StaticMaterials) =>
        (.ok { StaticMaterials := StaticMaterials, MeshDescription := D }, S1)
      | .fail => (.fail, S1)
      | .fault => (.fault, S1)
      | .nofuel => (.nofuel, S1)
    | (.fail, S1) => (.fail, S1)
    | (.fault, S1) => (.fault, S1)
    | (.nofuel, S1) => (.nofuel, S1)

/-! ## Notions used in the statements about triangles -/

/-- The consecutive triples of an index stream: the indices at the positions 3k, 3k+1 and 3k+2;
a trailing group of one or two indices gives none. -/
def indexTriples : List Int → List (Int × Int × Int)
  | a :: b :: c :: rest => (a, b, c) :: indexTriples rest
  | _ => []

/-- The three indices of the triple are pairwise distinct. -/
def pairwiseDistinct (t : Int × Int × Int) : Bool :=
  decide (t.1 ≠ t.2.1 ∧ t.2.1 ≠ t.2.2 ∧ t.1 ≠ t.2.2)

/-- The vertices of the vertex instances of a triangle of a description. -/
def triangleVertices (D : FMeshDescription) (Triangle : Nat × List Nat) : List Nat :=
  Triangle.2.map (fun ID => (D.VertexInstances.getD ID (0, none)).1)

/-- The triangles that the index streams of the primitives describe, each with its polygon
group and its three vertices: for the primitive with polygon group `Group` whose vertices start
at `Base`, the consecutive triples of pairwise distinct indices, in order. -/
def expectedTriangles : List FglTFRuntimePrimitive → Nat → Nat → List (Nat × List Nat)
  | [], _, _ => []
  | Primitive :: rest, Group, Base =>
    ((indexTriples Primitive.Indices).filter pairwiseDistinct).map
        (fun t => (Group, [Base + t.1.toNat, Base + t.2.1.toNat, Base + t.2.2.toNat])) ++
      expectedTriangles rest (Group + 1) (Base + Primitive.Positions.length)

/-- A document with one 8-byte buffer (the bytes 0, 0, 1, 0, 1, 2, 2, 1), a view of all of it
and over it the scalar accessor 0 of eight unsigned bytes. -/
def sampleStatic : Document :=
  { nodes := none,
    buffers := some
      [some { byteLength := some 8,
              uri := some "data:application/octet-stream;base64,AAABAAECAgE=" }],
    bufferViews := some
      [some { buffer := some 0, byteLength := some 8, byteOffset := none, byteStride := none }],
    accessors := some
      [some { bufferView := some 0, byteOffset := none, componentType := some 5121,
              count := some 8, type := some "SCALAR" }] }

/-- A mesh object with two primitives, the first with the indices of accessor 0 and the second
without indices. -/
def sampleMesh : JsonMesh :=
  { primitives := some [some (sampleSkinnedPrimitive (some 0)), some (sampleSkinnedPrimitive none)] }

/-- Every vertex instance of every triangle of the description exists. -/
def TrianglesValid (D : FMeshDescription) : Prop :=
  ∀ t ∈ D.Triangles, ∀ ID ∈ t.2, ID < D.VertexInstances.length

/-- The triangles of a description, each with its polygon group and its three vertices. -/
def trianglesOf (D : FMeshDescription) : List (Nat × List Nat) :=
  D.Triangles.map (fun t => (t.1, triangleVertices D t))

/-! ## Skeletal meshes -/

/-- Read `Array[Index]` of a `TArray`: `none` when the index is not inside the array. -/
def TArrayAt {α : Type} (Array : List α) (Index : Int) : Option α :=
  if 0 ≤ Index then Array[Index.toNat]? else none

/-- An `FBox`. -/
structure FBox where
  Min : FVector
  Max : FVector
  IsValid : Bool

/-- Call `Box += Other`: the box grown to hold the point; the first point makes the box
valid. -/
def FBox.add (Box : FBox) (Other : FVector) : FBox :=
  if Box.IsValid then
    { Min := (min Box.Min.1 Other.1, min Box.Min.2.1 Other.2.1, min Box.Min.2.2 Other.2.2),
      Max := (max Box.Max.1 Other.1, max Box.Max.2.1 Other.2.1, max Box.Max.2.2 Other.2.2),
      IsValid := true }
  else { Min := Other, Max := Other, IsValid := true }

/-- The box `FBox(Points.GetData(), Points.Num())`: the zero box, not valid, grown by each
point in turn. -/
def FBox.ofPoints (Points : List FVector) : FBox :=
  Points.foldl FBox.add { Min := (0, 0, 0), Max := (0, 0, 0), IsValid := false }

/-- The bounding box that `LoadSkeletalMesh_Internal` passes to `SetImportedBounds`, from the
points of all primitives; `0.5f`, `1.0f` and `0.1f` are the rationals 1/2, 1 and 1/10. -/
def importedBounds (Points : List FVector) : FBox :=
  let BoundingBox := FBox.ofPoints Points
  let Temp := BoundingBox
  let MidMesh : FVector :=
    ((1 / 2) * (Temp.Min.1 + Temp.Max.1), (1 / 2) * (Temp.Min.2.1 + Temp.Max.2.1),
      (1 / 2) * (Temp.Min.2.2 + Temp.Max.2.2))
  let Min : FVector :=
    (Temp.Min.1 + 1 * (Temp.Min.1 - MidMesh.1), Temp.Min.2.1 + 1 * (Temp.Min.2.1 - MidMesh.2.1),
      Temp.Min.2.2 + 1 * (Temp.Min.2.2 - MidMesh.2.2))
  let Max : FVector :=
    (Temp.Max.1 + 1 * (Temp.Max.1 - MidMesh.1), Temp.Max.2.1 + 1 * (Temp.Max.2.1 - MidMesh.2.1),
      Temp.Max.2.2 + 1 * (Temp.Max.2.2 - MidMesh.2.2))
  { Min := (Min.1, Min.2.1, Temp.Min.2.2 + (1 / 10) * (Temp.Min.2.2 - MidMesh.2.2)),
    Max := Max, IsValid := BoundingBox.IsValid }

/-- A wedge, `SkeletalMeshImportData::FVertex`: the point and the first texture coordinate when
one is set. -/
structure FVertex where
  VertexIndex : Int
  UVs0 : Option FVector2D

/-- A face, `SkeletalMeshImportData::FTriangle`: the three wedges, the three normals when they
are set, and the material. -/
structure FTriangle where
  WedgeIndex : List Int
  TangentZ : Option (List FVector)
  MatIndex : Int

/-- An influence, `SkeletalMeshImportData::FRawBoneInfluence`. -/
structure FRawBoneInfluence where
  Weight : ℚ
  VertexIndex : Int
  BoneIndex : Int

/-- The local arrays of the editor branch of `LoadSkeletalMesh_Internal`. -/
structure FImportState where
  Wedges : List FVertex
  Triangles : List FTriangle
  Influences : List FRawBoneInfluence
  BonesCache : List (Int × Int)

/-- The four joint indices of an element of `JOINTS_0`, each with its weight. -/
def jointSlots (Joints : FglTFRuntimeUInt16Vector4) (Weights : FVector4) : List (Nat × ℚ) :=
  [(Joints.1, Weights.1), (Joints.2.1, Weights.2.1), (Joints.2.2.1, Weights.2.2.1),
    (Joints.2.2.2, Weights.2.2.2)]

/-- The loop `for (int32 j = 0; j < 4; j++)` of the editor branch over the remaining joint
slots of a wedge: a slot whose joint index is a key of the bone map adds an influence on the
bone of that name, found through the bones cache; for any other slot the function returns
`nullptr`, here `fail`. -/
def resolveJoints (Skeleton : List FMeshBone) (BoneMap : List (Int × FName))
    (VertexIndex : Int) :
    List (Nat × ℚ) → List (Int × Int) → List FRawBoneInfluence →
      Outcome (List (Int × Int) × List FRawBoneInfluence)
  | [], BonesCache, Influences => .ok (BonesCache, Influences)
  | (Joint, Weight) :: rest, BonesCache, Influences =>
    match BoneMap.lookup (Joint : Int) with
    | some BoneName =>
      match BonesCache.lookup (Joint : Int) with
      | some BoneIndex =>
        resolveJoints Skeleton BoneMap VertexIndex rest BonesCache
          (Influences ++ [{ Weight := Weight, VertexIndex := VertexIndex,
                            BoneIndex := BoneIndex }])
      | none =>
        let BoneIndex := FindBoneIndex Skeleton BoneName
        resolveJoints Skeleton BoneMap VertexIndex rest
          (TMapAdd BonesCache (Joint : Int) BoneIndex)
          (Influences ++ [{ Weight := Weight, VertexIndex := VertexIndex,
                            BoneIndex := BoneIndex }])
    | none => .fail

/-- The loop of the editor branch over the joints arrays of a primitive, from array
`JointsIndex`, for the wedge of vertex `Index`; `fault` when `Primitive.Joints[JointsIndex]` or
`Primitive.Weights[JointsIndex]` is read outside an array. -/
def wedgeInfluences (Skeleton : List FMeshBone) (BoneMap : List (Int × FName))
    (Primitive : FglTFRuntimePrimitive) (Index VertexIndex : Int) :
    List (List FglTFRuntimeUInt16Vector4) → Nat → List (Int × Int) → List FRawBoneInfluence →
      Outcome (List (Int × Int) × List FRawBoneInfluence)
  | [], _, BonesCache, Influences => .ok (BonesCache, Influences)
  | JointsArray :: rest, JointsIndex, BonesCache, Influences =>
    match TArrayAt JointsArray Index with
    | none => .fault
    | some Joints =>
      match Primitive.Weights[JointsIndex]? with
      | none => .fault
      | some WeightsArray =>
        match TArrayAt WeightsArray Index with
        | none => .fault
        | some Weights =>
          match resolveJoints Skeleton BoneMap VertexIndex (jointSlots Joints Weights)
              BonesCache Influences with
          | .ok (BonesCache, Influences) =>
            wedgeInfluences Skeleton BoneMap Primitive Index VertexIndex rest (JointsIndex + 1)
              BonesCache Influences
          | .fail => .fail
          | .fault => .fault
          | .nofuel => .nofuel

/-- The loop of the editor branch over the remaining indices of a primitive; `Pending` holds
the indices of the wedges of the triangle in progress, so its length is `TriangleIndex`.
`fault` when an attribute array is read outside. -/
def importIndices (Skeleton : List FMeshBone) (BoneMap : List (Int × FName))
    (Primitive : FglTFRuntimePrimitive) (Base MatIndex : Int) :
    List Int → List Int → FImportState → Outcome FImportState
  | [], _, State => .ok State
  | Raw :: rest, Pending, State =>
    let Index := toInt32 Raw
    let UV : Option (Option FVector2D) :=
      if Primitive.UVs.length > 0 then
        match Primitive.UVs[0]? with
        | some UVArray =>
          match TArrayAt UVArray Index with
          | some Value => some (some Value)
          | none => none
        | none => none
      else some none
    match UV with
    | none => .fault
    | some UVs0 =>
      let Wedge : FVertex := { VertexIndex := Base + Index, UVs0 := UVs0 }
      let WedgeIndex : Int := State.Wedges.length
      match wedgeInfluences Skeleton BoneMap Primitive Index Wedge.VertexIndex Primitive.Joints 0
          State.BonesCache State.Influences with
      | .ok (BonesCache, Influences) =>
        let State : FImportState :=
          { Wedges := State.Wedges ++ [Wedge], Triangles := State.Triangles,
            Influences := Influences, BonesCache := BonesCache }
        let Pending := Pending ++ [Raw]
        if Pending.length = 3 then
          let TangentZ : Option (Option (List FVector)) :=
            if Primitive.Normals.length > 0 then
              match allNumbers (Pending.map (fun I => TArrayAt Primitive.Normals (toInt32 I))) with
              | some Normals => some (some Normals)
              | none => none
            else some none
          match TangentZ with
          | none => .fault
          | some TangentZ =>
            importIndices Skeleton BoneMap Primitive Base MatIndex rest []
              { State with
                Triangles := State.Triangles ++
                  [{ WedgeIndex := [WedgeIndex - 2, WedgeIndex - 1, WedgeIndex],
                     TangentZ := TangentZ, MatIndex := MatIndex }] }
        else importIndices Skeleton BoneMap Primitive Base MatIndex rest Pending State
      | .fail => .fail
      | .fault => .fault
      | .nofuel => .nofuel

/-- The loop of the editor branch over the primitives; the result carries the points and the
local arrays. -/
def importPrimitives (Skeleton : List FMeshBone) (BoneMap : List (Int × FName)) :
    List FglTFRuntimePrimitive → List FVector → Int → FImportState →
      Outcome (List FVector × FImportState)
  | [], Points, _, State => .ok (Points, State)
  | Primitive :: rest, Points, MatIndex, State =>
    match importIndices Skeleton BoneMap Primitive Points.length MatIndex Primitive.Indices []
        State with
    | .ok State =>
      importPrimitives Skeleton BoneMap rest (Points ++ Primitive.Positions) (MatIndex + 1) State
    | .fail => .fail
    | .fault => .fault
    | .nofuel => .nofuel

/-- The import data that the editor branch saves for LOD 0. -/
structure FSkeletalMeshImportData where
  Faces : List FTriangle
  Points : List FVector
  PointToRawMap : List Int
  Wedges : List FVertex
  Influences : List FRawBoneInfluence

/-- A vertex of the render data: position, normal and texture coordinate; the tangent is the
zero vector for every vertex. -/
structure FModelVertex where
  Position : FVector
  TangentZ : FVector
  TexCoord : FVector2D

/-- A skin weight of the render data, `FSkinWeightInfo`, with the two slots that the function
writes: `InfluenceBones[0]` and `InfluenceWeights[0]`; the other slots are left as allocated. -/
structure FSkinWeightInfo where
  InfluenceBones0 : Int
  InfluenceWeights0 : Int
deriving DecidableEq

/-- A render section, `FSkelMeshRenderSection`, with the members that are set. -/
structure FSkelMeshRenderSection where
  MaterialIndex : Int
  BaseIndex : Int
  NumTriangles : Int
  BaseVertexIndex : Int
  NumVertices : Int
  BoneMap : List Int

/-- The render data that the branch for builds without editor fills. -/
structure FSkeletalMeshLODRenderData where
  RenderSections : List FSkelMeshRenderSection
  Vertices : List FModelVertex
  RequiredBones : List Int
  ActiveBoneIndices : List Int
  SkinWeightVertexBuffer : List FSkinWeightInfo
  Indices : List Int

/-- The bones that a loop `for (TPair<int32, FName>& Pair : BoneMap)` of the branch without
editor adds: the indices of the bones that the names of the map find. -/
def mappedBones (Skeleton : List FMeshBone) (BoneMap : List (Int × FName)) : List Int :=
  BoneMap.filterMap (fun Pair =>
    let BoneIndex := FindBoneIndex Skeleton Pair.2
    if BoneIndex > INDEX_NONE then some BoneIndex else none)

/-- The loop of the branch without editor over the remaining indices of a primitive: position,
normal and first texture coordinate of the vertex are read without a test; `fault` when one is
read outside its array. The vertex and its skin weight are written at `TotalVertexIndex`, the
number of vertices so far, so both lists grow at the end. The skin weight is weight 255 on bone
0; the joints and weights of the primitive are not read. -/
def renderVertices (Primitive : FglTFRuntimePrimitive) :
    List Int → List FModelVertex → List FSkinWeightInfo →
      Outcome (List FModelVertex × List FSkinWeightInfo)
  | [], Vertices, InWeights => .ok (Vertices, InWeights)
  | Raw :: rest, Vertices, InWeights =>
    let Index := toInt32 Raw
    match TArrayAt Primitive.Positions Index, TArrayAt Primitive.Normals Index,
        Primitive.UVs[0]? with
    | some Position, some Normal, some UVArray =>
      match TArrayAt UVArray Index with
      | some TexCoord =>
        renderVertices Primitive rest
          (Vertices ++ [{ Position := Position, TangentZ := Normal, TexCoord := TexCoord }])
          (InWeights ++ [{ InfluenceBones0 := 0, InfluenceWeights0 := 255 }])
      | none => .fault
    | _, _, _ => .fault

/-- The loop of the branch without editor over the primitives, from primitive `i`; the result
carries the points, the vertices, the skin weights and the sections. -/
def renderPrimitives (Skeleton : List FMeshBone) (BoneMap : List (Int × FName)) :
    List FglTFRuntimePrimitive → Int → List FVector → List FModelVertex →
      List FSkinWeightInfo → List FSkelMeshRenderSection →
      Outcome (List FVector × List FModelVertex × List FSkinWeightInfo ×
        List FSkelMeshRenderSection)
  | [], _, Points, Vertices, InWeights, Sections => .ok (Points, Vertices, InWeights, Sections)
  | Primitive :: rest, i, Points, Vertices, InWeights, Sections =>
    let MeshSection : FSkelMeshRenderSection :=
      { MaterialIndex := i, BaseIndex := Vertices.length,
        NumTriangles := (Primitive.Indices.length : Int) / 3, BaseVertexIndex := Points.length,
        NumVertices := Primitive.Positions.length, BoneMap := mappedBones Skeleton BoneMap }
    match renderVertices Primitive Primitive.Indices Vertices InWeights with
    | .ok (Vertices, InWeights) =>
      renderPrimitives Skeleton BoneMap rest (i + 1) (Points ++ Primitive.Positions) Vertices
        InWeights (Sections ++ [MeshSection])
    | .fail => .fail
    | .fault => .fault
    | .nofuel => .nofuel

/-- A `USkeletalMesh`, with what `LoadSkeletalMesh_Internal` gives it: the reference skeleton,
the imported bounds (the box from which the engine builds them), the materials with the
material map of the LOD, and the import data (editor builds) or the render data. -/
structure USkeletalMesh where
  RefSkeleton : List FMeshBone
  ImportedBounds : FBox
  Materials : List (Option UMaterialInterface)
  LODMaterialMap : List Int
  ImportData : Option FSkeletalMeshImportData
  RenderData : Option FSkeletalMeshLODRenderData

/-- The part of `LoadSkeletalMesh_Internal` after `FillReferenceSkeleton`. `WITH_EDITOR` is the
build flag that selects the branch; `ProcessImportMeshInfluences` and `BuildSkeletalMesh` are
the editor's functions of those names. -/
def assembleSkeletalMesh (WITH_EDITOR : Bool)
    (ProcessImportMeshInfluences : Int → List FRawBoneInfluence → List FRawBoneInfluence)
    (BuildSkeletalMesh : USkeletalMesh → Bool)
    (Primitives : List FglTFRuntimePrimitive) (RefSkeleton : List FMeshBone)
    (BoneMap : List (Int × FName)) : Outcome USkeletalMesh :=
  let Materials := Primitives.map (fun Primitive => Primitive.Material)
  let LODMaterialMap := (List.range Primitives.length).map (fun (MatIndex : Nat) => (MatIndex : Int))
  if WITH_EDITOR then
    match importPrimitives RefSkeleton BoneMap Primitives [] 0
        { Wedges := [], Triangles := [], Influences := [], BonesCache := [] } with
    | .ok (Points, State) =>
      let ImportData : FSkeletalMeshImportData :=
        { Faces := State.Triangles, Points := Points,
          PointToRawMap := (List.range Points.length).map (fun (i : Nat) => (i : Int)),
          Wedges := State.Wedges,
          Influences := ProcessImportMeshInfluences State.Wedges.length State.Influences }
      let SkeletalMesh : USkeletalMesh :=
        { RefSkeleton := RefSkeleton, ImportedBounds := importedBounds Points,
          Materials := Materials, LODMaterialMap := LODMaterialMap,
          ImportData := some ImportData, RenderData := none }
      if BuildSkeletalMesh SkeletalMesh then .ok SkeletalMesh else .fail
    | .fail => .fail
    | .fault => .fault
    | .nofuel => .nofuel
  else
    match renderPrimitives RefSkeleton BoneMap Primitives 0 [] [] [] [] with
    | .ok (Points, Vertices, InWeights, Sections) =>
      let RenderData : FSkeletalMeshLODRenderData :=
        { RenderSections := Sections, Vertices := Vertices,
          RequiredBones := mappedBones RefSkeleton BoneMap,
          ActiveBoneIndices := mappedBones RefSkeleton BoneMap,
          SkinWeightVertexBuffer := InWeights,
          Indices := (List.range Vertices.length).map (fun (Index : Nat) => (Index : Int)) }
      .ok { RefSkeleton := RefSkeleton, ImportedBounds := importedBounds Points,
            Materials := Materials, LODMaterialMap := LODMaterialMap,
            ImportData := none, RenderData := some RenderData }
    | .fail => .fail
    | .fault => .fault
    | .nofuel => .nofuel

/-- Function `FglTFRuntimeParser::LoadSkeletalMesh_Internal`; `fail` is `nullptr`.
`Stride0` and `MatricesStride0` are the uninitialised strides of `LoadPrimitive` and of
`FillReferenceSkeleton`; the parameter `RootTransform` is only passed on to
`FillReferenceSkeleton`, which does not use it, and is left out. -/
def LoadSkeletalMesh_Internal (WITH_EDITOR : Bool)
    (ProcessImportMeshInfluences : Int → List FRawBoneInfluence → List FRawBoneInfluence)
    (BuildSkeletalMesh : USkeletalMesh → Bool)
    (Decode : String → Option (List Nat)) (DecodeFloat : List Nat → ℚ)
    (Inverse : FMatrix → FMatrix) (Build : AttributeBuilders) (bBaseMaterial : Bool)
    (fuel : Nat) (Config : ParserConfig) (Root : Document) (Fresh : FglTFRuntimePrimitive)
    (Stride0 MatricesStride0 : Int) (S : ParserState) (JsonMeshObject : JsonMesh)
    (JsonSkinObject : JsonSkin) : Outcome USkeletalMesh × ParserState :=
  match JsonMeshObject.primitives with
  | none => (.fail, S)
  | some JsonPrimitives =>
    match LoadPrimitives Decode Build bBaseMaterial Config Root Fresh Stride0 JsonPrimitives S
        [] with
    | (.ok Primitives, S1) =>
      match FillReferenceSkeleton Decode DecodeFloat Inverse fuel Config Root S1 JsonSkinObject
          [] MatricesStride0 with
      | (.ok (RefSkeleton, BoneMap), S2) =>
        (assembleSkeletalMesh WITH_EDITOR ProcessImportMeshInfluences BuildSkeletalMesh
          Primitives RefSkeleton BoneMap, S2)
      | (.fail, S2) => (.fail, S2)
      | (.fault, S2) => (.fault, S2)
      | (.nofuel, S2) => (.nofuel, S2)
    | (.fail, S1) => (.fail, S1)
    | (.fault, S1) => (.fault, S1)
    | (.nofuel, S1) => (.nofuel, S1)

/-- The loop `while (Node.ParentIndex != INDEX_NONE)` of `LoadSkeletalMesh`, with a budget on
its iterations: the ancestors of the node are loaded in turn. The transforms that the loop
multiplies go into `RootTransform` only and are left out. -/
def loadAncestors (fuel : Nat) (Config : ParserConfig) (Root : Document) :
    Nat → ParserState → FglTFRuntimeNode → Outcome Unit × ParserState
  | 0, S, _ => (.nofuel, S)
  | n + 1, S, Node =>
    if Node.ParentIndex ≠ INDEX_NONE then
      match LoadNode fuel Config Root S Node.ParentIndex with
      | (.ok Parent, S1) => loadAncestors fuel Config Root n S1 Parent
      | (.fail, S1) => (.fail, S1)
      | (.fault, S1) => (.fault, S1)
      | (.nofuel, S1) => (.nofuel, S1)
    else (.ok (), S)

/-- Function `FglTFRuntimeParser::LoadSkeletalMesh`; `fail` is `nullptr`. The member
`SkeletalMeshesCache` is passed next to the state and returned with it. -/
def LoadSkeletalMesh (WITH_EDITOR : Bool)
    (ProcessImportMeshInfluences : Int → List FRawBoneInfluence → List FRawBoneInfluence)
    (BuildSkeletalMesh : USkeletalMesh → Bool)
    (Decode : String → Option (List Nat)) (DecodeFloat : List Nat → ℚ)
    (Inverse : FMatrix → FMatrix) (Build : AttributeBuilders) (bBaseMaterial : Bool)
    (fuel : Nat) (Config : ParserConfig) (Root : Document) (Fresh : FglTFRuntimePrimitive)
    (Stride0 MatricesStride0 : Int) (S : ParserState)
    (SkeletalMeshesCache : List (Int × USkeletalMesh)) (Index SkinIndex NodeIndex : Int) :
    Outcome USkeletalMesh × ParserState × List (Int × USkeletalMesh) :=
  if Index < 0 then (.fail, S, SkeletalMeshesCache)
  else
    match SkeletalMeshesCache.lookup Index with
    | some Cached => (.ok Cached, S, SkeletalMeshesCache)
    | none =>
      match Root.meshes with
      | none => (.fail, S, SkeletalMeshesCache)
      | some JsonMeshes =>
        if Index ≥ JsonMeshes.length then (.fail, S, SkeletalMeshesCache)
        else
          match Root.skins with
          | none => (.fail, S, SkeletalMeshesCache)
          | some JsonSkins =>
            if Index ≥ JsonSkins.length then (.fail, S, SkeletalMeshesCache)
            else
              match TArrayAt JsonMeshes Index with
              | none => (.fault, S, SkeletalMeshesCache)
              | some none => (.fail, S, SkeletalMeshesCache)
              | some (some JsonMeshObject) =>
                match TArrayAt JsonSkins SkinIndex with
                | none => (.fault, S, SkeletalMeshesCache)
                | some none => (.fail, S, SkeletalMeshesCache)
                | some (some JsonSkinObject) =>
                  let Climbed : Outcome Unit × ParserState :=
                    if NodeIndex > INDEX_NONE then
                      match LoadNode fuel Config Root S NodeIndex with
                      | (.ok Node, S1) => loadAncestors fuel Config Root fuel S1 Node
                      | (.fail, S1) => (.fail, S1)
                      | (.fault, S1) => (.fault, S1)
                      | (.nofuel, S1) => (.nofuel, S1)
                    else (.ok (), S)
                  match Climbed with
                  | (.ok _, S1) =>
                    match LoadSkeletalMesh_Internal WITH_EDITOR ProcessImportMeshInfluences
                        BuildSkeletalMesh Decode DecodeFloat Inverse Build bBaseMaterial fuel
                        Config Root Fresh Stride0 MatricesStride0 S1 JsonMeshObject
                        JsonSkinObject with
                    | (.ok SkeletalMesh, S2) =>
                      (.ok SkeletalMesh, S2, TMapAdd SkeletalMeshesCache Index SkeletalMesh)
                    | (.fail, S2) => (.fail, S2, SkeletalMeshesCache)
                    | (.fault, S2) => (.fault, S2, SkeletalMeshesCache)
                    | (.nofuel, S2) => (.nofuel, S2, SkeletalMeshesCache)
                  | (.fail, S1) => (.fail, S1, SkeletalMeshesCache)
                  | (.fault, S1) => (.fault, S1, SkeletalMeshesCache)
                  | (.nofuel, S1) => (.nofuel, S1, SkeletalMeshesCache)

/-! ## Notions and concrete inputs for skeletal meshes -/

/-- Every joint slot of every indexed vertex of the primitive resolves through the bone map:
the joints arrays have an element at each index of the primitive, and each of its four joint
indices is a key of the map. -/
def JointsResolve (BoneMap : List (Int × FName)) (Primitive : FglTFRuntimePrimitive) : Prop :=
  ∀ Raw ∈ Primitive.Indices, ∀ JointsArray ∈ Primitive.Joints,
    ∃ Joints : FglTFRuntimeUInt16Vector4, TArrayAt JointsArray (toInt32 Raw) = some Joints ∧
      ∀ Joint ∈ [Joints.1, Joints.2.1, Joints.2.2.1, Joints.2.2.2],
        ((Joint : Nat) : Int) ∈ BoneMap.map Prod.fst

/-- Attribute builders for the concrete examples of skeletal meshes: three positions, normals,
texture coordinates and weights, and three vertices whose first joint index is `Joint` and
whose other joint indices are 0, whatever the accessors. -/
def sampleJointBuilders (Joint : Nat) : AttributeBuilders :=
  { Vector := fun _ _ Data _ _ _ Filter S =>
      (.ok (Data ++ [Filter (0, 0, 0), Filter (1, 0, 0), Filter (0, 1, 0)]), S),
    Vector2D := fun _ _ Data _ _ _ Filter S =>
      (.ok (Data ++ [Filter (0, 0), Filter (1, 0), Filter (0, 1)]), S),
    UInt16Vector4 := fun _ _ Data _ _ _ S =>
      (.ok (Data ++ [(Joint, 0, 0, 0), (Joint, 0, 0, 0), (Joint, 0, 0, 0)]), S),
    Vector4 := fun _ _ Data _ _ _ S =>
      (.ok (Data ++ [(1, 0, 0, 0), (1, 0, 0, 0), (1, 0, 0, 0)]), S) }

/-- A primitive object with the attributes `POSITION`, `NORMAL`, `TEXCOORD_0`, `JOINTS_0` and
`WEIGHTS_0`, without indices and without material. -/
def sampleFullPrimitive : JsonPrimitive :=
  { attributes := some
      { POSITION := some (some 0), NORMAL := some (some 0), TEXCOORD_0 := some (some 0),
        TEXCOORD_1 := none, JOINTS_0 := some (some 0), WEIGHTS_0 := some (some 0) },
    indices := none, material := none }

/-- The sample document for skins with two meshes of one primitive each and one skin, with the
joints 2 and 1. -/
def sampleTwoMeshes : Document :=
  { sampleSkinned with
    meshes := some [some { primitives := some [some sampleFullPrimitive] },
                    some { primitives := some [some sampleFullPrimitive] }],
    skins := some [some (sampleSkin none)] }

/-- A mesh object with one primitive, which has all attributes. -/
def sampleSkinnedMesh : JsonMesh :=
  { primitives := some [some sampleFullPrimitive] }

/-- A mesh object with one primitive, which has positions, joints and weights but neither
normals nor texture coordinates. -/
def sampleBareMesh : JsonMesh :=
  { primitives := some [some (sampleSkinnedPrimitive none)] }

/-- The skin weights of the render data of a result; `none` when the call returned no mesh or
the mesh has no render data. -/
def skinWeightsOf (Result : Outcome USkeletalMesh × ParserState) :
    Option (List FSkinWeightInfo) :=
  match Result.1 with
  | .ok Mesh => Mesh.RenderData.map (fun RenderData => RenderData.SkinWeightVertexBuffer)
  | _ => none

/-- The primitive with its joints and weights replaced. -/
def withSkin (Primitive : FglTFRuntimePrimitive) (Joints : List (List FglTFRuntimeUInt16Vector4))
    (Weights : List (List FVector4)) : FglTFRuntimePrimitive :=
  { Primitive with Joints := Joints, Weights := Weights }

/-- The box is tight on a coordinate for the points: every point lies between its minimum and
its maximum, and each of the two is the coordinate of some point. -/
def TightOn (c : FVector → ℚ) (Points : List FVector) (Box : FBox) : Prop :=
  (∀ p ∈ Points, c Box.Min ≤ c p ∧ c p ≤ c Box.Max) ∧
  (∃ p ∈ Points, c p = c Box.Min) ∧ (∃ p ∈ Points, c p = c Box.Max)

/-! ## Notions and concrete inputs for the caches and for rigid primitives -/

/-- A call of `LoadSkeletalMesh`: the state in which it is made and its three arguments. -/
structure SkeletalMeshCall where
  S : ParserState
  Index : Int
  SkinIndex : Int
  NodeIndex : Int

/-- The member `SkeletalMeshesCache` after a sequence of calls of `LoadSkeletalMesh`, each made
in the state given with it; nothing else in the source writes to the cache. -/
def LoadSkeletalMeshCalls (WITH_EDITOR : Bool)
    (ProcessImportMeshInfluences : Int → List FRawBoneInfluence → List FRawBoneInfluence)
    (BuildSkeletalMesh : USkeletalMesh → Bool)
    (Decode : String → Option (List Nat)) (DecodeFloat : List Nat → ℚ)
    (Inverse : FMatrix → FMatrix) (Build : AttributeBuilders) (bBaseMaterial : Bool)
    (fuel : Nat) (Config : ParserConfig) (Root : Document) (Fresh : FglTFRuntimePrimitive)
    (Stride0 MatricesStride0 : Int) :
    List SkeletalMeshCall → List (Int × USkeletalMesh) → List (Int × USkeletalMesh)
  | [], SkeletalMeshesCache => SkeletalMeshesCache
  | Call :: rest, SkeletalMeshesCache =>
    LoadSkeletalMeshCalls WITH_EDITOR ProcessImportMeshInfluences BuildSkeletalMesh Decode
      DecodeFloat Inverse Build bBaseMaterial fuel Config Root Fresh Stride0 MatricesStride0 rest
      (LoadSkeletalMesh WITH_EDITOR ProcessImportMeshInfluences BuildSkeletalMesh Decode
        DecodeFloat Inverse Build bBaseMaterial fuel Config Root Fresh Stride0 MatricesStride0
        Call.S SkeletalMeshesCache Call.Index Call.SkinIndex Call.NodeIndex).2.2

/-- The attributes of a rigid primitive: `POSITION` and `NORMAL`, no joints and no weights. -/
def sampleRigidAttributes : JsonAttributes :=
  { POSITION := some (some 0), NORMAL := some (some 0), TEXCOORD_0 := none, TEXCOORD_1 := none,
    JOINTS_0 := none, WEIGHTS_0 := none }

/-- A rigid primitive object, without indices and without material. -/
def sampleRigidPrimitive : JsonPrimitive :=
  { attributes := some sampleRigidAttributes, indices := none, material := none }

/-! # Theorems -/

/-! ## Auxiliary facts -/

theorem toInt64_of_range (x : Int) (h1 : -9223372036854775808 ≤ x)
    (h2 : x < 9223372036854775808) : toInt64 x = x := by
  unfold toInt64
  omega

theorem toInt32_lt (x : Int) : toInt32 x < 2147483648 := by
  unfold toInt32
  omega

theorem toInt32_of_range (x : Int) (h1 : -2147483648 ≤ x) (h2 : x < 2147483648) :
    toInt32 x = x := by
  unfold toInt32
  omega

theorem toUInt64_of_range (x : Int) (h1 : 0 ≤ x) (h2 : x < 18446744073709551616) :
    toUInt64 x = x := by
  unfold toUInt64
  omega

theorem getElem?_index_bounds {α : Type} (l : List α) (Index : Int) (a : α) (h0 : ¬ Index < 0)
    (h : l[Index.toNat]? = some a) : ¬ (Index ≥ (l.length : Int)) := by
  rcases List.getElem?_eq_some.1 h with ⟨hlt, _⟩
  omega

theorem GetComponentTypeSize_cases (c : Int) :
    GetComponentTypeSize c = 0 ∨ GetComponentTypeSize c = 1 ∨ GetComponentTypeSize c = 2 ∨
      GetComponentTypeSize c = 4 := by
  unfold GetComponentTypeSize
  split_ifs <;> simp

theorem GetTypeSize_cases (s : String) :
    GetTypeSize s = 0 ∨ GetTypeSize s = 1 ∨ GetTypeSize s = 2 ∨ GetTypeSize s = 3 ∨
      GetTypeSize s = 4 ∨ GetTypeSize s = 9 ∨ GetTypeSize s = 16 := by
  unfold GetTypeSize
  split_ifs <;> simp

theorem elementBytes_range (c : Int) (s : String) :
    0 ≤ GetComponentTypeSize c * GetTypeSize s ∧ GetComponentTypeSize c * GetTypeSize s ≤ 64 := by
  rcases GetComponentTypeSize_cases c with h | h | h | h <;>
    rcases GetTypeSize_cases s with h2 | h2 | h2 | h2 | h2 | h2 | h2 <;>
    rw [h, h2] <;> decide

theorem GetComponentTypeSize_unknown (c : Int)
    (h : c ∉ [5120, 5121, 5122, 5123, 5125, 5126]) : GetComponentTypeSize c = 0 := by
  simp only [List.mem_cons, List.mem_singleton, not_or, List.mem_nil_iff, or_false] at h
  obtain ⟨h1, h2, h3, h4, h5, h6⟩ := h
  simp [GetComponentTypeSize, h1, h2, h3, h4, h5, h6]

theorem FStringEq_iff (A B : String) :
    FStringEq A B = true ↔ foldCase A.data = foldCase B.data := by
  simp [FStringEq]

theorem GetTypeSize_congr (s t : String) (h : foldCase s.data = foldCase t.data) :
    GetTypeSize s = GetTypeSize t := by
  have key : ∀ u : String, FStringEq s u = FStringEq t u := by
    intro u
    simp [FStringEq, h]
  simp [GetTypeSize, key]

theorem GetTypeSize_unknown (s : String)
    (h : ∀ t ∈ ["SCALAR", "VEC2", "VEC3", "VEC4", "MAT2", "MAT3", "MAT4"],
      foldCase s.data ≠ foldCase t.data) : GetTypeSize s = 0 := by
  have key : ∀ t ∈ ["SCALAR", "VEC2", "VEC3", "VEC4", "MAT2", "MAT3", "MAT4"],
      FStringEq s t = false := by
    intro t ht
    have := h t ht
    simpa [FStringEq] using this
  simp [GetTypeSize, key]

/-- When the accessor's element size or arity is 0, `GetAccessor` returns false. -/
theorem GetAccessor_fail_of_size_zero (Decode : String → Option (List Nat)) (Root : Document)
    (S : ParserState) (Index : Int) (Stride : Int) (Bytes : List Nat)
    (accs : List (Option JsonAccessor)) (acc : JsonAccessor)
    (h0 : 0 ≤ Index) (haccs : Root.accessors = some accs)
    (hacc : accs[Index.toNat]? = some (some acc))
    (hsz : ∀ c t, acc.componentType = some c → acc.type = some t →
      GetComponentTypeSize c = 0 ∨ GetTypeSize t = 0) :
    (GetAccessor Decode Root S Index Stride Bytes).1 = .fail := by
  have hneg : ¬ (Index < 0) := by omega
  have hlt := getElem?_index_bounds accs Index _ hneg hacc
  unfold GetAccessor
  simp only [hneg, haccs, hlt, hacc, if_false]
  cases hc : acc.componentType with
  | none => simp
  | some c =>
    cases hn : acc.count with
    | none => simp
    | some n =>
      cases ht : acc.type with
      | none => simp
      | some t =>
        rcases hsz c t hc ht with h | h
        · simp [h]
        · by_cases h2 : GetComponentTypeSize c = 0
          · simp [h2]
          · simp [h, h2]

/-- What a call of `GetBufferView` that returned true has done. -/
theorem GetBufferView_ok_inv (Decode : String → Option (List Nat)) (Root : Document)
    (S S1 : ParserState) (Index : Int) (Bytes Out : List Nat) (st : Int)
    (h : GetBufferView Decode Root S Index Bytes = (.ok (Out, st), S1)) :
    ∃ views v bi WholeData len Window,
      0 ≤ Index ∧ Root.bufferViews = some views ∧ views[Index.toNat]? = some (some v) ∧
      v.buffer = some bi ∧ GetBuffer Decode Root S (toInt32 bi) = (.ok WholeData, S1) ∧
      v.byteLength = some len ∧
      toInt64 (v.byteOffset.getD 0 + len) ≤ WholeData.length ∧
      readWindow WholeData (toInt32 (v.byteOffset.getD 0)) (toInt32 len) = some Window ∧
      Out = Bytes ++ Window ∧ st = v.byteStride.getD 0 := by
  unfold GetBufferView at h
  by_cases h0 : Index < 0
  · simp [h0] at h
  simp only [h0, if_false] at h
  cases hviews : Root.bufferViews with
  | none => simp [hviews] at h
  | some views =>
    simp only [hviews] at h
    by_cases hlen : Index ≥ (views.length : Int)
    · simp [hlen] at h
    simp only [hlen, if_false] at h
    cases hentry : views[Index.toNat]? with
    | none => simp [hentry] at h
    | some entry =>
      cases entry with
      | none => simp [hentry] at h
      | some v =>
        simp only [hentry] at h
        cases hbuf : v.buffer with
        | none => simp [hbuf] at h
        | some bi =>
          simp only [hbuf] at h
          cases hgb : GetBuffer Decode Root S (toInt32 bi) with
          | mk o S2 =>
            cases o with
            | ok WholeData =>
              simp only [hgb] at h
              cases hbl : v.byteLength with
              | none => simp [hbl] at h
              | some len =>
                simp only [hbl] at h
                by_cases hchk : toInt64 (v.byteOffset.getD 0 + len) > WholeData.length
                · simp [hchk] at h
                simp only [hchk, if_false] at h
                cases hw : readWindow WholeData (toInt32 (v.byteOffset.getD 0)) (toInt32 len) with
                | none => simp [hw] at h
                | some Window =>
                  simp only [hw, Prod.mk.injEq, Outcome.ok.injEq] at h
                  obtain ⟨⟨h1, h2⟩, h3⟩ := h
                  subst h3
                  exact ⟨views, v, bi, WholeData, len, Window, by omega, rfl, hentry, hbuf,
                    hgb, hbl, by omega, hw, h1.symm, h2.symm⟩
            | fail => simp [hgb] at h
            | fault => simp [hgb] at h
            | nofuel => simp [hgb] at h

/-- What a call of `GetAccessor` on an accessor with a buffer view has done when it returned
true. -/
theorem GetAccessor_view_ok_inv (Decode : String → Option (List Nat)) (Root : Document)
    (S S1 : ParserState) (Index : Int) (Stride : Int) (Bytes : List Nat) (d : AccessorData)
    (accs : List (Option JsonAccessor)) (acc : JsonAccessor) (bv : Int)
    (h0 : 0 ≤ Index) (haccs : Root.accessors = some accs)
    (hacc : accs[Index.toNat]? = some (some acc)) (hbv : acc.bufferView = some bv)
    (h : GetAccessor Decode Root S Index Stride Bytes = (.ok d, S1)) :
    ∃ ct n ty View st,
      acc.componentType = some ct ∧ acc.count = some n ∧ acc.type = some ty ∧
      GetBufferView Decode Root S (toInt32 bv) Bytes = (.ok (View, st), S1) ∧
      d.ComponentType = ct ∧ d.ElementSize = GetComponentTypeSize ct ∧
      d.Elements = GetTypeSize ty ∧ d.Count = n ∧
      d.Stride = (if st = 0 then GetComponentTypeSize ct * GetTypeSize ty else st) ∧
      (if acc.byteOffset.getD 0 > 0 then
        readWindow View (toInt32 (acc.byteOffset.getD 0))
          (toInt32 (toUInt64 (toInt64 (d.Stride * d.Count)))) = some d.Bytes
       else
        toUInt64 (toInt64 (d.Stride * d.Count)) ≤ View.length ∧ d.Bytes = View) := by
  have hneg : ¬ (Index < 0) := by omega
  have hlt := getElem?_index_bounds accs Index _ hneg hacc
  unfold GetAccessor at h
  simp only [hneg, haccs, hlt, hacc, if_false, hbv, Option.isNone_some, Option.getD_some] at h
  cases hc : acc.componentType with
  | none => simp [hc] at h
  | some ct =>
    cases hn : acc.count with
    | none => simp [hc, hn] at h
    | some n =>
      cases ht : acc.type with
      | none => simp [hc, hn, ht] at h
      | some ty =>
        simp only [hc, hn, ht] at h
        by_cases hes : GetComponentTypeSize ct = 0
        · simp [hes] at h
        by_cases hel : GetTypeSize ty = 0
        · simp [hes, hel] at h
        simp only [hes, hel, if_false] at h
        have hwrap : toInt64 (GetComponentTypeSize ct * GetTypeSize ty) =
            GetComponentTypeSize ct * GetTypeSize ty := by
          have := elementBytes_range ct ty
          exact toInt64_of_range _ (by omega) (by omega)
        cases hgv : GetBufferView Decode Root S (toInt32 bv) Bytes with
        | mk o S2 =>
          cases o with
          | ok res =>
            obtain ⟨View, st⟩ := res
            simp only [hgv, Bool.false_eq_true, if_false] at h
            by_cases hoff : acc.byteOffset.getD 0 > 0
            · by_cases hst : st = 0 <;>
                simp only [hst, hoff, hwrap, if_true, if_false] at h <;>
                split at h <;> (try split at h) <;>
                simp only [Prod.mk.injEq, Outcome.ok.injEq, reduceCtorEq, false_and] at h
              all_goals
                obtain ⟨h1, h2⟩ := h
                subst h1 h2
                refine ⟨ct, n, ty, View, st, rfl, rfl, rfl, rfl, rfl, rfl, rfl, rfl, ?_, ?_⟩ <;>
                  simp only [hst, hoff, if_true, if_false]
                assumption
            · by_cases hst : st = 0 <;>
                simp only [hst, hoff, hwrap, if_true, if_false] at h <;>
                split at h <;>
                simp only [Prod.mk.injEq, Outcome.ok.injEq, reduceCtorEq, false_and] at h
              all_goals
                obtain ⟨h1, h2⟩ := h
                subst h1 h2
                refine ⟨ct, n, ty, View, st, rfl, rfl, rfl, rfl, rfl, rfl, rfl, rfl, ?_, ?_⟩ <;>
                  simp only [hst, hoff, if_true, if_false]
                exact ⟨by assumption, trivial⟩
          | fail => simp [hgv] at h
          | fault => simp [hgv] at h
          | nofuel => simp [hgv] at h

/-- The window that `readWindow` returns. -/
theorem readWindow_some (A W : List Nat) (Offset Count : Int)
    (h : readWindow A Offset Count = some W) :
    0 ≤ Offset ∧ Offset < A.length ∧ 0 ≤ Count ∧ Offset + Count ≤ A.length ∧
      W = (A.drop Offset.toNat).take Count.toNat := by
  unfold readWindow at h
  split at h
  · rename_i hc
    simp only [Option.some.injEq] at h
    exact ⟨hc.1, hc.2.1, hc.2.2.1, hc.2.2.2, h.symm⟩
  · simp at h

/-! ## C1 -/

/-- C1: on the sample accessor 0 (`byteOffset` 4, 8 unsigned bytes) over the 8-byte buffer view 0,
`byteOffset + stride * count` is 12 > 8, and `GetAccessor` does not return false: it copies the 8
bytes that start at position 4 of the view, 4 of which lie outside it. -/
theorem C1_offset_window_unchecked :
    (GetBufferView sampleDecode sampleDocument ParserState.initial 0 []).1 =
      .ok ([0, 1, 2, 3, 4, 5, 6, 7], 0) ∧
    (4 : Int) + 1 * 8 > ([0, 1, 2, 3, 4, 5, 6, 7] : List Nat).length ∧
    (GetAccessor sampleDecode sampleDocument ParserState.initial 0 0 []).1 = .fault := by
  decide

/-! ## C2 -/

/-- C2, as stated, fails: the sample accessor 1 (no `byteOffset`, 4 unsigned bytes, stride 1)
over the 8-byte buffer view 0 is decoded to all 8 bytes of the view, not to 1 * 4 bytes. -/
theorem C2_accessor_window_counterexample :
    (GetAccessor sampleDecode sampleDocument ParserState.initial 1 0 []).1 =
      .ok ⟨5121, 1, 1, 1, 4, [0, 1, 2, 3, 4, 5, 6, 7]⟩ ∧
    (([0, 1, 2, 3, 4, 5, 6, 7] : List Nat).length : Int) ≠ 1 * 4 := by
  decide

/-- C2, amended: let `GetAccessor`, called with an empty output array, return true for an
accessor bound to a buffer view, with `byteOffset < 2^31` and `0 <= stride * count < 2^31`.
If `byteOffset > 0`, the returned bytes are exactly the `stride * count` bytes of the view that
start at `byteOffset`. If `byteOffset` is absent, 0 or negative, the returned bytes are the
whole view, whose length is at least `stride * count`. In both cases byte `k` of the result, for
`k < stride * count`, is byte `max(byteOffset, 0) + k` of the view. The view is what
`GetBufferView` returns into an empty array. -/
theorem C2_accessor_window (Decode : String → Option (List Nat)) (Root : Document)
    (S : ParserState) (Index Stride : Int) (d : AccessorData)
    (accs : List (Option JsonAccessor)) (acc : JsonAccessor) (bv : Int)
    (h0 : 0 ≤ Index) (haccs : Root.accessors = some accs)
    (hacc : accs[Index.toNat]? = some (some acc)) (hbv : acc.bufferView = some bv)
    (h : (GetAccessor Decode Root S Index Stride []).1 = .ok d)
    (hoff : acc.byteOffset.getD 0 < 2147483648)
    (hsz0 : 0 ≤ d.Stride * d.Count) (hsz : d.Stride * d.Count < 2147483648) :
    ∃ View st, (GetBufferView Decode Root S (toInt32 bv) []).1 = .ok (View, st) ∧
      (0 < acc.byteOffset.getD 0 →
        d.Bytes = (View.drop (acc.byteOffset.getD 0).toNat).take (d.Stride * d.Count).toNat ∧
        (d.Bytes.length : Int) = d.Stride * d.Count) ∧
      (acc.byteOffset.getD 0 ≤ 0 → d.Bytes = View ∧ d.Stride * d.Count ≤ View.length) ∧
      (∀ k : Nat, (k : Int) < d.Stride * d.Count →
        ∃ b, d.Bytes[k]? = some b ∧ View[(acc.byteOffset.getD 0).toNat + k]? = some b) := by
  have h' : GetAccessor Decode Root S Index Stride [] =
      (.ok d, (GetAccessor Decode Root S Index Stride []).2) := Prod.ext h rfl
  obtain ⟨ct, n, ty, View, st, _, _, _, hgv, _, _, _, _, _, hbytes⟩ :=
    GetAccessor_view_ok_inv Decode Root S _ Index Stride [] d accs acc bv h0 haccs hacc hbv h'
  have hfs : toUInt64 (toInt64 (d.Stride * d.Count)) = d.Stride * d.Count := by
    rw [toInt64_of_range _ (by omega) (by omega), toUInt64_of_range _ (by omega) (by omega)]
  rw [hfs] at hbytes
  refine ⟨View, st, by rw [hgv], ?_⟩
  by_cases hpos : acc.byteOffset.getD 0 > 0
  · simp only [hpos, if_true] at hbytes
    rw [toInt32_of_range _ (by omega) (by omega), toInt32_of_range _ (by omega) (by omega)]
      at hbytes
    obtain ⟨_, _, _, hin, hW⟩ := readWindow_some _ _ _ _ hbytes
    have hlen : d.Bytes.length = (d.Stride * d.Count).toNat := by
      rw [hW, List.length_take, List.length_drop]
      omega
    refine ⟨fun _ => ⟨hW, by omega⟩, fun hle => by omega, ?_⟩
    intro k hk
    have hk2 : k < (d.Stride * d.Count).toNat := by omega
    have hidx : (acc.byteOffset.getD 0).toNat + k < View.length := by omega
    refine ⟨View[(acc.byteOffset.getD 0).toNat + k], ?_, List.getElem?_eq_getElem hidx⟩
    rw [hW, List.getElem?_take_of_lt hk2, List.getElem?_drop, List.getElem?_eq_getElem hidx]
  · simp only [hpos, if_false] at hbytes
    obtain ⟨hle, hB⟩ := hbytes
    refine ⟨fun hgt => by omega, fun _ => ⟨hB, hle⟩, ?_⟩
    intro k hk
    have hz : (acc.byteOffset.getD 0).toNat = 0 := by omega
    have hidx : k < View.length := by omega
    refine ⟨View[k], ?_, ?_⟩
    · rw [hB, List.getElem?_eq_getElem hidx]
    · rw [hz, Nat.zero_add, List.getElem?_eq_getElem hidx]

/-- C2, amended, at a concrete input: the sample accessor 4 (`byteOffset` 2, 4 unsigned bytes)
over the 8-byte buffer view 0 is decoded to the bytes 2, 3, 4, 5. -/
theorem C2_accessor_window_witness :
    (GetAccessor sampleDecode sampleDocument ParserState.initial 4 0 []).1 =
      .ok ⟨5121, 1, 1, 1, 4, [2, 3, 4, 5]⟩ ∧
    ∃ View st, (GetBufferView sampleDecode sampleDocument ParserState.initial (toInt32 0) []).1 =
        .ok (View, st) ∧
      (0 < (2 : Int) → [2, 3, 4, 5] = (View.drop 2).take 4 ∧
        (([2, 3, 4, 5] : List Nat).length : Int) = 1 * 4) ∧
      ((2 : Int) ≤ 0 → [2, 3, 4, 5] = View ∧ (1 : Int) * 4 ≤ View.length) ∧
      (∀ k : Nat, (k : Int) < 1 * 4 →
        ∃ b, ([2, 3, 4, 5] : List Nat)[k]? = some b ∧ View[2 + k]? = some b) :=
  ⟨by decide,
   C2_accessor_window sampleDecode sampleDocument ParserState.initial 4 0
    ⟨5121, 1, 1, 1, 4, [2, 3, 4, 5]⟩ _
    { bufferView := some 0, byteOffset := some 2, componentType := some 5121,
      count := some 4, type := some "SCALAR" } 0
    (by decide) rfl rfl rfl (by decide) (by decide) (by decide) (by decide)⟩

/-! ## C3 -/

/-- C3, as stated, fails: the sample accessor without buffer view, of 4611686018427387904
float MAT4 elements, is decoded to an empty byte array, since the size 4 * 16 * count is
computed modulo 2^64. -/
theorem C3_zero_filled_counterexample :
    (GetAccessor sampleDecode sampleDocument ParserState.initial 2 0 []).1 =
      .ok ⟨5126, 0, 16, 4, 4611686018427387904, []⟩ ∧
    ((([] : List Nat).length : Int) ≠ 4 * 16 * 4611686018427387904) := by
  decide

/-- C3, amended: for an accessor without `bufferView`, with a known component type, a known type
string, `count >= 0` and `element_size * arity * count < 2^31`, `GetAccessor` (called with an
empty output array) returns true with a byte array of length `element_size * arity * count`
whose bytes are all 0, and with the accessor's component type, arity, element size and count;
the parser state is unchanged. -/
theorem C3_zero_filled (Decode : String → Option (List Nat)) (Root : Document)
    (S : ParserState) (Index Stride : Int) (accs : List (Option JsonAccessor))
    (acc : JsonAccessor) (ct n : Int) (ty : String)
    (h0 : 0 ≤ Index) (haccs : Root.accessors = some accs)
    (hacc : accs[Index.toNat]? = some (some acc)) (hbv : acc.bufferView = none)
    (hct : acc.componentType = some ct) (hknown : ct ∈ [5120, 5121, 5122, 5123, 5125, 5126])
    (hty : acc.type = some ty)
    (hknownTy : ty ∈ ["SCALAR", "VEC2", "VEC3", "VEC4", "MAT2", "MAT3", "MAT4"])
    (hn : acc.count = some n) (hn0 : 0 ≤ n)
    (hsize : GetComponentTypeSize ct * GetTypeSize ty * n < 2147483648) :
    ∃ Bytes : List Nat,
      GetAccessor Decode Root S Index Stride [] =
        (.ok ⟨ct, Stride, GetTypeSize ty, GetComponentTypeSize ct, n, Bytes⟩, S) ∧
      (Bytes.length : Int) = GetComponentTypeSize ct * GetTypeSize ty * n ∧
      ∀ b ∈ Bytes, b = 0 := by
  have hneg : ¬ (Index < 0) := by omega
  have hlt := getElem?_index_bounds accs Index _ hneg hacc
  have hes : GetComponentTypeSize ct ≠ 0 := by
    simp only [List.mem_cons, List.mem_singleton, List.mem_nil_iff, or_false] at hknown
    rcases hknown with rfl | rfl | rfl | rfl | rfl | rfl <;> decide
  have hel : GetTypeSize ty ≠ 0 := by
    simp only [List.mem_cons, List.mem_singleton, List.mem_nil_iff, or_false] at hknownTy
    rcases hknownTy with rfl | rfl | rfl | rfl | rfl | rfl | rfl <;> decide
  have hrange := elementBytes_range ct ty
  have hwrap : toInt64 (GetComponentTypeSize ct * GetTypeSize ty) =
      GetComponentTypeSize ct * GetTypeSize ty :=
    toInt64_of_range _ (by omega) (by omega)
  have hpos : 0 ≤ GetComponentTypeSize ct * GetTypeSize ty * n :=
    Int.mul_nonneg hrange.1 hn0
  have hfinal : toInt32 (toUInt64 (toInt64 (GetComponentTypeSize ct * GetTypeSize ty * n))) =
      GetComponentTypeSize ct * GetTypeSize ty * n := by
    rw [toInt64_of_range _ (by omega) (by omega), toUInt64_of_range _ (by omega) (by omega),
      toInt32_of_range _ (by omega) (by omega)]
  refine ⟨List.replicate (GetComponentTypeSize ct * GetTypeSize ty * n).toNat 0, ?_, ?_, ?_⟩
  · unfold GetAccessor
    simp only [hneg, haccs, hlt, hacc, if_false, hbv, hct, hn, hty, hes, hel, hwrap, hfinal,
      Option.isNone_none, if_true, AddZeroed, hpos, List.nil_append]
  · rw [List.length_replicate]
    omega
  · intro b hb
    exact List.eq_of_mem_replicate hb

/-- C3, amended, at a concrete input: the sample accessor of two VEC3 elements of unsigned
shorts without buffer view yields 12 zero bytes. -/
theorem C3_zero_filled_witness :
    ∃ Bytes : List Nat,
      GetAccessor sampleDecode sampleDocument ParserState.initial 3 7 [] =
        (.ok ⟨5123, 7, GetTypeSize "VEC3", GetComponentTypeSize 5123, 2, Bytes⟩,
          ParserState.initial) ∧
      (Bytes.length : Int) = GetComponentTypeSize 5123 * GetTypeSize "VEC3" * 2 ∧
      ∀ b ∈ Bytes, b = 0 :=
  C3_zero_filled sampleDecode sampleDocument ParserState.initial 3 7 _ _ 5123 2 "VEC3"
    (by decide) rfl rfl rfl rfl (by decide) rfl (by decide) rfl (by decide) (by decide)

/-! ## C4 -/

/-- C4: when `GetAccessor` returns true for an accessor bound to a buffer view, the returned
stride is `element_size * arity` if the buffer view declares no `byteStride` or declares 0, and
is the declared `byteStride` otherwise. The buffer view is the entry of `bufferViews` at the
accessor's `bufferView` index (as passed for the `int32` parameter of `GetBufferView`). -/
theorem C4_accessor_stride (Decode : String → Option (List Nat)) (Root : Document)
    (S : ParserState) (Index Stride : Int) (Bytes : List Nat) (d : AccessorData)
    (accs : List (Option JsonAccessor)) (acc : JsonAccessor) (bv : Int)
    (views : List (Option JsonBufferView)) (v : JsonBufferView)
    (h0 : 0 ≤ Index) (haccs : Root.accessors = some accs)
    (hacc : accs[Index.toNat]? = some (some acc)) (hbv : acc.bufferView = some bv)
    (hviews : Root.bufferViews = some views)
    (hv : views[(toInt32 bv).toNat]? = some (some v))
    (h : (GetAccessor Decode Root S Index Stride Bytes).1 = .ok d) :
    ∃ ct ty, acc.componentType = some ct ∧ acc.type = some ty ∧
      d.ElementSize = GetComponentTypeSize ct ∧ d.Elements = GetTypeSize ty ∧
      ((v.byteStride = none ∨ v.byteStride = some 0) → d.Stride = d.ElementSize * d.Elements) ∧
      (∀ st, v.byteStride = some st → st ≠ 0 → d.Stride = st) := by
  have h' : GetAccessor Decode Root S Index Stride Bytes =
      (.ok d, (GetAccessor Decode Root S Index Stride Bytes).2) := Prod.ext h rfl
  obtain ⟨ct, n, ty, View, st, hct, _, hty, hgv, _, hes, hel, _, hstride, _⟩ :=
    GetAccessor_view_ok_inv Decode Root S _ Index Stride Bytes d accs acc bv h0 haccs hacc hbv h'
  obtain ⟨views2, v2, _, _, _, _, _, hviews2, hv2, _, _, _, _, _, _, hst⟩ :=
    GetBufferView_ok_inv Decode Root S _ _ Bytes View st hgv
  rw [hviews] at hviews2
  cases hviews2
  rw [hv] at hv2
  cases hv2
  refine ⟨ct, ty, hct, hty, hes, hel, ?_, ?_⟩
  · intro hnone
    rw [hstride, hes, hel]
    rcases hnone with hnone | hnone <;> simp [hst, hnone]
  · intro st2 hsome hne
    rw [hstride]
    simp [hst, hsome, hne]

/-- C4 at a concrete input: the sample accessor over the buffer view with `byteStride` 4 gets
stride 4. -/
theorem C4_accessor_stride_witness :
    (GetAccessor sampleDecode sampleDocument ParserState.initial 8 0 []).1 =
      .ok ⟨5123, 4, 1, 2, 2, [0, 1, 2, 3, 4, 5, 6, 7]⟩ ∧
    ∃ ct ty, (some 5123 : Option Int) = some ct ∧ (some "SCALAR" : Option String) = some ty ∧
      (2 : Int) = GetComponentTypeSize ct ∧ (1 : Int) = GetTypeSize ty ∧
      (((some 4 : Option Int) = none ∨ (some 4 : Option Int) = some 0) → (4 : Int) = 2 * 1) ∧
      (∀ st, (some 4 : Option Int) = some st → st ≠ 0 → (4 : Int) = st) :=
  ⟨by decide,
   C4_accessor_stride sampleDecode sampleDocument ParserState.initial 8 0 []
    ⟨5123, 4, 1, 2, 2, [0, 1, 2, 3, 4, 5, 6, 7]⟩ _
    { bufferView := some 2, byteOffset := none, componentType := some 5123,
      count := some 2, type := some "SCALAR" } 2 _
    { buffer := some 0, byteLength := some 8, byteOffset := some 0, byteStride := some 4 }
    (by decide) rfl rfl rfl rfl rfl (by decide)⟩

/-! ## C5 -/

/-- C5: `GetComponentTypeSize` returns 1 for 5120 and 5121, 2 for 5122 and 5123, 4 for 5125 and
5126 and 0 for every other integer, and `GetAccessor` returns false for every accessor whose
`componentType` is none of these six codes. -/
theorem C5_component_type_size :
    GetComponentTypeSize 5120 = 1 ∧ GetComponentTypeSize 5121 = 1 ∧
    GetComponentTypeSize 5122 = 2 ∧ GetComponentTypeSize 5123 = 2 ∧
    GetComponentTypeSize 5125 = 4 ∧ GetComponentTypeSize 5126 = 4 ∧
    (∀ c : Int, c ∉ [5120, 5121, 5122, 5123, 5125, 5126] → GetComponentTypeSize c = 0) ∧
    (∀ (Decode : String → Option (List Nat)) (Root : Document) (S : ParserState)
      (Index Stride : Int) (Bytes : List Nat) (accs : List (Option JsonAccessor))
      (acc : JsonAccessor) (c : Int),
      0 ≤ Index → Root.accessors = some accs → accs[Index.toNat]? = some (some acc) →
      acc.componentType = some c → c ∉ [5120, 5121, 5122, 5123, 5125, 5126] →
      (GetAccessor Decode Root S Index Stride Bytes).1 = .fail) := by
  refine ⟨by decide, by decide, by decide, by decide, by decide, by decide,
    GetComponentTypeSize_unknown, ?_⟩
  intro Decode Root S Index Stride Bytes accs acc c h0 haccs hacc hc hnot
  apply GetAccessor_fail_of_size_zero Decode Root S Index Stride Bytes accs acc h0 haccs hacc
  intro c2 t hc2 _
  rw [hc] at hc2
  cases hc2
  exact Or.inl (GetComponentTypeSize_unknown c hnot)

/-- C5 at a concrete input: component type 5124 has size 0, and the accessor of the sample
document that declares it is rejected. -/
theorem C5_component_type_size_witness :
    GetComponentTypeSize 5124 = 0 ∧
    (GetAccessor sampleDecode sampleDocument ParserState.initial 5 0 []).1 = .fail :=
  ⟨C5_component_type_size.2.2.2.2.2.2.1 5124 (by decide),
   C5_component_type_size.2.2.2.2.2.2.2 sampleDecode sampleDocument ParserState.initial 5 0 []
     _ _ 5124 (by decide) rfl rfl rfl (by decide)⟩

/-! ## C6 -/

/-- C6, as stated, fails: the string "scalar" is none of the seven type strings, yet
`GetTypeSize` returns 1 for it, and the sample accessor of type "vec3" is decoded. -/
theorem C6_type_size_counterexample :
    "scalar" ∉ ["SCALAR", "VEC2", "VEC3", "VEC4", "MAT2", "MAT3", "MAT4"] ∧
    GetTypeSize "scalar" = 1 ∧
    "vec3" ∉ ["SCALAR", "VEC2", "VEC3", "VEC4", "MAT2", "MAT3", "MAT4"] ∧
    (GetAccessor sampleDecode sampleDocument ParserState.initial 6 0 []).1 =
      .ok ⟨5121, 3, 3, 1, 2, [0, 1, 2, 3, 4, 5, 6, 7]⟩ := by
  decide

/-- C6, amended: `GetTypeSize` returns 1, 2, 3, 4, 4, 9, 16 for SCALAR, VEC2, VEC3, VEC4, MAT2,
MAT3, MAT4, gives equal results for strings that differ only in the case of ASCII letters, and
returns 0 for every string that equals none of the seven ignoring case; `GetAccessor` returns
false for every accessor whose type string equals none of the seven ignoring case. -/
theorem C6_type_size_ignoring_case :
    (GetTypeSize "SCALAR" = 1 ∧ GetTypeSize "VEC2" = 2 ∧ GetTypeSize "VEC3" = 3 ∧
      GetTypeSize "VEC4" = 4 ∧ GetTypeSize "MAT2" = 4 ∧ GetTypeSize "MAT3" = 9 ∧
      GetTypeSize "MAT4" = 16) ∧
    (∀ s t : String, foldCase s.data = foldCase t.data → GetTypeSize s = GetTypeSize t) ∧
    (∀ s : String,
      (∀ t ∈ ["SCALAR", "VEC2", "VEC3", "VEC4", "MAT2", "MAT3", "MAT4"],
        foldCase s.data ≠ foldCase t.data) → GetTypeSize s = 0) ∧
    (∀ (Decode : String → Option (List Nat)) (Root : Document) (S : ParserState)
      (Index Stride : Int) (Bytes : List Nat) (accs : List (Option JsonAccessor))
      (acc : JsonAccessor) (s : String),
      0 ≤ Index → Root.accessors = some accs → accs[Index.toNat]? = some (some acc) →
      acc.type = some s →
      (∀ t ∈ ["SCALAR", "VEC2", "VEC3", "VEC4", "MAT2", "MAT3", "MAT4"],
        foldCase s.data ≠ foldCase t.data) →
      (GetAccessor Decode Root S Index Stride Bytes).1 = .fail) := by
  refine ⟨by decide, GetTypeSize_congr, GetTypeSize_unknown, ?_⟩
  intro Decode Root S Index Stride Bytes accs acc s h0 haccs hacc hs hnot
  apply GetAccessor_fail_of_size_zero Decode Root S Index Stride Bytes accs acc h0 haccs hacc
  intro c t _ ht
  rw [hs] at ht
  cases ht
  exact Or.inr (GetTypeSize_unknown s hnot)

/-- C6, amended, at concrete inputs: "Vec3" has the arity of "VEC3", "VEC5" has arity 0, and
the sample accessor of type "VEC5" is rejected. -/
theorem C6_type_size_ignoring_case_witness :
    GetTypeSize "Vec3" = GetTypeSize "VEC3" ∧ GetTypeSize "VEC5" = 0 ∧
    (GetAccessor sampleDecode sampleDocument ParserState.initial 7 0 []).1 = .fail :=
  ⟨C6_type_size_ignoring_case.2.1 "Vec3" "VEC3" (by decide),
   C6_type_size_ignoring_case.2.2.1 "VEC5" (by decide),
   C6_type_size_ignoring_case.2.2.2 sampleDecode sampleDocument ParserState.initial 7 0 []
     _ _ "VEC5" (by decide) rfl rfl rfl (by decide)⟩

/-! ## C7 -/

/-- For a buffer view with non-negative `byteOffset` and `byteLength` over a loadable buffer,
`GetBufferView` returns false when the window exceeds the buffer, and otherwise returns the
`byteLength` bytes of the buffer from `byteOffset` (the offset being inside the buffer). -/
theorem GetBufferView_window (Decode : String → Option (List Nat)) (Root : Document)
    (S S1 : ParserState) (Index : Int) (views : List (Option JsonBufferView))
    (v : JsonBufferView) (bi len : Int) (WholeData : List Nat)
    (h0 : 0 ≤ Index) (hviews : Root.bufferViews = some views)
    (hv : views[Index.toNat]? = some (some v)) (hb : v.buffer = some bi)
    (hgb : GetBuffer Decode Root S (toInt32 bi) = (.ok WholeData, S1))
    (hlen : v.byteLength = some len)
    (hoff0 : 0 ≤ v.byteOffset.getD 0) (hoff1 : v.byteOffset.getD 0 < 4611686018427387904)
    (hlen0 : 0 ≤ len) (hlen1 : len < 4611686018427387904)
    (hsize : WholeData.length < 2147483648) :
    (v.byteOffset.getD 0 + len > WholeData.length →
      GetBufferView Decode Root S Index [] = (.fail, S1)) ∧
    (v.byteOffset.getD 0 + len ≤ WholeData.length → v.byteOffset.getD 0 < WholeData.length →
      GetBufferView Decode Root S Index [] =
        (.ok ((WholeData.drop (v.byteOffset.getD 0).toNat).take len.toNat,
          v.byteStride.getD 0), S1)) := by
  have hneg : ¬ (Index < 0) := by omega
  have hlt := getElem?_index_bounds views Index _ hneg hv
  have hsum : toInt64 (v.byteOffset.getD 0 + len) = v.byteOffset.getD 0 + len :=
    toInt64_of_range _ (by omega) (by omega)
  constructor
  · intro hgt
    unfold GetBufferView
    simp only [hneg, if_false, hviews, hlt, hv, hb, hgb, hlen, hsum, hgt, if_true]
  · intro hle hin
    have hchk : ¬ (v.byteOffset.getD 0 + len > (WholeData.length : Int)) := by omega
    have h32a : toInt32 (v.byteOffset.getD 0) = v.byteOffset.getD 0 :=
      toInt32_of_range _ (by omega) (by omega)
    have h32b : toInt32 len = len := toInt32_of_range _ (by omega) (by omega)
    have hcond : 0 ≤ v.byteOffset.getD 0 ∧ v.byteOffset.getD 0 < (WholeData.length : Int) ∧
        0 ≤ len ∧ v.byteOffset.getD 0 + len ≤ (WholeData.length : Int) :=
      ⟨hoff0, hin, hlen0, hle⟩
    unfold GetBufferView
    simp only [hneg, if_false, hviews, hlt, hv, hb, hgb, hlen, hsum, hchk, h32a, h32b,
      readWindow, hcond, and_self, if_true, List.nil_append]

/-- C7: on the sample buffer view 1 (`byteOffset` -1, `byteLength` 1) over the loadable 8-byte
buffer 0, `byteOffset + byteLength` is 0, which does not exceed the buffer size, and
`GetBufferView` does not return false: it copies the byte at position -1 of the buffer. -/
theorem C7_negative_offset_unchecked :
    (GetBuffer sampleDecode sampleDocument ParserState.initial 0).1 =
      .ok [0, 1, 2, 3, 4, 5, 6, 7] ∧
    (GetBufferView sampleDecode sampleDocument ParserState.initial 1 []).1 = .fault := by
  decide

/-! ## Substring search -/

/-- A result of `Stristr` is the first position at which the needle matches. -/
theorem Stristr_some (Sub : List Char) :
    ∀ (Str : List Char) (Pos i : Nat), Stristr Str Sub Pos = some i →
      Pos ≤ i ∧ matchesAt (Str.drop (i - Pos)) Sub = true ∧
      ∀ j, Pos ≤ j → j < i → matchesAt (Str.drop (j - Pos)) Sub = false := by
  intro Str
  induction Str with
  | nil => intro Pos i h; simp [Stristr] at h
  | cons c cs ih =>
    intro Pos i h
    unfold Stristr at h
    by_cases hm : matchesAt (c :: cs) Sub = true
    · simp only [hm, if_true, Option.some.injEq] at h
      subst h
      refine ⟨Nat.le_refl _, by simpa using hm, ?_⟩
      intro j h1 h2
      omega
    · simp only [hm] at h
      obtain ⟨h1, h2, h3⟩ := ih (Pos + 1) i h
      refine ⟨by omega, ?_, ?_⟩
      · have : i - Pos = (i - (Pos + 1)) + 1 := by omega
        rw [this, List.drop_succ_cons]
        exact h2
      · intro j hj1 hj2
        by_cases hj : j = Pos
        · subst hj
          simpa using hm
        · have : j - Pos = (j - (Pos + 1)) + 1 := by omega
          rw [this, List.drop_succ_cons]
          exact h3 j (by omega) hj2

/-- When `Stristr` finds nothing, the needle matches at no position of the string. -/
theorem Stristr_none (Sub : List Char) :
    ∀ (Str : List Char) (Pos : Nat), Stristr Str Sub Pos = none →
      ∀ j, j < Str.length → matchesAt (Str.drop j) Sub = false := by
  intro Str
  induction Str with
  | nil => intro Pos _ j hj; simp at hj
  | cons c cs ih =>
    intro Pos h j hj
    unfold Stristr at h
    by_cases hm : matchesAt (c :: cs) Sub = true
    · simp [hm] at h
    · simp only [hm] at h
      cases j with
      | zero => simpa using hm
      | succ j =>
        rw [List.drop_succ_cons]
        exact ih (Pos + 1) h j (by simpa using hj)

/-- A non-empty needle matches nowhere at or after the end of the string. -/
theorem matchesAt_of_length_le (Str Sub : List Char) (j : Nat) (hSub : Sub ≠ [])
    (hj : Str.length ≤ j) : matchesAt (Str.drop j) Sub = false := by
  have hnil : Str.drop j = [] := List.drop_eq_nil_of_le hj
  rw [hnil]
  unfold matchesAt foldCase
  cases Sub with
  | nil => exact absurd rfl hSub
  | cons a as => simp

/-- What `Find` returns when searching from position 5. -/
theorem Find_spec (Str Sub : String) (hSub : Sub.data ≠ []) (hlen : 5 ≤ Str.data.length) :
    (Find Str Sub 5 < 5 → ∀ k, 5 ≤ k → matchesAt (Str.data.drop k) Sub.data = false) ∧
    (5 ≤ Find Str Sub 5 → ∃ k : Nat, Find Str Sub 5 = (k : Int) ∧ 5 ≤ k ∧
      matchesAt (Str.data.drop k) Sub.data = true ∧
      ∀ j, 5 ≤ j → j < k → matchesAt (Str.data.drop j) Sub.data = false) := by
  unfold Find
  simp only []
  have hstart : min 5 (Str.data.length - 1) ≤ 5 := Nat.min_le_left _ _
  have hstart2 : min 5 (Str.data.length - 1) ≤ Str.data.length := by omega
  cases hS : Stristr (Str.data.drop (min 5 (Str.data.length - 1))) Sub.data
      (min 5 (Str.data.length - 1)) with
  | none =>
    simp only [INDEX_NONE]
    refine ⟨fun _ k hk => ?_, fun h => by omega⟩
    by_cases hk2 : k < Str.data.length
    · have := Stristr_none Sub.data _ _ hS (k - min 5 (Str.data.length - 1))
        (by rw [List.length_drop]; omega)
      rw [List.drop_drop] at this
      have he : min 5 (Str.data.length - 1) + (k - min 5 (Str.data.length - 1)) = k := by omega
      rw [he] at this
      exact this
    · exact matchesAt_of_length_le _ _ _ hSub (by omega)
  | some i =>
    obtain ⟨h1, h2, h3⟩ := Stristr_some Sub.data _ _ _ hS
    rw [List.drop_drop] at h2
    have he : min 5 (Str.data.length - 1) + (i - min 5 (Str.data.length - 1)) = i := by omega
    rw [he] at h2
    simp only []
    refine ⟨fun hlt k hk => ?_, fun hge => ⟨i, rfl, by omega, h2, ?_⟩⟩
    · have hi4 : i < 5 := by omega
      have hmin : min 5 (Str.data.length - 1) = Str.data.length - 1 := by omega
      exact matchesAt_of_length_le _ _ _ hSub (by omega)
    · intro j hj1 hj2
      have := h3 j (by omega) hj2
      rw [List.drop_drop] at this
      have he2 : min 5 (Str.data.length - 1) + (j - min 5 (Str.data.length - 1)) = j := by omega
      rw [he2] at this
      exact this

/-- A match at the start needs a string at least as long as the needle. -/
theorem length_le_of_matchesAt (Str Sub : List Char) (h : matchesAt Str Sub = true) :
    Sub.length ≤ Str.length := by
  unfold matchesAt foldCase at h
  have h2 := congrArg List.length (beq_iff_eq.1 h)
  simp only [List.length_map, List.length_take] at h2
  omega

/-! ## C8 -/

/-- C8, as stated, fails: the uri of the sample buffer 1 begins with "data:" and does not
contain ";base64," (it contains ";BASE64,"), yet `GetBuffer` returns true with the decoded
payload. -/
theorem C8_data_uri_counterexample :
    ¬ (";base64,".data <:+: "data:application/octet-stream;BASE64,AAEC".data) ∧
    (GetBuffer sampleDecode sampleDocument ParserState.initial 1).1 = .ok [0, 1, 2] := by
  decide

/-- C8, amended: for a buffer index that is not cached, `GetBuffer` returns false when the
buffer's uri does not begin with "data:" or has no occurrence of ";base64," at position 5 or
later, both compared ignoring the case of ASCII letters; and when it returns true, the uri
begins with "data:" (ignoring case), the buffer has a `byteLength`, the payload after the first
occurrence of ";base64," at position 5 or later (ignoring case) decodes, and the decoded bytes
are returned and cached under the index. -/
theorem C8_data_uri (Decode : String → Option (List Nat)) (Root : Document) (S : ParserState)
    (Index : Int) (bs : List (Option JsonBuffer)) (b : JsonBuffer) (Uri : String)
    (h0 : 0 ≤ Index) (hnc : S.BuffersCache.lookup Index = none)
    (hbs : Root.buffers = some bs) (hb : bs[Index.toNat]? = some (some b))
    (huri : b.uri = some Uri) :
    (matchesAt Uri.data "data:".data = false → GetBuffer Decode Root S Index = (.fail, S)) ∧
    ((∀ k, 5 ≤ k → matchesAt (Uri.data.drop k) ";base64,".data = false) →
      GetBuffer Decode Root S Index = (.fail, S)) ∧
    (∀ Bytes S1, GetBuffer Decode Root S Index = (.ok Bytes, S1) →
      matchesAt Uri.data "data:".data = true ∧ b.byteLength ≠ none ∧
      ∃ k, 5 ≤ k ∧ matchesAt (Uri.data.drop k) ";base64,".data = true ∧
        (∀ j, 5 ≤ j → j < k → matchesAt (Uri.data.drop j) ";base64,".data = false) ∧
        Decode (String.mk (Uri.data.drop (k + 8))) = some Bytes ∧
        S1 = { S with BuffersCache := (Index, Bytes) :: S.BuffersCache } ∧
        S1.BuffersCache.lookup Index = some Bytes) := by
  have hneg : ¬ (Index < 0) := by omega
  have hlt := getElem?_index_bounds bs Index _ hneg hb
  have hsw : StartsWith Uri "data:" = matchesAt Uri.data "data:".data := by
    simp [StartsWith]
  have hsig : ";base64,".data ≠ [] := by decide
  have hunfold : GetBuffer Decode Root S Index =
      match b.byteLength with
      | none => (.fail, S)
      | some _ =>
        if !matchesAt Uri.data "data:".data then (.fail, S)
        else if Find Uri ";base64," 5 < 5 then (.fail, S)
        else
          match Decode (Mid Uri (Find Uri ";base64," 5 + (8 : Nat))) with
          | some Bytes =>
            (.ok Bytes, { S with BuffersCache := (Index, Bytes) :: S.BuffersCache })
          | none => (.fail, S) := by
    unfold GetBuffer
    simp only [hneg, if_false, hnc, hbs, hlt, hb, huri, hsw]
    rfl
  rw [hunfold]
  cases hbl : b.byteLength with
  | none => simp
  | some len =>
    simp only []
    by_cases hm : matchesAt Uri.data "data:".data = true
    · have hlen5 : 5 ≤ Uri.data.length := length_le_of_matchesAt _ _ hm
      obtain ⟨hF1, hF2⟩ := Find_spec Uri ";base64," hsig hlen5
      simp only [hm, Bool.not_true, Bool.false_eq_true, if_false]
      refine ⟨fun h => by simp at h, ?_, ?_⟩
      · intro hno
        by_cases hF : Find Uri ";base64," 5 < 5
        · simp [hF]
        · obtain ⟨k, _, hk5, hk, _⟩ := hF2 (by omega)
          rw [hno k hk5] at hk
          exact absurd hk (by simp)
      · intro Bytes S1 hok
        by_cases hF : Find Uri ";base64," 5 < 5
        · simp [hF] at hok
        · simp only [hF, if_false] at hok
          obtain ⟨k, hkeq, hk5, hk, hfirst⟩ := hF2 (by omega)
          have hmid : Mid Uri (Find Uri ";base64," 5 + (8 : Nat)) =
              String.mk (Uri.data.drop (k + 8)) := by
            unfold Mid
            rw [hkeq]
            have : ((k : Int) + ((8 : Nat) : Int)).toNat = k + 8 := by omega
            rw [this]
          rw [hmid] at hok
          cases hd : Decode (String.mk (Uri.data.drop (k + 8))) with
          | none => simp [hd] at hok
          | some B =>
            simp only [hd, Prod.mk.injEq, Outcome.ok.injEq] at hok
            obtain ⟨h1, h2⟩ := hok
            subst h1
            refine ⟨trivial, by simp, k, hk5, hk, hfirst, hd, h2.symm, ?_⟩
            rw [← h2]
            simp [List.lookup]
    · have hm2 : matchesAt Uri.data "data:".data = false := by simpa using hm
      simp [hm2]

/-- C8, amended, at a concrete input: the uri of the sample buffer 2, "file.bin", is rejected,
and loading the sample buffer 0 caches its 8 bytes. -/
theorem C8_data_uri_witness :
    GetBuffer sampleDecode sampleDocument ParserState.initial 2 =
      (.fail, ParserState.initial) ∧
    (GetBuffer sampleDecode sampleDocument ParserState.initial 0).1 =
      .ok [0, 1, 2, 3, 4, 5, 6, 7] ∧
    (GetBuffer sampleDecode sampleDocument ParserState.initial 0).2.BuffersCache.lookup 0 =
      some [0, 1, 2, 3, 4, 5, 6, 7] :=
  ⟨(C8_data_uri sampleDecode sampleDocument ParserState.initial 2 _ _ "file.bin"
      (by decide) rfl rfl rfl rfl).1 (by decide),
   by decide,
   ((C8_data_uri sampleDecode sampleDocument ParserState.initial 0 _ _
      "data:application/octet-stream;base64,AAECAwQFBgc=" (by decide) rfl rfl rfl rfl).2.2
      [0, 1, 2, 3, 4, 5, 6, 7] _ (Prod.ext (by decide) rfl)).2.2.elim
        (fun _ hk => hk.2.2.2.2.2)⟩

/-! ## Node loading -/

/-- When the children loop succeeds, it has added exactly the declared entries, each narrowed to
32 bits, and all of them are below the node count. -/
theorem loadChildren_some (NodesCount : Int) :
    ∀ (JsonChildren : List (Option Int)) (ChildrenIndices Result : List Int),
      loadChildren NodesCount JsonChildren ChildrenIndices = some Result →
      Result.map some = ChildrenIndices.map some ++ JsonChildren.map (Option.map toInt32) ∧
      ∀ v, some v ∈ JsonChildren → v < NodesCount := by
  intro JsonChildren
  induction JsonChildren with
  | nil =>
    intro acc r h
    simp only [loadChildren, Option.some.injEq] at h
    subst h
    simp
  | cons c cs ih =>
    intro acc r h
    cases c with
    | none => simp [loadChildren] at h
    | some w =>
      unfold loadChildren at h
      by_cases hw : w ≥ NodesCount
      · simp [hw] at h
      · simp only [hw, if_false] at h
        obtain ⟨h1, h2⟩ := ih _ _ h
        refine ⟨by simpa using h1, ?_⟩
        intro v hv
        rcases List.mem_cons.1 hv with h3 | h3
        · cases h3
          omega
        · exact h2 v h3

/-- What `LoadNode_Internal` has set when it returns true. -/
theorem LoadNode_Internal_some (Config : ParserConfig) (Index : Int) (JsonNodeObject : JsonNode)
    (NodesCount : Int) (Node Result : FglTFRuntimeNode)
    (h : LoadNode_Internal Config Index JsonNodeObject NodesCount Node = some Result) :
    Result.Index = Index ∧ Result.ParentIndex = Node.ParentIndex ∧
    Result.ChildrenIndices.map some =
      Node.ChildrenIndices.map some ++
        (JsonNodeObject.children.getD []).map (Option.map toInt32) ∧
    ∀ v, some v ∈ JsonNodeObject.children.getD [] → v < NodesCount := by
  unfold LoadNode_Internal at h
  cases hM : nodeMatrix JsonNodeObject with
  | none => simp [hM] at h
  | some M =>
    simp only [hM] at h
    cases hc : JsonNodeObject.children with
    | none =>
      simp only [hc, Option.some.injEq] at h
      subst h
      simp
    | some cs =>
      simp only [hc] at h
      cases hl : loadChildren NodesCount cs Node.ChildrenIndices with
      | none => simp [hl] at h
      | some r =>
        simp only [hl, Option.some.injEq] at h
        subst h
        obtain ⟨h1, h2⟩ := loadChildren_some NodesCount cs _ _ hl
        exact ⟨rfl, rfl, by simpa using h1, by simpa using h2⟩

/-- Whether the first loop of `LoadNodes` succeeds does not depend on the table it adds to. -/
theorem loadAllNodes_fst_indep (Config : ParserConfig) (NodesCount : Int) :
    ∀ (JsonNodes : List (Option JsonNode)) (Index : Int) (C C2 : List FglTFRuntimeNode),
      (loadAllNodes Config NodesCount JsonNodes Index C).1 =
        (loadAllNodes Config NodesCount JsonNodes Index C2).1 := by
  intro JsonNodes
  induction JsonNodes with
  | nil => intro _ _ _; rfl
  | cons e rest ih =>
    intro Index C C2
    cases e with
    | none => rfl
    | some obj =>
      unfold loadAllNodes
      cases LoadNode_Internal Config Index obj NodesCount defaultNode with
      | none => rfl
      | some Node => exact ih _ _ _

/-- When the first loop of `LoadNodes` succeeds, it has added one node per entry, each the result
of `LoadNode_Internal` on that entry. -/
theorem loadAllNodes_true (Config : ParserConfig) (NodesCount : Int) :
    ∀ (JsonNodes : List (Option JsonNode)) (Index : Int) (C C2 : List FglTFRuntimeNode),
      loadAllNodes Config NodesCount JsonNodes Index C = (true, C2) →
      ∃ L, C2 = C ++ L ∧ L.length = JsonNodes.length ∧
        ∀ k, k < JsonNodes.length → ∃ obj Node,
          JsonNodes[k]? = some (some obj) ∧ L[k]? = some Node ∧
          LoadNode_Internal Config (Index + k) obj NodesCount defaultNode = some Node := by
  intro JsonNodes
  induction JsonNodes with
  | nil =>
    intro Index C C2 h
    simp only [loadAllNodes, Prod.mk.injEq, true_and] at h
    exact ⟨[], by simp [h], rfl, fun k hk => by simp at hk⟩
  | cons e rest ih =>
    intro Index C C2 h
    cases e with
    | none => simp [loadAllNodes] at h
    | some obj =>
      unfold loadAllNodes at h
      cases hN : LoadNode_Internal Config Index obj NodesCount defaultNode with
      | none => simp [hN] at h
      | some Node =>
        simp only [hN] at h
        obtain ⟨L, hL1, hL2, hL3⟩ := ih _ _ _ h
        refine ⟨Node :: L, by simp [hL1], by simp [hL2], ?_⟩
        intro k hk
        cases k with
        | zero => exact ⟨obj, Node, by simp, by simp, by simpa using hN⟩
        | succ k =>
          obtain ⟨obj2, Node2, h1, h2, h3⟩ := hL3 k (by simpa using hk)
          refine ⟨obj2, Node2, by simpa using h1, by simpa using h2, ?_⟩
          have : Index + ((k + 1 : Nat) : Int) = Index + 1 + (k : Int) := by omega
          rw [this]
          exact h3

/-- Setting a parent link changes nothing but parent links. -/
theorem setParent_forget :
    ∀ (C : List FglTFRuntimeNode) (Pos : Nat) (Parent : Int),
      (setParent C Pos Parent).map forgetParent = C.map forgetParent := by
  intro C
  induction C with
  | nil => intro _ _; rfl
  | cons n rest ih =>
    intro Pos Parent
    cases Pos with
    | zero => simp [setParent, forgetParent]
    | succ Pos => simp [setParent, ih]

/-- One turn of the children loop of `FixNodeParent`, on the element read as an `int32`. -/
theorem fixChildren_cons
    (recurse : List FglTFRuntimeNode → Nat → Outcome (List FglTFRuntimeNode))
    (NodeIndex : Int) (c : Int) (cs : List Int) (C : List FglTFRuntimeNode) :
    fixChildren recurse NodeIndex (c :: cs) C =
      if 0 ≤ toInt32 c ∧ toInt32 c < (C.length : Int) then
        match recurse (setParent C (toInt32 c).toNat NodeIndex) (toInt32 c).toNat with
        | .ok C1 => fixChildren recurse NodeIndex cs C1
        | other => other
      else .fault := rfl

/-- The children loop of `FixNodeParent` changes nothing but parent links, when the recursive
call does not. -/
theorem fixChildren_forget
    (recurse : List FglTFRuntimeNode → Nat → Outcome (List FglTFRuntimeNode))
    (hrec : ∀ C Pos C2, recurse C Pos = .ok C2 → C2.map forgetParent = C.map forgetParent)
    (NodeIndex : Int) :
    ∀ (Children : List Int) (C C2 : List FglTFRuntimeNode),
      fixChildren recurse NodeIndex Children C = .ok C2 →
      C2.map forgetParent = C.map forgetParent := by
  intro Children
  induction Children with
  | nil =>
    intro C C2 h
    simp only [fixChildren, Outcome.ok.injEq] at h
    rw [h]
  | cons c cs ih =>
    intro C C2 h
    rw [fixChildren_cons] at h
    by_cases hc : 0 ≤ toInt32 c ∧ toInt32 c < (C.length : Int)
    · simp only [hc, and_self, if_true] at h
      cases hr : recurse (setParent C (toInt32 c).toNat NodeIndex) (toInt32 c).toNat with
      | ok C1 =>
        simp only [hr] at h
        rw [ih _ _ h, hrec _ _ _ hr, setParent_forget]
      | fail => simp [hr] at h
      | fault => simp [hr] at h
      | nofuel => simp [hr] at h
    · simp [hc] at h

/-- Function `FixNodeParent` changes nothing but parent links. -/
theorem FixNodeParent_forget :
    ∀ (fuel : Nat) (C : List FglTFRuntimeNode) (Pos : Nat) (C2 : List FglTFRuntimeNode),
      FixNodeParent fuel C Pos = .ok C2 → C2.map forgetParent = C.map forgetParent := by
  intro fuel
  induction fuel with
  | zero => intro C Pos C2 h; simp [FixNodeParent] at h
  | succ fuel ih =>
    intro C Pos C2 h
    unfold FixNodeParent at h
    cases hn : C[Pos]? with
    | none => simp [hn] at h
    | some Node =>
      simp only [hn] at h
      exact fixChildren_forget (FixNodeParent fuel) ih _ _ _ _ h

/-- The second loop of `LoadNodes` changes nothing but parent links. -/
theorem fixAllParents_forget (fuel : Nat) :
    ∀ (Positions : List Nat) (C C2 : List FglTFRuntimeNode),
      fixAllParents fuel Positions C = .ok C2 → C2.map forgetParent = C.map forgetParent := by
  intro Positions
  induction Positions with
  | nil =>
    intro C C2 h
    simp only [fixAllParents, Outcome.ok.injEq] at h
    rw [h]
  | cons p ps ih =>
    intro C C2 h
    unfold fixAllParents at h
    cases hr : FixNodeParent fuel C p with
    | ok C1 =>
      simp only [hr] at h
      rw [ih _ _ h, FixNodeParent_forget _ _ _ _ hr]
    | fail => simp [hr] at h
    | fault => simp [hr] at h
    | nofuel => simp [hr] at h

/-- Tables that agree up to parent links have the same length and, position by position, the
same children. -/
theorem forget_eq_children (C C2 : List FglTFRuntimeNode)
    (h : C2.map forgetParent = C.map forgetParent) :
    C2.length = C.length ∧
    ∀ (i : Nat) (Node : FglTFRuntimeNode), C[i]? = some Node →
      ∃ Node2 : FglTFRuntimeNode, C2[i]? = some Node2 ∧
      Node2.ChildrenIndices = Node.ChildrenIndices ∧ Node2.Index = Node.Index := by
  have hlen : C2.length = C.length := by
    have := congrArg List.length h
    simpa using this
  refine ⟨hlen, ?_⟩
  intro i Node hi
  have hlt : i < C.length := (List.getElem?_eq_some.1 hi).1
  have hlt2 : i < C2.length := by omega
  refine ⟨C2[i], List.getElem?_eq_getElem hlt2, ?_⟩
  have h1 : (C2.map forgetParent)[i]? = (C.map forgetParent)[i]? := by rw [h]
  rw [List.getElem?_map, List.getElem?_map, hi, List.getElem?_eq_getElem hlt2] at h1
  simp only [Option.map_some', Option.some.injEq] at h1
  have hc : (forgetParent C2[i]).ChildrenIndices = (forgetParent Node).ChildrenIndices := by
    rw [h1]
  have hx : (forgetParent C2[i]).Index = (forgetParent Node).Index := by
    rw [h1]
  exact ⟨hc, hx⟩

theorem childrenAt_of_forget (C C2 : List FglTFRuntimeNode)
    (h : C2.map forgetParent = C.map forgetParent) (i : Nat) :
    childrenAt C2 i = childrenAt C i := by
  obtain ⟨hlen, hsame⟩ := forget_eq_children C C2 h
  unfold childrenAt
  cases hi : C[i]? with
  | none =>
    have : C2[i]? = none := by
      rw [List.getElem?_eq_none_iff] at hi ⊢
      omega
    rw [this]
  | some Node =>
    obtain ⟨Node2, h2, h3, _⟩ := hsame i Node hi
    rw [h2]
    exact h3

theorem length_of_forget (C C2 : List FglTFRuntimeNode)
    (h : C2.map forgetParent = C.map forgetParent) : C2.length = C.length :=
  (forget_eq_children C C2 h).1

theorem ChildrenInt32_of_forget (C C2 : List FglTFRuntimeNode)
    (h : C2.map forgetParent = C.map forgetParent) (hI : ChildrenInt32 C) : ChildrenInt32 C2 := by
  intro i c hc
  rw [childrenAt_of_forget C C2 h] at hc
  exact hI i c hc

/-- The children loop of `FixNodeParent` does not return false, when the recursive call does
not. -/
theorem fixChildren_ne_fail
    (recurse : List FglTFRuntimeNode → Nat → Outcome (List FglTFRuntimeNode))
    (hrec : ∀ C Pos, recurse C Pos ≠ .fail) (NodeIndex : Int) :
    ∀ (Children : List Int) (C : List FglTFRuntimeNode),
      fixChildren recurse NodeIndex Children C ≠ .fail := by
  intro Children
  induction Children with
  | nil => intro C; simp [fixChildren]
  | cons c cs ih =>
    intro C
    rw [fixChildren_cons]
    by_cases hc : 0 ≤ toInt32 c ∧ toInt32 c < (C.length : Int)
    · simp only [hc, and_self, if_true]
      cases hr : recurse (setParent C (toInt32 c).toNat NodeIndex) (toInt32 c).toNat with
      | ok C1 => exact ih C1
      | fail => exact absurd hr (hrec _ _)
      | fault => simp
      | nofuel => simp
    · simp [hc]

/-- Function `FixNodeParent` does not return false. -/
theorem FixNodeParent_ne_fail :
    ∀ (fuel : Nat) (C : List FglTFRuntimeNode) (Pos : Nat), FixNodeParent fuel C Pos ≠ .fail := by
  intro fuel
  induction fuel with
  | zero => intro C Pos; simp [FixNodeParent]
  | succ fuel ih =>
    intro C Pos
    unfold FixNodeParent
    cases hn : C[Pos]? with
    | none => simp
    | some Node => exact fixChildren_ne_fail (FixNodeParent fuel) ih _ _ _

/-- The second loop of `LoadNodes` does not return false. -/
theorem fixAllParents_ne_fail (fuel : Nat) :
    ∀ (Positions : List Nat) (C : List FglTFRuntimeNode),
      fixAllParents fuel Positions C ≠ .fail := by
  intro Positions
  induction Positions with
  | nil => intro C; simp [fixAllParents]
  | cons p ps ih =>
    intro C
    unfold fixAllParents
    cases hr : FixNodeParent fuel C p with
    | ok C1 => exact ih C1
    | fail => exact absurd hr (FixNodeParent_ne_fail _ _ _)
    | fault => simp
    | nofuel => simp

/-- What a call of `LoadNodes` that returned true has done. -/
theorem LoadNodes_ok_inv (fuel : Nat) (Config : ParserConfig) (Root : Document)
    (S : ParserState) (h : (LoadNodes fuel Config Root S).1 = .ok ()) :
    (S.bAllNodesCached = true ∧ (LoadNodes fuel Config Root S).2 = S) ∨
    (S.bAllNodesCached = false ∧ ∃ JsonNodes C Fixed,
      Root.nodes = some JsonNodes ∧
      loadAllNodes Config (toInt32 JsonNodes.length) JsonNodes 0 S.AllNodesCache = (true, C) ∧
      fixAllParents fuel (List.range C.length) C = .ok Fixed ∧
      (LoadNodes fuel Config Root S).2 =
        { S with AllNodesCache := Fixed, bAllNodesCached := true }) := by
  unfold LoadNodes at h ⊢
  by_cases hflag : S.bAllNodesCached = true
  · left
    simp [hflag]
  · right
    have hflag2 : S.bAllNodesCached = false := by simpa using hflag
    refine ⟨hflag2, ?_⟩
    simp only [hflag2, Bool.false_eq_true, if_false] at h ⊢
    cases hn : Root.nodes with
    | none => simp [hn] at h
    | some JsonNodes =>
      simp only [hn] at h ⊢
      cases hl : loadAllNodes Config (toInt32 JsonNodes.length) JsonNodes 0 S.AllNodesCache with
      | mk ok C =>
        cases ok with
        | false => simp [hl] at h
        | true =>
          simp only [hl] at h ⊢
          cases hf : fixAllParents fuel (List.range C.length) C with
          | ok Fixed => exact ⟨JsonNodes, C, Fixed, rfl, hl, hf, by simp [hf]⟩
          | fail => simp [hf] at h
          | fault => simp [hf] at h
          | nofuel => simp [hf] at h

/-- What a call of `LoadNodes` that returned false has done. -/
theorem LoadNodes_fail_inv (fuel : Nat) (Config : ParserConfig) (Root : Document)
    (S : ParserState) (h : (LoadNodes fuel Config Root S).1 = .fail) :
    S.bAllNodesCached = false ∧
    ((Root.nodes = none ∧ (LoadNodes fuel Config Root S).2 = S) ∨
     ∃ JsonNodes C, Root.nodes = some JsonNodes ∧
      loadAllNodes Config (toInt32 JsonNodes.length) JsonNodes 0 S.AllNodesCache = (false, C) ∧
      (LoadNodes fuel Config Root S).2 = { S with AllNodesCache := C }) := by
  unfold LoadNodes at h ⊢
  by_cases hflag : S.bAllNodesCached = true
  · simp [hflag] at h
  · have hflag2 : S.bAllNodesCached = false := by simpa using hflag
    refine ⟨hflag2, ?_⟩
    simp only [hflag2, Bool.false_eq_true, if_false] at h ⊢
    cases hn : Root.nodes with
    | none => left; simp
    | some JsonNodes =>
      right
      simp only [hn] at h ⊢
      cases hl : loadAllNodes Config (toInt32 JsonNodes.length) JsonNodes 0 S.AllNodesCache with
      | mk ok C =>
        cases ok with
        | false => exact ⟨JsonNodes, C, rfl, hl, by simp⟩
        | true =>
          simp only [hl] at h
          cases hf : fixAllParents fuel (List.range C.length) C with
          | ok Fixed => simp [hf] at h
          | fail => exact absurd hf (fixAllParents_ne_fail _ _ _)
          | fault => simp [hf] at h
          | nofuel => simp [hf] at h

/-- C9: once a call of `LoadNodes` has returned true, every later call returns true, whatever its
budget, and leaves the parser state, so the node table, unchanged; so does every series of later
calls. -/
theorem C9_load_nodes_idempotent (fuel : Nat) (Config : ParserConfig) (Root : Document)
    (S : ParserState) (h : (LoadNodes fuel Config Root S).1 = .ok ()) :
    (∀ fuel2, LoadNodes fuel2 Config Root (LoadNodes fuel Config Root S).2 =
      (.ok (), (LoadNodes fuel Config Root S).2)) ∧
    (∀ fuels, LoadNodesCalls Config Root fuels (LoadNodes fuel Config Root S).2 =
      some (LoadNodes fuel Config Root S).2) := by
  have hflag : (LoadNodes fuel Config Root S).2.bAllNodesCached = true := by
    rcases LoadNodes_ok_inv fuel Config Root S h with ⟨h1, h2⟩ | ⟨_, _, _, _, _, _, _, h2⟩
    · rw [h2]
      exact h1
    · rw [h2]
  have hstep : ∀ fuel2, LoadNodes fuel2 Config Root (LoadNodes fuel Config Root S).2 =
      (.ok (), (LoadNodes fuel Config Root S).2) := by
    intro fuel2
    generalize (LoadNodes fuel Config Root S).2 = S1 at hflag
    unfold LoadNodes
    simp [hflag]
  refine ⟨hstep, ?_⟩
  intro fuels
  induction fuels with
  | nil => rfl
  | cons f fs ih =>
    unfold LoadNodesCalls
    rw [hstep f]
    exact ih

/-- C9 at a concrete input: after `LoadNodes` has loaded the sample tree, a second call, here
with budget 0, returns true and leaves the state unchanged. -/
theorem C9_load_nodes_idempotent_witness :
    (LoadNodes 3 sampleConfig sampleTree ParserState.initial).1 = .ok () ∧
    LoadNodes 0 sampleConfig sampleTree (LoadNodes 3 sampleConfig sampleTree ParserState.initial).2 =
      (.ok (), (LoadNodes 3 sampleConfig sampleTree ParserState.initial).2) :=
  ⟨by decide,
   (C9_load_nodes_idempotent 3 sampleConfig sampleTree ParserState.initial (by decide)).1 0⟩

/-! ## C10 -/

theorem TableForest_of_forget (height : Nat → Nat) (C C2 : List FglTFRuntimeNode)
    (h : C2.map forgetParent = C.map forgetParent) (hF : TableForest height C) :
    TableForest height C2 := by
  obtain ⟨h1, h2, h3, h4⟩ := hF
  have hc := childrenAt_of_forget C C2 h
  have hlen := length_of_forget C C2 h
  refine ⟨?_, ?_, ?_, ?_⟩
  · intro i Node2 hi
    obtain ⟨_, hsame⟩ := forget_eq_children C2 C h.symm
    obtain ⟨Node, hn, _, hidx⟩ := hsame i Node2 hi
    rw [← hidx]
    exact h1 i Node hn
  · intro i c hcm
    rw [hc] at hcm
    rw [hlen]
    exact h2 i c hcm
  · intro i j c hi hj
    rw [hc] at hi hj
    exact h3 i j c hi hj
  · intro i c hcm
    rw [hc] at hcm
    exact h4 i c hcm

theorem setParent_length :
    ∀ (C : List FglTFRuntimeNode) (Pos : Nat) (Parent : Int),
      (setParent C Pos Parent).length = C.length := by
  intro C Pos Parent
  have := congrArg List.length (setParent_forget C Pos Parent)
  simpa using this

theorem parentAt_setParent :
    ∀ (C : List FglTFRuntimeNode) (Pos : Nat) (Parent : Int) (j : Nat),
      parentAt (setParent C Pos Parent) j =
        if j = Pos ∧ Pos < C.length then Parent else parentAt C j := by
  intro C
  induction C with
  | nil => intro Pos Parent j; simp [setParent, parentAt]
  | cons n rest ih =>
    intro Pos Parent j
    cases Pos with
    | zero =>
      cases j with
      | zero => simp [setParent, parentAt]
      | succ j => simp [setParent, parentAt]
    | succ Pos =>
      cases j with
      | zero => simp [setParent, parentAt]
      | succ j =>
        have := ih Pos Parent j
        simp only [parentAt, setParent, List.getElem?_cons_succ, List.length_cons,
          Nat.add_lt_add_iff_right, Nat.add_right_cancel_iff] at this ⊢
        exact this

theorem ExtendsParents_refl (C : List FglTFRuntimeNode) (h : ParentsSound C) :
    ExtendsParents C C :=
  ⟨rfl, h, fun _ _ => rfl⟩

theorem ExtendsParents_trans (C C2 C3 : List FglTFRuntimeNode) (h1 : ExtendsParents C C2)
    (h2 : ExtendsParents C2 C3) : ExtendsParents C C3 := by
  refine ⟨h2.1.trans h1.1, h2.2.1, ?_⟩
  intro c hc
  have hk := h1.2.2 c hc
  rw [h2.2.2 c (by rw [hk]; exact hc), hk]

/-- Setting the parent link of a child of the node at position `p` to `p` extends the table. -/
theorem setParent_extends (height : Nat → Nat) (C : List FglTFRuntimeNode)
    (hF : TableForest height C) (hS : ParentsSound C) (p : Nat) (c : Int)
    (hc : c ∈ childrenAt C p) :
    ExtendsParents C (setParent C c.toNat (p : Int)) ∧
    parentAt (setParent C c.toNat (p : Int)) c.toNat = (p : Int) := by
  obtain ⟨_, hvalid, huniq, _⟩ := hF
  obtain ⟨hc0, hc1⟩ := hvalid p c hc
  have hlt : c.toNat < C.length := by omega
  have hcast : ((c.toNat : Nat) : Int) = c := by omega
  have hfg := setParent_forget C c.toNat (p : Int)
  have hch := childrenAt_of_forget C _ hfg
  refine ⟨⟨hfg, ?_, ?_⟩, ?_⟩
  · intro j hj
    rw [setParent_length] at hj
    rw [parentAt_setParent]
    by_cases hjc : j = c.toNat
    · right
      refine ⟨p, ?_, by simp [hjc, hlt]⟩
      rw [hch, hjc, hcast]
      exact hc
    · rcases hS j hj with h | ⟨q, hq1, hq2⟩
      · left
        simp [hjc, h]
      · right
        refine ⟨q, ?_, by simp [hjc, hq2]⟩
        rw [hch]
        exact hq1
  · intro j hj
    rw [parentAt_setParent]
    by_cases hjc : j = c.toNat
    · subst hjc
      simp only [hlt, and_self, if_true]
      rcases hS c.toNat hlt with h | ⟨q, hq1, hq2⟩
      · exact absurd h hj
      · rw [hcast] at hq1
        rw [hq2, huniq q p c hq1 hc]
    · simp [hjc]
  · rw [parentAt_setParent]
    simp [hlt]

/-- The children loop of `FixNodeParent` on children of the node at position `p` extends the
table and links every child it went through to `p`, when the recursive call extends tables. -/
theorem fixChildren_extends (height : Nat → Nat)
    (recurse : List FglTFRuntimeNode → Nat → Outcome (List FglTFRuntimeNode))
    (hrec : ∀ C Pos C2, TableForest height C → ChildrenInt32 C → ParentsSound C →
      recurse C Pos = .ok C2 → ExtendsParents C C2)
    (p : Nat) :
    ∀ (Children : List Int) (C C2 : List FglTFRuntimeNode),
      TableForest height C → ChildrenInt32 C → ParentsSound C →
      (∀ c ∈ Children, c ∈ childrenAt C p) →
      fixChildren recurse (p : Int) Children C = .ok C2 →
      ExtendsParents C C2 ∧ ∀ c ∈ Children, parentAt C2 c.toNat = (p : Int) := by
  intro Children
  induction Children with
  | nil =>
    intro C C2 _ _ hS _ h
    simp only [fixChildren, Outcome.ok.injEq] at h
    subst h
    exact ⟨ExtendsParents_refl C hS, fun c hc => by simp at hc⟩
  | cons c cs ih =>
    intro C C2 hF hI hS hsub h
    have hcm : c ∈ childrenAt C p := hsub c (List.mem_cons_self _ _)
    rw [fixChildren_cons, hI p c hcm] at h
    by_cases hc : 0 ≤ c ∧ c < (C.length : Int)
    · simp only [hc, and_self, if_true] at h
      obtain ⟨hE1, hP1⟩ := setParent_extends height C hF hS p c hcm
      cases hr : recurse (setParent C c.toNat (p : Int)) c.toNat with
      | ok C1 =>
        simp only [hr] at h
        have hF1 := TableForest_of_forget height C _ hE1.1 hF
        have hE2 := hrec _ _ _ hF1 (ChildrenInt32_of_forget C _ hE1.1 hI) hE1.2.1 hr
        have hE12 := ExtendsParents_trans _ _ _ hE1 hE2
        have hF2 := TableForest_of_forget height C _ hE12.1 hF
        have hsub2 : ∀ c2 ∈ cs, c2 ∈ childrenAt C1 p := by
          intro c2 hc2
          rw [childrenAt_of_forget C C1 hE12.1]
          exact hsub c2 (List.mem_cons_of_mem _ hc2)
        obtain ⟨hE3, hP3⟩ := ih C1 C2 hF2 (ChildrenInt32_of_forget C _ hE12.1 hI) hE12.2.1
          hsub2 h
        refine ⟨ExtendsParents_trans _ _ _ hE12 hE3, ?_⟩
        intro c2 hc2
        rcases List.mem_cons.1 hc2 with h1 | h1
        · subst h1
          have hne : (p : Int) ≠ INDEX_NONE := by
            unfold INDEX_NONE
            omega
          have hk1 : parentAt C1 c2.toNat = (p : Int) := by
            rw [hE2.2.2 c2.toNat (by rw [hP1]; exact hne), hP1]
          rw [hE3.2.2 c2.toNat (by rw [hk1]; exact hne), hk1]
        · exact hP3 c2 h1
      | fail => simp [hr] at h
      | fault => simp [hr] at h
      | nofuel => simp [hr] at h
    · simp [hc] at h

/-- Function `FixNodeParent` on a forest extends the table and links every child of the node to
it. -/
theorem FixNodeParent_extends (height : Nat → Nat) :
    ∀ (fuel : Nat) (C : List FglTFRuntimeNode) (Pos : Nat) (C2 : List FglTFRuntimeNode),
      TableForest height C → ChildrenInt32 C → ParentsSound C →
      FixNodeParent fuel C Pos = .ok C2 →
      ExtendsParents C C2 ∧ ∀ c ∈ childrenAt C Pos, parentAt C2 c.toNat = (Pos : Int) := by
  intro fuel
  induction fuel with
  | zero => intro C Pos C2 _ _ _ h; simp [FixNodeParent] at h
  | succ fuel ih =>
    intro C Pos C2 hF hI hS h
    unfold FixNodeParent at h
    cases hn : C[Pos]? with
    | none => simp [hn] at h
    | some Node =>
      simp only [hn] at h
      rw [hF.1 Pos Node hn] at h
      have hch : childrenAt C Pos = Node.ChildrenIndices := by
        unfold childrenAt
        rw [hn]
      rw [hch]
      exact fixChildren_extends height (FixNodeParent fuel)
        (fun C Pos C2 hF hI hS h => (ih C Pos C2 hF hI hS h).1) Pos Node.ChildrenIndices C C2
        hF hI hS (fun c hc => by rw [hch]; exact hc) h

/-- The second loop of `LoadNodes` on a forest extends the table and links the children of
every position it went through. -/
theorem fixAllParents_extends (height : Nat → Nat) (fuel : Nat) :
    ∀ (Positions : List Nat) (C C2 : List FglTFRuntimeNode),
      TableForest height C → ChildrenInt32 C → ParentsSound C →
      fixAllParents fuel Positions C = .ok C2 →
      ExtendsParents C C2 ∧
      ∀ p ∈ Positions, ∀ c ∈ childrenAt C p, parentAt C2 c.toNat = (p : Int) := by
  intro Positions
  induction Positions with
  | nil =>
    intro C C2 _ _ hS h
    simp only [fixAllParents, Outcome.ok.injEq] at h
    subst h
    exact ⟨ExtendsParents_refl C hS, fun p hp => by simp at hp⟩
  | cons p ps ih =>
    intro C C2 hF hI hS h
    unfold fixAllParents at h
    cases hr : FixNodeParent fuel C p with
    | ok C1 =>
      simp only [hr] at h
      obtain ⟨hE1, hP1⟩ := FixNodeParent_extends height fuel C p C1 hF hI hS hr
      have hF1 := TableForest_of_forget height C _ hE1.1 hF
      obtain ⟨hE2, hP2⟩ := ih C1 C2 hF1 (ChildrenInt32_of_forget C _ hE1.1 hI) hE1.2.1 h
      refine ⟨ExtendsParents_trans _ _ _ hE1 hE2, ?_⟩
      intro q hq c hc
      rcases List.mem_cons.1 hq with h1 | h1
      · subst h1
        have hne : (q : Int) ≠ INDEX_NONE := by
          unfold INDEX_NONE
          omega
        rw [hE2.2.2 c.toNat (by rw [hP1 c hc]; exact hne), hP1 c hc]
      · refine hP2 q h1 c ?_
        rw [childrenAt_of_forget C C1 hE1.1]
        exact hc
    | fail => simp [hr] at h
    | fault => simp [hr] at h
    | nofuel => simp [hr] at h

/-- The children loop of `FixNodeParent` returns on a forest, when the recursive call returns
on every node of height below `bound`. -/
theorem fixChildren_returns (height : Nat → Nat)
    (recurse : List FglTFRuntimeNode → Nat → Outcome (List FglTFRuntimeNode)) (bound : Nat)
    (hrec : ∀ C Pos, TableForest height C → ChildrenInt32 C → Pos < C.length →
      height Pos < bound → ∃ C2, recurse C Pos = .ok C2)
    (hrecf : ∀ C Pos C2, recurse C Pos = .ok C2 → C2.map forgetParent = C.map forgetParent)
    (p : Nat) (NodeIndex : Int) (hp : height p ≤ bound) :
    ∀ (Children : List Int) (C : List FglTFRuntimeNode),
      TableForest height C → ChildrenInt32 C → (∀ c ∈ Children, c ∈ childrenAt C p) →
      ∃ C2, fixChildren recurse NodeIndex Children C = .ok C2 := by
  intro Children
  induction Children with
  | nil => intro C _ _ _; exact ⟨C, rfl⟩
  | cons c cs ih =>
    intro C hF hI hsub
    have hcm : c ∈ childrenAt C p := hsub c (List.mem_cons_self _ _)
    obtain ⟨hc0, hc1⟩ := hF.2.1 p c hcm
    have hh := hF.2.2.2 p c hcm
    have hfg := setParent_forget C c.toNat NodeIndex
    have hF1 := TableForest_of_forget height C _ hfg hF
    obtain ⟨C1, hr⟩ := hrec (setParent C c.toNat NodeIndex) c.toNat hF1
      (ChildrenInt32_of_forget C _ hfg hI) (by rw [setParent_length]; omega) (by omega)
    have hfg2 := (hrecf _ _ _ hr).trans hfg
    have hF2 := TableForest_of_forget height C _ hfg2 hF
    obtain ⟨C2, h2⟩ := ih C1 hF2 (ChildrenInt32_of_forget C _ hfg2 hI) (fun c2 hc2 => by
      rw [childrenAt_of_forget C C1 hfg2]
      exact hsub c2 (List.mem_cons_of_mem _ hc2))
    refine ⟨C2, ?_⟩
    rw [fixChildren_cons, hI p c hcm]
    simp only [hc0, hc1, and_self, if_true, hr]
    exact h2

/-- Function `FixNodeParent` returns on a forest when the budget exceeds the height of the
node. -/
theorem FixNodeParent_returns (height : Nat → Nat) :
    ∀ (fuel : Nat) (C : List FglTFRuntimeNode) (Pos : Nat),
      TableForest height C → ChildrenInt32 C → Pos < C.length → height Pos < fuel →
      ∃ C2, FixNodeParent fuel C Pos = .ok C2 := by
  intro fuel
  induction fuel with
  | zero => intro C Pos _ _ _ h; omega
  | succ fuel ih =>
    intro C Pos hF hI hlt hh
    unfold FixNodeParent
    rw [List.getElem?_eq_getElem hlt]
    have hch : childrenAt C Pos = C[Pos].ChildrenIndices := by
      unfold childrenAt
      rw [List.getElem?_eq_getElem hlt]
    exact fixChildren_returns height (FixNodeParent fuel) fuel ih
      (FixNodeParent_forget fuel) Pos _ (by omega) _ C hF hI
      (fun c hc => by rw [hch]; exact hc)

/-- The second loop of `LoadNodes` returns on a forest when the budget exceeds the heights. -/
theorem fixAllParents_returns (height : Nat → Nat) (fuel : Nat) :
    ∀ (Positions : List Nat) (C : List FglTFRuntimeNode),
      TableForest height C → ChildrenInt32 C →
      (∀ p ∈ Positions, p < C.length ∧ height p < fuel) →
      ∃ C2, fixAllParents fuel Positions C = .ok C2 := by
  intro Positions
  induction Positions with
  | nil => intro C _ _ _; exact ⟨C, rfl⟩
  | cons p ps ih =>
    intro C hF hI hps
    obtain ⟨hp1, hp2⟩ := hps p (List.mem_cons_self _ _)
    obtain ⟨C1, hr⟩ := FixNodeParent_returns height fuel C p hF hI hp1 hp2
    have hfg := FixNodeParent_forget fuel C p C1 hr
    have hF1 := TableForest_of_forget height C _ hfg hF
    obtain ⟨C2, h2⟩ := ih C1 hF1 (ChildrenInt32_of_forget C _ hfg hI) (fun q hq => by
      rw [length_of_forget C C1 hfg]
      exact hps q (List.mem_cons_of_mem _ hq))
    refine ⟨C2, ?_⟩
    unfold fixAllParents
    simp only [hr]
    exact h2

/-- The table that the first loop of `LoadNodes` builds from an empty table: one node per entry,
with its position as index, no parent link, and the declared children narrowed to 32 bits, each
declared child being below the node count. -/
theorem loadAllNodes_table (Config : ParserConfig) (JsonNodes : List (Option JsonNode))
    (C : List FglTFRuntimeNode)
    (hl : loadAllNodes Config (toInt32 JsonNodes.length) JsonNodes 0 [] = (true, C)) :
    C.length = JsonNodes.length ∧
    (∀ (i : Nat) (Node : FglTFRuntimeNode), C[i]? = some Node →
      Node.Index = (i : Int) ∧ Node.ParentIndex = INDEX_NONE) ∧
    (∀ i : Nat, (childrenAt C i).map some =
      (declaredChildren JsonNodes i).map (Option.map toInt32)) ∧
    (∀ (i : Nat) (v : Int), some v ∈ declaredChildren JsonNodes i →
      v < toInt32 (JsonNodes.length : Int)) := by
  obtain ⟨L, hL1, hL2, hL3⟩ := loadAllNodes_true Config _ _ _ _ _ hl
  simp only [List.nil_append] at hL1
  subst hL1
  refine ⟨hL2, ?_, ?_, ?_⟩
  · intro i Node hi
    have hlt : i < JsonNodes.length := by
      have := (List.getElem?_eq_some.1 hi).1
      omega
    obtain ⟨obj, Node2, _, h2, h3⟩ := hL3 i hlt
    rw [hi] at h2
    cases h2
    obtain ⟨h4, h5, _, _⟩ := LoadNode_Internal_some _ _ _ _ _ _ h3
    exact ⟨by rw [h4]; omega, by rw [h5]; rfl⟩
  · intro i
    by_cases hlt : i < JsonNodes.length
    · obtain ⟨obj, Node, h1, h2, h3⟩ := hL3 i hlt
      obtain ⟨_, _, h6, _⟩ := LoadNode_Internal_some _ _ _ _ _ _ h3
      unfold childrenAt declaredChildren
      rw [h1, h2]
      simpa [defaultNode] using h6
    · unfold childrenAt declaredChildren
      have h1 : C[i]? = none := by
        rw [List.getElem?_eq_none_iff]
        omega
      have h2 : JsonNodes[i]? = none := by
        rw [List.getElem?_eq_none_iff]
        omega
      rw [h1, h2]
      rfl
  · intro i v hv
    by_cases hlt : i < JsonNodes.length
    · obtain ⟨obj, Node, h1, h2, h3⟩ := hL3 i hlt
      obtain ⟨_, _, _, h7⟩ := LoadNode_Internal_some _ _ _ _ _ _ h3
      unfold declaredChildren at hv
      rw [h1] at hv
      exact h7 v hv
    · unfold declaredChildren at hv
      rw [List.getElem?_eq_none_iff.2 (by omega)] at hv
      simp at hv

/-- On a forest document, the table built by the first loop of `LoadNodes` is a forest without
parent links, and its children are `int32` values: the declared children themselves. -/
theorem loadAllNodes_forest (Config : ParserConfig) (JsonNodes : List (Option JsonNode))
    (C : List FglTFRuntimeNode) (height : Nat → Nat) (hforest : IsForest height JsonNodes)
    (hl : loadAllNodes Config (toInt32 JsonNodes.length) JsonNodes 0 [] = (true, C)) :
    TableForest height C ∧ ParentsSound C ∧ ChildrenInt32 C := by
  obtain ⟨hlen, hnodes, hch, hbelow⟩ := loadAllNodes_table Config JsonNodes C hl
  obtain ⟨hv, hu, hh⟩ := hforest
  have hmem : ∀ (i : Nat) (c : Int), c ∈ childrenAt C i →
      some c ∈ declaredChildren JsonNodes i := by
    intro i c hc
    have hm : some c ∈ (declaredChildren JsonNodes i).map (Option.map toInt32) := by
      rw [← hch i]
      exact List.mem_map_of_mem some hc
    obtain ⟨o, ho1, ho2⟩ := List.mem_map.1 hm
    cases o with
    | none => simp at ho2
    | some v =>
      simp only [Option.map_some', Option.some.injEq] at ho2
      have h0 := (hv i v ho1).1
      have h1 := hbelow i v ho1
      have h2 := toInt32_lt (JsonNodes.length : Int)
      rw [toInt32_of_range v (by omega) (by omega)] at ho2
      rw [← ho2]
      exact ho1
  have hint : ChildrenInt32 C := by
    intro i c hc
    have h0 := (hv i c (hmem i c hc)).1
    have h1 := hbelow i c (hmem i c hc)
    have h2 := toInt32_lt (JsonNodes.length : Int)
    exact toInt32_of_range c (by omega) (by omega)
  refine ⟨⟨fun i Node hi => (hnodes i Node hi).1, ?_, ?_, ?_⟩, ?_, hint⟩
  · intro i c hc
    rw [hlen]
    exact hv i c (hmem i c hc)
  · intro i j c hi hj
    exact hu i j c (hmem i c hi) (hmem j c hj)
  · intro i c hc
    exact hh i c (hmem i c hc)
  · intro c hc
    left
    unfold parentAt
    rw [List.getElem?_eq_getElem hc]
    exact (hnodes c _ (List.getElem?_eq_getElem hc)).2

/-- In a forest table with sound parent links in which every child is linked to its parent,
parent links round-trip against the children lists. -/
theorem parentsAsDeclared_of (height : Nat → Nat) (T : List FglTFRuntimeNode)
    (hF : TableForest height T) (hS : ParentsSound T)
    (hall : ∀ (p : Nat) (c : Int), c ∈ childrenAt T p → parentAt T c.toNat = (p : Int)) :
    ParentsAsDeclared T := by
  have hpa : ∀ (i : Nat) (n : FglTFRuntimeNode), T[i]? = some n →
      parentAt T i = n.ParentIndex := by
    intro i n hi
    unfold parentAt
    rw [hi]
  have hca : ∀ (i : Nat) (n : FglTFRuntimeNode), T[i]? = some n →
      childrenAt T i = n.ChildrenIndices := by
    intro i n hi
    unfold childrenAt
    rw [hi]
  constructor
  · intro i j n p hi hj
    have hilt : i < T.length := (List.getElem?_eq_some.1 hi).1
    rw [hF.1 i n hi, hF.1 j p hj, ← hpa i n hi, ← hca j p hj]
    constructor
    · intro hpar
      rcases hS i hilt with h | ⟨q, hq1, hq2⟩
      · rw [h] at hpar
        unfold INDEX_NONE at hpar
        omega
      · have : q = j := by omega
        subst this
        exact hq1
    · intro hmem
      have := hall j (i : Int) hmem
      simpa using this
  · intro i n hi hno
    have hilt : i < T.length := (List.getElem?_eq_some.1 hi).1
    rw [← hpa i n hi]
    rcases hS i hilt with h | ⟨q, hq1, _⟩
    · exact h
    · exfalso
      have hq : q < T.length := by
        by_contra hcon
        unfold childrenAt at hq1
        rw [List.getElem?_eq_none_iff.2 (by omega)] at hq1
        simp at hq1
      refine hno q T[q] (List.getElem?_eq_getElem hq) ?_
      rw [hF.1 i n hi, ← hca q T[q] (List.getElem?_eq_getElem hq)]
      exact hq1

/-- On a forest document, a loaded table has parent links that round-trip. -/
theorem TableLoaded_parents (Config : ParserConfig) (Root : Document)
    (JsonNodes : List (Option JsonNode)) (T : List FglTFRuntimeNode) (height : Nat → Nat)
    (hn : Root.nodes = some JsonNodes) (hforest : IsForest height JsonNodes)
    (hT : TableLoaded Config Root T) : TableForest height T ∧ ParentsAsDeclared T := by
  obtain ⟨fuel, ns, C, hn2, hl, hf⟩ := hT
  rw [hn] at hn2
  cases hn2
  obtain ⟨hF, hS, hI⟩ := loadAllNodes_forest Config JsonNodes C height hforest hl
  obtain ⟨hE, hP⟩ := fixAllParents_extends height fuel _ C T hF hI hS hf
  have hFT := TableForest_of_forget height C T hE.1 hF
  refine ⟨hFT, parentsAsDeclared_of height T hFT hE.2.1 ?_⟩
  intro p c hc
  rw [childrenAt_of_forget C T hE.1] at hc
  have hp : p < C.length := by
    by_contra hcon
    unfold childrenAt at hc
    rw [List.getElem?_eq_none_iff.2 (by omega)] at hc
    simp at hc
  exact hP p (List.mem_range.2 hp) c hc

/-- A call of `LoadNodes` that returns keeps the invariant `LoadedInvariant`. -/
theorem LoadNodes_loadedInvariant (fuel : Nat) (Config : ParserConfig) (Root : Document)
    (S : ParserState) (hinv : LoadedInvariant Config Root S)
    (h : (LoadNodes fuel Config Root S).1 = .ok () ∨ (LoadNodes fuel Config Root S).1 = .fail) :
    LoadedInvariant Config Root (LoadNodes fuel Config Root S).2 := by
  rcases h with h | h
  · rcases LoadNodes_ok_inv fuel Config Root S h with ⟨_, hS⟩ | ⟨hflag, ns, C, Fixed, hn, hl, hf, hS⟩
    · rw [hS]
      exact hinv
    · rw [hS]
      rcases hinv with ⟨h1, _⟩ | ⟨_, h2⟩ | ⟨_, h3⟩
      · rw [hflag] at h1
        cases h1
      · rw [h2] at hl
        exact Or.inl ⟨rfl, fuel, ns, C, hn, hl, hf⟩
      · have := h3 ns hn S.AllNodesCache
        rw [hl] at this
        cases this
  · obtain ⟨hflag, hcase⟩ := LoadNodes_fail_inv fuel Config Root S h
    rcases hcase with ⟨_, hS⟩ | ⟨ns, C, hn, hl, hS⟩
    · rw [hS]
      exact hinv
    · rw [hS]
      refine Or.inr (Or.inr ⟨hflag, ?_⟩)
      intro ns2 hn2 C2
      rw [hn] at hn2
      cases hn2
      rw [loadAllNodes_fst_indep Config _ ns 0 C2 S.AllNodesCache, hl]

/-- Every state reached by calls of `LoadNodes` from a state that keeps `LoadedInvariant` keeps
it. -/
theorem LoadNodesCalls_loadedInvariant (Config : ParserConfig) (Root : Document) :
    ∀ (fuels : List Nat) (S0 S : ParserState), LoadedInvariant Config Root S0 →
      LoadNodesCalls Config Root fuels S0 = some S → LoadedInvariant Config Root S := by
  intro fuels
  induction fuels with
  | nil =>
    intro S0 S hinv h
    simp only [LoadNodesCalls, Option.some.injEq] at h
    rw [← h]
    exact hinv
  | cons f fs ih =>
    intro S0 S hinv h
    unfold LoadNodesCalls at h
    cases hr : LoadNodes f Config Root S0 with
    | mk o S1 =>
      have hS1 : S1 = (LoadNodes f Config Root S0).2 := by rw [hr]
      cases o with
      | ok u =>
        simp only [hr] at h
        refine ih S1 S ?_ h
        rw [hS1]
        exact LoadNodes_loadedInvariant f Config Root S0 hinv (Or.inl (by rw [hr]))
      | fail =>
        simp only [hr] at h
        refine ih S1 S ?_ h
        rw [hS1]
        exact LoadNodes_loadedInvariant f Config Root S0 hinv (Or.inr (by rw [hr]))
      | fault => simp [hr] at h
      | nofuel => simp [hr] at h

/-- After every call of `LoadNodes` that returns true in a state reached by calls of `LoadNodes`
from a parser without nodes, the nodes are cached and the table is loaded. -/
theorem LoadNodes_reached_loaded (Config : ParserConfig) (Root : Document)
    (S0 S : ParserState) (fuels : List Nat) (fuel : Nat)
    (hflag : S0.bAllNodesCached = false) (hempty : S0.AllNodesCache = [])
    (hcalls : LoadNodesCalls Config Root fuels S0 = some S)
    (hok : (LoadNodes fuel Config Root S).1 = .ok ()) :
    (LoadNodes fuel Config Root S).2.bAllNodesCached = true ∧
    TableLoaded Config Root (LoadNodes fuel Config Root S).2.AllNodesCache := by
  have hinv := LoadNodesCalls_loadedInvariant Config Root fuels S0 S
    (Or.inr (Or.inl ⟨hflag, hempty⟩)) hcalls
  have hinv2 := LoadNodes_loadedInvariant fuel Config Root S hinv (Or.inl hok)
  have hflag2 : (LoadNodes fuel Config Root S).2.bAllNodesCached = true := by
    rcases LoadNodes_ok_inv fuel Config Root S hok with ⟨h1, h2⟩ | ⟨_, _, _, _, _, _, _, h2⟩
    · rw [h2]
      exact h1
    · rw [h2]
  refine ⟨hflag2, ?_⟩
  rcases hinv2 with ⟨_, hT⟩ | ⟨h2, _⟩ | ⟨h3, _⟩
  · exact hT
  · rw [hflag2] at h2
    cases h2
  · rw [hflag2] at h3
    cases h3

/-- On a forest document, `LoadNodes` on a parser without nodes returns, true or false, when the
budget exceeds the heights. -/
theorem LoadNodes_returns_of_forest (fuel : Nat) (Config : ParserConfig) (Root : Document)
    (S : ParserState) (JsonNodes : List (Option JsonNode)) (height : Nat → Nat)
    (hn : Root.nodes = some JsonNodes) (hforest : IsForest height JsonNodes)
    (hflag : S.bAllNodesCached = false) (hempty : S.AllNodesCache = [])
    (hfuel : ∀ i, i < JsonNodes.length → height i < fuel) :
    (LoadNodes fuel Config Root S).1 = .ok () ∨ (LoadNodes fuel Config Root S).1 = .fail := by
  unfold LoadNodes
  simp only [hflag, Bool.false_eq_true, if_false, hn, hempty]
  cases hl : loadAllNodes Config (toInt32 JsonNodes.length) JsonNodes 0 [] with
  | mk ok C =>
    cases ok with
    | false => right; rfl
    | true =>
      left
      obtain ⟨hF, _, hI⟩ := loadAllNodes_forest Config JsonNodes C height hforest hl
      obtain ⟨hlen, _, _⟩ := loadAllNodes_table Config JsonNodes C hl
      obtain ⟨C2, h2⟩ := fixAllParents_returns height fuel (List.range C.length) C hF hI
        (fun p hp => by
          have := List.mem_range.1 hp
          exact ⟨this, hfuel p (by omega)⟩)
      simp only [h2]

/-- The sample tree is a forest: node 0 has height 1, its children height 0. -/
theorem sampleTree_forest :
    IsForest (fun i => if i = 0 then 1 else 0)
      [some (sampleNode (some [some 1, some 2])), some (sampleNode none),
        some (sampleNode (some []))] := by
  have key : ∀ (i : Nat) (c : Int),
      some c ∈ declaredChildren [some (sampleNode (some [some 1, some 2])),
        some (sampleNode none), some (sampleNode (some []))] i → i = 0 ∧ (c = 1 ∨ c = 2) := by
    intro i c h
    match i with
    | 0 => simpa [declaredChildren, sampleNode] using h
    | 1 => simp [declaredChildren, sampleNode] at h
    | 2 => simp [declaredChildren, sampleNode] at h
    | n + 3 => simp [declaredChildren] at h
  refine ⟨?_, ?_, ?_⟩
  · intro i c h
    rcases (key i c h).2 with h1 | h1 <;> subst h1 <;> simp
  · intro i j c hi hj
    rw [(key i c hi).1, (key j c hj).1]
  · intro i c h
    obtain ⟨h0, h1⟩ := key i c h
    subst h0
    rcases h1 with h1 | h1 <;> subst h1 <;> simp

/-! ## C11 -/

/-- C11: on a document whose declared children lists form a forest (every child a node index, no
node declared by two nodes, no cycle), after every call of `LoadNodes` that returns true, in
every state that calls of `LoadNodes` reach from a parser without nodes, the parent link of a
node `n` is the index of a node `p` exactly when the children of `p` contain the index of `n`,
and a node that is in no children list has parent link `INDEX_NONE`; and on such a document
`LoadNodes` returns when the budget exceeds the heights of the nodes. -/
theorem C11_parent_roundtrip (Config : ParserConfig) (Root : Document)
    (JsonNodes : List (Option JsonNode)) (height : Nat → Nat)
    (hn : Root.nodes = some JsonNodes) (hforest : IsForest height JsonNodes) :
    (∀ (S0 S : ParserState) (fuels : List Nat) (fuel : Nat),
      S0.bAllNodesCached = false → S0.AllNodesCache = [] →
      LoadNodesCalls Config Root fuels S0 = some S →
      (LoadNodes fuel Config Root S).1 = .ok () →
      ParentsAsDeclared (LoadNodes fuel Config Root S).2.AllNodesCache) ∧
    (∀ (S : ParserState) (fuel : Nat),
      S.bAllNodesCached = false → S.AllNodesCache = [] →
      (∀ i, i < JsonNodes.length → height i < fuel) →
      (LoadNodes fuel Config Root S).1 = .ok () ∨ (LoadNodes fuel Config Root S).1 = .fail) := by
  constructor
  · intro S0 S fuels fuel hflag hempty hcalls hok
    obtain ⟨_, hT⟩ := LoadNodes_reached_loaded Config Root S0 S fuels fuel hflag hempty hcalls hok
    exact (TableLoaded_parents Config Root JsonNodes _ height hn hforest hT).2
  · intro S fuel hflag hempty hfuel
    exact LoadNodes_returns_of_forest fuel Config Root S JsonNodes height hn hforest hflag
      hempty hfuel

/-- C11 at a concrete input: after `LoadNodes` has loaded the sample tree with budget 2, the
parent links round-trip, and the call has returned true. -/
theorem C11_parent_roundtrip_witness :
    (LoadNodes 2 sampleConfig sampleTree ParserState.initial).1 = .ok () ∧
    ParentsAsDeclared (LoadNodes 2 sampleConfig sampleTree ParserState.initial).2.AllNodesCache ∧
    (((LoadNodes 2 sampleConfig sampleTree ParserState.initial).2.AllNodesCache.map
      (fun Node => Node.ParentIndex)) = [-1, 0, 0]) :=
  ⟨by decide,
   (C11_parent_roundtrip sampleConfig sampleTree _ _ rfl sampleTree_forest).1
     ParserState.initial ParserState.initial [] 2 rfl rfl rfl (by decide),
   by decide⟩

/-! ## Ancestors and the common root -/

theorem parentOf_neg (T : List FglTFRuntimeNode) : parentOf T INDEX_NONE = INDEX_NONE := by
  unfold parentOf INDEX_NONE
  simp

theorem climb_none (T : List FglTFRuntimeNode) : ∀ k, climb T k INDEX_NONE = INDEX_NONE := by
  intro k
  induction k with
  | zero => rfl
  | succ k ih =>
    unfold climb
    rw [parentOf_neg, ih]

theorem climb_add (T : List FglTFRuntimeNode) :
    ∀ (x y : Nat) (j : Int), climb T (x + y) j = climb T x (climb T y j) := by
  intro x y
  induction y with
  | zero => intro j; rfl
  | succ y ih =>
    intro j
    have : x + (y + 1) = (x + y) + 1 := by omega
    rw [this]
    show climb T (x + y) (parentOf T j) = climb T x (climb T y (parentOf T j))
    exact ih _

theorem climb_succ_last (T : List FglTFRuntimeNode) (k : Nat) (j : Int) :
    climb T (k + 1) j = parentOf T (climb T k j) := by
  have := climb_add T 1 k j
  rw [Nat.add_comm] at this
  rw [this]
  rfl

/-- The parent link of a node of a forest is `INDEX_NONE` or a node of smaller depth. -/
theorem parentOf_valid (depth : Nat → Nat) (T : List FglTFRuntimeNode)
    (hF : ParentForest depth T) (j : Int) (hj : ValidIndex T j) :
    parentOf T j = INDEX_NONE ∨
      (ValidIndex T (parentOf T j) ∧ depth (parentOf T j).toNat < depth j.toNat) := by
  obtain ⟨hj0, hj1⟩ := hj
  have hp : parentOf T j = parentAt T j.toNat := by
    unfold parentOf
    simp [hj0]
  rw [hp]
  rcases hF.2 j.toNat (by omega) with h | ⟨h1, h2, h3⟩
  · exact Or.inl h
  · exact Or.inr ⟨⟨h1, h2⟩, h3⟩

/-- Following `k` parent links from a node to a node loses at least `k` in depth. -/
theorem climb_depth (depth : Nat → Nat) (T : List FglTFRuntimeNode)
    (hF : ParentForest depth T) :
    ∀ (k : Nat) (j : Int), ValidIndex T j → ValidIndex T (climb T k j) →
      depth (climb T k j).toNat + k ≤ depth j.toNat := by
  intro k
  induction k with
  | zero => intro j _ _; exact Nat.le_refl _
  | succ k ih =>
    intro j hj hc
    unfold climb at hc ⊢
    rcases parentOf_valid depth T hF j hj with h | ⟨h1, h2⟩
    · rw [h, climb_none] at hc
      unfold ValidIndex INDEX_NONE at hc
      omega
    · have := ih (parentOf T j) h1 hc
      omega

/-- In a forest, two nodes that are each equal to or an ancestor of the other are equal. -/
theorem ancestor_antisymm (depth : Nat → Nat) (T : List FglTFRuntimeNode)
    (hF : ParentForest depth T) (a b : Int) (ha : ValidIndex T a) (hb : ValidIndex T b)
    (hab : IsAncestorOrSelf T a b) (hba : IsAncestorOrSelf T b a) : a = b := by
  obtain ⟨x, hx⟩ := hab
  obtain ⟨y, hy⟩ := hba
  have h1 := climb_depth depth T hF x b hb (by rw [hx]; exact ha)
  have h2 := climb_depth depth T hF y a ha (by rw [hy]; exact hb)
  rw [hx] at h1
  rw [hy] at h2
  have hx0 : x = 0 := by omega
  subst hx0
  exact hx.symm

/-- With the nodes cached, `LoadNode` on an index of the table returns the node at that position
and leaves the state unchanged. -/
theorem LoadNode_cached (fuel : Nat) (Config : ParserConfig) (Root : Document)
    (S : ParserState) (hflag : S.bAllNodesCached = true) (j : Int)
    (hj : ValidIndex S.AllNodesCache j) :
    ∃ Node, LoadNode fuel Config Root S j = (.ok Node, S) ∧
      S.AllNodesCache[j.toNat]? = some Node := by
  obtain ⟨hj0, hj1⟩ := hj
  have hlt : j.toNat < S.AllNodesCache.length := by omega
  refine ⟨S.AllNodesCache[j.toNat], ?_, List.getElem?_eq_getElem hlt⟩
  unfold LoadNode
  have h1 : ¬ (j ≥ (S.AllNodesCache.length : Int)) := by omega
  have h2 : ¬ (j < 0) := by omega
  simp only [hflag, Bool.not_true, Bool.false_eq_true, if_false, h1, h2,
    List.getElem?_eq_getElem hlt]

/-- With the nodes cached, `LoadNode` on a negative index references an element outside the
table. -/
theorem LoadNode_cached_negative (fuel : Nat) (Config : ParserConfig) (Root : Document)
    (S : ParserState) (hflag : S.bAllNodesCached = true) (j : Int) (hj : j < 0) :
    LoadNode fuel Config Root S j = (.fault, S) := by
  unfold LoadNode
  have h1 : ¬ (j ≥ (S.AllNodesCache.length : Int)) := by omega
  simp only [hflag, Bool.not_true, Bool.false_eq_true, if_false, h1, hj, if_true]

/-- The node at a position of a forest table: its index and parent link. -/
theorem node_of_forest (depth : Nat → Nat) (T : List FglTFRuntimeNode)
    (hF : ParentForest depth T) (j : Int) (hj : ValidIndex T j) (Node : FglTFRuntimeNode)
    (hn : T[j.toNat]? = some Node) : Node.Index = j ∧ Node.ParentIndex = parentOf T j := by
  obtain ⟨hj0, hj1⟩ := hj
  refine ⟨by rw [hF.1 j.toNat Node hn]; omega, ?_⟩
  unfold parentOf parentAt
  simp [hj0, hn]

/-- The loop of `HasRoot` from a node `x` of a forest, with the nodes cached and enough budget:
it returns true exactly when following one or more parent links from `x` reaches the root
index. -/
theorem HasRoot_loop_spec (fuel : Nat) (Config : ParserConfig) (Root : Document)
    (S : ParserState) (depth : Nat → Nat) (hflag : S.bAllNodesCached = true)
    (hF : ParentForest depth S.AllNodesCache) (r : Int) (hr : 0 ≤ r) :
    ∀ (n : Nat) (x : Int) (Node : FglTFRuntimeNode), ValidIndex S.AllNodesCache x →
      S.AllNodesCache[x.toNat]? = some Node → depth x.toNat < n →
      ∃ b, HasRoot_loop fuel Config Root r n S Node = (.ok b, S) ∧
        (b = true ↔ ∃ k, climb S.AllNodesCache (k + 1) x = r) := by
  intro n
  induction n with
  | zero => intro x Node _ _ h; omega
  | succ n ih =>
    intro x Node hx hn hd
    obtain ⟨hidx, hpar⟩ := node_of_forest depth _ hF x hx Node hn
    unfold HasRoot_loop
    rcases parentOf_valid depth _ hF x hx with h | ⟨h1, h2⟩
    · refine ⟨false, ?_, ?_⟩
      · simp [hpar, h]
      · constructor
        · intro hb
          cases hb
        · intro ⟨k, hk⟩
          unfold climb at hk
          rw [h, climb_none] at hk
          unfold INDEX_NONE at hk
          omega
    · have hne : ¬ (parentOf S.AllNodesCache x = INDEX_NONE) := by
        unfold ValidIndex at h1
        unfold INDEX_NONE
        omega
      obtain ⟨Node2, hl, hn2⟩ := LoadNode_cached fuel Config Root S hflag _ h1
      obtain ⟨hidx2, _⟩ := node_of_forest depth _ hF _ h1 Node2 hn2
      simp only [hpar, ne_eq, hne, not_false_eq_true, if_true, hl]
      by_cases heq : Node2.Index = r
      · refine ⟨true, by simp [heq], ?_⟩
        simp only [true_iff]
        exact ⟨0, by unfold climb climb; rw [← hidx2]; exact heq⟩
      · obtain ⟨b, hb1, hb2⟩ := ih (parentOf S.AllNodesCache x) Node2 h1 hn2 (by omega)
        refine ⟨b, by simp only [heq, if_false]; exact hb1, ?_⟩
        rw [hb2]
        constructor
        · intro ⟨k, hk⟩
          exact ⟨k + 1, hk⟩
        · intro ⟨k, hk⟩
          cases k with
          | zero =>
            exfalso
            apply heq
            rw [hidx2]
            exact hk
          | succ k => exact ⟨k, hk⟩

/-- Function `HasRoot` on a node `j` of a forest, with the nodes cached and enough budget: it
returns true exactly when the root index is `j` or an ancestor of `j`. -/
theorem HasRoot_spec (fuel : Nat) (Config : ParserConfig) (Root : Document)
    (S : ParserState) (depth : Nat → Nat) (hflag : S.bAllNodesCached = true)
    (hF : ParentForest depth S.AllNodesCache) (j r : Int)
    (hj : ValidIndex S.AllNodesCache j) (hr : 0 ≤ r) (hfuel : depth j.toNat < fuel) :
    ∃ b, HasRoot fuel Config Root S j r = (.ok b, S) ∧
      (b = true ↔ IsAncestorOrSelf S.AllNodesCache r j) := by
  unfold HasRoot
  by_cases heq : j = r
  · refine ⟨true, by simp [heq], ?_⟩
    simp only [true_iff]
    exact ⟨0, heq⟩
  · obtain ⟨Node, hl, hn⟩ := LoadNode_cached fuel Config Root S hflag j hj
    obtain ⟨b, hb1, hb2⟩ := HasRoot_loop_spec fuel Config Root S depth hflag hF r hr fuel j
      Node hj hn hfuel
    refine ⟨b, by simp only [heq, if_false, hl]; exact hb1, ?_⟩
    rw [hb2]
    constructor
    · intro ⟨k, hk⟩
      exact ⟨k + 1, hk⟩
    · intro ⟨k, hk⟩
      cases k with
      | zero => exact absurd hk heq
      | succ k => exact ⟨k, hk⟩

/-- The `for` loop of `FindCommonRoot` over joints of a forest: it ends with `bTryNextParent`
false exactly when the candidate is equal to or an ancestor of every joint. -/
theorem FindCommonRoot_for_spec (fuel : Nat) (Config : ParserConfig) (Root : Document)
    (S : ParserState) (depth : Nat → Nat) (hflag : S.bAllNodesCached = true)
    (hF : ParentForest depth S.AllNodesCache) (r : Int) (hr : 0 ≤ r)
    (hfuel : ∀ i, i < S.AllNodesCache.length → depth i < fuel) :
    ∀ (Joints : List Int), (∀ j ∈ Joints, ValidIndex S.AllNodesCache j) →
      ∃ b, FindCommonRoot_for fuel Config Root r Joints S = (.ok b, S) ∧
        (b = false ↔ ∀ j ∈ Joints, IsAncestorOrSelf S.AllNodesCache r j) := by
  intro Joints
  induction Joints with
  | nil => intro _; exact ⟨false, rfl, by simp⟩
  | cons j rest ih =>
    intro hv
    have hj := hv j (List.mem_cons_self _ _)
    obtain ⟨b, hb1, hb2⟩ := HasRoot_spec fuel Config Root S depth hflag hF j r hj hr
      (hfuel j.toNat (by unfold ValidIndex at hj; omega))
    unfold FindCommonRoot_for
    cases b with
    | true =>
      obtain ⟨b2, h1, h2⟩ := ih (fun j2 hj2 => hv j2 (List.mem_cons_of_mem _ hj2))
      refine ⟨b2, by simp only [hb1]; exact h1, ?_⟩
      rw [h2]
      constructor
      · intro hall j2 hj2
        rcases List.mem_cons.1 hj2 with h3 | h3
        · rw [h3]
          exact hb2.1 rfl
        · exact hall j2 h3
      · intro hall j2 hj2
        exact hall j2 (List.mem_cons_of_mem _ hj2)
    | false =>
      refine ⟨true, by simp only [hb1], ?_⟩
      constructor
      · intro h
        cases h
      · intro hall
        have := hb2.2 (hall j (List.mem_cons_self _ _))
        cases this

/-- Following a parent link from an integer that is no index of the table gives
`INDEX_NONE`. -/
theorem parentOf_invalid (T : List FglTFRuntimeNode) (d : Int) (hd : ¬ ValidIndex T d) :
    parentOf T d = INDEX_NONE := by
  unfold parentOf
  by_cases h0 : 0 ≤ d
  · simp only [h0, if_true]
    unfold parentAt
    have : T[d.toNat]? = none := by
      rw [List.getElem?_eq_none_iff]
      unfold ValidIndex at hd
      omega
    rw [this]
  · simp [h0]

/-- The `while` loop of `FindCommonRoot` in a forest, started at the `k`-th ancestor of the
first joint when no lower ancestor is a common root and a common root exists above: it returns
the lowest ancestor of the first joint that is a common root. -/
theorem FindCommonRoot_while_spec (fuel : Nat) (Config : ParserConfig) (Root : Document)
    (S : ParserState) (depth : Nat → Nat) (hflag : S.bAllNodesCached = true)
    (hF : ParentForest depth S.AllNodesCache)
    (hfuel : ∀ i, i < S.AllNodesCache.length → depth i < fuel)
    (Joints : List Int) (hv : ∀ j ∈ Joints, ValidIndex S.AllNodesCache j) (j0 : Int)
    (m : Nat) (ha : IsCommonRoot S.AllNodesCache Joints (climb S.AllNodesCache m j0)) :
    ∀ (n k : Nat), k ≤ m → m - k < n → ValidIndex S.AllNodesCache (climb S.AllNodesCache k j0) →
      (∀ k2, k2 < k → ¬ ∀ j ∈ Joints,
        IsAncestorOrSelf S.AllNodesCache (climb S.AllNodesCache k2 j0) j) →
      ∃ kf, FindCommonRoot_while fuel Config Root Joints n S (climb S.AllNodesCache k j0) =
          (.ok (climb S.AllNodesCache kf j0), S) ∧
        IsCommonRoot S.AllNodesCache Joints (climb S.AllNodesCache kf j0) ∧
        (∀ k2, k2 < kf → ¬ ∀ j ∈ Joints,
          IsAncestorOrSelf S.AllNodesCache (climb S.AllNodesCache k2 j0) j) := by
  intro n
  induction n with
  | zero => intro k _ h _ _; omega
  | succ n ih =>
    intro k hkm hn hvalid hlow
    obtain ⟨Node, hl, hnode⟩ := LoadNode_cached fuel Config Root S hflag _ hvalid
    obtain ⟨_, hpar⟩ := node_of_forest depth _ hF _ hvalid Node hnode
    obtain ⟨b, hb1, hb2⟩ := FindCommonRoot_for_spec fuel Config Root S depth hflag hF
      (climb S.AllNodesCache k j0) hvalid.1 hfuel Joints hv
    unfold FindCommonRoot_while
    simp only [hl, hb1]
    cases b with
    | false => exact ⟨k, rfl, ⟨hvalid, hb2.1 rfl⟩, hlow⟩
    | true =>
      have hnot : ¬ ∀ j ∈ Joints,
          IsAncestorOrSelf S.AllNodesCache (climb S.AllNodesCache k j0) j := by
        intro hall
        have := hb2.2 hall
        cases this
      have hlt : k < m := by
        rcases Nat.lt_or_ge k m with h | h
        · exact h
        · have : k = m := by omega
          subst this
          exact absurd ha.2 hnot
      have hnext : climb S.AllNodesCache (k + 1) j0 = Node.ParentIndex := by
        rw [climb_succ_last, hpar]
      have hvalid2 : ValidIndex S.AllNodesCache (climb S.AllNodesCache (k + 1) j0) := by
        rcases parentOf_valid depth _ hF _ hvalid with h | ⟨h1, _⟩
        · exfalso
          have hm : m = (m - (k + 1)) + (k + 1) := by omega
          have hcl := climb_add S.AllNodesCache (m - (k + 1)) (k + 1) j0
          rw [← hm, climb_succ_last, h, climb_none] at hcl
          have := ha.1
          rw [hcl] at this
          unfold ValidIndex INDEX_NONE at this
          omega
        · rw [climb_succ_last]
          exact h1
      rw [← hnext]
      refine ih (k + 1) (by omega) (by omega) hvalid2 ?_
      intro k2 hk2
      rcases Nat.lt_or_ge k2 k with h | h
      · exact hlow k2 h
      · have : k2 = k := by omega
        subst this
        exact hnot

/-- Function `FindCommonRoot` on joints of a forest that have a common root, with the nodes
cached and enough budget: it returns a common root that every common root is equal to or an
ancestor of, and leaves the state unchanged. -/
theorem FindCommonRoot_spec (fuel : Nat) (Config : ParserConfig) (Root : Document)
    (S : ParserState) (depth : Nat → Nat) (hflag : S.bAllNodesCached = true)
    (hF : ParentForest depth S.AllNodesCache)
    (hfuel : ∀ i, i < S.AllNodesCache.length → depth i < fuel)
    (Joints : List Int) (hne : Joints ≠ [])
    (hv : ∀ j ∈ Joints, ValidIndex S.AllNodesCache j) (a : Int)
    (ha : IsCommonRoot S.AllNodesCache Joints a) :
    ∃ r, FindCommonRoot fuel Config Root S Joints = (.ok r, S) ∧
      IsCommonRoot S.AllNodesCache Joints r ∧
      ∀ a2, IsCommonRoot S.AllNodesCache Joints a2 → IsAncestorOrSelf S.AllNodesCache a2 r := by
  cases Joints with
  | nil => exact absurd rfl hne
  | cons j0 rest =>
    have hj0 := hv j0 (List.mem_cons_self _ _)
    obtain ⟨m, hm⟩ := ha.2 j0 (List.mem_cons_self _ _)
    have hmd := climb_depth depth _ hF m j0 hj0 (by rw [hm]; exact ha.1)
    have hd := hfuel j0.toNat (by unfold ValidIndex at hj0; omega)
    obtain ⟨kf, h1, h2, h3⟩ := FindCommonRoot_while_spec fuel Config Root S depth hflag hF hfuel
      (j0 :: rest) hv j0 m (by rw [hm]; exact ha) fuel 0 (Nat.zero_le _) (by omega) hj0
      (fun k2 hk2 => by omega)
    refine ⟨climb S.AllNodesCache kf j0, h1, h2, ?_⟩
    intro a2 ha2
    obtain ⟨m2, hm2⟩ := ha2.2 j0 (List.mem_cons_self _ _)
    have hge : kf ≤ m2 := by
      by_contra hcon
      apply h3 m2 (by omega)
      rw [hm2]
      exact ha2.2
    refine ⟨m2 - kf, ?_⟩
    rw [← climb_add, Nat.sub_add_cancel hge]
    exact hm2

/-! ## C13 -/

/-- C13: in a node table whose parent links form a forest, with the nodes cached and a budget
above the depths, for a non-empty list of joints that are node indices and have a common root,
`FindCommonRoot` returns a node `r` that is equal to or an ancestor of every joint (`HasRoot`
returns true for every joint), and no proper descendant of `r` is equal to or an ancestor of
every joint. -/
theorem C13_lowest_common_ancestor (fuel : Nat) (Config : ParserConfig) (Root : Document)
    (S : ParserState) (depth : Nat → Nat) (Joints : List Int) (a : Int)
    (hflag : S.bAllNodesCached = true) (hF : ParentForest depth S.AllNodesCache)
    (hfuel : ∀ i, i < S.AllNodesCache.length → depth i < fuel)
    (hne : Joints ≠ []) (hv : ∀ j ∈ Joints, ValidIndex S.AllNodesCache j)
    (ha : IsCommonRoot S.AllNodesCache Joints a) :
    ∃ r, FindCommonRoot fuel Config Root S Joints = (.ok r, S) ∧
      ValidIndex S.AllNodesCache r ∧
      (∀ j ∈ Joints, IsAncestorOrSelf S.AllNodesCache r j ∧
        HasRoot fuel Config Root S j r = (.ok true, S)) ∧
      (∀ d, d ≠ r → IsAncestorOrSelf S.AllNodesCache r d →
        ¬ ∀ j ∈ Joints, IsAncestorOrSelf S.AllNodesCache d j) := by
  obtain ⟨r, h1, h2, h3⟩ := FindCommonRoot_spec fuel Config Root S depth hflag hF hfuel Joints
    hne hv a ha
  refine ⟨r, h1, h2.1, ?_, ?_⟩
  · intro j hj
    refine ⟨h2.2 j hj, ?_⟩
    obtain ⟨b, hb1, hb2⟩ := HasRoot_spec fuel Config Root S depth hflag hF j r (hv j hj) h2.1.1
      (hfuel j.toNat (by have := hv j hj; unfold ValidIndex at this; omega))
    rw [hb1, hb2.2 (h2.2 j hj)]
  · intro d hdr hrd hall
    have hdv : ValidIndex S.AllNodesCache d := by
      by_contra hcon
      obtain ⟨k, hk⟩ := hrd
      cases k with
      | zero => exact hdr hk
      | succ k =>
        unfold climb at hk
        rw [parentOf_invalid _ d hcon, climb_none] at hk
        have := h2.1
        rw [← hk] at this
        unfold ValidIndex INDEX_NONE at this
        omega
    have hdr2 := h3 d ⟨hdv, hall⟩
    exact hdr (ancestor_antisymm depth _ hF d r hdv h2.1 hdr2 hrd)

/-! ## C12 -/

/-- C12: in a node table whose parent links form a forest, with the nodes cached and a budget
above the depths, for a non-empty list of joints that are node indices and have a common root,
`FindCommonRoot` returns true with a node index `r` (at least 0 and below the number of nodes,
so not `INDEX_NONE`) that is equal to or an ancestor of every joint, and it returns true with
the same `r` for every permutation of the list, whichever joint comes first; the parser state is
unchanged. -/
theorem C12_permutation_invariant (fuel : Nat) (Config : ParserConfig) (Root : Document)
    (S : ParserState) (depth : Nat → Nat) (Joints Joints2 : List Int) (a : Int)
    (hflag : S.bAllNodesCached = true) (hF : ParentForest depth S.AllNodesCache)
    (hfuel : ∀ i, i < S.AllNodesCache.length → depth i < fuel)
    (hne : Joints ≠ []) (hv : ∀ j ∈ Joints, ValidIndex S.AllNodesCache j)
    (ha : IsCommonRoot S.AllNodesCache Joints a) (hperm : Joints.Perm Joints2) :
    ∃ r, ValidIndex S.AllNodesCache r ∧
      (∀ j ∈ Joints, IsAncestorOrSelf S.AllNodesCache r j) ∧
      FindCommonRoot fuel Config Root S Joints = (.ok r, S) ∧
      FindCommonRoot fuel Config Root S Joints2 = (.ok r, S) := by
  have hmem : ∀ j, j ∈ Joints2 ↔ j ∈ Joints := fun j => (hperm.mem_iff).symm
  have hne2 : Joints2 ≠ [] := by
    intro h
    rw [h] at hperm
    exact hne (List.Perm.eq_nil hperm)
  have hv2 : ∀ j ∈ Joints2, ValidIndex S.AllNodesCache j := fun j hj => hv j ((hmem j).1 hj)
  have hcommon : ∀ x, IsCommonRoot S.AllNodesCache Joints x ↔
      IsCommonRoot S.AllNodesCache Joints2 x := by
    intro x
    unfold IsCommonRoot
    constructor
    · intro ⟨h1, h2⟩
      exact ⟨h1, fun j hj => h2 j ((hmem j).1 hj)⟩
    · intro ⟨h1, h2⟩
      exact ⟨h1, fun j hj => h2 j ((hmem j).2 hj)⟩
  obtain ⟨r, h1, h2, h3⟩ := FindCommonRoot_spec fuel Config Root S depth hflag hF hfuel Joints
    hne hv a ha
  obtain ⟨r2, g1, g2, g3⟩ := FindCommonRoot_spec fuel Config Root S depth hflag hF hfuel Joints2
    hne2 hv2 a ((hcommon a).1 ha)
  have hrr : r2 = r := ancestor_antisymm depth _ hF r2 r g2.1 h2.1
    (h3 r2 ((hcommon r2).2 g2)) (g3 r ((hcommon r).1 h2))
  refine ⟨r, h2.1, h2.2, h1, ?_⟩
  rw [g1, hrr]

/-- A loaded table has one node per entry of `nodes`. -/
theorem TableLoaded_length (Config : ParserConfig) (Root : Document)
    (JsonNodes : List (Option JsonNode)) (T : List FglTFRuntimeNode)
    (hn : Root.nodes = some JsonNodes) (hT : TableLoaded Config Root T) :
    T.length = JsonNodes.length := by
  obtain ⟨fuel, ns, C, hn2, hl, hf⟩ := hT
  rw [hn] at hn2
  cases hn2
  rw [length_of_forget C T (fixAllParents_forget fuel _ C T hf)]
  exact (loadAllNodes_table Config JsonNodes C hl).1

/-- In a table whose children lists form a forest and whose parent links round-trip, the parent
links form a forest: the depth of a node is a bound `H` on the heights minus its height. -/
theorem parentForest_of_declared (height : Nat → Nat) (H : Nat) (T : List FglTFRuntimeNode)
    (hF : TableForest height T) (hP : ParentsAsDeclared T)
    (hH : ∀ i, i < T.length → height i ≤ H) :
    ParentForest (fun i => H - height i) T := by
  refine ⟨hF.1, ?_⟩
  intro i hi
  have hget : T[i]? = some T[i] := List.getElem?_eq_getElem hi
  have hpa : parentAt T i = T[i].ParentIndex := by
    unfold parentAt
    rw [hget]
  by_cases hex : ∃ (j : Nat) (p : FglTFRuntimeNode), T[j]? = some p ∧
      T[i].Index ∈ p.ChildrenIndices
  · right
    obtain ⟨j, p, hj, hmem⟩ := hex
    have hjlt : j < T.length := (List.getElem?_eq_some.1 hj).1
    have hpar := (hP.1 i j T[i] p hget hj).2 hmem
    rw [hF.1 j p hj] at hpar
    rw [hpa, hpar]
    have hch : (i : Int) ∈ childrenAt T j := by
      unfold childrenAt
      rw [hj, ← hF.1 i T[i] hget]
      exact hmem
    have hh := hF.2.2.2 j (i : Int) hch
    have h1 := hH j hjlt
    have h2 := hH i hi
    simp only [Int.toNat_ofNat] at hh ⊢
    omega
  · left
    rw [hpa]
    apply hP.2 i T[i] hget
    intro j p hj hmem
    exact hex ⟨j, p, hj, hmem⟩

/-- After `LoadNodes` has returned true on a forest document, the parent links of the table form
a forest. -/
theorem LoadNodes_parentForest (Config : ParserConfig) (Root : Document)
    (JsonNodes : List (Option JsonNode)) (height : Nat → Nat) (H : Nat)
    (hn : Root.nodes = some JsonNodes) (hforest : IsForest height JsonNodes)
    (hH : ∀ i, i < JsonNodes.length → height i ≤ H)
    (S0 S : ParserState) (fuels : List Nat) (fuel : Nat)
    (hflag : S0.bAllNodesCached = false) (hempty : S0.AllNodesCache = [])
    (hcalls : LoadNodesCalls Config Root fuels S0 = some S)
    (hok : (LoadNodes fuel Config Root S).1 = .ok ()) :
    (LoadNodes fuel Config Root S).2.bAllNodesCached = true ∧
    (LoadNodes fuel Config Root S).2.AllNodesCache.length = JsonNodes.length ∧
    ParentForest (fun i => H - height i) (LoadNodes fuel Config Root S).2.AllNodesCache := by
  obtain ⟨h1, hT⟩ := LoadNodes_reached_loaded Config Root S0 S fuels fuel hflag hempty hcalls hok
  have hlen := TableLoaded_length Config Root JsonNodes _ hn hT
  obtain ⟨hF, hP⟩ := TableLoaded_parents Config Root JsonNodes _ height hn hforest hT
  exact ⟨h1, hlen, parentForest_of_declared height H _ hF hP (fun i hi => hH i (by omega))⟩

/-- The parent links of the loaded sample tree form a forest. -/
theorem sampleTree_parentForest :
    ParentForest (fun i => 1 - (if i = 0 then 1 else 0))
      (LoadNodes 2 sampleConfig sampleTree ParserState.initial).2.AllNodesCache :=
  (LoadNodes_parentForest sampleConfig sampleTree _ _ 1 rfl sampleTree_forest
    (fun i _ => by split <;> omega) ParserState.initial ParserState.initial [] 2 rfl rfl rfl
    (by decide)).2.2

/-- In the loaded sample tree, node 0 is a common root of the joints 1 and 2, which are node
indices. -/
theorem sampleTree_joints :
    (∀ j ∈ [(1 : Int), 2],
      ValidIndex (LoadNodes 2 sampleConfig sampleTree ParserState.initial).2.AllNodesCache j) ∧
    IsCommonRoot (LoadNodes 2 sampleConfig sampleTree ParserState.initial).2.AllNodesCache
      [1, 2] 0 := by
  refine ⟨?_, ⟨by unfold ValidIndex; decide, ?_⟩⟩
  · intro j hj
    simp only [List.mem_cons, List.mem_singleton, List.mem_nil_iff, or_false] at hj
    rcases hj with h | h <;> subst h <;> unfold ValidIndex <;> decide
  · intro j hj
    simp only [List.mem_cons, List.mem_singleton, List.mem_nil_iff, or_false] at hj
    rcases hj with h | h <;> subst h <;> exact ⟨1, by decide⟩

/-- C13 at a concrete input: in the loaded sample tree, `FindCommonRoot` on the joints 1 and 2
returns a common root without a proper descendant that is one; it is node 0. -/
theorem C13_lowest_common_ancestor_witness :
    FindCommonRoot 2 sampleConfig sampleTree
      (LoadNodes 2 sampleConfig sampleTree ParserState.initial).2 [1, 2] =
      (.ok 0, (LoadNodes 2 sampleConfig sampleTree ParserState.initial).2) ∧
    ∃ r, FindCommonRoot 2 sampleConfig sampleTree
        (LoadNodes 2 sampleConfig sampleTree ParserState.initial).2 [1, 2] =
        (.ok r, (LoadNodes 2 sampleConfig sampleTree ParserState.initial).2) ∧
      ValidIndex (LoadNodes 2 sampleConfig sampleTree ParserState.initial).2.AllNodesCache r ∧
      (∀ j ∈ [(1 : Int), 2],
        IsAncestorOrSelf
          (LoadNodes 2 sampleConfig sampleTree ParserState.initial).2.AllNodesCache r j ∧
        HasRoot 2 sampleConfig sampleTree
          (LoadNodes 2 sampleConfig sampleTree ParserState.initial).2 j r =
          (.ok true, (LoadNodes 2 sampleConfig sampleTree ParserState.initial).2)) ∧
      (∀ d, d ≠ r →
        IsAncestorOrSelf
          (LoadNodes 2 sampleConfig sampleTree ParserState.initial).2.AllNodesCache r d →
        ¬ ∀ j ∈ [(1 : Int), 2], IsAncestorOrSelf
          (LoadNodes 2 sampleConfig sampleTree ParserState.initial).2.AllNodesCache d j) :=
  ⟨rfl,
   C13_lowest_common_ancestor 2 sampleConfig sampleTree _ _ [1, 2] 0 rfl
    sampleTree_parentForest (fun i _ => by split <;> omega) (by simp)
    sampleTree_joints.1 sampleTree_joints.2⟩

/-- C12 at a concrete input: in the loaded sample tree, `FindCommonRoot` returns node 0 for the
joints 1, 2 and for the joints 2, 1: the same node index, an ancestor of both joints. -/
theorem C12_permutation_invariant_witness :
    (FindCommonRoot 2 sampleConfig sampleTree
      (LoadNodes 2 sampleConfig sampleTree ParserState.initial).2 [1, 2]).1 = .ok 0 ∧
    (FindCommonRoot 2 sampleConfig sampleTree
      (LoadNodes 2 sampleConfig sampleTree ParserState.initial).2 [2, 1]).1 = .ok 0 ∧
    ∃ r, ValidIndex (LoadNodes 2 sampleConfig sampleTree ParserState.initial).2.AllNodesCache r ∧
      (∀ j ∈ [(1 : Int), 2], IsAncestorOrSelf
        (LoadNodes 2 sampleConfig sampleTree ParserState.initial).2.AllNodesCache r j) ∧
      FindCommonRoot 2 sampleConfig sampleTree
        (LoadNodes 2 sampleConfig sampleTree ParserState.initial).2 [1, 2] =
        (.ok r, (LoadNodes 2 sampleConfig sampleTree ParserState.initial).2) ∧
      FindCommonRoot 2 sampleConfig sampleTree
        (LoadNodes 2 sampleConfig sampleTree ParserState.initial).2 [2, 1] =
        (.ok r, (LoadNodes 2 sampleConfig sampleTree ParserState.initial).2) :=
  ⟨rfl, rfl,
   C12_permutation_invariant 2 sampleConfig sampleTree _ _ [1, 2] [2, 1] 0 rfl
    sampleTree_parentForest (fun i _ => by split <;> omega) (by simp)
    sampleTree_joints.1 sampleTree_joints.2 (List.Perm.swap 2 1 [])⟩

/-- Function `FindCommonRoot` on joints of a forest that have no common root, with the nodes
cached and enough budget: the `while` loop climbs to a node without parent and then calls
`LoadNode` on `INDEX_NONE`, which references an element outside the table. -/
theorem FindCommonRoot_while_no_root (fuel : Nat) (Config : ParserConfig) (Root : Document)
    (S : ParserState) (depth : Nat → Nat) (hflag : S.bAllNodesCached = true)
    (hF : ParentForest depth S.AllNodesCache)
    (hfuel : ∀ i, i < S.AllNodesCache.length → depth i < fuel)
    (Joints : List Int) (hv : ∀ j ∈ Joints, ValidIndex S.AllNodesCache j)
    (hno : ∀ a, ¬ IsCommonRoot S.AllNodesCache Joints a) :
    ∀ (n : Nat) (x : Int), ValidIndex S.AllNodesCache x → depth x.toNat + 1 < n →
      FindCommonRoot_while fuel Config Root Joints n S x = (.fault, S) := by
  intro n
  induction n with
  | zero => intro x _ h; omega
  | succ n ih =>
    intro x hx hd
    obtain ⟨Node, hl, hnode⟩ := LoadNode_cached fuel Config Root S hflag _ hx
    obtain ⟨_, hpar⟩ := node_of_forest depth _ hF _ hx Node hnode
    obtain ⟨b, hb1, hb2⟩ := FindCommonRoot_for_spec fuel Config Root S depth hflag hF x hx.1
      hfuel Joints hv
    unfold FindCommonRoot_while
    simp only [hl, hb1]
    cases b with
    | false => exact absurd ⟨hx, hb2.1 rfl⟩ (hno x)
    | true =>
      simp only [hpar]
      rcases parentOf_valid depth _ hF x hx with h | ⟨h1, h2⟩
      · rw [h]
        cases n with
        | zero => omega
        | succ n =>
          unfold FindCommonRoot_while
          rw [LoadNode_cached_negative fuel Config Root S hflag INDEX_NONE (by decide)]
      · exact ih _ h1 (by omega)

/-! ## C14 -/

/-- C14: on the sample document of two nodes without children, with the joints 0 and 1, which
lie in two different trees, `FindCommonRoot` does not return `INDEX_NONE`: after node 0, which
has no parent, it calls `LoadNode` on `INDEX_NONE`, which passes the test
`Index >= AllNodesCache.Num()` and references `AllNodesCache[-1]`; and `FillReferenceSkeleton`
on a skin with these joints does not return false but makes that reference. -/
theorem C14_no_common_root_faults :
    (LoadNodes 3 sampleConfig sampleTwoRoots ParserState.initial).1 = .ok () ∧
    (LoadNode 3 sampleConfig sampleTwoRoots
      (LoadNodes 3 sampleConfig sampleTwoRoots ParserState.initial).2 INDEX_NONE).1 = .fault ∧
    (FindCommonRoot 3 sampleConfig sampleTwoRoots ParserState.initial [0, 1]).1 = .fault ∧
    (FillReferenceSkeleton sampleDecode (fun _ => 0) (fun M => M) 3 sampleConfig sampleTwoRoots
      ParserState.initial { joints := some [some 0, some 1], inverseBindMatrices := none } []
      0).1 = .fault :=
  ⟨by decide, rfl, by decide, rfl⟩

/-! ## Bone names -/

theorem findBoneFrom_none_iff :
    ∀ (Skeleton : List FMeshBone) (Name : FName) (Pos : Nat),
      findBoneFrom Skeleton Name Pos = INDEX_NONE ↔ Name ∉ Skeleton.map (fun b => b.Name) := by
  intro Skeleton
  induction Skeleton with
  | nil => intro Name Pos; simp [findBoneFrom]
  | cons b rest ih =>
    intro Name Pos
    unfold findBoneFrom
    by_cases h : b.Name = Name
    · simp only [h, if_true, List.map_cons, List.mem_cons, true_or, not_true_eq_false,
        iff_false]
      unfold INDEX_NONE
      omega
    · simp only [h, if_false, List.map_cons, List.mem_cons]
      rw [ih Name (Pos + 1)]
      constructor
      · intro h1 h2
        rcases h2 with h2 | h2
        · exact h h2.symm
        · exact h1 h2
      · intro h1 h2
        exact h1 (Or.inr h2)

/-- Call `FindBoneIndex` returns `INDEX_NONE` exactly for `NAME_None` and for the names that no
bone of the skeleton has. -/
theorem FindBoneIndex_none_iff (Skeleton : List FMeshBone) (Name : FName) :
    FindBoneIndex Skeleton Name = INDEX_NONE ↔
      (Name.isNone = true ∨ Name ∉ Skeleton.map (fun b => b.Name)) := by
  unfold FindBoneIndex
  by_cases h : Name.isNone = true
  · simp [h]
  · simp only [h, Bool.false_eq_true, if_false, false_or]
    exact findBoneFrom_none_iff Skeleton Name 0

/-- The name with `k` underscores appended. -/
theorem appendUnderscore_replicate (Name : FName) (k : Nat) :
    FName.appendUnderscore (Name ++ List.replicate k '_') = Name ++ List.replicate (k + 1) '_' := by
  unfold FName.appendUnderscore
  rw [List.append_assoc]
  congr 1
  rw [List.replicate_succ']

/-- What the collision loop returns: the name followed by the smallest number of underscores for
which `FindBoneIndex` finds no bone. -/
theorem uniqueBoneName_spec :
    ∀ (n : Nat) (Skeleton : List FMeshBone) (Name : FName) (k0 : Nat) (Result : FName),
      uniqueBoneName n Skeleton (Name ++ List.replicate k0 '_') = some Result →
      ∃ k, k0 ≤ k ∧ Result = Name ++ List.replicate k '_' ∧
        FindBoneIndex Skeleton Result = INDEX_NONE ∧
        ∀ k2, k0 ≤ k2 → k2 < k →
          FindBoneIndex Skeleton (Name ++ List.replicate k2 '_') ≠ INDEX_NONE := by
  intro n
  induction n with
  | zero => intro Skeleton Name k0 Result h; simp [uniqueBoneName] at h
  | succ n ih =>
    intro Skeleton Name k0 Result h
    unfold uniqueBoneName at h
    by_cases hc : FindBoneIndex Skeleton (Name ++ List.replicate k0 '_') ≠ INDEX_NONE
    · simp only [hc, ne_eq, not_false_eq_true, if_true] at h
      rw [appendUnderscore_replicate] at h
      obtain ⟨k, hk1, hk2, hk3, hk4⟩ := ih Skeleton Name (k0 + 1) Result h
      refine ⟨k, by omega, hk2, hk3, ?_⟩
      intro k2 h1 h2
      by_cases hk : k2 = k0
      · rw [hk]
        exact hc
      · exact hk4 k2 (by omega) h2
    · simp only [hc, if_false, Option.some.injEq] at h
      refine ⟨k0, Nat.le_refl _, h.symm, ?_, fun k2 h1 h2 => by omega⟩
      rw [← h]
      simpa using hc

/-- The collision loop returns when the budget exceeds the number of bones. -/
theorem uniqueBoneName_returns :
    ∀ (n : Nat) (Skeleton : List FMeshBone) (Name : FName) (Present : List FName),
      (∀ k, k < Present.length → Present[k]? = some (Name ++ List.replicate k '_')) →
      (∀ x ∈ Present, x ∈ Skeleton.map (fun b => b.Name)) →
      Skeleton.length < n + Present.length →
      ∃ Result, uniqueBoneName n Skeleton (Name ++ List.replicate Present.length '_') =
        some Result := by
  intro n
  induction n with
  | zero =>
    intro Skeleton Name Present hP hsub hlen
    exfalso
    have hnd : Present.Nodup := by
      rw [List.nodup_iff_getElem?_ne_getElem?]
      intro i j hij hj
      rw [hP i (by omega), hP j hj]
      intro heq
      have := congrArg List.length (Option.some.inj heq)
      simp at this
      omega
    have hle : Present.length ≤ (Skeleton.map (fun b => b.Name)).length :=
      (List.subperm_of_subset hnd hsub).length_le
    simp only [List.length_map] at hle
    omega
  | succ n ih =>
    intro Skeleton Name Present hP hsub hlen
    unfold uniqueBoneName
    by_cases hc : FindBoneIndex Skeleton (Name ++ List.replicate Present.length '_') ≠
        INDEX_NONE
    · simp only [hc, ne_eq, not_false_eq_true, if_true]
      rw [appendUnderscore_replicate]
      have hin : Name ++ List.replicate Present.length '_' ∈
          Skeleton.map (fun b => b.Name) := by
        by_contra hcon
        exact hc ((FindBoneIndex_none_iff _ _).2 (Or.inr hcon))
      have := ih Skeleton Name (Present ++ [Name ++ List.replicate Present.length '_'])
        (by
          intro k hk
          simp only [List.length_append, List.length_singleton] at hk
          by_cases hk2 : k < Present.length
          · rw [List.getElem?_append_left hk2]
            exact hP k hk2
          · have : k = Present.length := by omega
            subst this
            simp)
        (by
          intro x hx
          rcases List.mem_append.1 hx with h1 | h1
          · exact hsub x h1
          · simp only [List.mem_singleton] at h1
            rw [h1]
            exact hin)
        (by simp only [List.length_append, List.length_singleton]; omega)
      simpa using this
    · simp only [hc, if_false]
      exact ⟨_, rfl⟩

/-- The name that the collision loop returns for the bone added to a skeleton, when
`FindBoneIndex` finds the bone after the addition: the bone is named by the collision rule. -/
theorem uniqueBoneName_rule (n : Nat) (Skeleton : List FMeshBone) (ExportName : String)
    (BoneName : FName) (Parent : Int) (Transform : FMatrix)
    (hu : uniqueBoneName n Skeleton (FName.ofString ExportName) = some BoneName)
    (hf : FindBoneIndex (Skeleton ++ [⟨BoneName, ExportName, Parent, Transform⟩]) BoneName ≠
      INDEX_NONE) :
    NamedByRule Skeleton ⟨BoneName, ExportName, Parent, Transform⟩ := by
  have hu2 : uniqueBoneName n Skeleton (FName.ofString ExportName ++ List.replicate 0 '_') =
      some BoneName := by
    simpa using hu
  obtain ⟨k, _, hk2, hk3, hk4⟩ := uniqueBoneName_spec n Skeleton _ 0 BoneName hu2
  have hnn : ¬ (BoneName.isNone = true) := by
    intro hcon
    exact hf ((FindBoneIndex_none_iff _ _).2 (Or.inl hcon))
  refine ⟨k, hk2, ?_, ?_⟩
  · rcases (FindBoneIndex_none_iff _ _).1 hk3 with h | h
    · exact absurd h hnn
    · exact h
  · intro k2 hlt
    have := hk4 k2 (Nat.zero_le _) hlt
    by_contra hcon
    exact this ((FindBoneIndex_none_iff _ _).2 (Or.inr hcon))

/-- Adding a bone that is named by the collision rule keeps the skeleton well named. -/
theorem WellNamed_append (Skeleton : List FMeshBone) (Bone : FMeshBone)
    (hW : WellNamed Skeleton) (hB : NamedByRule Skeleton Bone) :
    WellNamed (Skeleton ++ [Bone]) := by
  intro i b hi
  by_cases hlt : i < Skeleton.length
  · rw [List.getElem?_append_left hlt] at hi
    rw [List.take_append_of_le_length (Nat.le_of_lt hlt)]
    exact hW i b hi
  · have hlen : i < (Skeleton ++ [Bone]).length := (List.getElem?_eq_some.1 hi).1
    simp only [List.length_append, List.length_singleton] at hlen
    have hi2 : i = Skeleton.length := by omega
    subst hi2
    rw [List.getElem?_append_right (Nat.le_refl _)] at hi
    simp only [Nat.sub_self, List.getElem?_cons_zero, Option.some.injEq] at hi
    subst hi
    rw [List.take_append_of_le_length (Nat.le_refl _), List.take_length]
    exact hB

/-- The names of a well-named skeleton are pairwise distinct. -/
theorem WellNamed_nodup (Skeleton : List FMeshBone) (hW : WellNamed Skeleton) :
    (Skeleton.map (fun b => b.Name)).Nodup := by
  rw [List.nodup_iff_getElem?_ne_getElem?]
  intro i j hij hj heq
  simp only [List.length_map] at hj
  have hgi : Skeleton[i]? = some Skeleton[i] := List.getElem?_eq_getElem (by omega)
  have hgj : Skeleton[j]? = some Skeleton[j] := List.getElem?_eq_getElem hj
  simp only [List.getElem?_map, hgi, hgj, Option.map_some', Option.some.injEq] at heq
  obtain ⟨_, _, hnot, _⟩ := hW j _ hgj
  apply hnot
  rw [← heq]
  apply List.mem_map.2
  refine ⟨Skeleton[i], ?_, rfl⟩
  apply List.mem_iff_getElem?.2
  refine ⟨i, ?_⟩
  rw [List.getElem?_take]
  simp [hij, hgi]

/-- The children loop of `TraverseJoints` keeps every property of the skeleton that the
recursive call keeps. -/
theorem traverseChildren_preserves (P : List FMeshBone → Prop)
    (recurse : ParserState → List FMeshBone → List (Int × FName) → FglTFRuntimeNode →
      Outcome (List FMeshBone × List (Int × FName)) × ParserState)
    (load : ParserState → Int → Outcome FglTFRuntimeNode × ParserState)
    (hrec : ∀ S Skeleton BoneMap Node R S2, P Skeleton →
      recurse S Skeleton BoneMap Node = (.ok R, S2) → P R.1) :
    ∀ (Children : List Int) S Skeleton BoneMap R S2, P Skeleton →
      traverseChildren recurse load Children S Skeleton BoneMap = (.ok R, S2) → P R.1 := by
  intro Children
  induction Children with
  | nil =>
    intro S Skeleton BoneMap R S2 hP h
    unfold traverseChildren at h
    cases h
    exact hP
  | cons c rest ih =>
    intro S Skeleton BoneMap R S2 hP h
    unfold traverseChildren at h
    cases hl : load S c with
    | mk o S1 =>
      cases o with
      | ok ChildNode =>
        simp only [hl] at h
        cases hr : recurse S1 Skeleton BoneMap ChildNode with
        | mk o2 S3 =>
          cases o2 with
          | ok R1 =>
            obtain ⟨Sk1, BM1⟩ := R1
            simp only [hr] at h
            exact ih S3 Sk1 BM1 R S2 (hrec S1 Skeleton BoneMap ChildNode (Sk1, BM1) S3 hP hr) h
          | fail => simp [hr] at h
          | fault => simp [hr] at h
          | nofuel => simp [hr] at h
      | fail => simp [hl] at h
      | fault => simp [hl] at h
      | nofuel => simp [hl] at h

/-- What a call of `TraverseJoints` that returns true has done before its children loop: it has
added one bone, named by the collision rule, and recorded the node when it is a joint. -/
theorem TraverseJoints_ok_inv (Inverse : FMatrix → FMatrix) (Config : ParserConfig)
    (Root : Document) (Joints : List Int) (InverseBindMatricesMap : List (Int × FMatrix))
    (fuel : Nat) (Parent : Int) (S : ParserState) (Skeleton : List FMeshBone)
    (BoneMap : List (Int × FName)) (Node : FglTFRuntimeNode)
    (R : List FMeshBone × List (Int × FName)) (S2 : ParserState)
    (h : TraverseJoints Inverse Config Root Joints InverseBindMatricesMap (fuel + 1) Parent S
      Skeleton BoneMap Node = (.ok R, S2)) :
    ∃ (BoneName : FName) (Transform : FMatrix),
      NamedByRule Skeleton ⟨BoneName, Node.Name, Parent, Transform⟩ ∧
      traverseChildren
        (TraverseJoints Inverse Config Root Joints InverseBindMatricesMap fuel
          (FindBoneIndex (Skeleton ++ [⟨BoneName, Node.Name, Parent, Transform⟩]) BoneName))
        (LoadNode (fuel + 1) Config Root) Node.ChildrenIndices S
        (Skeleton ++ [⟨BoneName, Node.Name, Parent, Transform⟩])
        (recordJoints Joints BoneMap [(Node.Index, BoneName)]) = (.ok R, S2) := by
  unfold TraverseJoints at h
  cases hu : uniqueBoneName (fuel + 1) Skeleton (FName.ofString Node.Name) with
  | none => simp [hu] at h
  | some BoneName =>
    simp only [hu] at h
    cases hb : boneTransform Inverse Config Node Joints InverseBindMatricesMap with
    | none => simp [hb] at h
    | some Transform =>
      simp only [hb] at h
      by_cases hf : FindBoneIndex (Skeleton ++ [⟨BoneName, Node.Name, Parent, Transform⟩])
          BoneName = INDEX_NONE
      · simp [hf] at h
      · simp only [hf, if_false] at h
        exact ⟨BoneName, Transform, uniqueBoneName_rule _ _ _ _ _ _ hu hf, h⟩

/-- A call of `TraverseJoints` that returns true keeps the skeleton well named. -/
theorem TraverseJoints_wellNamed (Inverse : FMatrix → FMatrix) (Config : ParserConfig)
    (Root : Document) (Joints : List Int) (InverseBindMatricesMap : List (Int × FMatrix)) :
    ∀ (fuel : Nat) (Parent : Int) (S : ParserState) (Skeleton : List FMeshBone)
      (BoneMap : List (Int × FName)) (Node : FglTFRuntimeNode)
      (R : List FMeshBone × List (Int × FName)) (S2 : ParserState), WellNamed Skeleton →
      TraverseJoints Inverse Config Root Joints InverseBindMatricesMap fuel Parent S Skeleton
        BoneMap Node = (.ok R, S2) → WellNamed R.1 := by
  intro fuel
  induction fuel with
  | zero =>
    intro Parent S Skeleton BoneMap Node R S2 _ h
    simp [TraverseJoints] at h
  | succ fuel ih =>
    intro Parent S Skeleton BoneMap Node R S2 hW h
    obtain ⟨BoneName, Transform, hrule, hc⟩ := TraverseJoints_ok_inv _ _ _ _ _ _ _ _ _ _ _ _ _ h
    exact traverseChildren_preserves WellNamed _ _
      (fun S Skeleton BoneMap Node R S2 hP hr => ih _ S Skeleton BoneMap Node R S2 hP hr)
      Node.ChildrenIndices S _ _ R S2 (WellNamed_append _ _ hW hrule) hc

theorem WellNamed_nil : WellNamed [] := by
  intro i b h
  simp at h

/-! ## C15 -/

/-- C15: after `TraverseJoints` has returned true on an initially empty skeleton, whatever the
node, the node table, the names and the budget, the names of the bones of the skeleton, which
are the bones it added, are pairwise distinct. -/
theorem C15_bone_names_distinct (Inverse : FMatrix → FMatrix) (Config : ParserConfig)
    (Root : Document) (Joints : List Int) (InverseBindMatricesMap : List (Int × FMatrix))
    (fuel : Nat) (Parent : Int) (S S2 : ParserState) (BoneMap BoneMap2 : List (Int × FName))
    (Node : FglTFRuntimeNode) (Skeleton : List FMeshBone)
    (h : TraverseJoints Inverse Config Root Joints InverseBindMatricesMap fuel Parent S []
      BoneMap Node = (.ok (Skeleton, BoneMap2), S2)) :
    (Skeleton.map (fun b => b.Name)).Nodup :=
  WellNamed_nodup Skeleton
    (TraverseJoints_wellNamed Inverse Config Root Joints InverseBindMatricesMap fuel Parent S []
      BoneMap Node (Skeleton, BoneMap2) S2 WellNamed_nil h)

/-! ## Underscores -/

theorem dropWhile_replicate_append (p : Char → Bool) (c : Char) (hp : p c = true) :
    ∀ (k : Nat) (l : List Char), (List.replicate k c ++ l).dropWhile p = l.dropWhile p := by
  intro k
  induction k with
  | zero => intro l; rfl
  | succ k ih =>
    intro l
    rw [List.replicate_succ, List.cons_append, List.dropWhile_cons, hp]
    exact ih l

/-- Appending underscores does not change the stem of a name. -/
theorem stem_underscored (Name : FName) (k : Nat) : stem (underscored Name k) = stem Name := by
  unfold stem underscored
  rw [List.reverse_append, List.reverse_replicate,
    dropWhile_replicate_append _ '_' (by decide)]

theorem underscored_zero (Name : FName) : underscored Name 0 = Name := by
  unfold underscored
  simp

theorem underscored_one (Name : FName) : underscored Name 1 = Name ++ ['_'] := rfl

/-- A bone that is named by the collision rule has the stem of the name of its export name. -/
theorem NamedByRule_stem (Before : List FMeshBone) (Bone : FMeshBone)
    (h : NamedByRule Before Bone) : stem Bone.Name = stem (FName.ofString Bone.ExportName) := by
  obtain ⟨k, hk, _, _⟩ := h
  rw [hk, stem_underscored]

/-- A name among the names of the first `i` bones is the name of a bone at a position below
`i`. -/
theorem mem_take_names (Skeleton : List FMeshBone) (i : Nat) (Name : FName)
    (h : Name ∈ (Skeleton.take i).map (fun b => b.Name)) :
    ∃ (j : Nat) (Bone : FMeshBone), j < i ∧ Skeleton[j]? = some Bone ∧ Bone.Name = Name := by
  obtain ⟨b, hb, hn⟩ := List.mem_map.1 h
  obtain ⟨j, hj⟩ := List.mem_iff_getElem?.1 hb
  rw [List.getElem?_take] at hj
  by_cases hlt : j < i
  · simp only [hlt, if_true] at hj
    exact ⟨j, b, hlt, hj, hn⟩
  · simp [hlt] at hj

theorem names_take_mem (Skeleton : List FMeshBone) (i j : Nat) (Bone : FMeshBone) (hlt : j < i)
    (hj : Skeleton[j]? = some Bone) : Bone.Name ∈ (Skeleton.take i).map (fun b => b.Name) := by
  apply List.mem_map.2
  refine ⟨Bone, ?_, rfl⟩
  apply List.mem_iff_getElem?.2
  refine ⟨j, ?_⟩
  rw [List.getElem?_take]
  simp [hlt, hj]

/-- In a well-named skeleton, when two bones have export names of the same name `x` and no
other bone has an export name whose name has the stem of `x`, the first of the two is named
`x` and the second `x` followed by one underscore. -/
theorem WellNamed_two (Skeleton : List FMeshBone) (hW : WellNamed Skeleton) (x : FName)
    (k1 k2 : Nat) (b1 b2 : FMeshBone) (hlt : k1 < k2)
    (h1 : Skeleton[k1]? = some b1) (h2 : Skeleton[k2]? = some b2)
    (hx1 : FName.ofString b1.ExportName = x) (hx2 : FName.ofString b2.ExportName = x)
    (hothers : ∀ (k : Nat) (b : FMeshBone), Skeleton[k]? = some b → k ≠ k1 → k ≠ k2 →
      stem (FName.ofString b.ExportName) ≠ stem x) :
    b1.Name = x ∧ b2.Name = x ++ ['_'] := by
  have hstem : ∀ (j : Nat) (b : FMeshBone), Skeleton[j]? = some b →
      stem b.Name = stem (FName.ofString b.ExportName) :=
    fun j b hj => NamedByRule_stem _ b (hW j b hj)
  have hb1 : b1.Name = x := by
    obtain ⟨m, hm, _, hmin⟩ := hW k1 b1 h1
    rw [hx1] at hm hmin
    cases m with
    | zero => rw [hm, underscored_zero]
    | succ m =>
      exfalso
      have := hmin 0 (Nat.succ_pos _)
      rw [underscored_zero] at this
      obtain ⟨j, b, hj, hb, hn⟩ := mem_take_names _ _ _ this
      apply hothers j b hb (by omega) (by omega)
      rw [← hstem j b hb, hn]
  refine ⟨hb1, ?_⟩
  obtain ⟨m, hm, hnot, hmin⟩ := hW k2 b2 h2
  rw [hx2] at hm hmin
  match m with
  | 0 =>
    exfalso
    apply hnot
    rw [hm, underscored_zero, ← hb1]
    exact names_take_mem _ _ _ _ hlt h1
  | 1 => rw [hm, underscored_one]
  | m + 2 =>
    exfalso
    have := hmin 1 (by omega)
    obtain ⟨j, b, hj, hb, hn⟩ := mem_take_names _ _ _ this
    by_cases hj1 : j = k1
    · subst hj1
      rw [h1] at hb
      cases hb
      rw [hb1, underscored_one] at hn
      have := congrArg List.length hn
      simp at this
    · apply hothers j b hb hj1 (by omega)
      rw [← hstem j b hb, hn, stem_underscored]

/-! ## The visits of the traversal -/

/-- With the nodes cached, a call of `LoadNode` that returns true was given an index of the
table, returns the node at that position and leaves the state unchanged. -/
theorem LoadNode_cached_inv (fuel : Nat) (Config : ParserConfig) (Root : Document)
    (S S1 : ParserState) (hflag : S.bAllNodesCached = true) (j : Int) (Node : FglTFRuntimeNode)
    (h : LoadNode fuel Config Root S j = (.ok Node, S1)) :
    S1 = S ∧ ValidIndex S.AllNodesCache j ∧ S.AllNodesCache[j.toNat]? = some Node := by
  unfold LoadNode at h
  simp only [hflag, Bool.not_true, Bool.false_eq_true, if_false] at h
  by_cases h1 : j ≥ (S.AllNodesCache.length : Int)
  · simp [h1] at h
  · simp only [h1, if_false] at h
    by_cases h2 : j < 0
    · simp [h2] at h
    · simp only [h2, if_false] at h
      cases hg : S.AllNodesCache[j.toNat]? with
      | none => simp [hg] at h
      | some N =>
        simp only [hg, Prod.mk.injEq, Outcome.ok.injEq] at h
        refine ⟨h.2.symm, ⟨by omega, by omega⟩, ?_⟩
        rw [h.1]

theorem recordJoints_append (Joints : List Int) :
    ∀ (A B : List (Int × FName)) (BoneMap : List (Int × FName)),
      recordJoints Joints BoneMap (A ++ B) =
        recordJoints Joints (recordJoints Joints BoneMap A) B := by
  intro A
  induction A with
  | nil => intro B BoneMap; rfl
  | cons a rest ih =>
    intro B BoneMap
    obtain ⟨i, n⟩ := a
    simp only [List.cons_append, recordJoints]
    exact ih B _

/-- The children loop of `TraverseJoints` with the nodes cached: when the recursive call visits
the nodes of `order` from each node, the loop visits those of the children in turn. -/
theorem traverseChildren_visits (fuel : Nat) (Config : ParserConfig) (Root : Document)
    (S : ParserState) (hflag : S.bAllNodesCached = true)
    (hidx : ∀ (i : Nat) (Node : FglTFRuntimeNode), S.AllNodesCache[i]? = some Node →
      Node.Index = (i : Int))
    (Joints : List Int) (order : Int → List Int)
    (recurse : ParserState → List FMeshBone → List (Int × FName) → FglTFRuntimeNode →
      Outcome (List FMeshBone × List (Int × FName)) × ParserState)
    (hrec : ∀ Skeleton BoneMap Node R S2 (i : Nat), S.AllNodesCache[i]? = some Node →
      recurse S Skeleton BoneMap Node = (.ok R, S2) →
      S2 = S ∧ ∃ V, VisitsOf S.AllNodesCache Joints (order Node.Index) Skeleton BoneMap R V) :
    ∀ (Children : List Int) Skeleton BoneMap R S2,
      traverseChildren recurse (LoadNode fuel Config Root) Children S Skeleton BoneMap =
        (.ok R, S2) →
      S2 = S ∧
        ∃ V, VisitsOf S.AllNodesCache Joints (Children.flatMap order) Skeleton BoneMap R V := by
  intro Children
  induction Children with
  | nil =>
    intro Skeleton BoneMap R S2 h
    unfold traverseChildren at h
    cases h
    exact ⟨rfl, [], rfl, by simp, by simp, rfl⟩
  | cons c rest ih =>
    intro Skeleton BoneMap R S2 h
    unfold traverseChildren at h
    cases hl : LoadNode fuel Config Root S c with
    | mk o S1 =>
      cases o with
      | ok ChildNode =>
        obtain ⟨hS1, hc, hnode⟩ := LoadNode_cached_inv fuel Config Root S S1 hflag c ChildNode hl
        subst hS1
        simp only [hl] at h
        cases hr : recurse S1 Skeleton BoneMap ChildNode with
        | mk o2 S3 =>
          cases o2 with
          | ok R1 =>
            obtain ⟨Sk1, BM1⟩ := R1
            simp only [hr] at h
            obtain ⟨hS3, V1, hv1, hv2, hv3, hv4⟩ :=
              hrec Skeleton BoneMap ChildNode (Sk1, BM1) S3 c.toNat hnode hr
            subst hS3
            obtain ⟨hS2, V2, hw1, hw2, hw3, hw4⟩ := ih Sk1 BM1 R S2 h
            have hci : ChildNode.Index = c := by
              rw [hidx c.toNat ChildNode hnode]
              have := hc.1
              omega
            refine ⟨hS2, V1 ++ V2, ?_, ?_, ?_, ?_⟩
            · rw [List.map_append, hv1, hw1, List.flatMap_cons, hci]
            · rw [hw2, List.map_append, ← List.append_assoc]
              simp only at hv2
              rw [hv2]
            · intro v hv
              rcases List.mem_append.1 hv with h1 | h1
              · exact hv3 v h1
              · exact hw3 v h1
            · rw [hw4, List.map_append, recordJoints_append]
              simp only at hv4
              rw [hv4]
          | fail => simp [hr] at h
          | fault => simp [hr] at h
          | nofuel => simp [hr] at h
      | fail => simp [hl] at h
      | fault => simp [hl] at h
      | nofuel => simp [hl] at h

/-- A call of `TraverseJoints` on a node of the table, with the nodes cached, that returns true:
it has left the state unchanged and visited the nodes of `visitOrder` in that order, adding one
bone per visit. -/
theorem TraverseJoints_visits (Inverse : FMatrix → FMatrix) (Config : ParserConfig)
    (Root : Document) (Joints : List Int) (InverseBindMatricesMap : List (Int × FMatrix))
    (S : ParserState) (hflag : S.bAllNodesCached = true)
    (hidx : ∀ (i : Nat) (Node : FglTFRuntimeNode), S.AllNodesCache[i]? = some Node →
      Node.Index = (i : Int)) :
    ∀ (fuel : Nat) (Parent : Int) (Skeleton : List FMeshBone) (BoneMap : List (Int × FName))
      (Node : FglTFRuntimeNode) (R : List FMeshBone × List (Int × FName)) (S2 : ParserState)
      (i : Nat), S.AllNodesCache[i]? = some Node →
      TraverseJoints Inverse Config Root Joints InverseBindMatricesMap fuel Parent S Skeleton
        BoneMap Node = (.ok R, S2) →
      S2 = S ∧ ∃ V, VisitsOf S.AllNodesCache Joints (visitOrder S.AllNodesCache fuel Node.Index)
        Skeleton BoneMap R V := by
  intro fuel
  induction fuel with
  | zero =>
    intro Parent Skeleton BoneMap Node R S2 i _ h
    simp [TraverseJoints] at h
  | succ fuel ih =>
    intro Parent Skeleton BoneMap Node R S2 i hnode h
    obtain ⟨BoneName, Transform, _, hc⟩ := TraverseJoints_ok_inv _ _ _ _ _ _ _ _ _ _ _ _ _ h
    obtain ⟨hS2, V, hv1, hv2, hv3, hv4⟩ := traverseChildren_visits (fuel + 1) Config Root S hflag
      hidx Joints (visitOrder S.AllNodesCache fuel) _
      (fun Skeleton BoneMap Node R S2 i hn hr => ih _ Skeleton BoneMap Node R S2 i hn hr)
      Node.ChildrenIndices _ _ R S2 hc
    have hi : Node.Index = (i : Int) := hidx i Node hnode
    have hch : childrenAt S.AllNodesCache Node.Index.toNat = Node.ChildrenIndices := by
      unfold childrenAt
      rw [hi, Int.toNat_ofNat, hnode]
    have hlt : i < S.AllNodesCache.length := (List.getElem?_eq_some.1 hnode).1
    refine ⟨hS2, (Node.Index, ⟨BoneName, Node.Name, Parent, Transform⟩) :: V, ?_, ?_, ?_, ?_⟩
    · simp only [List.map_cons, hv1, visitOrder, hch]
    · rw [hv2]
      simp
    · intro v hv
      rcases List.mem_cons.1 hv with h1 | h1
      · subst h1
        refine ⟨⟨by simp only [hi]; omega, by simp only [hi]; omega⟩, ?_⟩
        simp only [nameAt, hi, Int.toNat_ofNat, hnode]
      · exact hv3 v h1
    · rw [hv4]
      rfl

/-- The visits of a call on an empty skeleton, position by position: the bone at the position
of a visit has the name of the visited node as export name. -/
theorem VisitsOf_position (Table : List FglTFRuntimeNode) (Joints : List Int)
    (Order : List Int) (BoneMap : List (Int × FName))
    (R : List FMeshBone × List (Int × FName)) (V : List (Int × FMeshBone))
    (hV : VisitsOf Table Joints Order [] BoneMap R V) :
    R.1.length = Order.length ∧
    ∀ (k : Nat) (idx : Int), Order[k]? = some idx →
      ∃ Bone, R.1[k]? = some Bone ∧ V[k]? = some (idx, Bone) ∧ ValidIndex Table idx ∧
        Bone.ExportName = nameAt Table idx := by
  obtain ⟨h1, h2, h3, _⟩ := hV
  rw [List.nil_append] at h2
  refine ⟨by rw [h2, ← h1, List.length_map, List.length_map], ?_⟩
  intro k idx hk
  rw [← h1, List.getElem?_map] at hk
  cases hv : V[k]? with
  | none => simp [hv] at hk
  | some v =>
    simp only [hv, Option.map_some', Option.some.injEq] at hk
    obtain ⟨a, b⟩ := v
    simp only at hk
    subst hk
    have hmem : (a, b) ∈ V := List.mem_iff_getElem?.2 ⟨k, hv⟩
    obtain ⟨g1, g2⟩ := h3 (a, b) hmem
    refine ⟨b, ?_, rfl, g1, g2⟩
    rw [h2, List.getElem?_map, hv]
    rfl

/-! ## C16 -/

/-- C16, as stated, at a concrete input: in the sample document whose node 0, named "a", has
the children 1, 2 and 3 named "a", "a_" and "a_", exactly the nodes 2 and 3 are named "a_" and
no node is named "a_" followed by underscores; the traversal from node 0 visits the nodes in the
order 0, 1, 2, 3 and gives them the bone names "a", "a_", "a__" and "a___": the name "a_" goes
to node 1, and node 2, the first visited of the two nodes named "a_", is named "a__". -/
theorem C16_underscores_counterexample :
    (LoadNodes 2 sampleConfig sampleUnderscores ParserState.initial).1 = .ok () ∧
    (LoadNodes 2 sampleConfig sampleUnderscores ParserState.initial).2.AllNodesCache.map
      (fun Node => Node.Name) = ["a", "a", "a_", "a_"] ∧
    visitOrder (LoadNodes 2 sampleConfig sampleUnderscores ParserState.initial).2.AllNodesCache
      5 0 = [0, 1, 2, 3] ∧
    boneNames (TraverseJoints (fun M => M) sampleConfig sampleUnderscores [] [] 5 INDEX_NONE
      (LoadNodes 2 sampleConfig sampleUnderscores ParserState.initial).2 [] []
      (nodeOf (LoadNodes 2 sampleConfig sampleUnderscores ParserState.initial).2 0)) =
      some ["a", "a_", "a__", "a___"] :=
  ⟨by decide, by decide, by decide, by decide⟩

/-- C16, amended: names are compared as `FName`, that is ignoring case, and the two-node rule
needs that no other visited node has a name with the stem of X (X without its trailing
underscores). After `TraverseJoints` has returned true on a node of the table, with the nodes
cached and an initially empty skeleton, there is one bone per visited node, in the order of the
visits (depth-first, a node before its children, the children in declared order); the bone of a
visit has the name of the node as export name and, as name, that name followed by the smallest
number of underscores for which the result is not the name of a bone already in the skeleton;
and when two visits are of nodes named X and every other visit is of a node whose name has not
the stem of X, the bone of the first is named X and the bone of the second X followed by one
underscore. -/
theorem C16_underscores_first_seen (Inverse : FMatrix → FMatrix) (Config : ParserConfig)
    (Root : Document) (Joints : List Int) (InverseBindMatricesMap : List (Int × FMatrix))
    (S S2 : ParserState) (fuel : Nat) (Parent : Int) (BoneMap BoneMap2 : List (Int × FName))
    (Node : FglTFRuntimeNode) (Skeleton : List FMeshBone) (i : Nat)
    (hflag : S.bAllNodesCached = true)
    (hidx : ∀ (i : Nat) (Node : FglTFRuntimeNode), S.AllNodesCache[i]? = some Node →
      Node.Index = (i : Int))
    (hnode : S.AllNodesCache[i]? = some Node)
    (h : TraverseJoints Inverse Config Root Joints InverseBindMatricesMap fuel Parent S []
      BoneMap Node = (.ok (Skeleton, BoneMap2), S2)) :
    Skeleton.length = (visitOrder S.AllNodesCache fuel Node.Index).length ∧
    (∀ (k : Nat) (idx : Int), (visitOrder S.AllNodesCache fuel Node.Index)[k]? = some idx →
      ∃ Bone, Skeleton[k]? = some Bone ∧ Bone.ExportName = nameAt S.AllNodesCache idx ∧
        ∃ m, Bone.Name = underscored (FName.ofString (nameAt S.AllNodesCache idx)) m ∧
          Bone.Name ∉ (Skeleton.take k).map (fun b => b.Name) ∧
          ∀ m2, m2 < m → underscored (FName.ofString (nameAt S.AllNodesCache idx)) m2 ∈
            (Skeleton.take k).map (fun b => b.Name)) ∧
    (∀ (x : FName) (k1 k2 : Nat) (i1 i2 : Int), k1 < k2 →
      (visitOrder S.AllNodesCache fuel Node.Index)[k1]? = some i1 →
      (visitOrder S.AllNodesCache fuel Node.Index)[k2]? = some i2 →
      FName.ofString (nameAt S.AllNodesCache i1) = x →
      FName.ofString (nameAt S.AllNodesCache i2) = x →
      (∀ (k : Nat) (idx : Int), (visitOrder S.AllNodesCache fuel Node.Index)[k]? = some idx →
        k ≠ k1 → k ≠ k2 → stem (FName.ofString (nameAt S.AllNodesCache idx)) ≠ stem x) →
      ∃ b1 b2, Skeleton[k1]? = some b1 ∧ Skeleton[k2]? = some b2 ∧
        b1.Name = x ∧ b2.Name = x ++ ['_']) := by
  have hW := TraverseJoints_wellNamed Inverse Config Root Joints InverseBindMatricesMap fuel
    Parent S [] BoneMap Node (Skeleton, BoneMap2) S2 WellNamed_nil h
  obtain ⟨_, V, hV⟩ := TraverseJoints_visits Inverse Config Root Joints InverseBindMatricesMap S
    hflag hidx fuel Parent [] BoneMap Node (Skeleton, BoneMap2) S2 i hnode h
  obtain ⟨hlen, hpos⟩ := VisitsOf_position _ _ _ _ _ V hV
  simp only at hW hlen hpos
  refine ⟨hlen, ?_, ?_⟩
  · intro k idx hk
    obtain ⟨Bone, hb, _, _, he⟩ := hpos k idx hk
    obtain ⟨m, hm1, hm2, hm3⟩ := hW k Bone hb
    rw [he] at hm1 hm3
    exact ⟨Bone, hb, he, m, hm1, hm2, hm3⟩
  · intro x k1 k2 i1 i2 hlt h1 h2 hx1 hx2 hothers
    obtain ⟨b1, hb1, _, _, he1⟩ := hpos k1 i1 h1
    obtain ⟨b2, hb2, _, _, he2⟩ := hpos k2 i2 h2
    have hord : ∀ (k : Nat) (b : FMeshBone), Skeleton[k]? = some b →
        ∃ idx, (visitOrder S.AllNodesCache fuel Node.Index)[k]? = some idx := by
      intro k b hb
      have hk : k < (visitOrder S.AllNodesCache fuel Node.Index).length := by
        rw [← hlen]
        exact (List.getElem?_eq_some.1 hb).1
      exact ⟨_, List.getElem?_eq_getElem hk⟩
    obtain ⟨g1, g2⟩ := WellNamed_two Skeleton hW x k1 k2 b1 b2 hlt hb1 hb2
      (by rw [he1]; exact hx1) (by rw [he2]; exact hx2)
      (by
        intro k b hb hk1 hk2
        obtain ⟨idx, hidx2⟩ := hord k b hb
        obtain ⟨b3, hb3, _, _, he3⟩ := hpos k idx hidx2
        rw [hb] at hb3
        cases hb3
        rw [he3]
        exact hothers k idx hidx2 hk1 hk2)
    exact ⟨b1, b2, hb1, hb2, g1, g2⟩

/-- The nodes of the sample document for skins form a forest: node 0 has height 1, its children
height 0. -/
theorem sampleSkinned_forest :
    IsForest (fun i => if i = 0 then 1 else 0)
      [some (sampleNamedNode "b" (some [some 1, some 2])), some (sampleNamedNode "B" none),
        some (sampleNamedNode "c" none)] := by
  have key : ∀ (i : Nat) (c : Int),
      some c ∈ declaredChildren [some (sampleNamedNode "b" (some [some 1, some 2])),
        some (sampleNamedNode "B" none), some (sampleNamedNode "c" none)] i →
        i = 0 ∧ (c = 1 ∨ c = 2) := by
    intro i c h
    match i with
    | 0 => simpa [declaredChildren, sampleNamedNode] using h
    | 1 => simp [declaredChildren, sampleNamedNode] at h
    | 2 => simp [declaredChildren, sampleNamedNode] at h
    | n + 3 => simp [declaredChildren] at h
  refine ⟨?_, ?_, ?_⟩
  · intro i c h
    rcases (key i c h).2 with h1 | h1 <;> subst h1 <;> simp
  · intro i j c hi hj
    rw [(key i c hi).1, (key j c hj).1]
  · intro i c h
    obtain ⟨h0, h1⟩ := key i c h
    subst h0
    rcases h1 with h1 | h1 <;> subst h1 <;> simp

/-- After `LoadNodes` on the sample document for skins, the nodes are cached, the children lists
of the table form a forest and the parent links round-trip. -/
theorem sampleSkinned_loaded :
    (LoadNodes 2 sampleConfig sampleSkinned ParserState.initial).2.bAllNodesCached = true ∧
    TableForest (fun i => if i = 0 then 1 else 0)
      (LoadNodes 2 sampleConfig sampleSkinned ParserState.initial).2.AllNodesCache ∧
    ParentsAsDeclared
      (LoadNodes 2 sampleConfig sampleSkinned ParserState.initial).2.AllNodesCache := by
  obtain ⟨h1, hT⟩ := LoadNodes_reached_loaded sampleConfig sampleSkinned ParserState.initial
    ParserState.initial [] 2 rfl rfl rfl (by decide)
  exact ⟨h1, TableLoaded_parents sampleConfig sampleSkinned _ _ _ rfl sampleSkinned_forest hT⟩

/-- C15 at a concrete input: on the loaded sample document for skins, `TraverseJoints` from node
0 on an empty skeleton returns true with the bones "b", "b_" and "c", whose names are pairwise
distinct. -/
theorem C15_bone_names_distinct_witness :
    ∃ Skeleton BoneMap2 S2,
      TraverseJoints (fun M => M) sampleConfig sampleSkinned [2, 1] [] 3 INDEX_NONE
        (LoadNodes 2 sampleConfig sampleSkinned ParserState.initial).2 [] []
        (nodeOf (LoadNodes 2 sampleConfig sampleSkinned ParserState.initial).2 0) =
        (.ok (Skeleton, BoneMap2), S2) ∧
      Skeleton.map (fun b => String.mk b.Name) = ["b", "b_", "c"] ∧
      (Skeleton.map (fun b => b.Name)).Nodup :=
  ⟨_, _, _, rfl, by decide,
    C15_bone_names_distinct (fun M => M) sampleConfig sampleSkinned [2, 1] [] 3 INDEX_NONE
      (LoadNodes 2 sampleConfig sampleSkinned ParserState.initial).2 _ [] _
      (nodeOf (LoadNodes 2 sampleConfig sampleSkinned ParserState.initial).2 0) _ rfl⟩

/-- In the loaded sample document for skins, the traversal from node 0 visits the nodes 0, 1
and 2, and node 2 is the only one whose name has not the stem of "b". -/
theorem sampleSkinned_others (k : Nat) (idx : Int)
    (hk : (visitOrder (LoadNodes 2 sampleConfig sampleSkinned ParserState.initial).2.AllNodesCache
      3 (nodeOf (LoadNodes 2 sampleConfig sampleSkinned ParserState.initial).2 0).Index)[k]? =
      some idx) (h0 : k ≠ 0) (h1 : k ≠ 1) :
    stem (FName.ofString
      (nameAt (LoadNodes 2 sampleConfig sampleSkinned ParserState.initial).2.AllNodesCache idx)) ≠
      stem "b".data := by
  have hord : visitOrder (LoadNodes 2 sampleConfig sampleSkinned ParserState.initial).2.AllNodesCache
      3 (nodeOf (LoadNodes 2 sampleConfig sampleSkinned ParserState.initial).2 0).Index =
      [0, 1, 2] := by decide
  rw [hord] at hk
  match k with
  | 0 => exact absurd rfl h0
  | 1 => exact absurd rfl h1
  | 2 =>
    simp only [List.getElem?_cons_succ, List.getElem?_cons_zero, Option.some.injEq] at hk
    subst hk
    decide
  | n + 3 => simp at hk

/-- C16 at a concrete input: on the loaded sample document for skins, whose nodes 0, 1 and 2 are
named "b", "B" and "c", `TraverseJoints` from node 0 returns true with the bones "b", "b_" and
"c": the nodes 0 and 1 have the same name ignoring case, node 0 is visited first and is named
"b", node 1 is named "b_". -/
theorem C16_underscores_first_seen_witness :
    ∃ Skeleton BoneMap2 S2,
      TraverseJoints (fun M => M) sampleConfig sampleSkinned [2, 1] [] 3 INDEX_NONE
        (LoadNodes 2 sampleConfig sampleSkinned ParserState.initial).2 [] []
        (nodeOf (LoadNodes 2 sampleConfig sampleSkinned ParserState.initial).2 0) =
        (.ok (Skeleton, BoneMap2), S2) ∧
      Skeleton.map (fun b => String.mk b.Name) = ["b", "b_", "c"] ∧
      ∃ b1 b2, Skeleton[0]? = some b1 ∧ Skeleton[1]? = some b2 ∧
        b1.Name = "b".data ∧ b2.Name = "b".data ++ ['_'] :=
  ⟨_, _, _, rfl, by decide,
    (C16_underscores_first_seen (fun M => M) sampleConfig sampleSkinned [2, 1] [] 
      (LoadNodes 2 sampleConfig sampleSkinned ParserState.initial).2 _ 3 INDEX_NONE [] _
      (nodeOf (LoadNodes 2 sampleConfig sampleSkinned ParserState.initial).2 0) _ 0
      sampleSkinned_loaded.1 sampleSkinned_loaded.2.1.1 rfl rfl).2.2 "b".data 0 1 0 1
      (by decide) (by decide) (by decide) (by decide) (by decide) sampleSkinned_others⟩

/-! ## C18 -/

set_option maxRecDepth 100000 in
/-- C18: on the sample document for skins, `FillReferenceSkeleton` returns true, with the bones
"b", "b_" and "c", for the skin whose `inverseBindMatrices` is accessor 0, of four floats per
element (component type 5126, 4 elements), and for the skin whose `inverseBindMatrices` is
accessor 1, of sixteen unsigned shorts per element (component type 5123, 16 elements), whatever
the decoding of floats, the matrix inverse and the initial value of `Stride`: the test
`Elements != 16 && ComponentType != 5126` rejects an accessor only when both fail, as accessor
3, of four unsigned shorts, for which the function returns false. -/
theorem C18_matrices_check_lenient (DecodeFloat : List Nat → ℚ) (Inverse : FMatrix → FMatrix)
    (Stride0 : Int) :
    (match (GetAccessor sampleDecode sampleSkinned ParserState.initial 0 Stride0 []).1 with
      | .ok A => some (A.ComponentType, A.Elements)
      | _ => none) = some (5126, 4) ∧
    (match (GetAccessor sampleDecode sampleSkinned ParserState.initial 1 Stride0 []).1 with
      | .ok A => some (A.ComponentType, A.Elements)
      | _ => none) = some (5123, 16) ∧
    boneNames (FillReferenceSkeleton sampleDecode DecodeFloat Inverse 4 sampleConfig
      sampleSkinned ParserState.initial (sampleSkin (some 0)) [] Stride0) =
      some ["b", "b_", "c"] ∧
    boneNames (FillReferenceSkeleton sampleDecode DecodeFloat Inverse 4 sampleConfig
      sampleSkinned ParserState.initial (sampleSkin (some 1)) [] Stride0) =
      some ["b", "b_", "c"] ∧
    (FillReferenceSkeleton sampleDecode DecodeFloat Inverse 4 sampleConfig
      sampleSkinned ParserState.initial (sampleSkin (some 3)) [] Stride0).1 = .fail :=
  ⟨rfl, rfl, rfl, rfl, rfl⟩

/-! ## The node fields are not touched by the accessor functions -/

theorem GetBuffer_nodes (Decode : String → Option (List Nat)) (Root : Document)
    (S : ParserState) (Index : Int) :
    (GetBuffer Decode Root S Index).2.AllNodesCache = S.AllNodesCache ∧
    (GetBuffer Decode Root S Index).2.bAllNodesCached = S.bAllNodesCached := by
  unfold GetBuffer
  dsimp only
  repeat' (first | exact ⟨rfl, rfl⟩ | split)

theorem GetBufferView_nodes (Decode : String → Option (List Nat)) (Root : Document)
    (S : ParserState) (Index : Int) (Bytes : List Nat) :
    (GetBufferView Decode Root S Index Bytes).2.AllNodesCache = S.AllNodesCache ∧
    (GetBufferView Decode Root S Index Bytes).2.bAllNodesCached = S.bAllNodesCached := by
  unfold GetBufferView
  split
  · exact ⟨rfl, rfl⟩
  · split
    · exact ⟨rfl, rfl⟩
    · split
      · exact ⟨rfl, rfl⟩
      · split
        · split
          · exact ⟨rfl, rfl⟩
          · rename_i BufferIndex _
            have hb := GetBuffer_nodes Decode Root S (toInt32 BufferIndex)
            cases hg : GetBuffer Decode Root S (toInt32 BufferIndex) with
            | mk o S1 =>
              rw [hg] at hb
              cases o <;> simp only <;> repeat' (first | exact hb | split)
        · exact ⟨rfl, rfl⟩

theorem GetAccessor_nodes (Decode : String → Option (List Nat)) (Root : Document)
    (S : ParserState) (Index : Int) (Stride : Int) (Bytes : List Nat) :
    (GetAccessor Decode Root S Index Stride Bytes).2.AllNodesCache = S.AllNodesCache ∧
    (GetAccessor Decode Root S Index Stride Bytes).2.bAllNodesCached = S.bAllNodesCached := by
  unfold GetAccessor
  by_cases hneg : Index < 0
  · simp [hneg]
  simp only [hneg, if_false]
  cases haccs : Root.accessors with
  | none => exact ⟨rfl, rfl⟩
  | some accs =>
    simp only []
    by_cases hge : Index ≥ accs.length
    · simp [hge]
    simp only [hge, if_false]
    cases hacc : accs[Index.toNat]? with
    | none => exact ⟨rfl, rfl⟩
    | some e =>
      cases e with
      | none => exact ⟨rfl, rfl⟩
      | some acc =>
        simp only []
        cases hc : acc.componentType with
        | none => exact ⟨rfl, rfl⟩
        | some ct =>
          cases hn : acc.count with
          | none => exact ⟨rfl, rfl⟩
          | some n =>
            cases ht : acc.type with
            | none => exact ⟨rfl, rfl⟩
            | some ty =>
              simp only []
              by_cases hes : GetComponentTypeSize ct = 0
              · simp [hes]
              by_cases hel : GetTypeSize ty = 0
              · simp [hes, hel]
              simp only [hes, hel, if_false]
              cases hbv : acc.bufferView with
              | none =>
                simp only [Option.isNone_none, if_true]
                split <;> exact ⟨rfl, rfl⟩
              | some bv =>
                simp only [Option.isNone_some, Bool.false_eq_true, if_false, Option.getD_some]
                have hb := GetBufferView_nodes Decode Root S (toInt32 bv) Bytes
                cases hg : GetBufferView Decode Root S (toInt32 bv) Bytes with
                | mk o S1 =>
                  rw [hg] at hb
                  cases o with
                  | ok r =>
                    obtain ⟨b, st⟩ := r
                    simp only []
                    repeat' split
                    all_goals exact hb
                  | fail => exact hb
                  | fault => exact hb
                  | nofuel => exact hb

/-! ## The order of the visits in a forest -/

/-- In a table whose children lists form a forest and whose parent links round-trip, a child of
a node is a node whose parent link is that node. -/
theorem child_parent (height : Nat → Nat) (T : List FglTFRuntimeNode)
    (hF : TableForest height T) (hP : ParentsAsDeclared T) (r c : Int)
    (hr : ValidIndex T r) (hc : c ∈ childrenAt T r.toNat) :
    ValidIndex T c ∧ parentOf T c = r := by
  have hcv : ValidIndex T c := hF.2.1 r.toNat c hc
  refine ⟨hcv, ?_⟩
  obtain ⟨hc0, hc1⟩ := hcv
  obtain ⟨hr0, hr1⟩ := hr
  obtain ⟨nc, hgc⟩ : ∃ nc, T[c.toNat]? = some nc :=
    ⟨_, List.getElem?_eq_getElem (by omega)⟩
  obtain ⟨nr, hgr⟩ : ∃ nr, T[r.toNat]? = some nr :=
    ⟨_, List.getElem?_eq_getElem (by omega)⟩
  have hci : nc.Index = c := by
    rw [hF.1 c.toNat _ hgc]
    omega
  have hri : nr.Index = r := by
    rw [hF.1 r.toNat _ hgr]
    omega
  have hmem : nc.Index ∈ nr.ChildrenIndices := by
    rw [hci]
    unfold childrenAt at hc
    rw [hgr] at hc
    exact hc
  have := (hP.1 c.toNat r.toNat _ _ hgc hgr).2 hmem
  unfold parentOf parentAt
  simp only [hc0, if_true, hgc]
  rw [this, hri]

/-- In a table whose children lists form a forest and whose parent links round-trip, a node
whose parent link is a node is among the children of that node. -/
theorem parent_child (height : Nat → Nat) (T : List FglTFRuntimeNode)
    (hF : TableForest height T) (hP : ParentsAsDeclared T) (r c : Int)
    (hr : ValidIndex T r) (hc : ValidIndex T c) (hpar : parentOf T c = r) :
    c ∈ childrenAt T r.toNat := by
  obtain ⟨hc0, hc1⟩ := hc
  obtain ⟨hr0, hr1⟩ := hr
  obtain ⟨nc, hgc⟩ : ∃ nc, T[c.toNat]? = some nc :=
    ⟨_, List.getElem?_eq_getElem (by omega)⟩
  obtain ⟨nr, hgr⟩ : ∃ nr, T[r.toNat]? = some nr :=
    ⟨_, List.getElem?_eq_getElem (by omega)⟩
  have hci : nc.Index = c := by
    rw [hF.1 c.toNat _ hgc]
    omega
  have hri : nr.Index = r := by
    rw [hF.1 r.toNat _ hgr]
    omega
  have hp2 : nc.ParentIndex = nr.Index := by
    rw [hri, ← hpar]
    unfold parentOf parentAt
    simp only [hc0, if_true, hgc]
  have := (hP.1 c.toNat r.toNat _ _ hgc hgr).1 hp2
  unfold childrenAt
  rw [hgr, ← hci]
  exact this

/-- In a forest, a node is not reached by following one or more parent links from itself. -/
theorem climb_ne_self (depth : Nat → Nat) (T : List FglTFRuntimeNode)
    (hF : ParentForest depth T) (r : Int) (hr : ValidIndex T r) (k : Nat)
    (h : climb T (k + 1) r = r) : False := by
  have := climb_depth depth T hF (k + 1) r hr (by rw [h]; exact hr)
  rw [h] at this
  omega

/-- In a forest, the nodes that a traversal from a node visits are nodes that the node is equal
to or an ancestor of, and no node is visited twice. -/
theorem visitOrder_nodup (depth : Nat → Nat) (T : List FglTFRuntimeNode)
    (hF : ParentForest depth T)
    (hcp : ∀ r c : Int, ValidIndex T r → c ∈ childrenAt T r.toNat →
      ValidIndex T c ∧ parentOf T c = r)
    (hnd : ∀ i : Nat, (childrenAt T i).Nodup) :
    ∀ (n : Nat) (r : Int), ValidIndex T r →
      (visitOrder T n r).Nodup ∧
      ∀ v ∈ visitOrder T n r, ValidIndex T v ∧ IsAncestorOrSelf T r v := by
  intro n
  induction n with
  | zero =>
    intro r _
    exact ⟨List.nodup_nil, fun v hv => by simp [visitOrder] at hv⟩
  | succ n ih =>
    intro r hr
    have hmem : ∀ v ∈ (childrenAt T r.toNat).flatMap (visitOrder T n),
        ∃ c ∈ childrenAt T r.toNat, ValidIndex T v ∧ ∃ k, climb T k v = c := by
      intro v hv
      obtain ⟨c, hc, hvc⟩ := List.mem_flatMap.1 hv
      obtain ⟨hv1, hv2⟩ := (ih c (hcp r c hr hc).1).2 v hvc
      exact ⟨c, hc, hv1, hv2⟩
    have hup : ∀ c ∈ childrenAt T r.toNat, ∀ (v : Int) (k : Nat), climb T k v = c →
        climb T (k + 1) v = r := by
      intro c hc v k hk
      rw [climb_succ_last, hk]
      exact (hcp r c hr hc).2
    refine ⟨?_, ?_⟩
    · unfold visitOrder
      rw [List.nodup_cons]
      refine ⟨?_, ?_⟩
      · intro hin
        obtain ⟨c, hc, _, k, hk⟩ := hmem r hin
        exact climb_ne_self depth T hF r hr k (hup c hc r k hk)
      · rw [List.nodup_flatMap]
        refine ⟨fun c hc => (ih c (hcp r c hr hc).1).1, ?_⟩
        refine List.Pairwise.imp_of_mem ?_ (hnd r.toNat)
        intro c1 c2 hc1 hc2 hne
        show List.Disjoint (visitOrder T n c1) (visitOrder T n c2)
        intro v hv1 hv2
        obtain ⟨hvv, k1, hk1⟩ := (ih c1 (hcp r c1 hr hc1).1).2 v hv1
        obtain ⟨_, k2, hk2⟩ := (ih c2 (hcp r c2 hr hc2).1).2 v hv2
        have key : ∀ (a b : Int) (ka kb : Nat), a ∈ childrenAt T r.toNat →
            b ∈ childrenAt T r.toNat → climb T ka v = a → climb T kb v = b → ka < kb →
            False := by
          intro a b ka kb ha hb hka hkb hlt
          have hb2 : climb T (kb - ka - 1) r = b := by
            have h1 : kb = (kb - ka - 1) + (ka + 1) := by omega
            have h2 := climb_add T (kb - ka - 1) (ka + 1) v
            rw [← h1, hkb, hup a ha v ka hka] at h2
            exact h2.symm
          have hbr : climb T 1 b = r := by
            show climb T 0 (parentOf T b) = r
            exact (hcp r b hr hb).2
          have hbv := (hcp r b hr hb).1
          have heq : b = r := ancestor_antisymm depth T hF b r hbv hr ⟨_, hb2⟩ ⟨1, hbr⟩
          rw [heq] at hbr
          exact climb_ne_self depth T hF r hr 0 hbr
        rcases Nat.lt_trichotomy k1 k2 with h | h | h
        · exact key c1 c2 k1 k2 hc1 hc2 hk1 hk2 h
        · subst h
          rw [hk1] at hk2
          exact hne hk2
        · exact key c2 c1 k2 k1 hc2 hc1 hk2 hk1 h
    · intro v hv
      unfold visitOrder at hv
      rcases List.mem_cons.1 hv with h | h
      · rw [h]
        exact ⟨hr, 0, rfl⟩
      · obtain ⟨c, hc, hvv, k, hk⟩ := hmem v h
        exact ⟨hvv, k + 1, hup c hc v k hk⟩

/-- In a forest whose heights are below the budget, the traversal from a node visits every node
that the node is equal to or an ancestor of. -/
theorem visitOrder_reaches (height : Nat → Nat) (T : List FglTFRuntimeNode)
    (hF : TableForest height T)
    (hpc : ∀ r c : Int, ValidIndex T r → ValidIndex T c → parentOf T c = r →
      c ∈ childrenAt T r.toNat) :
    ∀ (k : Nat) (j r : Int) (n : Nat), ValidIndex T r → climb T k j = r →
      height r.toNat < n → j ∈ visitOrder T n r := by
  intro k
  induction k with
  | zero =>
    intro j r n _ hk hn
    cases n with
    | zero => omega
    | succ n =>
      unfold visitOrder
      rw [← hk]
      exact List.mem_cons_self _ _
  | succ k ih =>
    intro j r n hr hk hn
    rw [climb_succ_last] at hk
    have hcv : ValidIndex T (climb T k j) := by
      by_contra hcon
      rw [parentOf_invalid T _ hcon] at hk
      rw [← hk] at hr
      unfold ValidIndex INDEX_NONE at hr
      omega
    have hch := hpc r _ hr hcv hk
    have hh := hF.2.2.2 r.toNat _ hch
    cases n with
    | zero => omega
    | succ n =>
      have := ih j (climb T k j) n hcv rfl (by omega)
      unfold visitOrder
      apply List.mem_cons_of_mem
      exact List.mem_flatMap.2 ⟨_, hch, this⟩

/-! ## The bone map -/

/-- Call `IndexOfByKey` on an element of the array: the position of an occurrence, counted from
`Pos`. -/
theorem IndexOfByKey_mem :
    ∀ (Joints : List Int) (x : Int) (Pos : Nat), x ∈ Joints →
      ∃ i : Nat, i < Joints.length ∧ Joints[i]? = some x ∧
        IndexOfByKey Joints x Pos = ((Pos + i : Nat) : Int) := by
  intro Joints
  induction Joints with
  | nil => intro x Pos h; simp at h
  | cons a rest ih =>
    intro x Pos h
    unfold IndexOfByKey
    by_cases hax : a = x
    · exact ⟨0, by simp, by simp [hax], by simp [hax]⟩
    · simp only [hax, if_false]
      have hr : x ∈ rest := by
        rcases List.mem_cons.1 h with h1 | h1
        · exact absurd h1.symm hax
        · exact h1
      obtain ⟨i, h1, h2, h3⟩ := ih x (Pos + 1) hr
      refine ⟨i + 1, by simp; omega, by simpa using h2, ?_⟩
      rw [h3]
      congr 1
      omega

/-- In an array without repetition, `IndexOfByKey` of the element at a position is that
position. -/
theorem IndexOfByKey_nodup (Joints : List Int) (hnd : Joints.Nodup) (i : Nat) (x : Int)
    (hi : Joints[i]? = some x) : IndexOfByKey Joints x 0 = (i : Int) := by
  have hmem : x ∈ Joints := List.mem_iff_getElem?.2 ⟨i, hi⟩
  obtain ⟨i2, h1, h2, h3⟩ := IndexOfByKey_mem Joints x 0 hmem
  rw [h3]
  have hilt : i < Joints.length := (List.getElem?_eq_some.1 hi).1
  have hne := List.nodup_iff_getElem?_ne_getElem?.1 hnd
  rcases Nat.lt_trichotomy i i2 with h | h | h
  · exact absurd (hi.trans h2.symm) (hne i i2 h h1)
  · subst h
    simp
  · exact absurd (h2.trans hi.symm) (hne i2 i h hilt)

theorem lookup_filter_ne {α : Type} (Key Key2 : Int) (hne : Key2 ≠ Key) :
    ∀ Map : List (Int × α),
      (Map.filter (fun Entry => decide (Entry.1 ≠ Key))).lookup Key2 = Map.lookup Key2 := by
  intro Map
  induction Map with
  | nil => rfl
  | cons e rest ih =>
    obtain ⟨a, b⟩ := e
    by_cases ha : a = Key
    · have h1 : ¬ (Key2 = a) := by rw [ha]; exact hne
      simp only [List.filter_cons, ha, ne_eq, not_true_eq_false, decide_False,
        Bool.false_eq_true, if_false, List.lookup_cons]
      rw [ih]
      have : (Key2 == Key) = false := by simpa using hne
      rw [this]
    · simp only [List.filter_cons, ne_eq, ha, not_false_eq_true, decide_True, if_true,
        List.lookup_cons]
      rw [ih]

/-- After `Map.Add(Key, Value)` the map has the value at the key. -/
theorem lookup_TMapAdd_self {α : Type} (Map : List (Int × α)) (Key : Int) (Value : α) :
    (TMapAdd Map Key Value).lookup Key = some Value := by
  unfold TMapAdd
  simp [List.lookup_cons]

/-- After `Map.Add(Key, Value)` the map has at every other key what it had. -/
theorem lookup_TMapAdd_ne {α : Type} (Map : List (Int × α)) (Key Key2 : Int) (Value : α)
    (hne : Key2 ≠ Key) : (TMapAdd Map Key Value).lookup Key2 = Map.lookup Key2 := by
  unfold TMapAdd
  have : (Key2 == Key) = false := by simpa using hne
  rw [List.lookup_cons, this]
  exact lookup_filter_ne Key Key2 hne Map

theorem mem_TMapAdd {α : Type} (Map : List (Int × α)) (Key : Int) (Value : α)
    (e : Int × α) (h : e ∈ TMapAdd Map Key Value) : e.1 = Key ∨ e ∈ Map := by
  unfold TMapAdd at h
  rcases List.mem_cons.1 h with h1 | h1
  · left
    rw [h1]
  · right
    exact (List.mem_filter.1 h1).1

/-- Visits of nodes that are not the joint at position `i` leave the entry of the bone map at
key `i` as it is. -/
theorem recordJoints_lookup_skip (Joints : List Int) (i : Nat) (x : Int)
    (hi : Joints[i]? = some x) :
    ∀ (L : List (Int × FName)) (BoneMap : List (Int × FName)), (∀ e ∈ L, e.1 ≠ x) →
      (recordJoints Joints BoneMap L).lookup (i : Int) = BoneMap.lookup (i : Int) := by
  intro L
  induction L with
  | nil => intro BoneMap _; rfl
  | cons e rest ih =>
    intro BoneMap hall
    obtain ⟨a, nm⟩ := e
    unfold recordJoints
    rw [ih _ (fun e he => hall e (List.mem_cons_of_mem _ he))]
    have hax : a ≠ x := hall (a, nm) (List.mem_cons_self _ _)
    by_cases ha : a ∈ Joints
    · simp only [ha, if_true]
      apply lookup_TMapAdd_ne
      intro hcon
      obtain ⟨i2, h1, h2, h3⟩ := IndexOfByKey_mem Joints a 0 ha
      rw [h3] at hcon
      have : i = i2 := by omega
      subst this
      rw [hi] at h2
      exact hax (Option.some.inj h2).symm
    · simp only [ha, if_false]

/-- When no node is visited twice, the bone map has at the position of a visited joint the name
given with its visit. -/
theorem recordJoints_lookup (Joints : List Int) (hnd : Joints.Nodup) (i : Nat) (x : Int)
    (hi : Joints[i]? = some x) (Name : FName) :
    ∀ (L : List (Int × FName)) (BoneMap : List (Int × FName)),
      (L.map Prod.fst).Nodup → (x, Name) ∈ L →
      (recordJoints Joints BoneMap L).lookup (i : Int) = some Name := by
  intro L
  induction L with
  | nil => intro BoneMap _ h; simp at h
  | cons e rest ih =>
    intro BoneMap hL hmem
    obtain ⟨a, nm⟩ := e
    simp only [List.map_cons, List.nodup_cons] at hL
    unfold recordJoints
    rcases List.mem_cons.1 hmem with h | h
    · simp only [Prod.mk.injEq] at h
      obtain ⟨h1, h2⟩ := h
      subst h1 h2
      have hx : x ∈ Joints := List.mem_iff_getElem?.2 ⟨i, hi⟩
      rw [recordJoints_lookup_skip Joints i x hi rest _ (by
        intro e he hcon
        apply hL.1
        rw [← hcon]
        exact List.mem_map.2 ⟨e, he, rfl⟩)]
      simp only [hx, if_true]
      rw [IndexOfByKey_nodup Joints hnd i x hi]
      exact lookup_TMapAdd_self _ _ _
    · exact ih _ hL.2 h

/-- The keys that visits add to the bone map are positions of the joints. -/
theorem recordJoints_keys (Joints : List Int) :
    ∀ (L : List (Int × FName)) (BoneMap : List (Int × FName)) (e : Int × FName),
      e ∈ recordJoints Joints BoneMap L →
      e ∈ BoneMap ∨ (0 ≤ e.1 ∧ e.1 < (Joints.length : Int)) := by
  intro L
  induction L with
  | nil => intro BoneMap e h; exact Or.inl h
  | cons v rest ih =>
    intro BoneMap e h
    obtain ⟨a, nm⟩ := v
    unfold recordJoints at h
    rcases ih _ e h with h1 | h1
    · by_cases ha : a ∈ Joints
      · simp only [ha, if_true] at h1
        rcases mem_TMapAdd _ _ _ e h1 with h2 | h2
        · right
          obtain ⟨i2, g1, _, g3⟩ := IndexOfByKey_mem Joints a 0 ha
          rw [h2, g3]
          omega
        · exact Or.inl h2
      · simp only [ha, if_false] at h1
        exact Or.inl h1
    · exact Or.inr h1

/-! ## FillReferenceSkeleton -/

/-- The joints loop on a list of numbers: the numbers as `int32`, after those already
collected. -/
theorem loadJoints_numbers :
    ∀ (Js : List Int) (Acc : List Int),
      loadJoints (Js.map some) Acc = some (Acc ++ Js.map toInt32) := by
  intro Js
  induction Js with
  | nil => intro Acc; simp [loadJoints]
  | cons j rest ih =>
    intro Acc
    simp only [List.map_cons, loadJoints]
    rw [ih]
    simp

/-- What a call of `FillReferenceSkeleton` that returns true has done: it has read the joints,
found a common root that is not `INDEX_NONE`, loaded its node, and run `TraverseJoints` from it
on an empty skeleton in a state with the same node fields. -/
theorem FillReferenceSkeleton_ok_inv (Decode : String → Option (List Nat))
    (DecodeFloat : List Nat → ℚ) (Inverse : FMatrix → FMatrix) (fuel : Nat)
    (Config : ParserConfig) (Root : Document) (S S4 : ParserState) (JsonSkinObject : JsonSkin)
    (BoneMap : List (Int × FName)) (Stride0 : Int) (R : List FMeshBone × List (Int × FName))
    (h : FillReferenceSkeleton Decode DecodeFloat Inverse fuel Config Root S JsonSkinObject
      BoneMap Stride0 = (.ok R, S4)) :
    ∃ (Joints : List Int) (RootBoneIndex : Int) (S1 S2 S3 : ParserState)
      (RootNode : FglTFRuntimeNode) (InverseBindMatricesMap : List (Int × FMatrix)),
      loadJoints (JsonSkinObject.joints.getD []) [] = some Joints ∧
      FindCommonRoot fuel Config Root S Joints = (.ok RootBoneIndex, S1) ∧
      RootBoneIndex ≠ INDEX_NONE ∧
      LoadNode fuel Config Root S1 (toInt32 RootBoneIndex) = (.ok RootNode, S2) ∧
      S3.AllNodesCache = S2.AllNodesCache ∧ S3.bAllNodesCached = S2.bAllNodesCached ∧
      TraverseJoints Inverse Config Root Joints InverseBindMatricesMap fuel INDEX_NONE S3 []
        BoneMap RootNode = (.ok R, S4) := by
  unfold FillReferenceSkeleton at h
  cases hj : loadJoints (JsonSkinObject.joints.getD []) [] with
  | none => simp [hj] at h
  | some Joints =>
    simp only [hj] at h
    by_cases hlen : Joints.length = 0
    · simp [hlen] at h
    · simp only [hlen, if_false] at h
      cases hf : FindCommonRoot fuel Config Root S Joints with
      | mk o S1 =>
        cases o with
        | fail => simp [hf] at h
        | fault => simp [hf] at h
        | nofuel => simp [hf] at h
        | ok RootBoneIndex =>
          simp only [hf] at h
          by_cases hr : RootBoneIndex = INDEX_NONE
          · simp [hr] at h
          · simp only [hr, if_false] at h
            cases hl : LoadNode fuel Config Root S1 (toInt32 RootBoneIndex) with
            | mk o2 S2 =>
              cases o2 with
              | fail => simp [hl] at h
              | fault => simp [hl] at h
              | nofuel => simp [hl] at h
              | ok RootNode =>
                simp only [hl] at h
                cases hi : JsonSkinObject.inverseBindMatrices with
                | none =>
                  simp only [hi] at h
                  exact ⟨Joints, RootBoneIndex, S1, S2, S2, RootNode, [], rfl, hf, hr, hl,
                    rfl, rfl, h⟩
                | some idx =>
                  simp only [hi] at h
                  have hn := GetAccessor_nodes Decode Root S2 (toInt32 idx) Stride0 []
                  cases hg : GetAccessor Decode Root S2 (toInt32 idx) Stride0 [] with
                  | mk o3 S3 =>
                    rw [hg] at hn
                    cases o3 with
                    | fail => simp [hg] at h
                    | fault => simp [hg] at h
                    | nofuel => simp [hg] at h
                    | ok Accessor =>
                      simp only [hg] at h
                      by_cases hc : Accessor.Elements ≠ 16 ∧ Accessor.ComponentType ≠ 5126
                      · simp [hc] at h
                      · simp only [hc, if_false] at h
                        cases hm : readMatrices DecodeFloat Accessor.Bytes Accessor.Stride Joints
                            Accessor.Count.toNat 0 [] with
                        | none => simp [hm] at h
                        | some Map =>
                          simp only [hm] at h
                          exact ⟨Joints, RootBoneIndex, S1, S2, S3, RootNode, Map, rfl, hf, hr,
                            hl, hn.1, hn.2, h⟩

/-- In a list without repetition an element has one position. -/
theorem nodup_position {α : Type} (l : List α) (hnd : l.Nodup) (k k2 : Nat) (x : α)
    (h1 : l[k]? = some x) (h2 : l[k2]? = some x) : k2 = k := by
  have hne := List.nodup_iff_getElem?_ne_getElem?.1 hnd
  have hk : k < l.length := (List.getElem?_eq_some.1 h1).1
  have hk2 : k2 < l.length := (List.getElem?_eq_some.1 h2).1
  rcases Nat.lt_trichotomy k k2 with h | h | h
  · exact absurd (h1.trans h2.symm) (hne k k2 h hk2)
  · exact h.symm
  · exact absurd (h2.trans h1.symm) (hne k2 k h hk)

/-! ## C17 -/

/-- C17: in a state with the nodes cached whose table is a forest (the children lists form a
forest without repetition, the parent links round-trip, the heights are at most `H`), with a
budget above `H + 1`, for a skin whose joints are pairwise distinct indices of the table, after
`FillReferenceSkeleton` has returned true on an initially empty bone map: the traversal started
at the common root that `FindCommonRoot` returns, the skeleton has one bone per visit, every
joint is visited exactly once, the bone map has at key `i` the name of the bone added at the
visit of the joint at position `i`, whose export name is the name of that node, and every key
of the bone map is a position of the joints. -/
theorem C17_bone_map_complete (Decode : String → Option (List Nat))
    (DecodeFloat : List Nat → ℚ) (Inverse : FMatrix → FMatrix) (fuel : Nat)
    (Config : ParserConfig) (Root : Document) (S S4 : ParserState) (JsonSkinObject : JsonSkin)
    (Stride0 : Int) (Skeleton : List FMeshBone) (BoneMap : List (Int × FName))
    (height : Nat → Nat) (H : Nat) (Joints : List Int)
    (hflag : S.bAllNodesCached = true)
    (hF : TableForest height S.AllNodesCache) (hP : ParentsAsDeclared S.AllNodesCache)
    (hnd : ∀ i : Nat, (childrenAt S.AllNodesCache i).Nodup)
    (hH : ∀ i, i < S.AllNodesCache.length → height i ≤ H) (hfuel : H + 1 < fuel)
    (hsize : S.AllNodesCache.length < 2147483648)
    (hjoints : JsonSkinObject.joints = some (Joints.map some))
    (hdistinct : Joints.Nodup) (hvalid : ∀ j ∈ Joints, ValidIndex S.AllNodesCache j)
    (h : FillReferenceSkeleton Decode DecodeFloat Inverse fuel Config Root S JsonSkinObject []
      Stride0 = (.ok (Skeleton, BoneMap), S4)) :
    ∃ root, FindCommonRoot fuel Config Root S Joints = (.ok root, S) ∧
      Skeleton.length = (visitOrder S.AllNodesCache fuel root).length ∧
      (∀ (i : Nat) (j : Int), Joints[i]? = some j →
        ∃ (k : Nat) (Bone : FMeshBone),
          (visitOrder S.AllNodesCache fuel root)[k]? = some j ∧
          (∀ k2, (visitOrder S.AllNodesCache fuel root)[k2]? = some j → k2 = k) ∧
          Skeleton[k]? = some Bone ∧ Bone.ExportName = nameAt S.AllNodesCache j ∧
          BoneMap.lookup (i : Int) = some Bone.Name) ∧
      (∀ e ∈ BoneMap, 0 ≤ e.1 ∧ e.1 < (Joints.length : Int)) := by
  obtain ⟨Joints2, r, S1, S2, S3, RootNode, IBM, hj, hf, hr, hl, hT3, hfl3, ht⟩ :=
    FillReferenceSkeleton_ok_inv Decode DecodeFloat Inverse fuel Config Root S S4 JsonSkinObject
      [] Stride0 (Skeleton, BoneMap) h
  have hmap : Joints.map toInt32 = Joints := by
    have : ∀ j ∈ Joints, toInt32 j = id j := by
      intro j hj
      obtain ⟨h0, h1⟩ := hvalid j hj
      exact toInt32_of_range j (by omega) (by omega)
    rw [List.map_congr_left this, List.map_id]
  rw [hjoints, Option.getD_some, loadJoints_numbers, List.nil_append, hmap] at hj
  cases hj
  have hPF := parentForest_of_declared height H S.AllNodesCache hF hP hH
  have hfuelD : ∀ i, i < S.AllNodesCache.length → (fun i => H - height i) i < fuel := by
    intro i _
    show H - height i < fuel
    omega
  have hne : Joints ≠ [] := by
    intro hcon
    rw [hcon] at hf
    simp [FindCommonRoot] at hf
  have hroot : S1 = S ∧ IsCommonRoot S.AllNodesCache Joints r := by
    by_cases hex : ∃ a, IsCommonRoot S.AllNodesCache Joints a
    · obtain ⟨a, ha⟩ := hex
      obtain ⟨r2, h1, h2, _⟩ := FindCommonRoot_spec fuel Config Root S _ hflag hPF hfuelD Joints
        hne hvalid a ha
      rw [h1] at hf
      simp only [Prod.mk.injEq, Outcome.ok.injEq] at hf
      rw [← hf.1, ← hf.2]
      exact ⟨rfl, h2⟩
    · exfalso
      cases hJ : Joints with
      | nil => exact hne hJ
      | cons j0 rest =>
        have hfc : FindCommonRoot fuel Config Root S Joints =
            FindCommonRoot_while fuel Config Root Joints fuel S j0 := by
          rw [hJ]
          rfl
        rw [hfc] at hf
        have hj0 : ValidIndex S.AllNodesCache j0 := hvalid j0 (by rw [hJ]; simp)
        rw [FindCommonRoot_while_no_root fuel Config Root S _ hflag hPF hfuelD Joints hvalid
          (fun a ha => hex ⟨a, ha⟩) fuel j0 hj0 (by show H - height j0.toNat + 1 < fuel; omega)]
          at hf
        simp at hf
  obtain ⟨hS1, hcr⟩ := hroot
  subst hS1
  have hrv := hcr.1
  have hr32 : toInt32 r = r := by
    obtain ⟨h0, h1⟩ := hrv
    exact toInt32_of_range r (by omega) (by omega)
  rw [hr32] at hl
  obtain ⟨hS2, _, hnode⟩ := LoadNode_cached_inv fuel Config Root S1 S2 hflag r RootNode hl
  subst hS2
  have hri : RootNode.Index = r := by
    rw [hF.1 r.toNat RootNode hnode]
    have := hrv.1
    omega
  have hflag3 : S3.bAllNodesCached = true := by rw [hfl3]; exact hflag
  obtain ⟨_, V, hV⟩ := TraverseJoints_visits Inverse Config Root Joints IBM S3 hflag3
    (by rw [hT3]; exact hF.1) fuel INDEX_NONE [] [] RootNode (Skeleton, BoneMap) S4 r.toNat
    (by rw [hT3]; exact hnode) ht
  rw [hT3, hri] at hV
  obtain ⟨hlen, hpos⟩ := VisitsOf_position _ _ _ _ _ V hV
  simp only at hlen hpos
  obtain ⟨hV1, _, _, hV4⟩ := hV
  simp only at hV4
  have hcp := child_parent height S2.AllNodesCache hF hP
  have hpc := parent_child height S2.AllNodesCache hF hP
  obtain ⟨hond, _⟩ := visitOrder_nodup _ S2.AllNodesCache hPF hcp hnd fuel r hrv
  refine ⟨r, hf, hlen, ?_, ?_⟩
  · intro i j hij
    have hjm : j ∈ Joints := List.mem_iff_getElem?.2 ⟨i, hij⟩
    obtain ⟨c, hc⟩ := hcr.2 j hjm
    have hreach := visitOrder_reaches height S2.AllNodesCache hF hpc c j r fuel hrv hc
      (by
        have := hH r.toNat (by obtain ⟨h0, h1⟩ := hrv; omega)
        omega)
    obtain ⟨k, hk⟩ := List.mem_iff_getElem?.1 hreach
    obtain ⟨Bone, hb, hvk, _, he⟩ := hpos k j hk
    refine ⟨k, Bone, hk, fun k2 hk2 => nodup_position _ hond k k2 j hk hk2, hb, he, ?_⟩
    rw [hV4]
    apply recordJoints_lookup Joints hdistinct i j hij Bone.Name
    · rw [List.map_map]
      have : (Prod.fst ∘ fun (v : Int × FMeshBone) => (v.1, v.2.Name)) = Prod.fst := rfl
      rw [this, hV1]
      exact hond
    · exact List.mem_map.2 ⟨(j, Bone), List.mem_iff_getElem?.2 ⟨k, hvk⟩, rfl⟩
  · intro e he
    rw [hV4] at he
    rcases recordJoints_keys Joints _ [] e he with h1 | h1
    · simp at h1
    · exact h1

/-- In the loaded sample document for skins no children list repeats a node, the table has
three nodes, and the joints 2 and 1 are indices of it. -/
theorem sampleSkinned_table :
    (∀ i : Nat, (childrenAt
      (LoadNodes 2 sampleConfig sampleSkinned ParserState.initial).2.AllNodesCache i).Nodup) ∧
    (LoadNodes 2 sampleConfig sampleSkinned ParserState.initial).2.AllNodesCache.length = 3 ∧
    (∀ j ∈ [(2 : Int), 1],
      ValidIndex (LoadNodes 2 sampleConfig sampleSkinned ParserState.initial).2.AllNodesCache
        j) := by
  have hlen : (LoadNodes 2 sampleConfig sampleSkinned ParserState.initial).2.AllNodesCache.length
      = 3 := by decide
  refine ⟨?_, hlen, ?_⟩
  · intro i
    match i with
    | 0 => decide
    | 1 => decide
    | 2 => decide
    | n + 3 =>
      unfold childrenAt
      rw [List.getElem?_eq_none (by omega)]
      exact List.nodup_nil
  · intro j hj
    simp only [List.mem_cons, List.mem_singleton, List.mem_nil_iff, or_false] at hj
    rcases hj with h | h <;> subst h <;> unfold ValidIndex <;> decide

/-- C17 at a concrete input: on the loaded sample document for skins, for the skin with the
joints 2 and 1, `FillReferenceSkeleton` returns true with the bone map 0 to "c", 1 to "b_": the
traversal from the common root gives node 2 the bone "c" and node 1 the bone "b_". -/
theorem C17_bone_map_complete_witness :
    ∃ Skeleton BoneMap S4,
      FillReferenceSkeleton sampleDecode (fun _ => 0) (fun M => M) 4 sampleConfig sampleSkinned
        (LoadNodes 2 sampleConfig sampleSkinned ParserState.initial).2 (sampleSkin none) [] 0 =
        (.ok (Skeleton, BoneMap), S4) ∧
      BoneMap.map (fun e => (e.1, String.mk e.2)) = [(0, "c"), (1, "b_")] ∧
      ∃ root, FindCommonRoot 4 sampleConfig sampleSkinned
          (LoadNodes 2 sampleConfig sampleSkinned ParserState.initial).2 [2, 1] =
          (.ok root, (LoadNodes 2 sampleConfig sampleSkinned ParserState.initial).2) ∧
        Skeleton.length = (visitOrder
          (LoadNodes 2 sampleConfig sampleSkinned ParserState.initial).2.AllNodesCache 4
          root).length ∧
        (∀ (i : Nat) (j : Int), [(2 : Int), 1][i]? = some j →
          ∃ (k : Nat) (Bone : FMeshBone),
            (visitOrder
              (LoadNodes 2 sampleConfig sampleSkinned ParserState.initial).2.AllNodesCache 4
              root)[k]? = some j ∧
            (∀ k2, (visitOrder
              (LoadNodes 2 sampleConfig sampleSkinned ParserState.initial).2.AllNodesCache 4
              root)[k2]? = some j → k2 = k) ∧
            Skeleton[k]? = some Bone ∧
            Bone.ExportName = nameAt
              (LoadNodes 2 sampleConfig sampleSkinned ParserState.initial).2.AllNodesCache j ∧
            BoneMap.lookup (i : Int) = some Bone.Name) ∧
        (∀ e ∈ BoneMap, 0 ≤ e.1 ∧ e.1 < (([(2 : Int), 1] : List Int).length : Int)) :=
  ⟨_, _, _, rfl, by decide,
    C17_bone_map_complete sampleDecode (fun _ => 0) (fun M => M) 4 sampleConfig sampleSkinned
      (LoadNodes 2 sampleConfig sampleSkinned ParserState.initial).2 _ (sampleSkin none) 0 _ _
      (fun i => if i = 0 then 1 else 0) 1 [2, 1] sampleSkinned_loaded.1
      sampleSkinned_loaded.2.1 sampleSkinned_loaded.2.2 sampleSkinned_table.1
      (fun i _ => by show (if i = 0 then 1 else 0) ≤ 1; split <;> omega) (by decide)
      (by rw [sampleSkinned_table.2.1]; decide) rfl (by decide) sampleSkinned_table.2.2 rfl⟩

/-! ## Primitives -/

theorem andThen_ok {α β : Type} (R : Outcome α × ParserState)
    (f : α → ParserState → Outcome β × ParserState) (b : β) (S2 : ParserState)
    (h : Outcome.andThen R f = (.ok b, S2)) :
    ∃ a S1, R = (.ok a, S1) ∧ f a S1 = (.ok b, S2) := by
  obtain ⟨o, S1⟩ := R
  cases o with
  | ok a => exact ⟨a, S1, rfl, h⟩
  | fail => simp [Outcome.andThen] at h
  | fault => simp [Outcome.andThen] at h
  | nofuel => simp [Outcome.andThen] at h

theorem optionalAttribute_ok {α : Type} (Present : Bool)
    (Call : ParserState → Outcome (List α) × ParserState)
    (Store : List α → FglTFRuntimePrimitive) (Primitive P1 : FglTFRuntimePrimitive)
    (S S1 : ParserState)
    (h : optionalAttribute Present Call Store Primitive S = (.ok P1, S1)) :
    (Present = false ∧ P1 = Primitive ∧ S1 = S) ∨
      (Present = true ∧ ∃ Data, Call S = (.ok Data, S1) ∧ P1 = Store Data) := by
  unfold optionalAttribute at h
  cases Present with
  | false =>
    simp only [Bool.false_eq_true, if_false, Prod.mk.injEq, Outcome.ok.injEq] at h
    exact Or.inl ⟨rfl, h.1.symm, h.2.symm⟩
  | true =>
    simp only [if_true] at h
    cases hc : Call S with
    | mk o S2 =>
      cases o with
      | ok Data =>
        simp only [hc, Prod.mk.injEq, Outcome.ok.injEq] at h
        exact Or.inr ⟨rfl, Data, by rw [h.2], h.1.symm⟩
      | fail => simp [hc] at h
      | fault => simp [hc] at h
      | nofuel => simp [hc] at h

/-- A step for an optional attribute keeps the indices of the primitive when storing the array
does. -/
theorem optionalAttribute_indices {α : Type} (Present : Bool)
    (Call : ParserState → Outcome (List α) × ParserState)
    (Store : List α → FglTFRuntimePrimitive) (Primitive P1 : FglTFRuntimePrimitive)
    (S S1 : ParserState)
    (h : optionalAttribute Present Call Store Primitive S = (.ok P1, S1))
    (hStore : ∀ Data, (Store Data).Indices = Primitive.Indices) :
    P1.Indices = Primitive.Indices := by
  rcases optionalAttribute_ok Present Call Store Primitive P1 S S1 h with
    ⟨_, h1, _⟩ | ⟨_, Data, _, h1⟩
  · rw [h1]
  · rw [h1]
    exact hStore Data

/-- The attribute part of `LoadPrimitive` does not touch the indices. -/
theorem loadAttributes_indices (Build : AttributeBuilders) (Config : ParserConfig)
    (S S1 : ParserState) (JsonAttributesObject : JsonAttributes)
    (Primitive P1 : FglTFRuntimePrimitive)
    (h : loadAttributes Build Config S JsonAttributesObject Primitive = (.ok P1, S1)) :
    P1.Indices = Primitive.Indices := by
  unfold loadAttributes at h
  by_cases hp : JsonAttributesObject.POSITION.isNone = true
  · simp [hp] at h
  · simp only [hp, Bool.false_eq_true, if_false] at h
    obtain ⟨Positions, Sa, _, h⟩ := andThen_ok _ _ _ _ h
    obtain ⟨Pb, Sb, hb, h⟩ := andThen_ok _ _ _ _ h
    obtain ⟨Pc, Sc, hc, h⟩ := andThen_ok _ _ _ _ h
    obtain ⟨Pd, Sd, hd, h⟩ := andThen_ok _ _ _ _ h
    obtain ⟨Pe, Se, he, h⟩ := andThen_ok _ _ _ _ h
    have h1 := optionalAttribute_indices _ _ _ _ _ _ _ hb (fun _ => rfl)
    have h2 := optionalAttribute_indices _ _ _ _ _ _ _ hc (fun _ => rfl)
    have h3 := optionalAttribute_indices _ _ _ _ _ _ _ hd (fun _ => rfl)
    have h4 := optionalAttribute_indices _ _ _ _ _ _ _ he (fun _ => rfl)
    have h5 := optionalAttribute_indices _ _ _ _ _ _ _ h (fun _ => rfl)
    rw [h5, h4, h3, h2, h1]

/-- The loop for a primitive without indices adds the numbers from `VertexIndex` on. -/
theorem identityIndices_spec :
    ∀ (n : Nat) (VertexIndex : Int) (Indices : List Int),
      identityIndices n VertexIndex Indices =
        Indices ++ (List.range n).map (fun (k : Nat) => VertexIndex + (k : Int)) := by
  intro n
  induction n with
  | zero => intro v I; simp [identityIndices]
  | succ n ih =>
    intro v I
    unfold identityIndices
    rw [ih, List.range_succ_eq_map, List.append_assoc]
    congr 1
    simp only [List.map_cons, List.map_map, Nat.cast_zero, add_zero, List.singleton_append,
      List.cons.injEq, true_and]
    apply List.map_congr_left
    intro k _
    simp only [Function.comp, Nat.succ_eq_add_one, Nat.cast_add, Nat.cast_one]
    omega

/-- What a call of `LoadPrimitive` that returns true has done. -/
theorem LoadPrimitive_ok_inv (Decode : String → Option (List Nat)) (Build : AttributeBuilders)
    (bBaseMaterial : Bool) (Config : ParserConfig) (Root : Document) (S S3 : ParserState)
    (JsonPrimitiveObject : JsonPrimitive) (Primitive P : FglTFRuntimePrimitive)
    (Stride0 : Int)
    (h : LoadPrimitive Decode Build bBaseMaterial Config Root S JsonPrimitiveObject Primitive
      Stride0 = (.ok P, S3)) :
    ∃ JsonAttributesObject P1 S1 Indices S2 Material,
      JsonPrimitiveObject.attributes = some JsonAttributesObject ∧
      loadAttributes Build Config S JsonAttributesObject Primitive = (.ok P1, S1) ∧
      loadIndices Decode Root S1 JsonPrimitiveObject.indices P1.Positions P1.Indices Stride0 =
        (.ok Indices, S2) ∧
      P = { P1 with Indices := Indices, Material := some Material } ∧
      P1.Joints ≠ [] ∧ P1.Weights ≠ [] := by
  unfold LoadPrimitive at h
  cases ha : JsonPrimitiveObject.attributes with
  | none => simp [ha] at h
  | some JsonAttributesObject =>
    simp only [ha] at h
    cases hl : loadAttributes Build Config S JsonAttributesObject Primitive with
    | mk o S1 =>
      cases o with
      | fail => simp [hl] at h
      | fault => simp [hl] at h
      | nofuel => simp [hl] at h
      | ok P1 =>
        simp only [hl] at h
        cases hi : loadIndices Decode Root S1 JsonPrimitiveObject.indices P1.Positions
            P1.Indices Stride0 with
        | mk o2 S2 =>
          cases o2 with
          | fail => simp [hi] at h
          | fault => simp [hi] at h
          | nofuel => simp [hi] at h
          | ok Indices =>
            simp only [hi] at h
            split at h
            · rename_i Material S4 _
              by_cases hj : P1.Joints = [] ∨ P1.Weights = []
              · simp [hj] at h
              · simp only [hj, if_false, Prod.mk.injEq, Outcome.ok.injEq] at h
                refine ⟨JsonAttributesObject, P1, S1, Indices, S2, Material, rfl, hl, hi,
                  h.1.symm, ?_, ?_⟩
                · intro hc
                  exact hj (Or.inl hc)
                · intro hc
                  exact hj (Or.inr hc)
            · simp at h

/-! ## C19 -/

/-- C19: for a primitive object without `indices` field, the index part of `LoadPrimitive`,
started with no indices, returns the sequence 0, 1, ... of the length of the positions; and
when `LoadPrimitive`, called with a primitive without indices, returns true, `Indices` has the
length `n` of `Positions` and `Indices[i]` is `i` for every `i < n`. -/
theorem C19_identity_indices (Decode : String → Option (List Nat)) (Build : AttributeBuilders)
    (bBaseMaterial : Bool) (Config : ParserConfig) (Root : Document) (S S3 : ParserState)
    (JsonPrimitiveObject : JsonPrimitive) (Primitive P : FglTFRuntimePrimitive)
    (Stride0 : Int) (hno : JsonPrimitiveObject.indices = none)
    (hempty : Primitive.Indices = [])
    (h : LoadPrimitive Decode Build bBaseMaterial Config Root S JsonPrimitiveObject Primitive
      Stride0 = (.ok P, S3)) :
    (∀ (S1 : ParserState) (Positions : List FVector),
      loadIndices Decode Root S1 JsonPrimitiveObject.indices Positions [] Stride0 =
        (.ok ((List.range Positions.length).map (fun (k : Nat) => (k : Int))), S1)) ∧
    P.Indices.length = P.Positions.length ∧
    ∀ i : Nat, i < P.Positions.length → P.Indices[i]? = some (i : Int) := by
  have hloop : ∀ (S1 : ParserState) (Positions : List FVector),
      loadIndices Decode Root S1 JsonPrimitiveObject.indices Positions [] Stride0 =
        (.ok ((List.range Positions.length).map (fun (k : Nat) => (k : Int))), S1) := by
    intro S1 Positions
    unfold loadIndices
    rw [hno]
    simp only [identityIndices_spec, List.nil_append, zero_add]
  refine ⟨hloop, ?_⟩
  obtain ⟨A, P1, S1, Indices, S2, Material, _, hl, hi, hP, _, _⟩ :=
    LoadPrimitive_ok_inv Decode Build bBaseMaterial Config Root S S3 JsonPrimitiveObject
      Primitive P Stride0 h
  rw [loadAttributes_indices Build Config S S1 A Primitive P1 hl, hempty, hloop] at hi
  simp only [Prod.mk.injEq, Outcome.ok.injEq] at hi
  rw [hP]
  simp only
  rw [← hi.1]
  refine ⟨by simp, ?_⟩
  intro i hi2
  simp [List.getElem?_map, List.getElem?_range hi2]

/-- C19 at a concrete input: for the sample primitive object without indices, whose attribute
builders give three positions, `LoadPrimitive` returns true with the indices 0, 1, 2. -/
theorem C19_identity_indices_witness :
    ∃ P S3, LoadPrimitive sampleDecode sampleBuilders true sampleConfig sampleIndexed
        ParserState.initial (sampleSkinnedPrimitive none) emptyPrimitive 0 = (.ok P, S3) ∧
      P.Indices = [0, 1, 2] ∧ P.Positions.length = 3 ∧
      P.Indices.length = P.Positions.length ∧
      ∀ i : Nat, i < P.Positions.length → P.Indices[i]? = some (i : Int) :=
  ⟨_, _, rfl, by decide, by decide,
    (C19_identity_indices sampleDecode sampleBuilders true sampleConfig sampleIndexed
      ParserState.initial _ (sampleSkinnedPrimitive none) emptyPrimitive _ 0 rfl rfl rfl).2⟩

/-! ## Index decoding -/

theorem take_drop_one (l : List Nat) (k : Nat) (h : k + 1 ≤ l.length) :
    (l.drop k).take 1 = [l.getD k 0] := by
  have h0 : k < l.length := by omega
  rw [List.drop_eq_getElem_cons h0, List.take_succ_cons, List.take_zero,
    List.getD_eq_getElem _ _ h0]

theorem take_drop_two (l : List Nat) (k : Nat) (h : k + 2 ≤ l.length) :
    (l.drop k).take 2 = [l.getD k 0, l.getD (k + 1) 0] := by
  have h0 : k < l.length := by omega
  have h1 : k + 1 < l.length := by omega
  rw [List.drop_eq_getElem_cons h0, List.drop_eq_getElem_cons h1, List.take_succ_cons,
    List.take_succ_cons, List.take_zero, List.getD_eq_getElem _ _ h0,
    List.getD_eq_getElem _ _ h1]

theorem take_drop_four (l : List Nat) (k : Nat) (h : k + 4 ≤ l.length) :
    (l.drop k).take 4 =
      [l.getD k 0, l.getD (k + 1) 0, l.getD (k + 2) 0, l.getD (k + 3) 0] := by
  have h0 : k < l.length := by omega
  have h1 : k + 1 < l.length := by omega
  have h2 : k + 1 + 1 < l.length := by omega
  have h3 : k + 1 + 1 + 1 < l.length := by omega
  rw [List.drop_eq_getElem_cons h0, List.drop_eq_getElem_cons h1,
    List.drop_eq_getElem_cons h2, List.drop_eq_getElem_cons h3, List.take_succ_cons,
    List.take_succ_cons, List.take_succ_cons, List.take_succ_cons, List.take_zero,
    List.getD_eq_getElem _ _ h0, List.getD_eq_getElem _ _ h1, List.getD_eq_getElem _ _ h2,
    List.getD_eq_getElem _ _ h3]

/-- A window that lies inside the array is read. -/
theorem readWindow_inside (A : List Nat) (Offset Count : Nat) (hc : 0 < Count)
    (h : Offset + Count ≤ A.length) :
    readWindow A (Offset : Int) (Count : Int) = some ((A.drop Offset).take Count) := by
  unfold readWindow
  have : 0 ≤ (Offset : Int) ∧ (Offset : Int) < A.length ∧ 0 ≤ (Count : Int) ∧
      (Offset : Int) + Count ≤ A.length := by
    refine ⟨by omega, by omega, by omega, by omega⟩
  simp only [this, and_self, if_true, Int.toNat_ofNat]

theorem readIndex_byte (Bytes : List Nat) (i : Nat) (h : i + 1 ≤ Bytes.length)
    (hsmall : (i : Int) < 2147483648) :
    readIndex 5121 Bytes (toInt64 ((i : Int) * 1)) = .ok (some (indexValue1 Bytes i)) := by
  have h64 : toInt64 ((i : Int) * 1) = (i : Int) := by
    rw [toInt64_of_range _ (by omega) (by omega)]
    omega
  have h32 : toInt32 (i : Int) = (i : Int) := toInt32_of_range _ (by omega) (by omega)
  unfold readIndex
  rw [h64, h32]
  have := readWindow_inside Bytes i 1 (by omega) h
  simp only [Nat.cast_one] at this
  simp only [if_true, this, take_drop_one Bytes i h]
  rfl

theorem readIndex_short (Bytes : List Nat) (i : Nat) (h : 2 * i + 2 ≤ Bytes.length)
    (hsmall : 2 * (i : Int) < 2147483648) :
    readIndex 5123 Bytes (toInt64 ((i : Int) * 2)) = .ok (some (indexValue2 Bytes i)) := by
  have h64 : toInt64 ((i : Int) * 2) = ((2 * i : Nat) : Int) := by
    rw [toInt64_of_range _ (by omega) (by omega)]
    push_cast
    omega
  have h32 : toInt32 ((2 * i : Nat) : Int) = ((2 * i : Nat) : Int) :=
    toInt32_of_range _ (by omega) (by omega)
  unfold readIndex
  rw [h64, h32]
  have := readWindow_inside Bytes (2 * i) 2 (by omega) h
  simp only [Nat.cast_ofNat] at this
  have hne : ¬ ((5123 : Int) = 5121) := by decide
  simp only [hne, if_false, if_true, this, take_drop_two Bytes (2 * i) h]
  rfl

theorem readIndex_int (Bytes : List Nat) (i : Nat) (h : 4 * i + 4 ≤ Bytes.length)
    (hsmall : 4 * (i : Int) < 2147483648) :
    readIndex 5125 Bytes (toInt64 ((i : Int) * 4)) = .ok (some (indexValue4 Bytes i)) := by
  have h64 : toInt64 ((i : Int) * 4) = ((4 * i : Nat) : Int) := by
    rw [toInt64_of_range _ (by omega) (by omega)]
    push_cast
    omega
  have h32 : toInt32 ((4 * i : Nat) : Int) = ((4 * i : Nat) : Int) :=
    toInt32_of_range _ (by omega) (by omega)
  unfold readIndex
  rw [h64, h32]
  have := readWindow_inside Bytes (4 * i) 4 (by omega) h
  simp only [Nat.cast_ofNat] at this
  have hne1 : ¬ ((5125 : Int) = 5121) := by decide
  have hne2 : ¬ ((5125 : Int) = 5123) := by decide
  simp only [hne1, hne2, if_false, if_true, this, take_drop_four Bytes (4 * i) h]
  rfl

/-- The index loop when every element is read: it adds the values of the elements in order. -/
theorem decodeIndices_spec (ComponentType Stride : Int) (Bytes : List Nat) (v : Nat → Int)
    (n : Nat)
    (hread : ∀ i : Nat, i < n →
      readIndex ComponentType Bytes (toInt64 ((i : Int) * Stride)) = .ok (some (v i))) :
    ∀ (m k : Nat) (Indices : List Int), k + m ≤ n →
      decodeIndices ComponentType Stride Bytes m (k : Int) Indices =
        .ok (Indices ++ (List.range m).map (fun (j : Nat) => v (k + j))) := by
  intro m
  induction m with
  | zero => intro k I _; simp [decodeIndices]
  | succ m ih =>
    intro k I hk
    unfold decodeIndices
    rw [hread k (by omega)]
    simp only
    have hcast : (k : Int) + 1 = ((k + 1 : Nat) : Int) := by push_cast; rfl
    rw [hcast, ih (k + 1) _ (by omega), List.range_succ_eq_map, List.append_assoc]
    congr 2
    simp only [List.map_cons, List.map_map, add_zero, List.singleton_append, List.cons.injEq,
      true_and]
    apply List.map_congr_left
    intro j _
    simp only [Function.comp, Nat.succ_eq_add_one]
    congr 1
    omega

/-- The accessor that a call of `GetAccessor` that returns true has read. -/
theorem GetAccessor_ok_json (Decode : String → Option (List Nat)) (Root : Document)
    (S S1 : ParserState) (Index : Int) (Stride : Int) (Bytes : List Nat) (d : AccessorData)
    (h : GetAccessor Decode Root S Index Stride Bytes = (.ok d, S1)) :
    ∃ accs acc, 0 ≤ Index ∧ Root.accessors = some accs ∧
      accs[Index.toNat]? = some (some acc) := by
  unfold GetAccessor at h
  by_cases hneg : Index < 0
  · simp [hneg] at h
  · simp only [hneg, if_false] at h
    cases haccs : Root.accessors with
    | none => simp [haccs] at h
    | some accs =>
      simp only [haccs] at h
      by_cases hlt : Index ≥ (accs.length : Int)
      · simp [hlt] at h
      · simp only [hlt, if_false] at h
        cases hacc : accs[Index.toNat]? with
        | none => simp [hacc] at h
        | some x =>
          cases x with
          | none => simp [hacc] at h
          | some acc => exact ⟨accs, acc, by omega, rfl, hacc⟩

/-- A call of `GetAccessor` that returns true for an accessor without buffer view returns the
zero bytes that `AddZeroed` adds and leaves `Stride` as it was. -/
theorem GetAccessor_zero_ok_inv (Decode : String → Option (List Nat)) (Root : Document)
    (S S1 : ParserState) (Index : Int) (Stride : Int) (d : AccessorData)
    (accs : List (Option JsonAccessor)) (acc : JsonAccessor)
    (h0 : 0 ≤ Index) (haccs : Root.accessors = some accs)
    (hacc : accs[Index.toNat]? = some (some acc)) (hbv : acc.bufferView = none)
    (h : GetAccessor Decode Root S Index Stride [] = (.ok d, S1)) :
    d.ElementSize = GetComponentTypeSize d.ComponentType ∧ d.Stride = Stride ∧
    d.ElementSize * d.Elements ≤ 64 ∧
    AddZeroed [] (toInt32 (toUInt64 (toInt64 (toInt64 (d.ElementSize * d.Elements) * d.Count))))
      = some d.Bytes := by
  have hneg : ¬ (Index < 0) := by omega
  have hlt := getElem?_index_bounds accs Index _ hneg hacc
  unfold GetAccessor at h
  simp only [hneg, haccs, hlt, hacc, if_false, hbv, Option.isNone_none, if_true] at h
  cases hc : acc.componentType with
  | none => simp [hc] at h
  | some ct =>
    cases hn : acc.count with
    | none => simp [hc, hn] at h
    | some n =>
      cases ht : acc.type with
      | none => simp [hc, hn, ht] at h
      | some ty =>
        simp only [hc, hn, ht] at h
        by_cases hes : GetComponentTypeSize ct = 0
        · simp [hes] at h
        by_cases hel : GetTypeSize ty = 0
        · simp [hes, hel] at h
        simp only [hes, hel, if_false] at h
        cases hz : AddZeroed []
            (toInt32 (toUInt64 (toInt64 (toInt64 (GetComponentTypeSize ct * GetTypeSize ty) * n))))
          with
        | none => simp [hz] at h
        | some Zeroed =>
          simp only [hz, Prod.mk.injEq, Outcome.ok.injEq] at h
          obtain ⟨h1, _⟩ := h
          subst h1
          exact ⟨rfl, rfl, (elementBytes_range ct ty).2, hz⟩

/-- A call of `GetAccessor` that returns true with the stride of one element, a count that is
not negative and less than 2^31 bytes in all returns at least `Stride * Count` bytes. -/
theorem GetAccessor_ok_length (Decode : String → Option (List Nat)) (Root : Document)
    (S S1 : ParserState) (Index : Int) (Stride : Int) (A : AccessorData)
    (h : GetAccessor Decode Root S Index Stride [] = (.ok A, S1))
    (hs : A.Stride = A.ElementSize * A.Elements) (hs0 : 0 ≤ A.Stride) (hn0 : 0 ≤ A.Count)
    (hsmall : A.Stride * A.Count < 2147483648) :
    A.Stride * A.Count ≤ A.Bytes.length ∧
    A.ElementSize = GetComponentTypeSize A.ComponentType := by
  obtain ⟨accs, acc, h0, haccs, hacc⟩ := GetAccessor_ok_json Decode Root S S1 Index Stride [] A h
  have hnn : 0 ≤ A.Stride * A.Count := Int.mul_nonneg hs0 hn0
  have hfs : toUInt64 (toInt64 (A.Stride * A.Count)) = A.Stride * A.Count := by
    rw [toInt64_of_range _ (by omega) (by omega), toUInt64_of_range _ (by omega) (by omega)]
  have h32 : toInt32 (A.Stride * A.Count) = A.Stride * A.Count :=
    toInt32_of_range _ (by omega) (by omega)
  cases hbv : acc.bufferView with
  | none =>
    obtain ⟨h1, _, h64, h3⟩ := GetAccessor_zero_ok_inv Decode Root S S1 Index Stride A accs acc h0
      haccs hacc hbv h
    refine ⟨?_, h1⟩
    have hw : toInt64 (A.ElementSize * A.Elements) = A.Stride := by
      rw [← hs]
      exact toInt64_of_range _ (by omega) (by omega)
    rw [hw, hfs, h32] at h3
    unfold AddZeroed at h3
    simp only [hnn, if_true, List.nil_append, Option.some.injEq] at h3
    rw [← h3, List.length_replicate]
    omega
  | some bv =>
    obtain ⟨ct, n, ty, View, st, _, _, _, _, h5, h6, _, _, _, hbytes⟩ :=
      GetAccessor_view_ok_inv Decode Root S S1 Index Stride [] A accs acc bv h0 haccs hacc hbv h
    refine ⟨?_, by rw [h6, h5]⟩
    rw [hfs] at hbytes
    by_cases hoff : acc.byteOffset.getD 0 > 0
    · simp only [hoff, if_true] at hbytes
      rw [h32] at hbytes
      obtain ⟨_, _, _, hin, hW⟩ := readWindow_some _ _ _ _ hbytes
      rw [hW, List.length_take, List.length_drop]
      omega
    · simp only [hoff, if_false] at hbytes
      rw [hbytes.2]
      exact hbytes.1

/-- The index part of `LoadPrimitive` for an accessor of one element per index whose elements
are all read: the values of the elements in order. -/
theorem loadIndices_values (Decode : String → Option (List Nat)) (Root : Document)
    (S S1 : ParserState) (IndicesAccessorIndex Stride0 : Int) (A : AccessorData)
    (Positions : List FVector) (v : Nat → Int)
    (hacc : GetAccessor Decode Root S (toInt32 IndicesAccessorIndex) Stride0 [] = (.ok A, S1))
    (hel : A.Elements = 1)
    (hread : ∀ i : Nat, i < A.Count.toNat →
      readIndex A.ComponentType A.Bytes (toInt64 ((i : Int) * A.Stride)) = .ok (some (v i))) :
    loadIndices Decode Root S (some IndicesAccessorIndex) Positions [] Stride0 =
      (.ok ((List.range A.Count.toNat).map v), S1) := by
  unfold loadIndices
  simp only [hacc, hel, ne_eq, not_true_eq_false, if_false]
  have := decodeIndices_spec A.ComponentType A.Stride A.Bytes v A.Count.toNat hread
    A.Count.toNat 0 [] (by omega)
  simp only [Nat.cast_zero, List.nil_append, zero_add] at this
  rw [this]

/-- A call of `GetAccessor` that returns true returns the size of the component type as
element size. -/
theorem GetAccessor_ok_size (Decode : String → Option (List Nat)) (Root : Document)
    (S S1 : ParserState) (Index : Int) (Stride : Int) (A : AccessorData)
    (h : GetAccessor Decode Root S Index Stride [] = (.ok A, S1)) :
    A.ElementSize = GetComponentTypeSize A.ComponentType := by
  obtain ⟨accs, acc, h0, haccs, hacc⟩ := GetAccessor_ok_json Decode Root S S1 Index Stride [] A h
  cases hbv : acc.bufferView with
  | none =>
    exact (GetAccessor_zero_ok_inv Decode Root S S1 Index Stride A accs acc h0 haccs hacc hbv
      h).1
  | some bv =>
    obtain ⟨ct, n, ty, View, st, _, _, _, _, h5, h6, _⟩ :=
      GetAccessor_view_ok_inv Decode Root S S1 Index Stride [] A accs acc bv h0 haccs hacc hbv h
    rw [h6, h5]

/-! ## C20 -/

/-- C20: let `GetAccessor` return true for the accessor of the `indices` field, with one element
per index (SCALAR), the stride of one element (the default stride), and a count `n` that is not
negative and below 2^29. Then the index part of `LoadPrimitive`, started with no indices, returns
`n` indices, and the array returned by `GetAccessor` has at least `n` times the element size
bytes: for component type 5121 index `i` is byte `i`; for 5123 it is byte `2i` plus 256 times
byte `2i+1`, positions below `2n`; for 5125 it is the value of the four bytes from `4i`, low
byte first, positions below `4n`. And the loop on the bytes 0, 1, 2 as three unsigned bytes
gives the indices 0, 1, 2. -/
theorem C20_index_decoding (Decode : String → Option (List Nat)) (Root : Document)
    (S S1 : ParserState) (IndicesAccessorIndex Stride0 : Int) (A : AccessorData)
    (Positions : List FVector)
    (hacc : GetAccessor Decode Root S (toInt32 IndicesAccessorIndex) Stride0 [] = (.ok A, S1))
    (hel : A.Elements = 1) (hstride : A.Stride = A.ElementSize) (hn0 : 0 ≤ A.Count)
    (hsmall : A.Count < 536870912) :
    (A.ComponentType = 5121 →
      loadIndices Decode Root S (some IndicesAccessorIndex) Positions [] Stride0 =
        (.ok ((List.range A.Count.toNat).map (indexValue1 A.Bytes)), S1) ∧
      A.Count.toNat ≤ A.Bytes.length) ∧
    (A.ComponentType = 5123 →
      loadIndices Decode Root S (some IndicesAccessorIndex) Positions [] Stride0 =
        (.ok ((List.range A.Count.toNat).map (indexValue2 A.Bytes)), S1) ∧
      2 * A.Count.toNat ≤ A.Bytes.length ∧
      ∀ i : Nat, i < A.Count.toNat → 2 * i + 1 < 2 * A.Count.toNat) ∧
    (A.ComponentType = 5125 →
      loadIndices Decode Root S (some IndicesAccessorIndex) Positions [] Stride0 =
        (.ok ((List.range A.Count.toNat).map (indexValue4 A.Bytes)), S1) ∧
      4 * A.Count.toNat ≤ A.Bytes.length ∧
      ∀ i : Nat, i < A.Count.toNat → 4 * i + 3 < 4 * A.Count.toNat) ∧
    decodeIndices 5121 1 [0, 1, 2] 3 0 [] = .ok [0, 1, 2] := by
  have hES := GetAccessor_ok_size Decode Root S S1 _ Stride0 A hacc
  refine ⟨?_, ?_, ?_, by decide⟩
  · intro hct
    have hE : A.ElementSize = 1 := by rw [hES, hct]; rfl
    have hst : A.Stride = 1 := by rw [hstride, hE]
    have hlen := (GetAccessor_ok_length Decode Root S S1 _ Stride0 A hacc
      (by rw [hst, hE, hel]; rfl) (by omega) hn0 (by rw [hst]; omega)).1
    rw [hst] at hlen
    refine ⟨?_, by omega⟩
    apply loadIndices_values Decode Root S S1 _ Stride0 A Positions _ hacc hel
    intro i hi
    rw [hct, hst]
    exact readIndex_byte A.Bytes i (by omega) (by omega)
  · intro hct
    have hE : A.ElementSize = 2 := by rw [hES, hct]; rfl
    have hst : A.Stride = 2 := by rw [hstride, hE]
    have hlen := (GetAccessor_ok_length Decode Root S S1 _ Stride0 A hacc
      (by rw [hst, hE, hel]; rfl) (by omega) hn0 (by rw [hst]; omega)).1
    rw [hst] at hlen
    refine ⟨?_, by omega, fun i hi => by omega⟩
    apply loadIndices_values Decode Root S S1 _ Stride0 A Positions _ hacc hel
    intro i hi
    rw [hct, hst]
    exact readIndex_short A.Bytes i (by omega) (by omega)
  · intro hct
    have hE : A.ElementSize = 4 := by rw [hES, hct]; rfl
    have hst : A.Stride = 4 := by rw [hstride, hE]
    have hlen := (GetAccessor_ok_length Decode Root S S1 _ Stride0 A hacc
      (by rw [hst, hE, hel]; rfl) (by omega) hn0 (by rw [hst]; omega)).1
    rw [hst] at hlen
    refine ⟨?_, by omega, fun i hi => by omega⟩
    apply loadIndices_values Decode Root S S1 _ Stride0 A Positions _ hacc hel
    intro i hi
    rw [hct, hst]
    exact readIndex_int A.Bytes i (by omega) (by omega)

/-- C20 at a concrete input: on the sample document with the bytes 0 to 7, for accessor 1, three
unsigned shorts, the index part of `LoadPrimitive` returns the indices 256, 770 and 1284, that
is byte `2i` plus 256 times byte `2i+1`. -/
theorem C20_index_decoding_witness :
    ∃ A S1, GetAccessor sampleDecode sampleIndexed ParserState.initial (toInt32 1) 0 [] =
        (.ok A, S1) ∧
      A.Bytes = [0, 1, 2, 3, 4, 5, 6, 7] ∧ A.Count = 3 ∧
      (loadIndices sampleDecode sampleIndexed ParserState.initial (some 1) [] [] 0).1 =
        .ok [256, 770, 1284] ∧
      (A.ComponentType = 5123 →
        loadIndices sampleDecode sampleIndexed ParserState.initial (some 1) [] [] 0 =
          (.ok ((List.range A.Count.toNat).map (indexValue2 A.Bytes)), S1) ∧
        2 * A.Count.toNat ≤ A.Bytes.length ∧
        ∀ i : Nat, i < A.Count.toNat → 2 * i + 1 < 2 * A.Count.toNat) :=
  ⟨_, _, rfl, by decide, by decide, by decide,
    (C20_index_decoding sampleDecode sampleIndexed ParserState.initial _ 1 0 _ [] rfl
      (by decide) (by decide) (by decide) (by decide)).2.1⟩

/-! ## C29 -/

/-- The node at each position of a loaded table has the position as index. -/
theorem TableLoaded_index (Config : ParserConfig) (Root : Document)
    (T : List FglTFRuntimeNode) (hT : TableLoaded Config Root T) :
    ∀ (i : Nat) (Node : FglTFRuntimeNode), T[i]? = some Node → Node.Index = (i : Int) := by
  obtain ⟨fuel, ns, C, _, hl, hf⟩ := hT
  have hfor := fixAllParents_forget fuel _ C T hf
  have hC := (loadAllNodes_table Config ns C hl).2.1
  intro i Node hi
  have h1 : (T.map forgetParent)[i]? = some (forgetParent Node) := by
    rw [List.getElem?_map, hi]
    rfl
  rw [hfor, List.getElem?_map] at h1
  cases hc : C[i]? with
  | none => simp [hc] at h1
  | some N =>
    simp only [hc, Option.map_some', Option.some.injEq] at h1
    have h2 : (forgetParent N).Index = (forgetParent Node).Index := by rw [h1]
    have h3 := (hC i N hc).1
    simp only [forgetParent] at h2
    rw [← h2, h3]

/-- C29: on a document with a `nodes` array, after every call of `LoadNodes` that returns true,
in every state that calls of `LoadNodes` reach from a parser without nodes, the table has as
many entries as the array and the entry at position `i` has index `i`; `LoadNode(i)` returns
true with the node of index `i` for `0 <= i < node count`, and returns false for
`i >= node count`, in both cases without changing the state. -/
theorem C29_index_stable (Config : ParserConfig) (Root : Document)
    (JsonNodes : List (Option JsonNode)) (S0 S : ParserState) (fuels : List Nat)
    (fuel fuel2 : Nat) (hn : Root.nodes = some JsonNodes)
    (hflag : S0.bAllNodesCached = false) (hempty : S0.AllNodesCache = [])
    (hcalls : LoadNodesCalls Config Root fuels S0 = some S)
    (hok : (LoadNodes fuel Config Root S).1 = .ok ()) :
    (LoadNodes fuel Config Root S).2.AllNodesCache.length = JsonNodes.length ∧
    (∀ (i : Nat) (Node : FglTFRuntimeNode),
      (LoadNodes fuel Config Root S).2.AllNodesCache[i]? = some Node → Node.Index = (i : Int)) ∧
    (∀ i : Nat, i < JsonNodes.length →
      ∃ Node, LoadNode fuel2 Config Root (LoadNodes fuel Config Root S).2 (i : Int) =
          (.ok Node, (LoadNodes fuel Config Root S).2) ∧
        (LoadNodes fuel Config Root S).2.AllNodesCache[i]? = some Node ∧
        Node.Index = (i : Int)) ∧
    (∀ i : Int, i ≥ (JsonNodes.length : Int) →
      LoadNode fuel2 Config Root (LoadNodes fuel Config Root S).2 i =
        (.fail, (LoadNodes fuel Config Root S).2)) := by
  obtain ⟨hfl, hT⟩ := LoadNodes_reached_loaded Config Root S0 S fuels fuel hflag hempty hcalls hok
  have hlen := TableLoaded_length Config Root JsonNodes _ hn hT
  have hidx := TableLoaded_index Config Root _ hT
  refine ⟨hlen, hidx, ?_, ?_⟩
  · intro i hi
    obtain ⟨Node, h1, h2⟩ := LoadNode_cached fuel2 Config Root _ hfl (i : Int)
      ⟨by omega, by rw [hlen]; omega⟩
    rw [Int.toNat_ofNat] at h2
    exact ⟨Node, h1, h2, hidx i Node h2⟩
  · intro i hi
    unfold LoadNode
    have hge : i ≥ ((LoadNodes fuel Config Root S).2.AllNodesCache.length : Int) := by
      rw [hlen]
      exact hi
    simp only [hfl, Bool.not_true, Bool.false_eq_true, if_false, hge, if_true]

/-- C29 at a concrete input: after `LoadNodes` on the sample tree of three nodes, the table has
three entries with the indices 0, 1, 2, `LoadNode(1)` returns the node of index 1 and
`LoadNode(3)` returns false. -/
theorem C29_index_stable_witness :
    (LoadNodes 2 sampleConfig sampleTree ParserState.initial).2.AllNodesCache.map
      (fun Node => Node.Index) = [0, 1, 2] ∧
    (LoadNode 0 sampleConfig sampleTree
      (LoadNodes 2 sampleConfig sampleTree ParserState.initial).2 3).1 = .fail ∧
    (LoadNodes 2 sampleConfig sampleTree ParserState.initial).2.AllNodesCache.length = 3 ∧
    (∀ (i : Nat) (Node : FglTFRuntimeNode),
      (LoadNodes 2 sampleConfig sampleTree ParserState.initial).2.AllNodesCache[i]? =
        some Node → Node.Index = (i : Int)) ∧
    (∀ i : Nat, i < 3 →
      ∃ Node, LoadNode 0 sampleConfig sampleTree
          (LoadNodes 2 sampleConfig sampleTree ParserState.initial).2 (i : Int) =
          (.ok Node, (LoadNodes 2 sampleConfig sampleTree ParserState.initial).2) ∧
        (LoadNodes 2 sampleConfig sampleTree ParserState.initial).2.AllNodesCache[i]? =
          some Node ∧
        Node.Index = (i : Int)) ∧
    (∀ i : Int, i ≥ ((3 : Nat) : Int) →
      LoadNode 0 sampleConfig sampleTree
        (LoadNodes 2 sampleConfig sampleTree ParserState.initial).2 i =
        (.fail, (LoadNodes 2 sampleConfig sampleTree ParserState.initial).2)) :=
  ⟨by decide, rfl,
    C29_index_stable sampleConfig sampleTree _ ParserState.initial ParserState.initial [] 2 0
      rfl rfl rfl rfl (by decide)⟩

/-! ## Node transforms -/

theorem FMatrix.identity_mul (M : FMatrix) : FMatrix.Identity.mul M = M := by
  funext i j
  fin_cases i <;> simp [FMatrix.mul, FMatrix.Identity]

theorem FMatrix.mul_identity (M : FMatrix) : M.mul FMatrix.Identity = M := by
  funext i j
  fin_cases j <;> simp [FMatrix.mul, FMatrix.Identity]

/-- The numbers of a field that must have three numbers. -/
theorem numbersOfLength_three (Values : List (Option ℚ)) (V : List ℚ)
    (h : numbersOfLength Values 3 = some V) :
    Values = [some (V.getD 0 0), some (V.getD 1 0), some (V.getD 2 0)] := by
  unfold numbersOfLength at h
  match Values, h with
  | [some a, some b, some c], h =>
    simp [allNumbers] at h
    subst h
    rfl
  | [], h => simp at h
  | [_], h => simp at h
  | [_, _], h => simp at h
  | _ :: _ :: _ :: _ :: _, h => simp at h
  | [none, _, _], h => simp [allNumbers] at h
  | [some _, none, _], h => simp [allNumbers] at h
  | [some _, some _, none], h => simp [allNumbers] at h

/-- The numbers of a field that must have four numbers. -/
theorem numbersOfLength_four (Values : List (Option ℚ)) (V : List ℚ)
    (h : numbersOfLength Values 4 = some V) :
    Values = [some (V.getD 0 0), some (V.getD 1 0), some (V.getD 2 0), some (V.getD 3 0)] := by
  unfold numbersOfLength at h
  match Values, h with
  | [some a, some b, some c, some d], h =>
    simp [allNumbers] at h
    subst h
    rfl
  | [], h => simp at h
  | [_], h => simp at h
  | [_, _], h => simp at h
  | [_, _, _], h => simp at h
  | _ :: _ :: _ :: _ :: _ :: _, h => simp at h
  | [none, _, _, _], h => simp [allNumbers] at h
  | [some _, none, _, _], h => simp [allNumbers] at h
  | [some _, some _, none, _], h => simp [allNumbers] at h
  | [some _, some _, some _, none], h => simp [allNumbers] at h

/-- A step of the composition in `LoadNode_Internal` that has produced a matrix: the matrix
before it, unchanged without the field, else multiplied by the matrix of the numbers of the
field. -/
theorem composeStep_some (X : Option FMatrix) (Field : Option (List (Option ℚ))) (n : Nat)
    (F : List ℚ → FMatrix) (M : FMatrix)
    (h : (match X, Field with
      | none, _ => none
      | some Matrix, some Values =>
        match numbersOfLength Values n with
        | some V => some (Matrix.mul (F V))
        | none => none
      | some Matrix, none => some Matrix) = some M) :
    ∃ A, X = some A ∧ ((Field = none ∧ M = A) ∨
      ∃ Values V, Field = some Values ∧ numbersOfLength Values n = some V ∧
        M = A.mul (F V)) := by
  cases X with
  | none => simp at h
  | some A =>
    cases Field with
    | none =>
      simp only [Option.some.injEq] at h
      exact ⟨A, rfl, Or.inl ⟨rfl, h.symm⟩⟩
    | some Values =>
      cases hv : numbersOfLength Values n with
      | none => simp [hv] at h
      | some V =>
        simp only [hv, Option.some.injEq] at h
        exact ⟨A, rfl, Or.inr ⟨Values, V, rfl, hv, h.symm⟩⟩

/-- The matrix that `LoadNode_Internal` composes, when it composes one: the matrix of the
`matrix` field, or the identity without that field, multiplied in turn by the matrices of the
`scale`, `rotation` and `translation` fields that are present. -/
theorem nodeMatrix_some (JsonNodeObject : JsonNode) (M : FMatrix)
    (h : nodeMatrix JsonNodeObject = some M) :
    ∃ M0,
      (JsonNodeObject.matrix = none → M0 = FMatrix.Identity) ∧
      (∀ Field, JsonNodeObject.matrix = some Field →
        ∃ Values, numbersOfLength Field 16 = some Values ∧ M0 = matrixOfValues Values) ∧
      M = ((M0.mul (scaleFieldMatrix JsonNodeObject.scale)).mul
        (rotationFieldMatrix JsonNodeObject.rotation)).mul
        (translationFieldMatrix JsonNodeObject.translation) := by
  unfold nodeMatrix at h
  dsimp only at h
  obtain ⟨M2, hM2, h3⟩ := composeStep_some _ JsonNodeObject.translation 3
    (fun V => FTranslationMatrix (V.getD 0 0) (V.getD 1 0) (V.getD 2 0)) M h
  obtain ⟨M1, hM1, h2⟩ := composeStep_some _ JsonNodeObject.rotation 4
    (fun V => FQuatRotationMatrix (V.getD 0 0) (V.getD 1 0) (V.getD 2 0) (V.getD 3 0)) M2 hM2
  obtain ⟨M0, hM0, h1⟩ := composeStep_some _ JsonNodeObject.scale 3
    (fun V => FScaleMatrix (V.getD 0 0) (V.getD 1 0) (V.getD 2 0)) M1 hM1
  have e3 : M = M2.mul (translationFieldMatrix JsonNodeObject.translation) := by
    rcases h3 with ⟨hf, hm⟩ | ⟨Values, V, hf, hv, hm⟩
    · rw [hf, hm]
      simp [translationFieldMatrix, FMatrix.mul_identity]
    · rw [hf, hm, numbersOfLength_three Values V hv]
      rfl
  have e2 : M2 = M1.mul (rotationFieldMatrix JsonNodeObject.rotation) := by
    rcases h2 with ⟨hf, hm⟩ | ⟨Values, V, hf, hv, hm⟩
    · rw [hf, hm]
      simp [rotationFieldMatrix, FMatrix.mul_identity]
    · rw [hf, hm, numbersOfLength_four Values V hv]
      rfl
  have e1 : M1 = M0.mul (scaleFieldMatrix JsonNodeObject.scale) := by
    rcases h1 with ⟨hf, hm⟩ | ⟨Values, V, hf, hv, hm⟩
    · rw [hf, hm]
      simp [scaleFieldMatrix, FMatrix.mul_identity]
    · rw [hf, hm, numbersOfLength_three Values V hv]
      rfl
  refine ⟨M0, ?_, ?_, by rw [e3, e2, e1]⟩
  · intro hm
    rw [hm] at hM0
    simp only [Option.some.injEq] at hM0
    exact hM0.symm
  · intro Field hm
    rw [hm] at hM0
    cases hv : numbersOfLength Field 16 with
    | none => simp [hv] at hM0
    | some Values =>
      simp only [hv, Option.some.injEq] at hM0
      exact ⟨Values, rfl, hM0.symm⟩

/-- The transform of the node that `LoadNode_Internal` returns: the composed matrix with the
translation scaled, between the inverse basis and the basis. -/
theorem LoadNode_Internal_transform (Config : ParserConfig) (Index : Int)
    (JsonNodeObject : JsonNode) (NodesCount : Int) (Node Result : FglTFRuntimeNode)
    (h : LoadNode_Internal Config Index JsonNodeObject NodesCount Node = some Result) :
    ∃ M, nodeMatrix JsonNodeObject = some M ∧
      Result.Transform = (Config.BasisInverse.mul
        (M.ScaleTranslation Config.Scale Config.Scale Config.Scale)).mul Config.Basis := by
  unfold LoadNode_Internal at h
  cases hM : nodeMatrix JsonNodeObject with
  | none => simp [hM] at h
  | some M =>
    simp only [hM] at h
    refine ⟨M, rfl, ?_⟩
    cases hc : JsonNodeObject.children with
    | none =>
      simp only [hc, Option.some.injEq] at h
      rw [← h]
    | some cs =>
      simp only [hc] at h
      cases hl : loadChildren NodesCount cs Node.ChildrenIndices with
      | none => simp [hl] at h
      | some r =>
        simp only [hl, Option.some.injEq] at h
        rw [← h]

theorem NoTranslation_identity : NoTranslation FMatrix.Identity := by
  unfold NoTranslation FMatrix.Identity
  decide

theorem NoTranslation_mul (A B : FMatrix) (hA : NoTranslation A) (hB : NoTranslation B) :
    NoTranslation (A.mul B) := by
  obtain ⟨a0, a1, a2, a3⟩ := hA
  obtain ⟨b0, b1, b2, b3⟩ := hB
  unfold NoTranslation FMatrix.mul
  simp [a0, a1, a2, a3, b0, b1, b2, b3]

theorem NoTranslation_scale (Field : Option (List (Option ℚ))) :
    NoTranslation (scaleFieldMatrix Field) := by
  unfold scaleFieldMatrix
  split
  · unfold NoTranslation FScaleMatrix
    simp
  · exact NoTranslation_identity

theorem NoTranslation_rotation (Field : Option (List (Option ℚ))) :
    NoTranslation (rotationFieldMatrix Field) := by
  unfold rotationFieldMatrix
  split
  · unfold NoTranslation FQuatRotationMatrix
    simp
  · exact NoTranslation_identity

/-- The last row of the product of a matrix without translation and a translation matrix is the
translation. -/
theorem mul_translation_row (A : FMatrix) (hA : NoTranslation A) (X Y Z : ℚ) :
    (A.mul (FTranslationMatrix X Y Z)) 3 0 = X ∧ (A.mul (FTranslationMatrix X Y Z)) 3 1 = Y ∧
    (A.mul (FTranslationMatrix X Y Z)) 3 2 = Z := by
  obtain ⟨a0, a1, a2, a3⟩ := hA
  unfold FMatrix.mul FTranslationMatrix
  simp [a0, a1, a2, a3]

/-! ## C26 -/

/-- C26: with the identity as basis and inverse basis and the uniform scale `s`, when
`LoadNode_Internal` returns true for a node object without `matrix` field whose `translation`
field is `(tx, ty, tz)`, whatever its `scale` and `rotation` fields, the translation row of the
transform of the node is `(s * tx, s * ty, s * tz)`; this covers the node that declares only a
translation and the node with translation (1, 0, 0) and scale (1, 1, 1). -/
theorem C26_translation_scaled (Config : ParserConfig) (Index : Int)
    (JsonNodeObject : JsonNode) (NodesCount : Int) (Node Result : FglTFRuntimeNode)
    (tx ty tz : ℚ) (hB : Config.Basis = FMatrix.Identity)
    (hBI : Config.BasisInverse = FMatrix.Identity) (hm : JsonNodeObject.matrix = none)
    (ht : JsonNodeObject.translation = some [some tx, some ty, some tz])
    (h : LoadNode_Internal Config Index JsonNodeObject NodesCount Node = some Result) :
    Result.Transform 3 0 = Config.Scale * tx ∧ Result.Transform 3 1 = Config.Scale * ty ∧
    Result.Transform 3 2 = Config.Scale * tz := by
  obtain ⟨M, hM, hT⟩ := LoadNode_Internal_transform Config Index JsonNodeObject NodesCount Node
    Result h
  obtain ⟨M0, h0, _, hprod⟩ := nodeMatrix_some JsonNodeObject M hM
  rw [hB, hBI, FMatrix.identity_mul, FMatrix.mul_identity] at hT
  have hA : NoTranslation ((M0.mul (scaleFieldMatrix JsonNodeObject.scale)).mul
      (rotationFieldMatrix JsonNodeObject.rotation)) := by
    rw [h0 hm]
    exact NoTranslation_mul _ _
      (NoTranslation_mul _ _ NoTranslation_identity (NoTranslation_scale _))
      (NoTranslation_rotation _)
  have hrow := mul_translation_row _ hA tx ty tz
  have htm : translationFieldMatrix JsonNodeObject.translation = FTranslationMatrix tx ty tz := by
    rw [ht]
    rfl
  rw [htm] at hprod
  rw [← hprod] at hrow
  obtain ⟨r0, r1, r2⟩ := hrow
  rw [hT]
  unfold FMatrix.ScaleTranslation
  simp only [r0, r1, r2]
  refine ⟨?_, ?_, ?_⟩ <;> simp [mul_comm]

/-- C26 at a concrete input: with the identity basis and scale 1, the node object with
translation (1, 0, 0) and scale (1, 1, 1) is loaded with the translation row (1, 0, 0). -/
theorem C26_translation_scaled_witness :
    ∃ Result, LoadNode_Internal sampleConfig 0
        (sampleTransformNode none (some [some 1, some 1, some 1]) none
          (some [some 1, some 0, some 0])) 1 defaultNode = some Result ∧
      Result.Transform 3 0 = sampleConfig.Scale * 1 ∧
      Result.Transform 3 1 = sampleConfig.Scale * 0 ∧
      Result.Transform 3 2 = sampleConfig.Scale * 0 ∧ sampleConfig.Scale = 1 :=
  ⟨_, rfl,
    (C26_translation_scaled sampleConfig 0
      (sampleTransformNode none (some [some 1, some 1, some 1]) none
        (some [some 1, some 0, some 0])) 1 defaultNode _ 1 0 0 rfl rfl rfl rfl rfl).1,
    (C26_translation_scaled sampleConfig 0
      (sampleTransformNode none (some [some 1, some 1, some 1]) none
        (some [some 1, some 0, some 0])) 1 defaultNode _ 1 0 0 rfl rfl rfl rfl rfl).2.1,
    (C26_translation_scaled sampleConfig 0
      (sampleTransformNode none (some [some 1, some 1, some 1]) none
        (some [some 1, some 0, some 0])) 1 defaultNode _ 1 0 0 rfl rfl rfl rfl rfl).2.2,
    rfl⟩

/-! ## C27 -/

/-- C27, as stated, at a concrete input: the node object that declares the identity as `matrix`
and also the translation (1, 0, 0) is loaded, with identity basis and scale 1, with the
translation row (1, 0, 0), while the declared matrix has the translation row (0, 0, 0) and the
node object with the matrix alone is loaded with (0, 0, 0): the translation field is applied on
top of the matrix. -/
theorem C27_matrix_counterexample :
    (LoadNode_Internal sampleConfig 0
      (sampleTransformNode (some sampleIdentityValues) none none
        (some [some 1, some 0, some 0])) 1 defaultNode).map
      (fun N => (N.Transform 3 0, N.Transform 3 1, N.Transform 3 2)) = some (1, 0, 0) ∧
    (LoadNode_Internal sampleConfig 0
      (sampleTransformNode (some sampleIdentityValues) none none none) 1 defaultNode).map
      (fun N => (N.Transform 3 0, N.Transform 3 1, N.Transform 3 2)) = some (0, 0, 0) ∧
    (nodeMatrix (sampleTransformNode (some sampleIdentityValues) none none
      (some [some 1, some 0, some 0]))).map (fun M => (M 3 0, M 3 1, M 3 2)) =
      some (1, 0, 0) ∧
    (numbersOfLength sampleIdentityValues 16).map
      (fun V => (matrixOfValues V 3 0, matrixOfValues V 3 1, matrixOfValues V 3 2)) =
      some (0, 0, 0) := by
  have h3 : ((3 : Fin 4) : Nat) = 3 := rfl
  refine ⟨?_, ?_, ?_, ?_⟩ <;>
    simp [LoadNode_Internal, nodeMatrix, sampleTransformNode, sampleIdentityValues,
      numbersOfLength, allNumbers, FMatrix.mul, FTranslationMatrix, FMatrix.ScaleTranslation,
      sampleConfig, FMatrix.Identity, matrixOfValues, h3]

/-- C27, amended: the fields `scale`, `rotation` and `translation` are applied also when the
node declares a matrix. When `LoadNode_Internal` returns true for a node object with a `matrix`
field, the field has 16 numbers and the matrix composed before the basis conversion is the
declared matrix multiplied in turn by the scale, rotation and translation matrices of the
fields that are present; it is the declared matrix alone when none of the three is present.
The transform of the node is that matrix with the translation row scaled by the uniform scale,
between the inverse basis and the basis. -/
theorem C27_matrix_then_fields (Config : ParserConfig) (Index : Int)
    (JsonNodeObject : JsonNode) (NodesCount : Int) (Node Result : FglTFRuntimeNode)
    (Field : List (Option ℚ)) (hm : JsonNodeObject.matrix = some Field)
    (h : LoadNode_Internal Config Index JsonNodeObject NodesCount Node = some Result) :
    ∃ Values M, numbersOfLength Field 16 = some Values ∧
      nodeMatrix JsonNodeObject = some M ∧
      M = (((matrixOfValues Values).mul (scaleFieldMatrix JsonNodeObject.scale)).mul
        (rotationFieldMatrix JsonNodeObject.rotation)).mul
        (translationFieldMatrix JsonNodeObject.translation) ∧
      (JsonNodeObject.scale = none → JsonNodeObject.rotation = none →
        JsonNodeObject.translation = none → M = matrixOfValues Values) ∧
      Result.Transform = (Config.BasisInverse.mul
        (M.ScaleTranslation Config.Scale Config.Scale Config.Scale)).mul Config.Basis := by
  obtain ⟨M, hM, hT⟩ := LoadNode_Internal_transform Config Index JsonNodeObject NodesCount Node
    Result h
  obtain ⟨M0, _, h1, hprod⟩ := nodeMatrix_some JsonNodeObject M hM
  obtain ⟨Values, hv, hM0⟩ := h1 Field hm
  rw [hM0] at hprod
  refine ⟨Values, M, hv, hM, hprod, ?_, hT⟩
  intro hs hr ht
  rw [hprod, hs, hr, ht]
  simp [scaleFieldMatrix, rotationFieldMatrix, translationFieldMatrix, FMatrix.mul_identity]

/-- C27 at a concrete input: for the node object with the identity as `matrix` and the
translation (1, 0, 0), the composed matrix is the declared matrix times the translation
matrix. -/
theorem C27_matrix_then_fields_witness :
    ∃ Result, LoadNode_Internal sampleConfig 0
        (sampleTransformNode (some sampleIdentityValues) none none
          (some [some 1, some 0, some 0])) 1 defaultNode = some Result ∧
      ∃ Values M, numbersOfLength sampleIdentityValues 16 = some Values ∧
        nodeMatrix (sampleTransformNode (some sampleIdentityValues) none none
          (some [some 1, some 0, some 0])) = some M ∧
        M = (((matrixOfValues Values).mul (scaleFieldMatrix none)).mul
          (rotationFieldMatrix none)).mul
          (translationFieldMatrix (some [some 1, some 0, some 0])) ∧
        ((none : Option (List (Option ℚ))) = none → (none : Option (List (Option ℚ))) = none →
          some [some (1 : ℚ), some 0, some 0] = none → M = matrixOfValues Values) ∧
        Result.Transform = (sampleConfig.BasisInverse.mul
          (M.ScaleTranslation sampleConfig.Scale sampleConfig.Scale sampleConfig.Scale)).mul
          sampleConfig.Basis :=
  ⟨_, rfl,
    C27_matrix_then_fields sampleConfig 0
      (sampleTransformNode (some sampleIdentityValues) none none
        (some [some 1, some 0, some 0])) 1 defaultNode _ sampleIdentityValues rfl rfl⟩

/-! ## C23 -/

theorem LoadPrimitives_append (Decode : String → Option (List Nat)) (Build : AttributeBuilders)
    (bBaseMaterial : Bool) (Config : ParserConfig) (Root : Document)
    (Fresh : FglTFRuntimePrimitive) (Stride0 : Int) (pre rest : List (Option JsonPrimitive)) :
    ∀ (S : ParserState) (Primitives : List FglTFRuntimePrimitive),
      LoadPrimitives Decode Build bBaseMaterial Config Root Fresh Stride0 (pre ++ rest) S
          Primitives =
        Outcome.andThen
          (LoadPrimitives Decode Build bBaseMaterial Config Root Fresh Stride0 pre S Primitives)
          (fun P S1 =>
            LoadPrimitives Decode Build bBaseMaterial Config Root Fresh Stride0 rest S1 P) := by
  induction pre with
  | nil => intro S Primitives; simp [LoadPrimitives, Outcome.andThen]
  | cons x pre ih =>
    intro S Primitives
    cases x with
    | none => simp [LoadPrimitives, Outcome.andThen]
    | some J =>
      simp only [List.cons_append, LoadPrimitives]
      cases hl : LoadPrimitive Decode Build bBaseMaterial Config Root S J Fresh Stride0 with
      | mk o S1 =>
        cases o with
        | ok P => exact ih S1 (Primitives ++ [P])
        | fail => simp [Outcome.andThen]
        | fault => simp [Outcome.andThen]
        | nofuel => simp [Outcome.andThen]

theorem LoadPrimitive_no_position (Decode : String → Option (List Nat))
    (Build : AttributeBuilders) (bBaseMaterial : Bool) (Config : ParserConfig)
    (Root : Document) (S : ParserState) (J : JsonPrimitive) (Primitive : FglTFRuntimePrimitive)
    (Stride0 : Int)
    (hbad : J.attributes = none ∨ ∃ A, J.attributes = some A ∧ A.POSITION = none) :
    LoadPrimitive Decode Build bBaseMaterial Config Root S J Primitive Stride0 = (.fail, S) := by
  rcases hbad with h | ⟨A, h, hp⟩
  · simp [LoadPrimitive, h]
  · simp [LoadPrimitive, h, loadAttributes, hp]

/-- Claim C23: for a primitive object without an `attributes` object, or whose attributes have
no `POSITION` field, `LoadPrimitive` returns false in every state and for every primitive passed
in, without changing the state; `LoadPrimitives` returns true for no list that contains such an
object, and it returns false when the objects before it load. -/
theorem C23_position_required (Decode : String → Option (List Nat)) (Build : AttributeBuilders)
    (bBaseMaterial : Bool) (Config : ParserConfig) (Root : Document)
    (Fresh : FglTFRuntimePrimitive) (Stride0 : Int) (J : JsonPrimitive)
    (hbad : J.attributes = none ∨ ∃ A, J.attributes = some A ∧ A.POSITION = none) :
    (∀ (S : ParserState) (Primitive : FglTFRuntimePrimitive),
      LoadPrimitive Decode Build bBaseMaterial Config Root S J Primitive Stride0 = (.fail, S)) ∧
    (∀ (pre post : List (Option JsonPrimitive)) (S S2 : ParserState)
      (Primitives R : List FglTFRuntimePrimitive),
      LoadPrimitives Decode Build bBaseMaterial Config Root Fresh Stride0
        (pre ++ some J :: post) S Primitives ≠ (.ok R, S2)) ∧
    (∀ (pre post : List (Option JsonPrimitive)) (S S1 : ParserState)
      (Primitives P1 : List FglTFRuntimePrimitive),
      LoadPrimitives Decode Build bBaseMaterial Config Root Fresh Stride0 pre S Primitives =
        (.ok P1, S1) →
      LoadPrimitives Decode Build bBaseMaterial Config Root Fresh Stride0
        (pre ++ some J :: post) S Primitives = (.fail, S1)) := by
  have hone : ∀ (S : ParserState) (Primitive : FglTFRuntimePrimitive),
      LoadPrimitive Decode Build bBaseMaterial Config Root S J Primitive Stride0 = (.fail, S) :=
    fun S Primitive =>
      LoadPrimitive_no_position Decode Build bBaseMaterial Config Root S J Primitive Stride0 hbad
  refine ⟨hone, ?_, ?_⟩
  · intro pre post S S2 Primitives R h
    rw [LoadPrimitives_append] at h
    obtain ⟨P1, S1, _, h2⟩ := andThen_ok _ _ _ _ h
    simp [LoadPrimitives, hone] at h2
  · intro pre post S S1 Primitives P1 h
    rw [LoadPrimitives_append, h]
    simp [Outcome.andThen, LoadPrimitives, hone]

theorem C23_position_required_witness :
    (sampleNoPosition.attributes = none ∨
      ∃ A, sampleNoPosition.attributes = some A ∧ A.POSITION = none) ∧
    (∃ P1 S1, LoadPrimitives sampleDecode sampleBuilders true sampleConfig sampleIndexed
        emptyPrimitive 0 [some (sampleSkinnedPrimitive none)] ParserState.initial [] =
        (.ok P1, S1) ∧ P1.length = 1 ∧
      LoadPrimitives sampleDecode sampleBuilders true sampleConfig sampleIndexed
        emptyPrimitive 0 ([some (sampleSkinnedPrimitive none)] ++ some sampleNoPosition :: [])
        ParserState.initial [] = (.fail, S1)) :=
  ⟨Or.inr ⟨_, rfl, rfl⟩, _, _, rfl, by decide,
    (C23_position_required sampleDecode sampleBuilders true sampleConfig sampleIndexed
      emptyPrimitive 0 sampleNoPosition (Or.inr ⟨_, rfl, rfl⟩)).2.2
      [some (sampleSkinnedPrimitive none)] [] ParserState.initial _ [] _ rfl⟩

/-! ## C24 -/

/-- Claim C24, where it fails: on the sample with three scenes and three nodes, `LoadScene`
returns false for the scene indices -1 and 3 and loads scene 0 with the declared root nodes 0
and 2 and the decimal name "0"; for scene 1, whose nodes list is [-1], the test
`Index >= AllNodesCache.Num()` of `LoadNode` lets -1 pass and the call reads
`AllNodesCache[-1]`, outside the array, instead of returning false; for scene 2, whose nodes
list is [2^32], the number is narrowed to the `int32` 0 at the call of `LoadNode`, and the call
returns true with the root node 0. -/
theorem C24_negative_root_node :
    (LoadScene 2 sampleConfig sampleScenes ParserState.initial (-1) sampleFreshScene).1 = .fail ∧
    (LoadScene 2 sampleConfig sampleScenes ParserState.initial 3 sampleFreshScene).1 = .fail ∧
    (LoadScene 2 sampleConfig sampleScenes ParserState.initial 0 sampleFreshScene).1 =
      .ok { Index := 0, Name := "0", RootNodesIndices := [0, 2] } ∧
    (LoadNode 2 sampleConfig sampleScenes ParserState.initial (-1)).1 = .fault ∧
    (LoadScene 2 sampleConfig sampleScenes ParserState.initial 1 sampleFreshScene).1 = .fault ∧
    (LoadScene 2 sampleConfig sampleScenes ParserState.initial 2 sampleFreshScene).1 =
      .ok { Index := 2, Name := "2", RootNodesIndices := [0] } := by
  refine ⟨?_, ?_, ?_, ?_, ?_, ?_⟩ <;> rfl

/-! ## Bone parents -/

theorem findBoneFrom_append_new :
    ∀ (Skeleton : List FMeshBone) (Bone : FMeshBone) (Pos : Nat),
      Bone.Name ∉ Skeleton.map (fun b => b.Name) →
      findBoneFrom (Skeleton ++ [Bone]) Bone.Name Pos = ((Pos + Skeleton.length : Nat) : Int) := by
  intro Skeleton
  induction Skeleton with
  | nil => intro Bone Pos _; simp [findBoneFrom]
  | cons b rest ih =>
    intro Bone Pos h
    simp only [List.map_cons, List.mem_cons, not_or] at h
    have hne : ¬ b.Name = Bone.Name := fun hc => h.1 hc.symm
    simp only [List.cons_append, findBoneFrom, hne, if_false]
    show findBoneFrom (rest ++ [Bone]) Bone.Name (Pos + 1) = _
    rw [ih Bone (Pos + 1) h.2]
    simp only [List.length_cons]
    congr 1
    omega

/-- What a call of `TraverseJoints` that returns true has done before its children loop, with
the parent index that it passes to the calls for the children: the index of the bone that it has
added, which is the number of bones before. -/
theorem TraverseJoints_ok_parent (Inverse : FMatrix → FMatrix) (Config : ParserConfig)
    (Root : Document) (Joints : List Int) (InverseBindMatricesMap : List (Int × FMatrix))
    (fuel : Nat) (Parent : Int) (S : ParserState) (Skeleton : List FMeshBone)
    (BoneMap : List (Int × FName)) (Node : FglTFRuntimeNode)
    (R : List FMeshBone × List (Int × FName)) (S2 : ParserState)
    (h : TraverseJoints Inverse Config Root Joints InverseBindMatricesMap (fuel + 1) Parent S
      Skeleton BoneMap Node = (.ok R, S2)) :
    ∃ (BoneName : FName) (Transform : FMatrix),
      traverseChildren
        (TraverseJoints Inverse Config Root Joints InverseBindMatricesMap fuel
          (Skeleton.length : Int))
        (LoadNode (fuel + 1) Config Root) Node.ChildrenIndices S
        (Skeleton ++ [⟨BoneName, Node.Name, Parent, Transform⟩])
        (recordJoints Joints BoneMap [(Node.Index, BoneName)]) = (.ok R, S2) := by
  unfold TraverseJoints at h
  cases hu : uniqueBoneName (fuel + 1) Skeleton (FName.ofString Node.Name) with
  | none => simp [hu] at h
  | some BoneName =>
    simp only [hu] at h
    cases hb : boneTransform Inverse Config Node Joints InverseBindMatricesMap with
    | none => simp [hb] at h
    | some Transform =>
      simp only [hb] at h
      by_cases hf : FindBoneIndex (Skeleton ++ [⟨BoneName, Node.Name, Parent, Transform⟩])
          BoneName = INDEX_NONE
      · simp [hf] at h
      · simp only [hf, if_false] at h
        have hrule := uniqueBoneName_rule _ _ _ _ _ _ hu hf
        obtain ⟨_, _, hnot, _⟩ := hrule
        have hnn : BoneName.isNone = false := by
          cases hq : BoneName.isNone with
          | false => rfl
          | true => exact absurd ((FindBoneIndex_none_iff _ _).2 (Or.inl hq)) hf
        have hidx : FindBoneIndex (Skeleton ++ [⟨BoneName, Node.Name, Parent, Transform⟩])
            BoneName = (Skeleton.length : Int) := by
          unfold FindBoneIndex
          simp only [hnn, Bool.false_eq_true, if_false]
          have := findBoneFrom_append_new Skeleton ⟨BoneName, Node.Name, Parent, Transform⟩ 0
            hnot
          simp only [Nat.zero_add] at this
          exact this
        rw [hidx] at h
        exact ⟨BoneName, Transform, h⟩

/-- The children loop of `TraverseJoints` with the nodes cached: when every recursive call adds
a bone with parent index `Parent` for its node and links the bones below it, the loop links the
bones of its visits. -/
theorem traverseChildren_links (fuel : Nat) (Config : ParserConfig) (Root : Document)
    (S : ParserState) (hflag : S.bAllNodesCached = true)
    (hidx : ∀ (i : Nat) (Node : FglTFRuntimeNode), S.AllNodesCache[i]? = some Node →
      Node.Index = (i : Int))
    (Joints : List Int) (order : Int → List Int) (Parent ParentNode : Int)
    (recurse : ParserState → List FMeshBone → List (Int × FName) → FglTFRuntimeNode →
      Outcome (List FMeshBone × List (Int × FName)) × ParserState)
    (hrec : ∀ Skeleton BoneMap Node R S2 (i : Nat), S.AllNodesCache[i]? = some Node →
      recurse S Skeleton BoneMap Node = (.ok R, S2) →
      S2 = S ∧ ∃ V, VisitsOf S.AllNodesCache Joints (order Node.Index) Skeleton BoneMap R V ∧
        RootedVisits S.AllNodesCache Skeleton.length Parent Node.Index V) :
    ∀ (Children : List Int) Skeleton BoneMap R S2,
      (∀ c ∈ Children, c ∈ childrenAt S.AllNodesCache ParentNode.toNat) →
      traverseChildren recurse (LoadNode fuel Config Root) Children S Skeleton BoneMap =
        (.ok R, S2) →
      S2 = S ∧
        ∃ V, VisitsOf S.AllNodesCache Joints (Children.flatMap order) Skeleton BoneMap R V ∧
          LinkedVisits S.AllNodesCache Skeleton.length Parent ParentNode V := by
  intro Children
  induction Children with
  | nil =>
    intro Skeleton BoneMap R S2 _ h
    unfold traverseChildren at h
    cases h
    refine ⟨rfl, [], ⟨rfl, by simp, by simp, rfl⟩, ?_⟩
    intro k v hk
    simp at hk
  | cons c rest ih =>
    intro Skeleton BoneMap R S2 hsub h
    unfold traverseChildren at h
    cases hl : LoadNode fuel Config Root S c with
    | mk o S1 =>
      cases o with
      | ok ChildNode =>
        obtain ⟨hS1, hc, hnode⟩ := LoadNode_cached_inv fuel Config Root S S1 hflag c ChildNode hl
        subst hS1
        simp only [hl] at h
        cases hr : recurse S1 Skeleton BoneMap ChildNode with
        | mk o2 S3 =>
          cases o2 with
          | ok R1 =>
            obtain ⟨Sk1, BM1⟩ := R1
            simp only [hr] at h
            obtain ⟨hS3, V1, ⟨hv1, hv2, hv3, hv4⟩, v0, Vc, hV1, hv0, hp0, hlink1⟩ :=
              hrec Skeleton BoneMap ChildNode (Sk1, BM1) S3 c.toNat hnode hr
            subst hS3
            obtain ⟨hS2, V2, ⟨hw1, hw2, hw3, hw4⟩, hlink2⟩ := ih Sk1 BM1 R S2
              (fun c2 hc2 => hsub c2 (List.mem_cons_of_mem _ hc2)) h
            have hci : ChildNode.Index = c := by
              rw [hidx c.toNat ChildNode hnode]
              have := hc.1
              omega
            simp only at hv2 hv4
            have hlen1 : Sk1.length = Skeleton.length + V1.length := by
              rw [hv2, List.length_append, List.length_map]
            refine ⟨hS2, V1 ++ V2, ⟨?_, ?_, ?_, ?_⟩, ?_⟩
            · rw [List.map_append, hv1, hw1, List.flatMap_cons, hci]
            · rw [hw2, List.map_append, ← List.append_assoc, hv2]
            · intro v hv
              rcases List.mem_append.1 hv with h1 | h1
              · exact hv3 v h1
              · exact hw3 v h1
            · rw [hw4, List.map_append, recordJoints_append, hv4]
            · intro k v hk
              by_cases hk1 : k < V1.length
              · rw [List.getElem?_append_left hk1, hV1] at hk
                cases k with
                | zero =>
                  simp only [List.getElem?_cons_zero, Option.some.injEq] at hk
                  subst hk
                  left
                  refine ⟨hp0, ?_⟩
                  rw [hv0, hci]
                  exact hsub c (List.mem_cons_self _ _)
                | succ k2 =>
                  rw [List.getElem?_cons_succ] at hk
                  right
                  rcases hlink1 k2 v hk with ⟨g1, g2⟩ | ⟨kp, vp, g1, g2, g3, g4⟩
                  · refine ⟨0, v0, by omega, ?_, ?_, ?_⟩
                    · rw [List.getElem?_append_left (by rw [hV1]; simp), hV1]
                      simp
                    · rw [g1]
                      rfl
                    · rw [hv0]
                      exact g2
                  · have hkp : kp < Vc.length := (List.getElem?_eq_some.1 g2).1
                    refine ⟨kp + 1, vp, by omega, ?_, ?_, g4⟩
                    · rw [List.getElem?_append_left (by rw [hV1]; simp; omega), hV1,
                        List.getElem?_cons_succ]
                      exact g2
                    · rw [g3]
                      congr 1
                      omega
              · have hk2 : V1.length ≤ k := by omega
                rw [List.getElem?_append_right hk2] at hk
                rcases hlink2 (k - V1.length) v hk with ⟨g1, g2⟩ | ⟨kp, vp, g1, g2, g3, g4⟩
                · left
                  exact ⟨g1, g2⟩
                · right
                  refine ⟨V1.length + kp, vp, by omega, ?_, ?_, g4⟩
                  · rw [List.getElem?_append_right (by omega)]
                    rw [show V1.length + kp - V1.length = kp by omega]
                    exact g2
                  · rw [g3, hlen1]
                    congr 1
                    omega
          | fail => simp [hr] at h
          | fault => simp [hr] at h
          | nofuel => simp [hr] at h
      | fail => simp [hl] at h
      | fault => simp [hl] at h
      | nofuel => simp [hl] at h

/-- A call of `TraverseJoints` on a node of the table, with the nodes cached, that returns true:
it has visited the nodes of `visitOrder` in that order, adding one bone per visit, the first
with the parent index passed in and the others linked to the bones of the parents of their
nodes. -/
theorem TraverseJoints_links (Inverse : FMatrix → FMatrix) (Config : ParserConfig)
    (Root : Document) (Joints : List Int) (InverseBindMatricesMap : List (Int × FMatrix))
    (S : ParserState) (hflag : S.bAllNodesCached = true)
    (hidx : ∀ (i : Nat) (Node : FglTFRuntimeNode), S.AllNodesCache[i]? = some Node →
      Node.Index = (i : Int)) :
    ∀ (fuel : Nat) (Parent : Int) (Skeleton : List FMeshBone) (BoneMap : List (Int × FName))
      (Node : FglTFRuntimeNode) (R : List FMeshBone × List (Int × FName)) (S2 : ParserState)
      (i : Nat), S.AllNodesCache[i]? = some Node →
      TraverseJoints Inverse Config Root Joints InverseBindMatricesMap fuel Parent S Skeleton
        BoneMap Node = (.ok R, S2) →
      S2 = S ∧ ∃ V, VisitsOf S.AllNodesCache Joints (visitOrder S.AllNodesCache fuel Node.Index)
        Skeleton BoneMap R V ∧ RootedVisits S.AllNodesCache Skeleton.length Parent Node.Index V := by
  intro fuel
  induction fuel with
  | zero =>
    intro Parent Skeleton BoneMap Node R S2 i _ h
    simp [TraverseJoints] at h
  | succ fuel ih =>
    intro Parent Skeleton BoneMap Node R S2 i hnode h
    obtain ⟨BoneName, Transform, hc⟩ := TraverseJoints_ok_parent _ _ _ _ _ _ _ _ _ _ _ _ _ h
    have hi : Node.Index = (i : Int) := hidx i Node hnode
    have hch : childrenAt S.AllNodesCache Node.Index.toNat = Node.ChildrenIndices := by
      unfold childrenAt
      rw [hi, Int.toNat_ofNat, hnode]
    obtain ⟨hS2, V, ⟨hv1, hv2, hv3, hv4⟩, hlink⟩ := traverseChildren_links (fuel + 1) Config
      Root S hflag hidx Joints (visitOrder S.AllNodesCache fuel) (Skeleton.length : Int)
      Node.Index _
      (fun Skeleton BoneMap Node R S2 i hn hr => ih _ Skeleton BoneMap Node R S2 i hn hr)
      Node.ChildrenIndices _ _ R S2 (fun c hc => by rw [hch]; exact hc) hc
    have hlt : i < S.AllNodesCache.length := (List.getElem?_eq_some.1 hnode).1
    refine ⟨hS2, (Node.Index, ⟨BoneName, Node.Name, Parent, Transform⟩) :: V,
      ⟨?_, ?_, ?_, ?_⟩, ?_⟩
    · simp only [List.map_cons, hv1, visitOrder, hch]
    · rw [hv2]
      simp
    · intro v hv
      rcases List.mem_cons.1 hv with h1 | h1
      · subst h1
        refine ⟨⟨by simp only [hi]; omega, by simp only [hi]; omega⟩, ?_⟩
        simp only [nameAt, hi, Int.toNat_ofNat, hnode]
      · exact hv3 v h1
    · rw [hv4]
      rfl
    · refine ⟨(Node.Index, (⟨BoneName, Node.Name, Parent, Transform⟩ : FMeshBone)), V, rfl, rfl,
        rfl, ?_⟩
      rw [List.length_append] at hlink
      exact hlink

/-! ## C30 -/

/-- Claim C30: in a state with the nodes cached whose table is a forest (the children lists form
a forest without repetition, the parent links round-trip, the heights are at most `H`), with a
budget above `H`, after `TraverseJoints` has returned true for the node `r` of the table on an
empty skeleton with parent index `INDEX_NONE`: the skeleton has one bone per visit of the
depth-first order from `r`, which has no repetition and consists of the nodes that `r` is equal
to or an ancestor of; the bone at the position of a visit has the name of the visited node as
export name, whatever the joints; the first visit is that of `r` and its bone has parent index
`INDEX_NONE`; and the parent index of every other bone is smaller than the index of the bone and
is the position of the visit of the parent of its node. -/
theorem C30_parent_before_children (Inverse : FMatrix → FMatrix) (Config : ParserConfig)
    (Root : Document) (Joints : List Int) (InverseBindMatricesMap : List (Int × FMatrix))
    (fuel : Nat) (S S2 : ParserState) (BoneMap0 BoneMap : List (Int × FName))
    (RootNode : FglTFRuntimeNode) (Skeleton : List FMeshBone)
    (height : Nat → Nat) (H : Nat) (r : Nat)
    (hflag : S.bAllNodesCached = true)
    (hF : TableForest height S.AllNodesCache) (hP : ParentsAsDeclared S.AllNodesCache)
    (hnd : ∀ i : Nat, (childrenAt S.AllNodesCache i).Nodup)
    (hH : ∀ i, i < S.AllNodesCache.length → height i ≤ H) (hfuel : H < fuel)
    (hnode : S.AllNodesCache[r]? = some RootNode)
    (h : TraverseJoints Inverse Config Root Joints InverseBindMatricesMap fuel INDEX_NONE S []
      BoneMap0 RootNode = (.ok (Skeleton, BoneMap), S2)) :
    Skeleton.length = (visitOrder S.AllNodesCache fuel (r : Int)).length ∧
    (visitOrder S.AllNodesCache fuel (r : Int)).Nodup ∧
    (∀ j : Int, j ∈ visitOrder S.AllNodesCache fuel (r : Int) ↔
      IsAncestorOrSelf S.AllNodesCache (r : Int) j) ∧
    (∀ (k : Nat) (idx : Int), (visitOrder S.AllNodesCache fuel (r : Int))[k]? = some idx →
      ∃ Bone, Skeleton[k]? = some Bone ∧ Bone.ExportName = nameAt S.AllNodesCache idx) ∧
    (visitOrder S.AllNodesCache fuel (r : Int))[0]? = some (r : Int) ∧
    (∃ Bone, Skeleton[0]? = some Bone ∧ Bone.ParentIndex = INDEX_NONE) ∧
    (∀ (k : Nat) (idx : Int) (Bone : FMeshBone), 0 < k →
      (visitOrder S.AllNodesCache fuel (r : Int))[k]? = some idx → Skeleton[k]? = some Bone →
      ∃ kp : Nat, Bone.ParentIndex = (kp : Int) ∧ kp < k ∧
        (visitOrder S.AllNodesCache fuel (r : Int))[kp]? =
          some (parentOf S.AllNodesCache idx)) := by
  have hrlt : r < S.AllNodesCache.length := (List.getElem?_eq_some.1 hnode).1
  have hrv : ValidIndex S.AllNodesCache (r : Int) := ⟨by omega, by omega⟩
  have hri : RootNode.Index = (r : Int) := hF.1 r RootNode hnode
  have hPF := parentForest_of_declared height H S.AllNodesCache hF hP hH
  have hcp := child_parent height S.AllNodesCache hF hP
  have hpc := parent_child height S.AllNodesCache hF hP
  obtain ⟨_, V, hV, v0, Vc, hV0, hv0, hp0, hlink⟩ := TraverseJoints_links Inverse Config Root
    Joints InverseBindMatricesMap S hflag hF.1 fuel INDEX_NONE [] BoneMap0 RootNode
    (Skeleton, BoneMap) S2 r hnode h
  rw [hri] at hV hv0 hlink
  obtain ⟨hlen, hpos⟩ := VisitsOf_position _ _ _ _ _ V hV
  simp only at hlen hpos
  obtain ⟨hV1, hV2, hV3, _⟩ := hV
  obtain ⟨hond, hanc⟩ := visitOrder_nodup _ S.AllNodesCache hPF hcp hnd fuel (r : Int) hrv
  have hfirst : (visitOrder S.AllNodesCache fuel (r : Int))[0]? = some (r : Int) := by
    rw [← hV1, hV0, ← hv0]
    simp
  refine ⟨hlen, hond, ?_, ?_, hfirst, ?_, ?_⟩
  · intro j
    constructor
    · intro hj
      exact (hanc j hj).2
    · rintro ⟨c, hc⟩
      exact visitOrder_reaches height S.AllNodesCache hF hpc c j (r : Int) fuel hrv hc
        (by
          have := hH r hrlt
          rw [Int.toNat_ofNat]
          omega)
  · intro k idx hk
    obtain ⟨Bone, hb, _, _, he⟩ := hpos k idx hk
    exact ⟨Bone, hb, he⟩
  · obtain ⟨Bone, hb, hvk, _, _⟩ := hpos 0 (r : Int) hfirst
    refine ⟨Bone, hb, ?_⟩
    rw [hV0] at hvk
    simp only [List.getElem?_cons_zero, Option.some.injEq] at hvk
    rw [← hp0, hvk]
  · intro k idx Bone hk0 hk hbk
    obtain ⟨Bone2, hb, hvk, _, _⟩ := hpos k idx hk
    rw [hbk] at hb
    cases hb
    obtain ⟨k2, rfl⟩ : ∃ k2, k = k2 + 1 := ⟨k - 1, by omega⟩
    rw [hV0, List.getElem?_cons_succ] at hvk
    have hordk : ∀ (q : Nat) (w : Int × FMeshBone), V[q]? = some w →
        (visitOrder S.AllNodesCache fuel (r : Int))[q]? = some w.1 := by
      intro q w hq
      rw [← hV1, List.getElem?_map, hq]
      rfl
    rcases hlink k2 (idx, Bone) hvk with ⟨g1, g2⟩ | ⟨kp, vp, g1, g2, g3, g4⟩
    · refine ⟨0, ?_, by omega, ?_⟩
      · simp only at g1
        rw [g1]
        rfl
      · rw [hfirst]
        simp only at g2
        rw [(hcp (r : Int) idx hrv g2).2]
    · have hvpV : V[kp + 1]? = some vp := by
        rw [hV0, List.getElem?_cons_succ]
        exact g2
      have hvpm : vp ∈ V := List.mem_iff_getElem?.2 ⟨kp + 1, hvpV⟩
      refine ⟨kp + 1, ?_, by omega, ?_⟩
      · simp only at g3
        rw [g3]
        simp
        omega
      · rw [hordk (kp + 1) vp hvpV]
        simp only at g4
        rw [(hcp vp.1 idx (hV3 vp hvpm).1 g4).2]

theorem C30_parent_before_children_witness :
    ∃ Skeleton BoneMap S2,
      TraverseJoints (fun M => M) sampleConfig sampleSkinned [2, 1] [] 4 INDEX_NONE
        (LoadNodes 2 sampleConfig sampleSkinned ParserState.initial).2 [] []
        (nodeOf (LoadNodes 2 sampleConfig sampleSkinned ParserState.initial).2 0) =
        (.ok (Skeleton, BoneMap), S2) ∧
      Skeleton.map (fun b => (b.ExportName, b.ParentIndex)) = [("b", -1), ("B", 0), ("c", 0)] ∧
      visitOrder (LoadNodes 2 sampleConfig sampleSkinned ParserState.initial).2.AllNodesCache 4
        ((0 : Nat) : Int) = [0, 1, 2] ∧
      ∀ (k : Nat) (idx : Int) (Bone : FMeshBone), 0 < k →
        (visitOrder (LoadNodes 2 sampleConfig sampleSkinned ParserState.initial).2.AllNodesCache
          4 ((0 : Nat) : Int))[k]? = some idx → Skeleton[k]? = some Bone →
        ∃ kp : Nat, Bone.ParentIndex = (kp : Int) ∧ kp < k ∧
          (visitOrder
            (LoadNodes 2 sampleConfig sampleSkinned ParserState.initial).2.AllNodesCache 4
            ((0 : Nat) : Int))[kp]? =
            some (parentOf
              (LoadNodes 2 sampleConfig sampleSkinned ParserState.initial).2.AllNodesCache
              idx) :=
  ⟨_, _, _, rfl, by decide, by decide,
    (C30_parent_before_children (fun M => M) sampleConfig sampleSkinned [2, 1] [] 4
      (LoadNodes 2 sampleConfig sampleSkinned ParserState.initial).2 _ [] _ _ _
      (fun i => if i = 0 then 1 else 0) 1 0 sampleSkinned_loaded.1
      sampleSkinned_loaded.2.1 sampleSkinned_loaded.2.2 sampleSkinned_table.1
      (fun i _ => by show (if i = 0 then 1 else 0) ≤ 1; split <;> omega) (by decide)
      rfl rfl).2.2.2.2.2.2⟩

/-! ## Triangles of static meshes -/

theorem createVertices_spec :
    ∀ (Positions : List FVector) (D : FMeshDescription) (VerticesIDs : List Nat),
      createVertices Positions D VerticesIDs =
        ({ D with VertexPositions := D.VertexPositions ++ Positions },
          VerticesIDs ++
            (List.range Positions.length).map (fun k => D.VertexPositions.length + k)) := by
  intro Positions
  induction Positions with
  | nil => intro D V; simp [createVertices]
  | cons P rest ih =>
    intro D V
    rw [createVertices, ih]
    refine Prod.ext ?_ ?_
    · simp
    · simp only [List.length_cons, List.range_succ_eq_map, List.map_cons, List.map_map,
        List.append_assoc, List.singleton_append, List.length_append, List.length_singleton,
        Nat.add_zero]
      congr 2
      apply List.map_congr_left
      intro k _
      simp only [Function.comp, List.length_nil]
      omega

/-- One iteration of the index loop for an index below the number of vertices. -/
theorem staticIndexLoop_step (Normals : List FVector) (VerticesIDs : List Nat)
    (PolygonGroupID Base : Nat)
    (hsmall : VerticesIDs.length < 4294967296)
    (hV : ∀ i : Nat, i < VerticesIDs.length → VerticesIDs[i]? = some (Base + i))
    (x : Int) (rest : List Int) (D : FMeshDescription) (VI TV : List Nat)
    (hx : 0 ≤ x ∧ x < (VerticesIDs.length : Int)) :
    staticIndexLoop Normals VerticesIDs PolygonGroupID (x :: rest) D VI TV =
      if (VI ++ [D.VertexInstances.length]).length = 3 then
        if (TV ++ [Base + x.toNat])[0]? = (TV ++ [Base + x.toNat])[1]? ∨
            (TV ++ [Base + x.toNat])[1]? = (TV ++ [Base + x.toNat])[2]? ∨
            (TV ++ [Base + x.toNat])[0]? = (TV ++ [Base + x.toNat])[2]? then
          staticIndexLoop Normals VerticesIDs PolygonGroupID rest
            { D with
              VertexInstances :=
                D.VertexInstances ++ [(Base + x.toNat, instanceNormal Normals x)] } [] []
        else
          match CreateTriangle
              { D with
                VertexInstances :=
                  D.VertexInstances ++ [(Base + x.toNat, instanceNormal Normals x)] }
              PolygonGroupID (VI ++ [D.VertexInstances.length]) with
          | none => .fail
          | some D2 => staticIndexLoop Normals VerticesIDs PolygonGroupID rest D2 [] []
      else
        staticIndexLoop Normals VerticesIDs PolygonGroupID rest
          { D with
            VertexInstances :=
              D.VertexInstances ++ [(Base + x.toNat, instanceNormal Normals x)] }
          (VI ++ [D.VertexInstances.length]) (TV ++ [Base + x.toNat]) := by
  obtain ⟨h0, h1⟩ := hx
  have hmod : x % 4294967296 = x := Int.emod_eq_of_lt h0 (by omega)
  have hge : ¬ x ≥ (VerticesIDs.length : Int) := by omega
  have hget : VerticesIDs[x.toNat]? = some (Base + x.toNat) := hV x.toNat (by omega)
  rw [staticIndexLoop]
  simp only [hmod, hge, if_false, hget]

/-- Three iterations of the index loop from empty accumulators, for indices below the number of
vertices: three vertex instances are created, and a triangle of them when the indices are
pairwise distinct. -/
theorem staticIndexLoop_triple (Normals : List FVector) (VerticesIDs : List Nat)
    (PolygonGroupID Base : Nat)
    (hsmall : VerticesIDs.length < 4294967296)
    (hV : ∀ i : Nat, i < VerticesIDs.length → VerticesIDs[i]? = some (Base + i))
    (a b c : Int) (rest : List Int) (D : FMeshDescription)
    (ha : 0 ≤ a ∧ a < (VerticesIDs.length : Int))
    (hb : 0 ≤ b ∧ b < (VerticesIDs.length : Int))
    (hc : 0 ≤ c ∧ c < (VerticesIDs.length : Int))
    (hG : PolygonGroupID < D.PolygonGroups.length) :
    staticIndexLoop Normals VerticesIDs PolygonGroupID (a :: b :: c :: rest) D [] [] =
      staticIndexLoop Normals VerticesIDs PolygonGroupID rest
        { D with
          VertexInstances :=
            D.VertexInstances ++
              [(Base + a.toNat, instanceNormal Normals a),
               (Base + b.toNat, instanceNormal Normals b),
               (Base + c.toNat, instanceNormal Normals c)],
          Triangles :=
            if pairwiseDistinct (a, b, c) = true then
              D.Triangles ++
                [(PolygonGroupID,
                  [D.VertexInstances.length, D.VertexInstances.length + 1,
                   D.VertexInstances.length + 2])]
            else D.Triangles } [] [] := by
  rw [staticIndexLoop_step Normals VerticesIDs PolygonGroupID Base hsmall hV a _ D [] [] ha]
  simp only [List.nil_append, List.length_singleton, OfNat.ofNat_ne_one, if_false,
    show ¬ (1 = 3) by omega]
  rw [staticIndexLoop_step Normals VerticesIDs PolygonGroupID Base hsmall hV b _ _ _ _ hb]
  simp only [List.length_append, List.length_singleton, List.length_cons, List.length_nil,
    show ¬ (0 + 1 + 1 = 3) by omega, if_false]
  rw [staticIndexLoop_step Normals VerticesIDs PolygonGroupID Base hsmall hV c _ _ _ _ hc]
  simp only [List.length_append, List.length_singleton, List.length_cons, List.length_nil,
    if_true, List.append_assoc, List.singleton_append, List.cons_append, List.nil_append]
  have e0 : ([Base + a.toNat, Base + b.toNat, Base + c.toNat] : List Nat)[0]? =
      some (Base + a.toNat) := rfl
  have e1 : ([Base + a.toNat, Base + b.toNat, Base + c.toNat] : List Nat)[1]? =
      some (Base + b.toNat) := rfl
  have e2 : ([Base + a.toNat, Base + b.toNat, Base + c.toNat] : List Nat)[2]? =
      some (Base + c.toNat) := rfl
  rw [e0, e1, e2]
  obtain ⟨a0, a1⟩ := ha
  obtain ⟨b0, b1⟩ := hb
  obtain ⟨c0, c1⟩ := hc
  by_cases hd : pairwiseDistinct (a, b, c) = true
  · have hd2 := hd
    simp only [pairwiseDistinct, decide_eq_true_eq] at hd2
    have hn : ¬ (some (Base + a.toNat) = some (Base + b.toNat) ∨
        some (Base + b.toNat) = some (Base + c.toNat) ∨
        some (Base + a.toNat) = some (Base + c.toNat)) := by
      simp only [Option.some.injEq]
      omega
    simp only [hn, if_false, hd, if_true]
    have hct : CreateTriangle
        { D with
          VertexInstances :=
            D.VertexInstances ++
              [(Base + a.toNat, instanceNormal Normals a),
               (Base + b.toNat, instanceNormal Normals b),
               (Base + c.toNat, instanceNormal Normals c)] }
        PolygonGroupID
        [D.VertexInstances.length, D.VertexInstances.length + 1,
          D.VertexInstances.length + 1 + 1] =
        some { D with
          VertexInstances :=
            D.VertexInstances ++
              [(Base + a.toNat, instanceNormal Normals a),
               (Base + b.toNat, instanceNormal Normals b),
               (Base + c.toNat, instanceNormal Normals c)],
          Triangles := D.Triangles ++
            [(PolygonGroupID,
              [D.VertexInstances.length, D.VertexInstances.length + 1,
               D.VertexInstances.length + 1 + 1])] } := by
      unfold CreateTriangle
      simp [hG]
    rw [hct]
  · have hd2 := hd
    simp only [pairwiseDistinct, decide_eq_true_eq] at hd2
    have hn : (some (Base + a.toNat) = some (Base + b.toNat) ∨
        some (Base + b.toNat) = some (Base + c.toNat) ∨
        some (Base + a.toNat) = some (Base + c.toNat)) := by
      simp only [Option.some.injEq]
      omega
    simp only [hn, if_true, hd, if_false, Bool.false_eq_true]

theorem getD_after {α : Type} (A : List α) (x y z : α) (more : List α) (d : α) :
    (A ++ ([x, y, z] ++ more)).getD A.length d = x ∧
    (A ++ ([x, y, z] ++ more)).getD (A.length + 1) d = y ∧
    (A ++ ([x, y, z] ++ more)).getD (A.length + 2) d = z := by
  refine ⟨?_, ?_, ?_⟩
  · rw [List.getD_eq_getElem?_getD, List.getElem?_append_right (Nat.le_refl _)]
    simp
  · rw [List.getD_eq_getElem?_getD, List.getElem?_append_right (Nat.le_add_right _ _)]
    simp
  · rw [List.getD_eq_getElem?_getD, List.getElem?_append_right (Nat.le_add_right _ _)]
    simp

/-- The index loop of `LoadStaticMesh_Internal` for a primitive whose indices are all below the
number of its vertices, which start at `Base`: the loop returns a description, it adds vertex
instances and triangles only, and the triangles that it adds are, in order, those of the
consecutive triples of pairwise distinct indices. -/
theorem staticIndexLoop_spec (Normals : List FVector) (VerticesIDs : List Nat)
    (PolygonGroupID Base : Nat)
    (hsmall : VerticesIDs.length < 4294967296)
    (hV : ∀ i : Nat, i < VerticesIDs.length → VerticesIDs[i]? = some (Base + i)) :
    ∀ (Indices : List Int) (D : FMeshDescription),
      (∀ x ∈ Indices, 0 ≤ x ∧ x < (VerticesIDs.length : Int)) →
      PolygonGroupID < D.PolygonGroups.length →
      ∃ (D2 : FMeshDescription) (more : List (Nat × Option FVector))
        (newTriangles : List (Nat × List Nat)),
        staticIndexLoop Normals VerticesIDs PolygonGroupID Indices D [] [] = .ok D2 ∧
        D2.PolygonGroups = D.PolygonGroups ∧ D2.VertexPositions = D.VertexPositions ∧
        D2.VertexInstances = D.VertexInstances ++ more ∧
        D2.Triangles = D.Triangles ++ newTriangles ∧
        (∀ t ∈ newTriangles, ∀ ID ∈ t.2, ID < D2.VertexInstances.length) ∧
        newTriangles.map (fun t => (t.1, triangleVertices D2 t)) =
          ((indexTriples Indices).filter pairwiseDistinct).map
            (fun t => (PolygonGroupID,
              [Base + t.1.toNat, Base + t.2.1.toNat, Base + t.2.2.toNat]))
  | [], D, _, _ =>
    ⟨D, [], [], by simp [staticIndexLoop], rfl, rfl, by simp, by simp, by simp,
      by simp [indexTriples]⟩
  | [a], D, hx, _ => by
    refine ⟨{ D with
      VertexInstances := D.VertexInstances ++ [(Base + a.toNat, instanceNormal Normals a)] },
      [(Base + a.toNat, instanceNormal Normals a)], [], ?_, rfl, rfl, rfl, by simp,
      by simp, by simp [indexTriples]⟩
    rw [staticIndexLoop_step Normals VerticesIDs PolygonGroupID Base hsmall hV a _ D [] []
      (hx a (by simp))]
    simp [staticIndexLoop]
  | [a, b], D, hx, _ => by
    refine ⟨{ D with
      VertexInstances := D.VertexInstances ++ [(Base + a.toNat, instanceNormal Normals a),
        (Base + b.toNat, instanceNormal Normals b)] },
      [(Base + a.toNat, instanceNormal Normals a),
      (Base + b.toNat, instanceNormal Normals b)], [], ?_, rfl, rfl, rfl, by simp,
      by simp, by simp [indexTriples]⟩
    rw [staticIndexLoop_step Normals VerticesIDs PolygonGroupID Base hsmall hV a _ D [] []
      (hx a (by simp))]
    simp only [List.nil_append, List.length_singleton, show ¬ (1 = 3) by omega, if_false]
    rw [staticIndexLoop_step Normals VerticesIDs PolygonGroupID Base hsmall hV b _ _ _ _
      (hx b (by simp))]
    simp [staticIndexLoop]
  | a :: b :: c :: rest, D, hx, hG => by
    rw [staticIndexLoop_triple Normals VerticesIDs PolygonGroupID Base hsmall hV a b c rest D
      (hx a (by simp)) (hx b (by simp)) (hx c (by simp)) hG]
    obtain ⟨D2, more, newTriangles, h1, h2, h3, h4, h5, h6, h7⟩ :=
      staticIndexLoop_spec Normals VerticesIDs PolygonGroupID Base hsmall hV rest
        { D with
          VertexInstances :=
            D.VertexInstances ++
              [(Base + a.toNat, instanceNormal Normals a),
               (Base + b.toNat, instanceNormal Normals b),
               (Base + c.toNat, instanceNormal Normals c)],
          Triangles :=
            if pairwiseDistinct (a, b, c) = true then
              D.Triangles ++
                [(PolygonGroupID,
                  [D.VertexInstances.length, D.VertexInstances.length + 1,
                   D.VertexInstances.length + 2])]
            else D.Triangles }
        (fun x hx2 => hx x (by simp [hx2])) hG
    simp only at h2 h3 h4 h5
    rw [List.append_assoc] at h4
    have hlen : D2.VertexInstances.length = D.VertexInstances.length + (3 + more.length) := by
      rw [h4]
      simp
      omega
    obtain ⟨g0, g1, g2⟩ := getD_after D.VertexInstances
      (Base + a.toNat, instanceNormal Normals a) (Base + b.toNat, instanceNormal Normals b)
      (Base + c.toNat, instanceNormal Normals c) more (0, none)
    rw [← h4] at g0 g1 g2
    by_cases hd : pairwiseDistinct (a, b, c) = true
    · simp only [hd, if_true] at h5
      refine ⟨D2, _, (PolygonGroupID,
        [D.VertexInstances.length, D.VertexInstances.length + 1,
          D.VertexInstances.length + 2]) :: newTriangles, h1, h2, h3, h4, ?_, ?_, ?_⟩
      · rw [h5, List.append_assoc]
        rfl
      · intro t ht ID hID
        rcases List.mem_cons.1 ht with h | h
        · subst h
          simp only [List.mem_cons, List.mem_singleton, List.mem_nil_iff, or_false] at hID
          omega
        · exact h6 t h ID hID
      · simp only [List.map_cons, indexTriples, List.filter_cons, hd, if_true, h7]
        congr 1
        simp only [triangleVertices, List.map_cons, List.map_nil, g0, g1, g2]
    · simp only [hd, if_false] at h5
      refine ⟨D2, _, newTriangles, h1, h2, h3, h4, h5, h6, ?_⟩
      simp only [indexTriples, List.filter_cons, hd, if_false, h7, Bool.false_eq_true]

theorem triangleVertices_stable (D D2 : FMeshDescription) (more : List (Nat × Option FVector))
    (h : D2.VertexInstances = D.VertexInstances ++ more) (t : Nat × List Nat)
    (ht : ∀ ID ∈ t.2, ID < D.VertexInstances.length) :
    triangleVertices D2 t = triangleVertices D t := by
  unfold triangleVertices
  apply List.map_congr_left
  intro ID hID
  rw [h, List.getD_eq_getElem?_getD, List.getD_eq_getElem?_getD,
    List.getElem?_append_left (ht ID hID)]

/-- The primitives loop of `LoadStaticMesh_Internal` for primitives that have a material and
whose indices are all below the number of their vertices: the loop returns a description, and
the triangles that it adds are those that the index streams describe. -/
theorem staticPrimitives_spec :
    ∀ (Primitives : List FglTFRuntimePrimitive) (D : FMeshDescription)
      (StaticMaterials : List UMaterialInterface),
      (∀ P ∈ Primitives, P.Material ≠ none ∧ P.Positions.length < 4294967296 ∧
        ∀ x ∈ P.Indices, 0 ≤ x ∧ x < (P.Positions.length : Int)) →
      TrianglesValid D →
      ∃ (D2 : FMeshDescription) (M2 : List UMaterialInterface)
        (more : List (Nat × Option FVector)),
        staticPrimitives Primitives D StaticMaterials = .ok (D2, M2) ∧
        TrianglesValid D2 ∧ D2.VertexInstances = D.VertexInstances ++ more ∧
        D2.VertexPositions = D.VertexPositions ++ Primitives.flatMap (fun P => P.Positions) ∧
        trianglesOf D2 = trianglesOf D ++
          expectedTriangles Primitives D.PolygonGroups.length D.VertexPositions.length := by
  intro Primitives
  induction Primitives with
  | nil =>
    intro D M _ hD
    exact ⟨D, M, [], rfl, hD, by simp, by simp, by simp [expectedTriangles]⟩
  | cons P rest ih =>
    intro D M hP hD
    obtain ⟨hmat, hsmall, hidx⟩ := hP P (List.mem_cons_self _ _)
    obtain ⟨Material, hM⟩ : ∃ Material, P.Material = some Material := by
      cases hq : P.Material with
      | none => exact absurd hq hmat
      | some Material => exact ⟨Material, rfl⟩
    have hlenV : ((List.range P.Positions.length).map
        (fun k => D.VertexPositions.length + k)).length = P.Positions.length := by simp
    obtain ⟨D1, more1, newTriangles, h1, h2, h3, h4, h5, h6, h7⟩ :=
      staticIndexLoop_spec P.Normals
        ((List.range P.Positions.length).map (fun k => D.VertexPositions.length + k))
        D.PolygonGroups.length D.VertexPositions.length (by rw [hlenV]; exact hsmall)
        (by
          intro i hi
          rw [hlenV] at hi
          rw [List.getElem?_map, List.getElem?_range hi]
          rfl)
        P.Indices
        { D with PolygonGroups := D.PolygonGroups ++ [Material],
                 VertexPositions := D.VertexPositions ++ P.Positions }
        (by rw [hlenV]; exact hidx) (by simp)
    simp only at h2 h3 h4 h5
    have hD1 : TrianglesValid D1 := by
      intro t ht ID hID
      rw [h5] at ht
      rcases List.mem_append.1 ht with g | g
      · have := hD t g ID hID
        rw [h4, List.length_append]
        omega
      · exact h6 t g ID hID
    obtain ⟨D2, M2, more2, g1, g2, g3, g4, g5⟩ := ih D1 (M ++ [Material])
      (fun Q hQ => hP Q (List.mem_cons_of_mem _ hQ)) hD1
    refine ⟨D2, M2, more1 ++ more2, ?_, g2, ?_, ?_, ?_⟩
    · rw [staticPrimitives]
      simp only [hM, createVertices_spec, List.nil_append, h1]
      exact g1
    · rw [g3, h4, List.append_assoc]
    · rw [g4, h3, List.flatMap_cons, List.append_assoc]
    · rw [g5]
      have hold : trianglesOf D1 = trianglesOf D ++
          ((indexTriples P.Indices).filter pairwiseDistinct).map
            (fun t => (D.PolygonGroups.length,
              [D.VertexPositions.length + t.1.toNat, D.VertexPositions.length + t.2.1.toNat,
                D.VertexPositions.length + t.2.2.toNat])) := by
        unfold trianglesOf
        rw [h5, List.map_append, h7]
        congr 1
        apply List.map_congr_left
        intro t ht
        rw [triangleVertices_stable D D1 more1 h4 t (hD t ht)]
      rw [hold, h2, h3]
      simp only [expectedTriangles, List.length_append, List.length_singleton,
        List.append_assoc]

theorem LoadPrimitives_material (Decode : String → Option (List Nat))
    (Build : AttributeBuilders) (bBaseMaterial : Bool) (Config : ParserConfig)
    (Root : Document) (Fresh : FglTFRuntimePrimitive) (Stride0 : Int) :
    ∀ (L : List (Option JsonPrimitive)) (S S1 : ParserState)
      (Primitives R : List FglTFRuntimePrimitive),
      (∀ P ∈ Primitives, P.Material ≠ none) →
      LoadPrimitives Decode Build bBaseMaterial Config Root Fresh Stride0 L S Primitives =
        (.ok R, S1) →
      ∀ P ∈ R, P.Material ≠ none := by
  intro L
  induction L with
  | nil =>
    intro S S1 Primitives R hP h
    simp only [LoadPrimitives, Prod.mk.injEq, Outcome.ok.injEq] at h
    rw [← h.1]
    exact hP
  | cons x rest ih =>
    intro S S1 Primitives R hP h
    cases x with
    | none => simp [LoadPrimitives] at h
    | some J =>
      rw [LoadPrimitives] at h
      cases hl : LoadPrimitive Decode Build bBaseMaterial Config Root S J Fresh Stride0 with
      | mk o S2 =>
        cases o with
        | ok Q =>
          simp only [hl] at h
          obtain ⟨_, P1, _, Indices, _, Material, _, _, _, hQ, _, _⟩ :=
            LoadPrimitive_ok_inv Decode Build bBaseMaterial Config Root S S2 J Fresh Q Stride0 hl
          refine ih S2 S1 (Primitives ++ [Q]) R ?_ h
          intro P hmem
          rcases List.mem_append.1 hmem with g | g
          · exact hP P g
          · simp only [List.mem_singleton] at g
            rw [g, hQ]
            simp
        | fail => simp [hl] at h
        | fault => simp [hl] at h
        | nofuel => simp [hl] at h

/-! ## C21 -/

set_option maxRecDepth 100000 in
/-- Claim C21: when `LoadPrimitives` loads the primitives of a mesh object and the indices of
every primitive are below the number of its vertices, `LoadStaticMesh_Internal` returns a mesh
whose vertices are the positions of the primitives in order and whose triangles are, in order
and for each primitive in turn, those of the consecutive index triples (the indices at 3k, 3k+1
and 3k+2) whose three indices are pairwise distinct, each in the polygon group of its primitive
and on the vertices of its three indices; a triple with a repeated index and a trailing group of
one or two indices give no triangle. -/
theorem C21_degenerate_filtered (Decode : String → Option (List Nat))
    (Build : AttributeBuilders) (bBaseMaterial : Bool) (Config : ParserConfig)
    (Root : Document) (Fresh : FglTFRuntimePrimitive) (Stride0 : Int) (S S1 : ParserState)
    (JsonMeshObject : JsonMesh) (JsonPrimitives : List (Option JsonPrimitive))
    (Primitives : List FglTFRuntimePrimitive)
    (hp : JsonMeshObject.primitives = some JsonPrimitives)
    (hl : LoadPrimitives Decode Build bBaseMaterial Config Root Fresh Stride0 JsonPrimitives S
      [] = (.ok Primitives, S1))
    (hr : ∀ P ∈ Primitives, P.Positions.length < 4294967296 ∧
      ∀ x ∈ P.Indices, 0 ≤ x ∧ x < (P.Positions.length : Int)) :
    ∃ Mesh, LoadStaticMesh_Internal Decode Build bBaseMaterial Config Root Fresh Stride0 S
        JsonMeshObject = (.ok Mesh, S1) ∧
      Mesh.MeshDescription.VertexPositions = Primitives.flatMap (fun P => P.Positions) ∧
      trianglesOf Mesh.MeshDescription = expectedTriangles Primitives 0 0 ∧
      (∀ (a b c : Int) (rest : List Int), indexTriples (a :: b :: c :: rest) =
        (a, b, c) :: indexTriples rest) ∧
      (∀ a b : Int, indexTriples [] = [] ∧ indexTriples [a] = [] ∧ indexTriples [a, b] = []) ∧
      (∀ a b c : Int, pairwiseDistinct (a, b, c) = true ↔ (a ≠ b ∧ b ≠ c ∧ a ≠ c)) := by
  have hmat := LoadPrimitives_material Decode Build bBaseMaterial Config Root Fresh Stride0
    JsonPrimitives S S1 [] Primitives (by simp) hl
  obtain ⟨D2, M2, more, g1, _, _, g4, g5⟩ := staticPrimitives_spec Primitives
    FMeshDescription.empty []
    (fun P hP => ⟨hmat P hP, (hr P hP).1, (hr P hP).2⟩)
    (by intro t ht; simp [FMeshDescription.empty] at ht)
  refine ⟨{ StaticMaterials := M2, MeshDescription := D2 }, ?_, ?_, ?_, ?_, ?_, ?_⟩
  · unfold LoadStaticMesh_Internal
    simp only [hp, hl, g1]
  · rw [g4]
    simp [FMeshDescription.empty]
  · rw [g5]
    simp [FMeshDescription.empty, trianglesOf]
  · intro a b c rest
    rfl
  · intro a b
    exact ⟨rfl, rfl, rfl⟩
  · intro a b c
    simp [pairwiseDistinct]

set_option maxRecDepth 100000 in
theorem C21_degenerate_filtered_witness :
    ∃ Primitives S1,
      LoadPrimitives sampleDecode sampleBuilders true sampleConfig sampleStatic emptyPrimitive 0
        [some (sampleSkinnedPrimitive (some 0)), some (sampleSkinnedPrimitive none)]
        ParserState.initial [] = (.ok Primitives, S1) ∧
      Primitives.map (fun P => (P.Positions.length, P.Indices)) =
        [(3, [0, 0, 1, 0, 1, 2, 2, 1]), (3, [0, 1, 2])] ∧
      expectedTriangles Primitives 0 0 = [(0, [0, 1, 2]), (1, [3, 4, 5])] ∧
      ∃ Mesh, LoadStaticMesh_Internal sampleDecode sampleBuilders true sampleConfig sampleStatic
          emptyPrimitive 0 ParserState.initial sampleMesh = (.ok Mesh, S1) ∧
        trianglesOf Mesh.MeshDescription = expectedTriangles Primitives 0 0 :=
  ⟨_, _, rfl, by decide, by decide,
    (C21_degenerate_filtered sampleDecode sampleBuilders true sampleConfig sampleStatic
      emptyPrimitive 0 ParserState.initial _ sampleMesh _ _ rfl rfl (by decide)).elim
      (fun Mesh h => ⟨Mesh, h.1, h.2.2.1⟩)⟩

/-! ## Skeletal meshes -/

theorem lookup_some_key {α : Type} :
    ∀ (Map : List (Int × α)) (Key : Int) (Value : α), Map.lookup Key = some Value →
      Key ∈ Map.map Prod.fst := by
  intro Map
  induction Map with
  | nil => intro Key Value h; simp at h
  | cons e rest ih =>
    intro Key Value h
    obtain ⟨k, v⟩ := e
    by_cases hk : Key = k
    · subst hk
      simp
    · rw [List.lookup_cons] at h
      have hb : (Key == k) = false := by simpa using hk
      rw [hb] at h
      simp only [List.map_cons, List.mem_cons]
      exact Or.inr (ih Key Value h)

/-- The slot loop of the editor branch returns a result only when every joint index is a key of
the bone map. -/
theorem resolveJoints_ok (Skeleton : List FMeshBone) (BoneMap : List (Int × FName))
    (VertexIndex : Int) :
    ∀ (Slots : List (Nat × ℚ)) (BonesCache : List (Int × Int))
      (Influences : List FRawBoneInfluence) (R : List (Int × Int) × List FRawBoneInfluence),
      resolveJoints Skeleton BoneMap VertexIndex Slots BonesCache Influences = .ok R →
      ∀ Slot ∈ Slots, ((Slot.1 : Nat) : Int) ∈ BoneMap.map Prod.fst := by
  intro Slots
  induction Slots with
  | nil => intro _ _ _ _ Slot hS; simp at hS
  | cons s rest ih =>
    intro C I R h Slot hS
    obtain ⟨Joint, Weight⟩ := s
    rw [resolveJoints] at h
    cases hb : BoneMap.lookup (Joint : Int) with
    | none => simp [hb] at h
    | some BoneName =>
      simp only [hb] at h
      have hrest : ∀ Slot ∈ rest, ((Slot.1 : Nat) : Int) ∈ BoneMap.map Prod.fst := by
        cases hc : C.lookup (Joint : Int) with
        | none =>
          simp only [hc] at h
          exact ih _ _ R h
        | some BoneIndex =>
          simp only [hc] at h
          exact ih _ _ R h
      rcases List.mem_cons.1 hS with g | g
      · subst g
        exact lookup_some_key BoneMap _ BoneName hb
      · exact hrest Slot g

/-- The joints loop of the editor branch returns a result only when every joints array has an
element at the index whose four joint indices are keys of the bone map. -/
theorem wedgeInfluences_ok (Skeleton : List FMeshBone) (BoneMap : List (Int × FName))
    (Primitive : FglTFRuntimePrimitive) (Index VertexIndex : Int) :
    ∀ (Arrays : List (List FglTFRuntimeUInt16Vector4)) (JointsIndex : Nat)
      (BonesCache : List (Int × Int)) (Influences : List FRawBoneInfluence)
      (R : List (Int × Int) × List FRawBoneInfluence),
      wedgeInfluences Skeleton BoneMap Primitive Index VertexIndex Arrays JointsIndex BonesCache
        Influences = .ok R →
      ∀ JointsArray ∈ Arrays,
        ∃ Joints : FglTFRuntimeUInt16Vector4, TArrayAt JointsArray Index = some Joints ∧
          ∀ Joint ∈ [Joints.1, Joints.2.1, Joints.2.2.1, Joints.2.2.2],
            ((Joint : Nat) : Int) ∈ BoneMap.map Prod.fst := by
  intro Arrays
  induction Arrays with
  | nil => intro _ _ _ _ _ JA hJA; simp at hJA
  | cons A rest ih =>
    intro k C I R h JA hJA
    rw [wedgeInfluences] at h
    cases hj : TArrayAt A Index with
    | none => simp [hj] at h
    | some Joints =>
      simp only [hj] at h
      cases hw : Primitive.Weights[k]? with
      | none => simp [hw] at h
      | some WeightsArray =>
        simp only [hw] at h
        cases hwe : TArrayAt WeightsArray Index with
        | none => simp [hwe] at h
        | some Weights =>
          simp only [hwe] at h
          cases hr : resolveJoints Skeleton BoneMap VertexIndex (jointSlots Joints Weights) C I with
          | ok R1 =>
            obtain ⟨C1, I1⟩ := R1
            simp only [hr] at h
            rcases List.mem_cons.1 hJA with g | g
            · subst g
              refine ⟨Joints, hj, ?_⟩
              intro Joint hJ
              have hslots := resolveJoints_ok Skeleton BoneMap VertexIndex _ C I _ hr
              simp only [List.mem_cons, List.mem_singleton, List.mem_nil_iff, or_false] at hJ
              rcases hJ with e | e | e | e
              · exact e ▸ hslots (Joints.1, Weights.1) (by simp [jointSlots])
              · exact e ▸ hslots (Joints.2.1, Weights.2.1) (by simp [jointSlots])
              · exact e ▸ hslots (Joints.2.2.1, Weights.2.2.1) (by simp [jointSlots])
              · exact e ▸ hslots (Joints.2.2.2, Weights.2.2.2) (by simp [jointSlots])
            · exact ih _ _ _ _ h JA g
          | fail => simp [hr] at h
          | fault => simp [hr] at h
          | nofuel => simp [hr] at h

/-- The index loop of the editor branch returns a result only when the joints of every
remaining index resolve. -/
theorem importIndices_ok (Skeleton : List FMeshBone) (BoneMap : List (Int × FName))
    (Primitive : FglTFRuntimePrimitive) (Base MatIndex : Int) :
    ∀ (Indices Pending : List Int) (State R : FImportState),
      importIndices Skeleton BoneMap Primitive Base MatIndex Indices Pending State = .ok R →
      ∀ Raw ∈ Indices, ∀ JointsArray ∈ Primitive.Joints,
        ∃ Joints : FglTFRuntimeUInt16Vector4,
          TArrayAt JointsArray (toInt32 Raw) = some Joints ∧
          ∀ Joint ∈ [Joints.1, Joints.2.1, Joints.2.2.1, Joints.2.2.2],
            ((Joint : Nat) : Int) ∈ BoneMap.map Prod.fst := by
  intro Indices
  induction Indices with
  | nil => intro _ _ _ _ Raw hR; simp at hR
  | cons x rest ih =>
    intro Pending State R h Raw hRaw
    rw [importIndices] at h
    dsimp only at h
    split at h
    · simp at h
    · rename_i UVs0 _
      split at h
      · rename_i BonesCache Influences hw
        have hrest : ∀ Raw ∈ rest, ∀ JointsArray ∈ Primitive.Joints,
            ∃ Joints : FglTFRuntimeUInt16Vector4,
              TArrayAt JointsArray (toInt32 Raw) = some Joints ∧
              ∀ Joint ∈ [Joints.1, Joints.2.1, Joints.2.2.1, Joints.2.2.2],
                ((Joint : Nat) : Int) ∈ BoneMap.map Prod.fst := by
          split at h
          · split at h
            · simp at h
            · exact ih _ _ R h
          · exact ih _ _ R h
        rcases List.mem_cons.1 hRaw with g | g
        · subst g
          exact wedgeInfluences_ok Skeleton BoneMap Primitive _ _ _ _ _ _ _ hw
        · exact hrest Raw g
      · simp at h
      · simp at h
      · simp at h

/-- The primitives loop of the editor branch returns a result only when the joints of every
primitive resolve, and then the points are those passed in followed by the positions of the
primitives. -/
theorem importPrimitives_ok (Skeleton : List FMeshBone) (BoneMap : List (Int × FName)) :
    ∀ (Primitives : List FglTFRuntimePrimitive) (Points : List FVector) (MatIndex : Int)
      (State : FImportState) (R : List FVector × FImportState),
      importPrimitives Skeleton BoneMap Primitives Points MatIndex State = .ok R →
      (∀ P ∈ Primitives, JointsResolve BoneMap P) ∧
      R.1 = Points ++ Primitives.flatMap (fun P => P.Positions) := by
  intro Primitives
  induction Primitives with
  | nil =>
    intro Points MatIndex State R h
    simp only [importPrimitives, Outcome.ok.injEq] at h
    refine ⟨by intro P hP; simp at hP, ?_⟩
    rw [← h]
    simp
  | cons P rest ih =>
    intro Points MatIndex State R h
    rw [importPrimitives] at h
    cases hi : importIndices Skeleton BoneMap P Points.length MatIndex P.Indices [] State with
    | ok State1 =>
      simp only [hi] at h
      obtain ⟨g1, g2⟩ := ih _ _ _ R h
      refine ⟨?_, ?_⟩
      · intro Q hQ
        rcases List.mem_cons.1 hQ with e | e
        · subst e
          exact importIndices_ok Skeleton BoneMap Q _ _ _ _ _ _ hi
        · exact g1 Q e
      · rw [g2, List.flatMap_cons, List.append_assoc]
    | fail => simp [hi] at h
    | fault => simp [hi] at h
    | nofuel => simp [hi] at h

theorem renderPrimitives_points (Skeleton : List FMeshBone) (BoneMap : List (Int × FName)) :
    ∀ (Primitives : List FglTFRuntimePrimitive) (i : Int) (Points : List FVector)
      (Vertices : List FModelVertex) (InWeights : List FSkinWeightInfo)
      (Sections : List FSkelMeshRenderSection)
      (R : List FVector × List FModelVertex × List FSkinWeightInfo ×
        List FSkelMeshRenderSection),
      renderPrimitives Skeleton BoneMap Primitives i Points Vertices InWeights Sections = .ok R →
      R.1 = Points ++ Primitives.flatMap (fun P => P.Positions) := by
  intro Primitives
  induction Primitives with
  | nil =>
    intro i Points Vertices InWeights Sections R h
    simp only [renderPrimitives, Outcome.ok.injEq] at h
    rw [← h]
    simp
  | cons P rest ih =>
    intro i Points Vertices InWeights Sections R h
    rw [renderPrimitives] at h
    cases hi : renderVertices P P.Indices Vertices InWeights with
    | ok V1 =>
      obtain ⟨V1, W1⟩ := V1
      simp only [hi] at h
      rw [ih _ _ _ _ _ R h, List.flatMap_cons, List.append_assoc]
    | fail => simp [hi] at h
    | fault => simp [hi] at h
    | nofuel => simp [hi] at h

/-- The vertex loop of the branch without editor adds one skin weight per index, each weight
255 on bone 0. -/
theorem renderVertices_weights (Primitive : FglTFRuntimePrimitive) :
    ∀ (Indices : List Int) (Vertices : List FModelVertex) (InWeights : List FSkinWeightInfo)
      (R : List FModelVertex × List FSkinWeightInfo),
      renderVertices Primitive Indices Vertices InWeights = .ok R →
      R.2 = InWeights ++
        List.replicate Indices.length { InfluenceBones0 := 0, InfluenceWeights0 := 255 } := by
  intro Indices
  induction Indices with
  | nil =>
    intro Vertices InWeights R h
    simp only [renderVertices, Outcome.ok.injEq] at h
    rw [← h]
    simp
  | cons Raw rest ih =>
    intro Vertices InWeights R h
    rw [renderVertices] at h
    split at h
    · split at h
      · rw [ih _ _ R h, List.length_cons, List.replicate_succ, List.append_assoc]
        rfl
      · simp at h
    · simp at h

/-- The vertex loop of the branch without editor does not read the joints and weights of the
primitive. -/
theorem renderVertices_withSkin (Primitive : FglTFRuntimePrimitive)
    (Joints : List (List FglTFRuntimeUInt16Vector4)) (Weights : List (List FVector4)) :
    ∀ (Indices : List Int) (Vertices : List FModelVertex) (InWeights : List FSkinWeightInfo),
      renderVertices (withSkin Primitive Joints Weights) Indices Vertices InWeights =
        renderVertices Primitive Indices Vertices InWeights := by
  intro Indices
  induction Indices with
  | nil => intro Vertices InWeights; rfl
  | cons Raw rest ih =>
    intro Vertices InWeights
    rw [renderVertices, renderVertices]
    have ih2 := ih
    simp only [withSkin] at ih2 ⊢
    simp only [ih2]

/-- The primitives loop of the branch without editor adds one skin weight per index of every
primitive, each weight 255 on bone 0. -/
theorem renderPrimitives_weights (Skeleton : List FMeshBone) (BoneMap : List (Int × FName)) :
    ∀ (Primitives : List FglTFRuntimePrimitive) (i : Int) (Points : List FVector)
      (Vertices : List FModelVertex) (InWeights : List FSkinWeightInfo)
      (Sections : List FSkelMeshRenderSection)
      (R : List FVector × List FModelVertex × List FSkinWeightInfo ×
        List FSkelMeshRenderSection),
      renderPrimitives Skeleton BoneMap Primitives i Points Vertices InWeights Sections = .ok R →
      R.2.2.1 = InWeights ++
        List.replicate (Primitives.map (fun P => P.Indices.length)).sum
          { InfluenceBones0 := 0, InfluenceWeights0 := 255 } := by
  intro Primitives
  induction Primitives with
  | nil =>
    intro i Points Vertices InWeights Sections R h
    simp only [renderPrimitives, Outcome.ok.injEq] at h
    rw [← h]
    simp
  | cons P rest ih =>
    intro i Points Vertices InWeights Sections R h
    rw [renderPrimitives] at h
    cases hi : renderVertices P P.Indices Vertices InWeights with
    | ok V1 =>
      obtain ⟨V1, W1⟩ := V1
      simp only [hi] at h
      have hw := renderVertices_weights P _ _ _ _ hi
      simp only at hw
      rw [ih _ _ _ _ _ R h, hw, List.map_cons, List.sum_cons, List.append_assoc,
        ← List.replicate_add]
    | fail => simp [hi] at h
    | fault => simp [hi] at h
    | nofuel => simp [hi] at h

/-- The primitives loop of the branch without editor does not read the joints and weights of the
primitives. -/
theorem renderPrimitives_withSkin (Skeleton : List FMeshBone) (BoneMap : List (Int × FName))
    (Joints : FglTFRuntimePrimitive → List (List FglTFRuntimeUInt16Vector4))
    (Weights : FglTFRuntimePrimitive → List (List FVector4)) :
    ∀ (Primitives : List FglTFRuntimePrimitive) (i : Int) (Points : List FVector)
      (Vertices : List FModelVertex) (InWeights : List FSkinWeightInfo)
      (Sections : List FSkelMeshRenderSection),
      renderPrimitives Skeleton BoneMap
          (Primitives.map (fun P => withSkin P (Joints P) (Weights P))) i Points Vertices
          InWeights Sections =
        renderPrimitives Skeleton BoneMap Primitives i Points Vertices InWeights Sections := by
  intro Primitives
  induction Primitives with
  | nil => intro i Points Vertices InWeights Sections; rfl
  | cons P rest ih =>
    intro i Points Vertices InWeights Sections
    rw [List.map_cons, renderPrimitives, renderPrimitives, renderVertices_withSkin]
    cases hi : renderVertices P (withSkin P (Joints P) (Weights P)).Indices Vertices
        InWeights with
    | ok V1 =>
      obtain ⟨V1, W1⟩ := V1
      have hi2 : renderVertices P P.Indices Vertices InWeights = .ok (V1, W1) := hi
      simp only [hi2]
      exact ih _ _ _ _ _
    | fail =>
      have hi2 : renderVertices P P.Indices Vertices InWeights = .fail := hi
      simp only [hi2]
    | fault =>
      have hi2 : renderVertices P P.Indices Vertices InWeights = .fault := hi
      simp only [hi2]
    | nofuel =>
      have hi2 : renderVertices P P.Indices Vertices InWeights = .nofuel := hi
      simp only [hi2]

/-- What a call of `LoadSkeletalMesh_Internal` that returns a mesh has done: it has loaded the
primitives, filled the reference skeleton and the bone map, and assembled the mesh from
them. -/
theorem LoadSkeletalMesh_Internal_ok_inv (WITH_EDITOR : Bool)
    (ProcessImportMeshInfluences : Int → List FRawBoneInfluence → List FRawBoneInfluence)
    (BuildSkeletalMesh : USkeletalMesh → Bool)
    (Decode : String → Option (List Nat)) (DecodeFloat : List Nat → ℚ)
    (Inverse : FMatrix → FMatrix) (Build : AttributeBuilders) (bBaseMaterial : Bool)
    (fuel : Nat) (Config : ParserConfig) (Root : Document) (Fresh : FglTFRuntimePrimitive)
    (Stride0 MatricesStride0 : Int) (S S2 : ParserState) (JsonMeshObject : JsonMesh)
    (JsonSkinObject : JsonSkin) (Mesh : USkeletalMesh)
    (h : LoadSkeletalMesh_Internal WITH_EDITOR ProcessImportMeshInfluences BuildSkeletalMesh
      Decode DecodeFloat Inverse Build bBaseMaterial fuel Config Root Fresh Stride0
      MatricesStride0 S JsonMeshObject JsonSkinObject = (.ok Mesh, S2)) :
    ∃ JsonPrimitives Primitives S1 RefSkeleton BoneMap,
      JsonMeshObject.primitives = some JsonPrimitives ∧
      LoadPrimitives Decode Build bBaseMaterial Config Root Fresh Stride0 JsonPrimitives S [] =
        (.ok Primitives, S1) ∧
      FillReferenceSkeleton Decode DecodeFloat Inverse fuel Config Root S1 JsonSkinObject []
        MatricesStride0 = (.ok (RefSkeleton, BoneMap), S2) ∧
      assembleSkeletalMesh WITH_EDITOR ProcessImportMeshInfluences BuildSkeletalMesh Primitives
        RefSkeleton BoneMap = .ok Mesh := by
  unfold LoadSkeletalMesh_Internal at h
  cases hp : JsonMeshObject.primitives with
  | none => simp [hp] at h
  | some JsonPrimitives =>
    simp only [hp] at h
    cases hl : LoadPrimitives Decode Build bBaseMaterial Config Root Fresh Stride0
        JsonPrimitives S [] with
    | mk o S1 =>
      cases o with
      | ok Primitives =>
        simp only [hl] at h
        cases hf : FillReferenceSkeleton Decode DecodeFloat Inverse fuel Config Root S1
            JsonSkinObject [] MatricesStride0 with
        | mk o2 S3 =>
          cases o2 with
          | ok R =>
            obtain ⟨RefSkeleton, BoneMap⟩ := R
            simp only [hf, Prod.mk.injEq] at h
            refine ⟨JsonPrimitives, Primitives, S1, RefSkeleton, BoneMap, rfl, hl, ?_, h.1⟩
            rw [← h.2]
            exact hf
          | fail => simp [hf] at h
          | fault => simp [hf] at h
          | nofuel => simp [hf] at h
      | fail => simp [hl] at h
      | fault => simp [hl] at h
      | nofuel => simp [hl] at h

/-- A mesh that is assembled has the reference skeleton passed in and the bounds of the
positions of the primitives; in an editor build the joints of every primitive resolve. -/
theorem assembleSkeletalMesh_ok (WITH_EDITOR : Bool)
    (ProcessImportMeshInfluences : Int → List FRawBoneInfluence → List FRawBoneInfluence)
    (BuildSkeletalMesh : USkeletalMesh → Bool)
    (Primitives : List FglTFRuntimePrimitive) (RefSkeleton : List FMeshBone)
    (BoneMap : List (Int × FName)) (Mesh : USkeletalMesh)
    (h : assembleSkeletalMesh WITH_EDITOR ProcessImportMeshInfluences BuildSkeletalMesh
      Primitives RefSkeleton BoneMap = .ok Mesh) :
    Mesh.RefSkeleton = RefSkeleton ∧
    Mesh.ImportedBounds = importedBounds (Primitives.flatMap (fun P => P.Positions)) ∧
    (WITH_EDITOR = true → ∀ P ∈ Primitives, JointsResolve BoneMap P) := by
  unfold assembleSkeletalMesh at h
  cases WITH_EDITOR with
  | true =>
    simp only [if_true] at h
    cases hi : importPrimitives RefSkeleton BoneMap Primitives [] 0
        { Wedges := [], Triangles := [], Influences := [], BonesCache := [] } with
    | ok R =>
      obtain ⟨Points, State⟩ := R
      simp only [hi] at h
      obtain ⟨g1, g2⟩ := importPrimitives_ok RefSkeleton BoneMap Primitives [] 0 _ _ hi
      simp only [List.nil_append] at g2
      split at h
      · simp only [Outcome.ok.injEq] at h
        rw [← h]
        exact ⟨rfl, by rw [g2], fun _ => g1⟩
      · simp at h
    | fail => simp [hi] at h
    | fault => simp [hi] at h
    | nofuel => simp [hi] at h
  | false =>
    simp only [Bool.false_eq_true, if_false] at h
    cases hi : renderPrimitives RefSkeleton BoneMap Primitives 0 [] [] [] [] with
    | ok R =>
      obtain ⟨Points, Vertices, InWeights, Sections⟩ := R
      simp only [hi, Outcome.ok.injEq] at h
      have g2 := renderPrimitives_points RefSkeleton BoneMap Primitives 0 [] [] [] [] _ hi
      simp only [List.nil_append] at g2
      rw [← h]
      exact ⟨rfl, by rw [g2], fun hc => by simp at hc⟩
    | fail => simp [hi] at h
    | fault => simp [hi] at h
    | nofuel => simp [hi] at h

/-! ## C22 -/

/-- In an editor build, a call of `LoadSkeletalMesh_Internal` that returns a mesh has loaded
primitives and filled a bone map through which every joint slot of every indexed vertex of
every primitive resolves; so with a joint index that is no key of the bone map the call returns
no mesh. -/
theorem LoadSkeletalMesh_Internal_editor_resolves
    (ProcessImportMeshInfluences : Int → List FRawBoneInfluence → List FRawBoneInfluence)
    (BuildSkeletalMesh : USkeletalMesh → Bool)
    (Decode : String → Option (List Nat)) (DecodeFloat : List Nat → ℚ)
    (Inverse : FMatrix → FMatrix) (Build : AttributeBuilders) (bBaseMaterial : Bool)
    (fuel : Nat) (Config : ParserConfig) (Root : Document) (Fresh : FglTFRuntimePrimitive)
    (Stride0 MatricesStride0 : Int) (S S2 : ParserState) (JsonMeshObject : JsonMesh)
    (JsonSkinObject : JsonSkin) (Mesh : USkeletalMesh)
    (h : LoadSkeletalMesh_Internal true ProcessImportMeshInfluences BuildSkeletalMesh
      Decode DecodeFloat Inverse Build bBaseMaterial fuel Config Root Fresh Stride0
      MatricesStride0 S JsonMeshObject JsonSkinObject = (.ok Mesh, S2)) :
    ∃ JsonPrimitives Primitives S1 BoneMap,
      JsonMeshObject.primitives = some JsonPrimitives ∧
      LoadPrimitives Decode Build bBaseMaterial Config Root Fresh Stride0 JsonPrimitives S [] =
        (.ok Primitives, S1) ∧
      FillReferenceSkeleton Decode DecodeFloat Inverse fuel Config Root S1 JsonSkinObject []
        MatricesStride0 = (.ok (Mesh.RefSkeleton, BoneMap), S2) ∧
      ∀ P ∈ Primitives, JointsResolve BoneMap P := by
  obtain ⟨JsonPrimitives, Primitives, S1, RefSkeleton, BoneMap, h1, h2, h3, h4⟩ :=
    LoadSkeletalMesh_Internal_ok_inv true ProcessImportMeshInfluences BuildSkeletalMesh Decode
      DecodeFloat Inverse Build bBaseMaterial fuel Config Root Fresh Stride0 MatricesStride0 S
      S2 JsonMeshObject JsonSkinObject Mesh h
  obtain ⟨g1, _, g3⟩ := assembleSkeletalMesh_ok true ProcessImportMeshInfluences
    BuildSkeletalMesh Primitives RefSkeleton BoneMap Mesh h4
  refine ⟨JsonPrimitives, Primitives, S1, BoneMap, h1, h2, ?_, g3 rfl⟩
  rw [g1]
  exact h3

/-- In a build without editor, what `LoadSkeletalMesh_Internal` assembles does not depend on the
joints and weights of the primitives: replacing them by any others gives the same result. -/
theorem assembleSkeletalMesh_withSkin
    (ProcessImportMeshInfluences : Int → List FRawBoneInfluence → List FRawBoneInfluence)
    (BuildSkeletalMesh : USkeletalMesh → Bool)
    (Primitives : List FglTFRuntimePrimitive) (RefSkeleton : List FMeshBone)
    (BoneMap : List (Int × FName))
    (Joints : FglTFRuntimePrimitive → List (List FglTFRuntimeUInt16Vector4))
    (Weights : FglTFRuntimePrimitive → List (List FVector4)) :
    assembleSkeletalMesh false ProcessImportMeshInfluences BuildSkeletalMesh
        (Primitives.map (fun P => withSkin P (Joints P) (Weights P))) RefSkeleton BoneMap =
      assembleSkeletalMesh false ProcessImportMeshInfluences BuildSkeletalMesh Primitives
        RefSkeleton BoneMap := by
  unfold assembleSkeletalMesh
  simp only [Bool.false_eq_true, if_false, renderPrimitives_withSkin, List.map_map,
    List.length_map]
  rfl

/-- In a build without editor, a call of `LoadSkeletalMesh_Internal` that returns a mesh has
given it render data whose skin weights are weight 255 on bone 0, one per index of the loaded
primitives, whatever their joints. -/
theorem LoadSkeletalMesh_Internal_render_weights
    (ProcessImportMeshInfluences : Int → List FRawBoneInfluence → List FRawBoneInfluence)
    (BuildSkeletalMesh : USkeletalMesh → Bool)
    (Decode : String → Option (List Nat)) (DecodeFloat : List Nat → ℚ)
    (Inverse : FMatrix → FMatrix) (Build : AttributeBuilders) (bBaseMaterial : Bool)
    (fuel : Nat) (Config : ParserConfig) (Root : Document) (Fresh : FglTFRuntimePrimitive)
    (Stride0 MatricesStride0 : Int) (S S2 : ParserState) (JsonMeshObject : JsonMesh)
    (JsonSkinObject : JsonSkin) (Mesh : USkeletalMesh)
    (h : LoadSkeletalMesh_Internal false ProcessImportMeshInfluences BuildSkeletalMesh
      Decode DecodeFloat Inverse Build bBaseMaterial fuel Config Root Fresh Stride0
      MatricesStride0 S JsonMeshObject JsonSkinObject = (.ok Mesh, S2)) :
    ∃ JsonPrimitives Primitives S1 RenderData,
      JsonMeshObject.primitives = some JsonPrimitives ∧
      LoadPrimitives Decode Build bBaseMaterial Config Root Fresh Stride0 JsonPrimitives S [] =
        (.ok Primitives, S1) ∧
      Mesh.RenderData = some RenderData ∧
      RenderData.SkinWeightVertexBuffer =
        List.replicate (Primitives.map (fun P => P.Indices.length)).sum
          { InfluenceBones0 := 0, InfluenceWeights0 := 255 } := by
  obtain ⟨JsonPrimitives, Primitives, S1, RefSkeleton, BoneMap, h1, h2, _, h4⟩ :=
    LoadSkeletalMesh_Internal_ok_inv false ProcessImportMeshInfluences BuildSkeletalMesh Decode
      DecodeFloat Inverse Build bBaseMaterial fuel Config Root Fresh Stride0 MatricesStride0 S
      S2 JsonMeshObject JsonSkinObject Mesh h
  unfold assembleSkeletalMesh at h4
  simp only [Bool.false_eq_true, if_false] at h4
  cases hi : renderPrimitives RefSkeleton BoneMap Primitives 0 [] [] [] [] with
  | ok R =>
    obtain ⟨Points, Vertices, InWeights, Sections⟩ := R
    simp only [hi, Outcome.ok.injEq] at h4
    have hw := renderPrimitives_weights RefSkeleton BoneMap Primitives 0 [] [] [] [] _ hi
    simp only [List.nil_append] at hw
    refine ⟨JsonPrimitives, Primitives, S1, _, h1, h2, by rw [← h4], hw⟩
  | fail => simp [hi] at h4
  | fault => simp [hi] at h4
  | nofuel => simp [hi] at h4

set_option maxRecDepth 100000 in
/-- The two builds on a primitive that has positions, joints and weights but neither normals nor
texture coordinates, with joints that resolve: the editor build tests for both and returns a
mesh; the build without editor reads `Primitive.Normals[Index]` without a test, outside the
array. -/
theorem LoadSkeletalMesh_Internal_bare :
    (∃ Mesh, (LoadSkeletalMesh_Internal true (fun _ I => I) (fun _ => true) sampleDecode
      (fun _ => 0) (fun M => M) (sampleJointBuilders 0) true 4 sampleConfig sampleTwoMeshes
      emptyPrimitive 0 0 ParserState.initial sampleBareMesh (sampleSkin none)).1 = .ok Mesh) ∧
    (LoadSkeletalMesh_Internal false (fun _ I => I) (fun _ => true) sampleDecode
      (fun _ => 0) (fun M => M) (sampleJointBuilders 0) true 4 sampleConfig sampleTwoMeshes
      emptyPrimitive 0 0 ParserState.initial sampleBareMesh (sampleSkin none)).1 = .fault :=
  ⟨⟨_, rfl⟩, rfl⟩

set_option maxRecDepth 100000 in
/-- Claim C22, where it fails: on the sample document for skins with the skin of the joints 2 and
1 and a mesh whose primitive has the indices 0, 1, 2 and vertices with the joint indices
7, 0, 0, 0, the bone map that `FillReferenceSkeleton` produces has the keys 0 and 1 only, so the
joint index 7 is no key of it. An editor build returns null. A build without editor returns a
mesh, and the skin weights of its three vertices are weight 255 on bone 0: that branch does not
read the joints. It gives the same skin weights when the vertices have the joint indices
1, 0, 0, 0, which resolve to another bone. -/
theorem C22_unresolved_joint_ignored :
    ∃ Primitives S1,
      LoadPrimitives sampleDecode (sampleJointBuilders 7) true sampleConfig sampleTwoMeshes
        emptyPrimitive 0 [some sampleFullPrimitive] ParserState.initial [] =
        (.ok Primitives, S1) ∧
      Primitives.map (fun P => (P.Indices, P.Joints)) =
        [([0, 1, 2], [[(7, 0, 0, 0), (7, 0, 0, 0), (7, 0, 0, 0)]])] ∧
      boneMapEntries (FillReferenceSkeleton sampleDecode (fun _ => 0) (fun M => M) 4
        sampleConfig sampleTwoMeshes S1 (sampleSkin none) [] 0) = some [(0, "c"), (1, "b_")] ∧
      (LoadSkeletalMesh_Internal true (fun _ I => I) (fun _ => true) sampleDecode
        (fun _ => 0) (fun M => M) (sampleJointBuilders 7) true 4 sampleConfig sampleTwoMeshes
        emptyPrimitive 0 0 ParserState.initial sampleSkinnedMesh (sampleSkin none)).1 = .fail ∧
      (∃ Mesh, (LoadSkeletalMesh_Internal false (fun _ I => I) (fun _ => true) sampleDecode
        (fun _ => 0) (fun M => M) (sampleJointBuilders 7) true 4 sampleConfig sampleTwoMeshes
        emptyPrimitive 0 0 ParserState.initial sampleSkinnedMesh (sampleSkin none)).1 =
        .ok Mesh) ∧
      skinWeightsOf (LoadSkeletalMesh_Internal false (fun _ I => I) (fun _ => true) sampleDecode
        (fun _ => 0) (fun M => M) (sampleJointBuilders 7) true 4 sampleConfig sampleTwoMeshes
        emptyPrimitive 0 0 ParserState.initial sampleSkinnedMesh (sampleSkin none)) =
        some [{ InfluenceBones0 := 0, InfluenceWeights0 := 255 },
              { InfluenceBones0 := 0, InfluenceWeights0 := 255 },
              { InfluenceBones0 := 0, InfluenceWeights0 := 255 }] ∧
      skinWeightsOf (LoadSkeletalMesh_Internal false (fun _ I => I) (fun _ => true) sampleDecode
        (fun _ => 0) (fun M => M) (sampleJointBuilders 1) true 4 sampleConfig sampleTwoMeshes
        emptyPrimitive 0 0 ParserState.initial sampleSkinnedMesh (sampleSkin none)) =
        some [{ InfluenceBones0 := 0, InfluenceWeights0 := 255 },
              { InfluenceBones0 := 0, InfluenceWeights0 := 255 },
              { InfluenceBones0 := 0, InfluenceWeights0 := 255 }] :=
  ⟨_, _, rfl, rfl, rfl, rfl, ⟨_, rfl⟩, rfl, rfl⟩

/-! ## Bounds -/

/-- Growing a valid box by points, seen on one coordinate on which `FBox.add` takes minimum and
maximum: the result is valid, it holds the box and the points, and its minimum and maximum are
those of the box or coordinates of points. -/
theorem FBox_foldl (c : FVector → ℚ)
    (hc : ∀ (B : FBox) (p : FVector), B.IsValid = true →
      c (B.add p).Min = min (c B.Min) (c p) ∧ c (B.add p).Max = max (c B.Max) (c p)) :
    ∀ (L : List FVector) (B : FBox), B.IsValid = true →
      (L.foldl FBox.add B).IsValid = true ∧
      c (L.foldl FBox.add B).Min ≤ c B.Min ∧ c B.Max ≤ c (L.foldl FBox.add B).Max ∧
      (∀ p ∈ L, c (L.foldl FBox.add B).Min ≤ c p ∧ c p ≤ c (L.foldl FBox.add B).Max) ∧
      (c (L.foldl FBox.add B).Min = c B.Min ∨ ∃ p ∈ L, c p = c (L.foldl FBox.add B).Min) ∧
      (c (L.foldl FBox.add B).Max = c B.Max ∨ ∃ p ∈ L, c p = c (L.foldl FBox.add B).Max) := by
  intro L
  induction L with
  | nil =>
    intro B hB
    exact ⟨hB, le_refl _, le_refl _, by intro p hp; simp at hp, Or.inl rfl, Or.inl rfl⟩
  | cons q rest ih =>
    intro B hB
    have hv : (B.add q).IsValid = true := by
      unfold FBox.add
      split <;> rfl
    obtain ⟨g1, g2, g3, g4, g5, g6⟩ := ih (B.add q) hv
    obtain ⟨e1, e2⟩ := hc B q hB
    rw [e1] at g2 g5
    rw [e2] at g3 g6
    simp only [List.foldl_cons]
    refine ⟨g1, le_trans g2 (min_le_left _ _), le_trans (le_max_left _ _) g3, ?_, ?_, ?_⟩
    · intro p hp
      rcases List.mem_cons.1 hp with h | h
      · subst h
        exact ⟨le_trans g2 (min_le_right _ _), le_trans (le_max_right _ _) g3⟩
      · exact g4 p h
    · rcases g5 with h | ⟨p, hp, h⟩
      · rcases min_choice (c B.Min) (c q) with m | m
        · left
          rw [h, m]
        · right
          exact ⟨q, List.mem_cons_self _ _, by rw [h, m]⟩
      · right
        exact ⟨p, List.mem_cons_of_mem _ hp, h⟩
    · rcases g6 with h | ⟨p, hp, h⟩
      · rcases max_choice (c B.Max) (c q) with m | m
        · left
          rw [h, m]
        · right
          exact ⟨q, List.mem_cons_self _ _, by rw [h, m]⟩
      · right
        exact ⟨p, List.mem_cons_of_mem _ hp, h⟩

/-- The box of a non-empty array of points is tight on a coordinate on which `FBox.add` takes
minimum and maximum. -/
theorem FBox_ofPoints_tight (c : FVector → ℚ)
    (hc : ∀ (B : FBox) (p : FVector), B.IsValid = true →
      c (B.add p).Min = min (c B.Min) (c p) ∧ c (B.add p).Max = max (c B.Max) (c p))
    (Points : List FVector) (hne : 0 < Points.length) :
    TightOn c Points (FBox.ofPoints Points) := by
  cases Points with
  | nil => simp at hne
  | cons q rest =>
    have hstart : FBox.ofPoints (q :: rest) =
        rest.foldl FBox.add { Min := q, Max := q, IsValid := true } := by
      simp [FBox.ofPoints, FBox.add]
    rw [hstart]
    obtain ⟨_, g2, g3, g4, g5, g6⟩ := FBox_foldl c hc rest
      { Min := q, Max := q, IsValid := true } rfl
    simp only at g2 g3 g5 g6
    refine ⟨?_, ?_, ?_⟩
    · intro p hp
      rcases List.mem_cons.1 hp with h | h
      · subst h
        exact ⟨g2, g3⟩
      · exact g4 p h
    · rcases g5 with h | ⟨p, hp, h⟩
      · exact ⟨q, List.mem_cons_self _ _, h.symm⟩
      · exact ⟨p, List.mem_cons_of_mem _ hp, h⟩
    · rcases g6 with h | ⟨p, hp, h⟩
      · exact ⟨q, List.mem_cons_self _ _, h.symm⟩
      · exact ⟨p, List.mem_cons_of_mem _ hp, h⟩

theorem FBox_add_coordinates (B : FBox) (p : FVector) (hB : B.IsValid = true) :
    ((B.add p).Min.1 = min B.Min.1 p.1 ∧ (B.add p).Max.1 = max B.Max.1 p.1) ∧
    ((B.add p).Min.2.1 = min B.Min.2.1 p.2.1 ∧ (B.add p).Max.2.1 = max B.Max.2.1 p.2.1) ∧
    ((B.add p).Min.2.2 = min B.Min.2.2 p.2.2 ∧ (B.add p).Max.2.2 = max B.Max.2.2 p.2.2) := by
  unfold FBox.add
  simp [hB]

/-! ## C28 -/

/-- C28, as stated, at a concrete input: for the points (0, 0, 0) and (2, 2, 2) the tight box is
from (0, 0, 0) to (2, 2, 2), with centre 1 on each axis, and the box that
`LoadSkeletalMesh_Internal` reports is from (-1, -1, -1/10) to (3, 3, 3): on X the minimum is
-1 and the maximum 3, where a pad of 10% gives -1/10 and 21/10, and the Z minimum is padded by
1/10 only, less than the X minimum. -/
theorem C28_bounds_counterexample :
    (FBox.ofPoints [(0, 0, 0), (2, 2, 2)]).Min = (0, 0, 0) ∧
    (FBox.ofPoints [(0, 0, 0), (2, 2, 2)]).Max = (2, 2, 2) ∧
    (importedBounds [(0, 0, 0), (2, 2, 2)]).Min = (-1, -1, -1 / 10) ∧
    (importedBounds [(0, 0, 0), (2, 2, 2)]).Max = (3, 3, 3) ∧
    (importedBounds [(0, 0, 0), (2, 2, 2)]).Min.1 ≠ 0 + (1 / 10) * (0 - 1) ∧
    (importedBounds [(0, 0, 0), (2, 2, 2)]).Max.1 ≠ 2 + (1 / 10) * (2 - 1) := by
  have h1 : (FBox.ofPoints [(0, 0, 0), (2, 2, 2)]).Min = (0, 0, 0) := by
    simp [FBox.ofPoints, FBox.add]
  have h2 : (FBox.ofPoints [(0, 0, 0), (2, 2, 2)]).Max = (2, 2, 2) := by
    simp [FBox.ofPoints, FBox.add]
  have h3 : (importedBounds [(0, 0, 0), (2, 2, 2)]).Min = (-1, -1, -1 / 10) := by
    simp only [importedBounds, h1, h2]
    norm_num
  have h4 : (importedBounds [(0, 0, 0), (2, 2, 2)]).Max = (3, 3, 3) := by
    simp only [importedBounds, h1, h2]
    norm_num
  refine ⟨h1, h2, h3, h4, ?_, ?_⟩
  · rw [h3]
    norm_num
  · rw [h4]
    norm_num

/-- Claim C28, amended: the box that a mesh returned by `LoadSkeletalMesh_Internal` reports is
computed from the tight box of the positions of all loaded primitives, which for a non-empty
set of points has on each axis the least coordinate as minimum and the greatest as maximum; with
the centre `mid = (min + max) / 2`, the reported minimum on X and on Y is
`min + 1 * (min - mid)`, the reported maximum on X, Y and Z is `max + 1 * (max - mid)`, and the
reported minimum on Z is `min + (1/10) * (min - mid)`. -/
theorem C28_bounds_padding (WITH_EDITOR : Bool)
    (ProcessImportMeshInfluences : Int → List FRawBoneInfluence → List FRawBoneInfluence)
    (BuildSkeletalMesh : USkeletalMesh → Bool)
    (Decode : String → Option (List Nat)) (DecodeFloat : List Nat → ℚ)
    (Inverse : FMatrix → FMatrix) (Build : AttributeBuilders) (bBaseMaterial : Bool)
    (fuel : Nat) (Config : ParserConfig) (Root : Document) (Fresh : FglTFRuntimePrimitive)
    (Stride0 MatricesStride0 : Int) (S S1 S2 : ParserState) (JsonMeshObject : JsonMesh)
    (JsonSkinObject : JsonSkin) (Mesh : USkeletalMesh)
    (JsonPrimitives : List (Option JsonPrimitive)) (Primitives : List FglTFRuntimePrimitive)
    (hp : JsonMeshObject.primitives = some JsonPrimitives)
    (hl : LoadPrimitives Decode Build bBaseMaterial Config Root Fresh Stride0 JsonPrimitives S
      [] = (.ok Primitives, S1))
    (hne : 0 < (Primitives.flatMap (fun P => P.Positions)).length)
    (h : LoadSkeletalMesh_Internal WITH_EDITOR ProcessImportMeshInfluences BuildSkeletalMesh
      Decode DecodeFloat Inverse Build bBaseMaterial fuel Config Root Fresh Stride0
      MatricesStride0 S JsonMeshObject JsonSkinObject = (.ok Mesh, S2)) :
    TightOn (fun p => p.1) (Primitives.flatMap (fun P => P.Positions))
      (FBox.ofPoints (Primitives.flatMap (fun P => P.Positions))) ∧
    TightOn (fun p => p.2.1) (Primitives.flatMap (fun P => P.Positions))
      (FBox.ofPoints (Primitives.flatMap (fun P => P.Positions))) ∧
    TightOn (fun p => p.2.2) (Primitives.flatMap (fun P => P.Positions))
      (FBox.ofPoints (Primitives.flatMap (fun P => P.Positions))) ∧
    (∀ (Box : FBox), Box = FBox.ofPoints (Primitives.flatMap (fun P => P.Positions)) →
      Mesh.ImportedBounds.Min.1 =
        Box.Min.1 + 1 * (Box.Min.1 - (1 / 2) * (Box.Min.1 + Box.Max.1)) ∧
      Mesh.ImportedBounds.Max.1 =
        Box.Max.1 + 1 * (Box.Max.1 - (1 / 2) * (Box.Min.1 + Box.Max.1)) ∧
      Mesh.ImportedBounds.Min.2.1 =
        Box.Min.2.1 + 1 * (Box.Min.2.1 - (1 / 2) * (Box.Min.2.1 + Box.Max.2.1)) ∧
      Mesh.ImportedBounds.Max.2.1 =
        Box.Max.2.1 + 1 * (Box.Max.2.1 - (1 / 2) * (Box.Min.2.1 + Box.Max.2.1)) ∧
      Mesh.ImportedBounds.Min.2.2 =
        Box.Min.2.2 + (1 / 10) * (Box.Min.2.2 - (1 / 2) * (Box.Min.2.2 + Box.Max.2.2)) ∧
      Mesh.ImportedBounds.Max.2.2 =
        Box.Max.2.2 + 1 * (Box.Max.2.2 - (1 / 2) * (Box.Min.2.2 + Box.Max.2.2))) := by
  obtain ⟨JsonPrimitives2, Primitives2, S3, RefSkeleton, BoneMap, h1, h2, _, h4⟩ :=
    LoadSkeletalMesh_Internal_ok_inv WITH_EDITOR ProcessImportMeshInfluences BuildSkeletalMesh
      Decode DecodeFloat Inverse Build bBaseMaterial fuel Config Root Fresh Stride0
      MatricesStride0 S S2 JsonMeshObject JsonSkinObject Mesh h
  rw [hp] at h1
  cases h1
  rw [hl] at h2
  cases h2
  obtain ⟨_, g2, _⟩ := assembleSkeletalMesh_ok WITH_EDITOR ProcessImportMeshInfluences
    BuildSkeletalMesh Primitives RefSkeleton BoneMap Mesh h4
  refine ⟨?_, ?_, ?_, ?_⟩
  · exact FBox_ofPoints_tight _ (fun B p hB => (FBox_add_coordinates B p hB).1) _ hne
  · exact FBox_ofPoints_tight _ (fun B p hB => (FBox_add_coordinates B p hB).2.1) _ hne
  · exact FBox_ofPoints_tight _ (fun B p hB => (FBox_add_coordinates B p hB).2.2) _ hne
  · intro Box hBox
    rw [g2, hBox]
    exact ⟨rfl, rfl, rfl, rfl, rfl, rfl⟩

set_option maxRecDepth 100000 in
theorem C28_bounds_padding_witness :
    ∃ Primitives S1 Mesh S2,
      LoadPrimitives sampleDecode (sampleJointBuilders 0) true sampleConfig sampleTwoMeshes
        emptyPrimitive 0 [some sampleFullPrimitive] ParserState.initial [] =
        (.ok Primitives, S1) ∧
      (Primitives.flatMap (fun P => P.Positions)).length = 3 ∧
      LoadSkeletalMesh_Internal false (fun _ I => I) (fun _ => true) sampleDecode
        (fun _ => 0) (fun M => M) (sampleJointBuilders 0) true 4 sampleConfig sampleTwoMeshes
        emptyPrimitive 0 0 ParserState.initial sampleSkinnedMesh (sampleSkin none) =
        (.ok Mesh, S2) ∧
      TightOn (fun p => p.1) (Primitives.flatMap (fun P => P.Positions))
        (FBox.ofPoints (Primitives.flatMap (fun P => P.Positions))) :=
  ⟨_, _, _, _, rfl, rfl, rfl,
    (C28_bounds_padding false (fun _ I => I) (fun _ => true) sampleDecode (fun _ => 0)
      (fun M => M) (sampleJointBuilders 0) true 4 sampleConfig sampleTwoMeshes emptyPrimitive 0
      0 ParserState.initial _ _ sampleSkinnedMesh (sampleSkin none) _ _ _ rfl rfl (by decide)
      rfl).1⟩

/-! ## C25 -/

set_option maxRecDepth 100000 in
/-- Claim C25, where it fails: on the sample document with two meshes and one skin,
`LoadSkeletalMesh` returns null for the mesh indices -1 and 2 and loads mesh 0 with skin 0; for
mesh 1 with skin 0, both in range, it returns null, because the test before the skin is read is
`Index >= JsonSkins->Num()` on the mesh index, although `LoadSkeletalMesh_Internal` returns a
mesh for that mesh object and that skin; the skin index is never tested, so for mesh 0 with the
skin index 1 or -1 the call reads `(*JsonSkins)[SkinIndex]` outside the array instead of
returning null; and with mesh 0 in the cache the call returns the cached mesh whatever the skin
index. -/
theorem C25_skin_index_unchecked :
    sampleTwoMeshes.meshes = some [some sampleSkinnedMesh, some sampleSkinnedMesh] ∧
    sampleTwoMeshes.skins = some [some (sampleSkin none)] ∧
    (LoadSkeletalMesh false (fun _ I => I) (fun _ => true) sampleDecode (fun _ => 0)
      (fun M => M) (sampleJointBuilders 0) true 4 sampleConfig sampleTwoMeshes emptyPrimitive 0
      0 ParserState.initial [] (-1) 0 (-1)).1 = .fail ∧
    (LoadSkeletalMesh false (fun _ I => I) (fun _ => true) sampleDecode (fun _ => 0)
      (fun M => M) (sampleJointBuilders 0) true 4 sampleConfig sampleTwoMeshes emptyPrimitive 0
      0 ParserState.initial [] 2 0 (-1)).1 = .fail ∧
    (∃ Mesh, (LoadSkeletalMesh false (fun _ I => I) (fun _ => true) sampleDecode (fun _ => 0)
      (fun M => M) (sampleJointBuilders 0) true 4 sampleConfig sampleTwoMeshes emptyPrimitive 0
      0 ParserState.initial [] 0 0 (-1)).1 = .ok Mesh) ∧
    (LoadSkeletalMesh false (fun _ I => I) (fun _ => true) sampleDecode (fun _ => 0)
      (fun M => M) (sampleJointBuilders 0) true 4 sampleConfig sampleTwoMeshes emptyPrimitive 0
      0 ParserState.initial [] 1 0 (-1)).1 = .fail ∧
    (∃ Mesh, (LoadSkeletalMesh_Internal false (fun _ I => I) (fun _ => true) sampleDecode
      (fun _ => 0) (fun M => M) (sampleJointBuilders 0) true 4 sampleConfig sampleTwoMeshes
      emptyPrimitive 0 0 ParserState.initial sampleSkinnedMesh (sampleSkin none)).1 =
      .ok Mesh) ∧
    (LoadSkeletalMesh false (fun _ I => I) (fun _ => true) sampleDecode (fun _ => 0)
      (fun M => M) (sampleJointBuilders 0) true 4 sampleConfig sampleTwoMeshes emptyPrimitive 0
      0 ParserState.initial [] 0 1 (-1)).1 = .fault ∧
    (LoadSkeletalMesh false (fun _ I => I) (fun _ => true) sampleDecode (fun _ => 0)
      (fun M => M) (sampleJointBuilders 0) true 4 sampleConfig sampleTwoMeshes emptyPrimitive 0
      0 ParserState.initial [] 0 (-1) (-1)).1 = .fault ∧
    (∀ Cached : USkeletalMesh,
      (LoadSkeletalMesh false (fun _ I => I) (fun _ => true) sampleDecode (fun _ => 0)
        (fun M => M) (sampleJointBuilders 0) true 4 sampleConfig sampleTwoMeshes emptyPrimitive
        0 0 ParserState.initial [(0, Cached)] 0 5 (-1)).1 = .ok Cached) :=
  ⟨rfl, rfl, rfl, rfl, ⟨_, rfl⟩, rfl, ⟨_, rfl⟩, rfl, rfl, fun _ => rfl⟩

/-! ## The skeletal mesh cache -/

/-- With the mesh index in the cache, `LoadSkeletalMesh` returns the cached mesh and changes
neither the state nor the cache, whatever the other arguments, the document and the build. -/
theorem LoadSkeletalMesh_cached (WITH_EDITOR : Bool)
    (ProcessImportMeshInfluences : Int → List FRawBoneInfluence → List FRawBoneInfluence)
    (BuildSkeletalMesh : USkeletalMesh → Bool)
    (Decode : String → Option (List Nat)) (DecodeFloat : List Nat → ℚ)
    (Inverse : FMatrix → FMatrix) (Build : AttributeBuilders) (bBaseMaterial : Bool)
    (fuel : Nat) (Config : ParserConfig) (Root : Document) (Fresh : FglTFRuntimePrimitive)
    (Stride0 MatricesStride0 : Int) (S : ParserState)
    (SkeletalMeshesCache : List (Int × USkeletalMesh)) (Index SkinIndex NodeIndex : Int)
    (Mesh : USkeletalMesh) (h0 : 0 ≤ Index)
    (hc : SkeletalMeshesCache.lookup Index = some Mesh) :
    LoadSkeletalMesh WITH_EDITOR ProcessImportMeshInfluences BuildSkeletalMesh Decode
      DecodeFloat Inverse Build bBaseMaterial fuel Config Root Fresh Stride0 MatricesStride0 S
      SkeletalMeshesCache Index SkinIndex NodeIndex = (.ok Mesh, S, SkeletalMeshesCache) := by
  unfold LoadSkeletalMesh
  have hn : ¬ Index < 0 := by omega
  simp only [hn, if_false, hc]

/-- What a call of `LoadSkeletalMesh` does to the cache: a call that returns a mesh either has
found it in the cache, which it leaves as it is, or has not found the index in the cache and
adds the mesh under the index; any other call leaves the cache as it is. -/
theorem LoadSkeletalMesh_cache (WITH_EDITOR : Bool)
    (ProcessImportMeshInfluences : Int → List FRawBoneInfluence → List FRawBoneInfluence)
    (BuildSkeletalMesh : USkeletalMesh → Bool)
    (Decode : String → Option (List Nat)) (DecodeFloat : List Nat → ℚ)
    (Inverse : FMatrix → FMatrix) (Build : AttributeBuilders) (bBaseMaterial : Bool)
    (fuel : Nat) (Config : ParserConfig) (Root : Document) (Fresh : FglTFRuntimePrimitive)
    (Stride0 MatricesStride0 : Int) (S S2 : ParserState)
    (Cache Cache2 : List (Int × USkeletalMesh)) (Index SkinIndex NodeIndex : Int)
    (R : Outcome USkeletalMesh)
    (h : LoadSkeletalMesh WITH_EDITOR ProcessImportMeshInfluences BuildSkeletalMesh Decode
      DecodeFloat Inverse Build bBaseMaterial fuel Config Root Fresh Stride0 MatricesStride0 S
      Cache Index SkinIndex NodeIndex = (R, S2, Cache2)) :
    (∃ Mesh, R = .ok Mesh ∧ 0 ≤ Index ∧
      ((Cache.lookup Index = some Mesh ∧ Cache2 = Cache) ∨
        (Cache.lookup Index = none ∧ Cache2 = TMapAdd Cache Index Mesh))) ∨
    ((∀ Mesh, R ≠ .ok Mesh) ∧ Cache2 = Cache) := by
  unfold LoadSkeletalMesh at h
  by_cases hn : Index < 0
  · simp only [hn, if_true, Prod.mk.injEq] at h
    right
    exact ⟨fun Mesh hM => (by rw [← h.1] at hM; cases hM), h.2.2.symm⟩
  · simp only [hn, if_false] at h
    cases hc : Cache.lookup Index with
    | some Cached =>
      simp only [hc, Prod.mk.injEq] at h
      left
      exact ⟨Cached, h.1.symm, by omega, Or.inl ⟨rfl, h.2.2.symm⟩⟩
    | none =>
      simp only [hc] at h
      have hfail : ∀ (o : Outcome USkeletalMesh) (S3 : ParserState),
          (∀ Mesh, o ≠ .ok Mesh) → (o, S3, Cache) = (R, S2, Cache2) →
          (∃ Mesh, R = .ok Mesh ∧ 0 ≤ Index ∧
            (((none : Option USkeletalMesh) = some Mesh ∧ Cache2 = Cache) ∨
              ((none : Option USkeletalMesh) = none ∧ Cache2 = TMapAdd Cache Index Mesh))) ∨
          ((∀ Mesh, R ≠ .ok Mesh) ∧ Cache2 = Cache) := by
        intro o S3 ho he
        simp only [Prod.mk.injEq] at he
        right
        exact ⟨fun Mesh hM => ho Mesh (by rw [he.1]; exact hM), he.2.2.symm⟩
      repeat' split at h
      all_goals first
        | exact hfail _ _ (fun Mesh hM => by cases hM) h
        | (simp only [Prod.mk.injEq] at h
           left
           exact ⟨_, h.1.symm, by omega, Or.inr ⟨rfl, h.2.2.symm⟩⟩)

/-- A call of `LoadSkeletalMesh` keeps every entry of the cache. -/
theorem LoadSkeletalMesh_keeps (WITH_EDITOR : Bool)
    (ProcessImportMeshInfluences : Int → List FRawBoneInfluence → List FRawBoneInfluence)
    (BuildSkeletalMesh : USkeletalMesh → Bool)
    (Decode : String → Option (List Nat)) (DecodeFloat : List Nat → ℚ)
    (Inverse : FMatrix → FMatrix) (Build : AttributeBuilders) (bBaseMaterial : Bool)
    (fuel : Nat) (Config : ParserConfig) (Root : Document) (Fresh : FglTFRuntimePrimitive)
    (Stride0 MatricesStride0 : Int) (S : ParserState)
    (Cache : List (Int × USkeletalMesh)) (Index SkinIndex NodeIndex : Int)
    (m : Int) (Mesh : USkeletalMesh) (hc : Cache.lookup m = some Mesh) :
    (LoadSkeletalMesh WITH_EDITOR ProcessImportMeshInfluences BuildSkeletalMesh Decode
      DecodeFloat Inverse Build bBaseMaterial fuel Config Root Fresh Stride0 MatricesStride0 S
      Cache Index SkinIndex NodeIndex).2.2.lookup m = some Mesh := by
  rcases hr : LoadSkeletalMesh WITH_EDITOR ProcessImportMeshInfluences BuildSkeletalMesh Decode
    DecodeFloat Inverse Build bBaseMaterial fuel Config Root Fresh Stride0 MatricesStride0 S
    Cache Index SkinIndex NodeIndex with ⟨R, S2, Cache2⟩
  rcases LoadSkeletalMesh_cache _ _ _ _ _ _ _ _ _ _ _ _ _ _ _ _ _ _ _ _ _ _ hr with
    ⟨Mesh2, _, _, ⟨_, h2⟩ | ⟨h1, h2⟩⟩ | ⟨_, h2⟩
  · simp only [h2]
    exact hc
  · simp only [h2]
    have hne : m ≠ Index := by
      intro he
      rw [he, h1] at hc
      cases hc
    rw [lookup_TMapAdd_ne Cache Index m Mesh2 hne]
    exact hc
  · simp only [h2]
    exact hc

/-- A sequence of calls of `LoadSkeletalMesh` keeps every entry of the cache. -/
theorem LoadSkeletalMeshCalls_keeps (WITH_EDITOR : Bool)
    (ProcessImportMeshInfluences : Int → List FRawBoneInfluence → List FRawBoneInfluence)
    (BuildSkeletalMesh : USkeletalMesh → Bool)
    (Decode : String → Option (List Nat)) (DecodeFloat : List Nat → ℚ)
    (Inverse : FMatrix → FMatrix) (Build : AttributeBuilders) (bBaseMaterial : Bool)
    (fuel : Nat) (Config : ParserConfig) (Root : Document) (Fresh : FglTFRuntimePrimitive)
    (Stride0 MatricesStride0 : Int) (m : Int) (Mesh : USkeletalMesh) :
    ∀ (Calls : List SkeletalMeshCall) (Cache : List (Int × USkeletalMesh)),
      Cache.lookup m = some Mesh →
      (LoadSkeletalMeshCalls WITH_EDITOR ProcessImportMeshInfluences BuildSkeletalMesh Decode
        DecodeFloat Inverse Build bBaseMaterial fuel Config Root Fresh Stride0 MatricesStride0
        Calls Cache).lookup m = some Mesh := by
  intro Calls
  induction Calls with
  | nil => intro Cache hc; exact hc
  | cons Call rest ih =>
    intro Cache hc
    rw [LoadSkeletalMeshCalls]
    exact ih _ (LoadSkeletalMesh_keeps _ _ _ _ _ _ _ _ _ _ _ _ _ _ _ _ _ _ _ _ _ hc)

/-! ## C31 -/

/-- Claim C31: after a call `LoadSkeletalMesh(m, s, n)` has returned a mesh, and after any
further calls of `LoadSkeletalMesh` in any states, every call `LoadSkeletalMesh(m, s2, n2)`
returns that mesh, for all skin and node indices, in every state, for every document and every
build, and changes neither the state nor the cache: nothing of skin `s2` or node `n2` is read;
and a call that returns no mesh leaves the cache as it was. -/
theorem C31_cache_by_mesh_index (WITH_EDITOR : Bool)
    (ProcessImportMeshInfluences : Int → List FRawBoneInfluence → List FRawBoneInfluence)
    (BuildSkeletalMesh : USkeletalMesh → Bool)
    (Decode : String → Option (List Nat)) (DecodeFloat : List Nat → ℚ)
    (Inverse : FMatrix → FMatrix) (Build : AttributeBuilders) (bBaseMaterial : Bool)
    (fuel : Nat) (Config : ParserConfig) (Root : Document) (Fresh : FglTFRuntimePrimitive)
    (Stride0 MatricesStride0 : Int) (S S2 : ParserState)
    (Cache Cache2 : List (Int × USkeletalMesh)) (m s n : Int) (Mesh : USkeletalMesh)
    (h : LoadSkeletalMesh WITH_EDITOR ProcessImportMeshInfluences BuildSkeletalMesh Decode
      DecodeFloat Inverse Build bBaseMaterial fuel Config Root Fresh Stride0 MatricesStride0 S
      Cache m s n = (.ok Mesh, S2, Cache2)) :
    (∀ (Calls : List SkeletalMeshCall) (WITH_EDITOR2 : Bool)
      (BuildSkeletalMesh2 : USkeletalMesh → Bool) (Build2 : AttributeBuilders) (fuel2 : Nat)
      (Config2 : ParserConfig) (Root2 : Document) (S3 : ParserState) (s2 n2 : Int),
      LoadSkeletalMesh WITH_EDITOR2 ProcessImportMeshInfluences BuildSkeletalMesh2 Decode
        DecodeFloat Inverse Build2 bBaseMaterial fuel2 Config2 Root2 Fresh Stride0
        MatricesStride0 S3
        (LoadSkeletalMeshCalls WITH_EDITOR ProcessImportMeshInfluences BuildSkeletalMesh Decode
          DecodeFloat Inverse Build bBaseMaterial fuel Config Root Fresh Stride0 MatricesStride0
          Calls Cache2) m s2 n2 =
        (.ok Mesh, S3,
          LoadSkeletalMeshCalls WITH_EDITOR ProcessImportMeshInfluences BuildSkeletalMesh Decode
            DecodeFloat Inverse Build bBaseMaterial fuel Config Root Fresh Stride0
            MatricesStride0 Calls Cache2)) ∧
    (∀ (S4 S5 : ParserState) (Cache4 Cache5 : List (Int × USkeletalMesh)) (m4 s4 n4 : Int)
      (R : Outcome USkeletalMesh),
      LoadSkeletalMesh WITH_EDITOR ProcessImportMeshInfluences BuildSkeletalMesh Decode
        DecodeFloat Inverse Build bBaseMaterial fuel Config Root Fresh Stride0 MatricesStride0
        S4 Cache4 m4 s4 n4 = (R, S5, Cache5) →
      (∀ Mesh4, R ≠ .ok Mesh4) → Cache5 = Cache4) := by
  refine ⟨?_, ?_⟩
  · intro Calls WITH_EDITOR2 BuildSkeletalMesh2 Build2 fuel2 Config2 Root2 S3 s2 n2
    have hin : 0 ≤ m ∧ Cache2.lookup m = some Mesh := by
      rcases LoadSkeletalMesh_cache _ _ _ _ _ _ _ _ _ _ _ _ _ _ _ _ _ _ _ _ _ _ h with
        ⟨Mesh2, hM, h0, ⟨h1, h2⟩ | ⟨_, h2⟩⟩ | ⟨hno, _⟩
      · cases hM
        rw [h2]
        exact ⟨h0, h1⟩
      · cases hM
        rw [h2]
        exact ⟨h0, lookup_TMapAdd_self Cache m Mesh⟩
      · exact absurd rfl (hno Mesh)
    exact LoadSkeletalMesh_cached _ _ _ _ _ _ _ _ _ _ _ _ _ _ _ _ _ _ _ Mesh hin.1
      (LoadSkeletalMeshCalls_keeps _ _ _ _ _ _ _ _ _ _ _ _ _ _ m Mesh Calls Cache2 hin.2)
  · intro S4 S5 Cache4 Cache5 m4 s4 n4 R h4 hno
    rcases LoadSkeletalMesh_cache _ _ _ _ _ _ _ _ _ _ _ _ _ _ _ _ _ _ _ _ _ _ h4 with
      ⟨Mesh2, hM, _⟩ | ⟨_, h2⟩
    · exact absurd hM (hno Mesh2)
    · exact h2

set_option maxRecDepth 100000 in
theorem C31_cache_by_mesh_index_witness :
    ∃ Mesh S2 Cache2,
      LoadSkeletalMesh false (fun _ I => I) (fun _ => true) sampleDecode (fun _ => 0)
        (fun M => M) (sampleJointBuilders 0) true 4 sampleConfig sampleTwoMeshes emptyPrimitive
        0 0 ParserState.initial [] 0 0 (-1) = (.ok Mesh, S2, Cache2) ∧
      Cache2.map Prod.fst = [0] ∧
      LoadSkeletalMesh true (fun _ I => I) (fun _ => false) sampleDecode (fun _ => 0)
        (fun M => M) (sampleJointBuilders 7) true 0 sampleConfig sampleTree emptyPrimitive
        0 0 ParserState.initial
        (LoadSkeletalMeshCalls false (fun _ I => I) (fun _ => true) sampleDecode (fun _ => 0)
          (fun M => M) (sampleJointBuilders 0) true 4 sampleConfig sampleTwoMeshes
          emptyPrimitive 0 0
          [{ S := ParserState.initial, Index := 1, SkinIndex := 0, NodeIndex := -1 }] Cache2)
        0 5 7 =
        (.ok Mesh, ParserState.initial,
          LoadSkeletalMeshCalls false (fun _ I => I) (fun _ => true) sampleDecode (fun _ => 0)
            (fun M => M) (sampleJointBuilders 0) true 4 sampleConfig sampleTwoMeshes
            emptyPrimitive 0 0
            [{ S := ParserState.initial, Index := 1, SkinIndex := 0, NodeIndex := -1 }]
            Cache2) :=
  have hex : ∃ Mesh S2 Cache2,
      LoadSkeletalMesh false (fun _ I => I) (fun _ => true) sampleDecode (fun _ => 0)
        (fun M => M) (sampleJointBuilders 0) true 4 sampleConfig sampleTwoMeshes emptyPrimitive
        0 0 ParserState.initial [] 0 0 (-1) = (.ok Mesh, S2, Cache2) ∧
      Cache2.map Prod.fst = [0] := ⟨_, _, _, rfl, rfl⟩
  hex.elim fun Mesh h1 => h1.elim fun S2 h2 => h2.elim fun Cache2 h3 =>
    ⟨Mesh, S2, Cache2, h3.1, h3.2,
      (C31_cache_by_mesh_index false (fun _ I => I) (fun _ => true) sampleDecode (fun _ => 0)
        (fun M => M) (sampleJointBuilders 0) true 4 sampleConfig sampleTwoMeshes emptyPrimitive
        0 0 ParserState.initial S2 [] Cache2 0 0 (-1) Mesh h3.1).1
        [{ S := ParserState.initial, Index := 1, SkinIndex := 0, NodeIndex := -1 }] true
        (fun _ => false) (sampleJointBuilders 7) 0 sampleConfig sampleTree ParserState.initial 5
        7⟩

/-! ## Rigid primitives -/

/-- A step for an optional attribute keeps what a function reads from the primitive when
storing the array does. -/
theorem optionalAttribute_keeps {α β : Type} (f : FglTFRuntimePrimitive → β) (Present : Bool)
    (Call : ParserState → Outcome (List α) × ParserState)
    (Store : List α → FglTFRuntimePrimitive) (Primitive P1 : FglTFRuntimePrimitive)
    (S S1 : ParserState)
    (h : optionalAttribute Present Call Store Primitive S = (.ok P1, S1))
    (hStore : ∀ Data, f (Store Data) = f Primitive) :
    f P1 = f Primitive := by
  rcases optionalAttribute_ok Present Call Store Primitive P1 S S1 h with
    ⟨_, h1, _⟩ | ⟨_, Data, _, h1⟩
  · rw [h1]
  · rw [h1]
    exact hStore Data

/-- The attribute part of `LoadPrimitive` adds a joints array only for a `JOINTS_0` field and a
weights array only for a `WEIGHTS_0` field. -/
theorem loadAttributes_rigid (Build : AttributeBuilders) (Config : ParserConfig)
    (S S1 : ParserState) (JsonAttributesObject : JsonAttributes)
    (Primitive P1 : FglTFRuntimePrimitive)
    (h : loadAttributes Build Config S JsonAttributesObject Primitive = (.ok P1, S1)) :
    (JsonAttributesObject.JOINTS_0 = none → P1.Joints = Primitive.Joints) ∧
    (JsonAttributesObject.WEIGHTS_0 = none → P1.Weights = Primitive.Weights) := by
  unfold loadAttributes at h
  by_cases hp : JsonAttributesObject.POSITION.isNone = true
  · simp [hp] at h
  · simp only [hp, Bool.false_eq_true, if_false] at h
    obtain ⟨Positions, Sa, _, h⟩ := andThen_ok _ _ _ _ h
    obtain ⟨Pb, Sb, hb, h⟩ := andThen_ok _ _ _ _ h
    obtain ⟨Pc, Sc, hc, h⟩ := andThen_ok _ _ _ _ h
    obtain ⟨Pd, Sd, hd, h⟩ := andThen_ok _ _ _ _ h
    obtain ⟨Pe, Se, he, h⟩ := andThen_ok _ _ _ _ h
    have j1 := optionalAttribute_keeps (fun P => P.Joints) _ _ _ _ _ _ _ hb (fun _ => rfl)
    have j2 := optionalAttribute_keeps (fun P => P.Joints) _ _ _ _ _ _ _ hc (fun _ => rfl)
    have j3 := optionalAttribute_keeps (fun P => P.Joints) _ _ _ _ _ _ _ hd (fun _ => rfl)
    have j5 := optionalAttribute_keeps (fun P => P.Joints) _ _ _ _ _ _ _ h (fun _ => rfl)
    have w1 := optionalAttribute_keeps (fun P => P.Weights) _ _ _ _ _ _ _ hb (fun _ => rfl)
    have w2 := optionalAttribute_keeps (fun P => P.Weights) _ _ _ _ _ _ _ hc (fun _ => rfl)
    have w3 := optionalAttribute_keeps (fun P => P.Weights) _ _ _ _ _ _ _ hd (fun _ => rfl)
    have w4 := optionalAttribute_keeps (fun P => P.Weights) _ _ _ _ _ _ _ he (fun _ => rfl)
    simp only at j1 j2 j3 j5 w1 w2 w3 w4
    refine ⟨?_, ?_⟩
    · intro hj
      rcases optionalAttribute_ok _ _ _ _ _ _ _ he with ⟨_, h4, _⟩ | ⟨hpres, _⟩
      · rw [j5, h4, j3, j2, j1]
      · simp [hj] at hpres
    · intro hw
      rcases optionalAttribute_ok _ _ _ _ _ _ _ h with ⟨_, h5, _⟩ | ⟨hpres, _⟩
      · rw [h5, w4, w3, w2, w1]
      · simp [hw] at hpres

/-- For a primitive object without `JOINTS_0` or without `WEIGHTS_0`, loaded into a primitive
without joints and weights, `LoadPrimitive` does not return true: when everything before
succeeds, the log line reads `Primitive.Joints[0]` or `Primitive.Weights[0]` of an empty
array. -/
theorem LoadPrimitive_rigid (Decode : String → Option (List Nat)) (Build : AttributeBuilders)
    (bBaseMaterial : Bool) (Config : ParserConfig) (Root : Document) (S S3 : ParserState)
    (JsonPrimitiveObject : JsonPrimitive) (JsonAttributesObject : JsonAttributes)
    (Primitive P : FglTFRuntimePrimitive) (Stride0 : Int)
    (ha : JsonPrimitiveObject.attributes = some JsonAttributesObject)
    (hrigid : JsonAttributesObject.JOINTS_0 = none ∨ JsonAttributesObject.WEIGHTS_0 = none)
    (hj : Primitive.Joints = []) (hw : Primitive.Weights = []) :
    LoadPrimitive Decode Build bBaseMaterial Config Root S JsonPrimitiveObject Primitive
      Stride0 ≠ (.ok P, S3) := by
  intro h
  obtain ⟨A, P1, S1, Indices, S2, Material, h1, h2, _, _, h5, h6⟩ :=
    LoadPrimitive_ok_inv Decode Build bBaseMaterial Config Root S S3 JsonPrimitiveObject
      Primitive P Stride0 h
  rw [ha] at h1
  cases h1
  obtain ⟨g1, g2⟩ := loadAttributes_rigid Build Config S S1 JsonAttributesObject Primitive P1 h2
  rcases hrigid with hr | hr
  · exact h5 (by rw [g1 hr, hj])
  · exact h6 (by rw [g2 hr, hw])

/-! ## C32 -/

/-- Claim C32, where it fails: for the rigid sample primitive (attributes `POSITION` and
`NORMAL`, no joints, no weights, no indices, no material) the attribute part of `LoadPrimitive`
returns true with three positions and empty joints and weights, the indices become 0, 1, 2, and
the log line before `return true` then reads `Primitive.Joints[0]` of the empty array: the call
does not return true, and `LoadPrimitives` and `LoadStaticMesh_Internal` stop there as well. The
same primitive with `JOINTS_0` and `WEIGHTS_0` loads. -/
theorem C32_rigid_log_line :
    sampleRigidAttributes.JOINTS_0 = none ∧ sampleRigidAttributes.WEIGHTS_0 = none ∧
    (∃ P1 S1, loadAttributes sampleBuilders sampleConfig ParserState.initial
        sampleRigidAttributes emptyPrimitive = (.ok P1, S1) ∧
      P1.Positions.length = 3 ∧ P1.Joints = [] ∧ P1.Weights = [] ∧
      (loadIndices sampleDecode sampleIndexed S1 sampleRigidPrimitive.indices P1.Positions
        P1.Indices 0).1 = .ok [0, 1, 2]) ∧
    (LoadPrimitive sampleDecode sampleBuilders true sampleConfig sampleIndexed
      ParserState.initial sampleRigidPrimitive emptyPrimitive 0).1 = .fault ∧
    (LoadPrimitives sampleDecode sampleBuilders true sampleConfig sampleIndexed emptyPrimitive 0
      [some sampleRigidPrimitive] ParserState.initial []).1 = .fault ∧
    (LoadStaticMesh_Internal sampleDecode sampleBuilders true sampleConfig sampleIndexed
      emptyPrimitive 0 ParserState.initial { primitives := some [some sampleRigidPrimitive] }).1 =
      .fault ∧
    (∃ P, (LoadPrimitive sampleDecode sampleBuilders true sampleConfig sampleIndexed
      ParserState.initial (sampleSkinnedPrimitive none) emptyPrimitive 0).1 = .ok P) :=
  ⟨rfl, rfl, ⟨_, _, rfl, rfl, rfl, rfl, rfl⟩, rfl, rfl, rfl, ⟨_, rfl⟩⟩

end glTFRuntime
